import Mathlib

/-!
# Sil automaton (`src/automaton.c`): keypress queue, flow fields, behaviour policies

A shallow embedding of the automaton's decision core.  C `int` values are
modelled by `Int` (division is the truncating `Int.tdiv`), `byte` loop
counters and coordinates by `Int` reduced modulo 256 where the source
stores them in a `byte`, and the process-wide arrays by total functions.
-/

namespace Automaton

/-! ## Keypress queue -/

/-- Capacity of the keypress buffer (`#define KEY_SIZE 8192`). -/
def KEY_SIZE : Nat := 8192

/-- The queue of keypresses: the buffer `automaton_key_queue` (a `char`
array, read through its index) with the indices `automaton_key_head` and
`automaton_key_tail`. -/
structure KeyQueue where
  automaton_key_queue : Nat → Int
  automaton_key_head : Nat
  automaton_key_tail : Nat

/-- Source `automaton_keypress`: returns the new queue and the `errr`
result (`0` success, `-1` failure). -/
def automaton_keypress (q : KeyQueue) (k : Int) : KeyQueue × Int :=
  if k = 0 then (q, -1)
  else
    let buf : Nat → Int := fun i => if i = q.automaton_key_head then k else q.automaton_key_queue i
    let head1 := q.automaton_key_head + 1
    let head2 := if head1 = KEY_SIZE then 0 else head1
    if head2 = q.automaton_key_tail then
      (⟨buf, head2, q.automaton_key_tail⟩, -1)
    else
      let tail2 := if q.automaton_key_tail = KEY_SIZE then 0 else q.automaton_key_tail
      (⟨buf, head2, tail2⟩, 0)

/-- Source `automaton_keypresses`: enqueue the characters of a C string up
to its terminating NUL, ignoring the individual results. -/
def automaton_keypresses (q : KeyQueue) : List Int → KeyQueue
  | [] => q
  | k :: s => if k = 0 then q else automaton_keypresses (automaton_keypress q k).1 s

/-- Source `automaton_inkey`: the next keypress (`0` when nothing is
ready); the tail advances only when `take` is set. -/
def automaton_inkey (q : KeyQueue) (take : Bool) : KeyQueue × Int :=
  if q.automaton_key_head = q.automaton_key_tail then (q, 0)
  else
    let i := q.automaton_key_queue q.automaton_key_tail
    if !take then (q, i)
    else
      let tail1 := q.automaton_key_tail + 1
      let tail2 := if tail1 = KEY_SIZE then 0 else tail1
      (⟨q.automaton_key_queue, q.automaton_key_head, tail2⟩, i)

/-- Source `automaton_flush`: forget the pending keys. -/
def automaton_flush (q : KeyQueue) : KeyQueue :=
  ⟨q.automaton_key_queue, q.automaton_key_head, q.automaton_key_head⟩

/-- Enqueue a list of tokens one call at a time, recording every result. -/
def enqueue_seq (q : KeyQueue) : List Int → KeyQueue × List Int
  | [] => (q, [])
  | k :: ks =>
    let r := automaton_keypress q k
    let rest := enqueue_seq r.1 ks
    (rest.1, r.2 :: rest.2)

/-- Dequeue `n` times (`automaton_inkey` with `take` set), recording every
returned token. -/
def dequeue_n (q : KeyQueue) : Nat → KeyQueue × List Int
  | 0 => (q, [])
  | n + 1 =>
    let r := automaton_inkey q true
    let rest := dequeue_n r.1 n
    (rest.1, r.2 :: rest.2)

/-- Number of pending tokens of a queue whose indices are in range. -/
def KeyQueue.pending (q : KeyQueue) : Nat :=
  (q.automaton_key_head + KEY_SIZE - q.automaton_key_tail) % KEY_SIZE

/-- The pending tokens, oldest first. -/
def KeyQueue.contents (q : KeyQueue) : List Int :=
  (List.range q.pending).map fun i => q.automaton_key_queue ((q.automaton_key_tail + i) % KEY_SIZE)

/-! ## Grid distance -/

/-- The C library `abs` on `int`. -/
def c_abs (a : Int) : Int := if a < 0 then -a else a

/-- Source `grid_distance`. -/
def grid_distance (y1 x1 y2 x2 : Int) : Int :=
  Int.tdiv ((c_abs (y1 - y2) + c_abs (x1 - x2))
    + c_abs (c_abs (y1 - y2) - c_abs (x1 - x2))) 2

/-! ## Host game state read by the automaton -/

/-- A grid cell `(row, column)`. -/
abbrev Cell := Int × Int

/-- The three flow channels accepted by `update_automaton_flow`
(`FLOW_AUTOMATON`, `FLOW_AUTOMATON_FIGHT`, `FLOW_AUTOMATON_SECURE`); any other
value of `which_flow` makes the source return at once without computing. -/
inductive Flow where
  | FLOW_AUTOMATON
  | FLOW_AUTOMATON_FIGHT
  | FLOW_AUTOMATON_SECURE
deriving DecidableEq, Repr

/-- Fields of `monster_type` read by the automaton. -/
structure Monster where
  r_idx : Nat := 0
  fy : Int := 0
  fx : Int := 0
  ml : Bool := false
  alertness : Int := 0
  stance : Int := 0

/-- Fields of `monster_race` read by the automaton: `never_move` is
`flags1 & RF1_NEVER_MOVE`, `smart` is `flags2 & RF2_SMART`. -/
structure Race where
  never_move : Bool := false
  smart : Bool := false
  freq_ranged : Int := 0
  level : Int := 0
  speed : Int := 0

/-- Fields of `object_type` read by the automaton. -/
structure Obj where
  k_idx : Int := 0
  tval : Int := 0
  sval : Int := 0
  timeout : Int := 0
  weight : Int := 0
  number : Int := 0
  held_m_idx : Int := 0
  iy : Int := 0
  ix : Int := 0
  marked : Bool := false

/-- The host game as the automaton sees it during one decision cycle: the
constants, macros and tables declared outside `automaton.c` (taken as
parameters) and the read-only game state.  Arrays are total functions of
their indices.  Map coordinates are stored in `byte`s by the source, which
presupposes `cur_map_hgt` and `cur_map_wid` of at most 255 (see
`World.WellFormed`). -/
structure World where
  FLOW_MAX_DIST : Nat := 100
  FEAT_CHASM : Int := 0
  FEAT_RUBBLE : Int := 0
  FEAT_MORE : Int := 0
  FEAT_MORE_SHAFT : Int := 0
  FEAT_LESS : Int := 0
  FEAT_LESS_SHAFT : Int := 0
  ALERTNESS_ALERT : Int := 0
  STANCE_FLEEING : Int := 0
  SV_LIGHT_TORCH : Int := 0
  SV_LIGHT_LANTERN : Int := 0
  TV_FLASK : Int := 0
  TV_LIGHT : Int := 0
  TV_FOOD : Int := 0
  INVEN_PACK : Nat := 0
  INVEN_WIELD : Nat := 0
  INVEN_BOW : Nat := 0
  INVEN_LITE : Nat := 0
  INVEN_QUIVER1 : Nat := 0
  INVEN_QUIVER2 : Nat := 0
  S_MAX : Nat := 8
  S_MEL : Nat := 0
  cur_map_hgt : Int := 0
  cur_map_wid : Int := 0
  in_bounds : Int → Int → Bool := fun _ _ => false
  cave_mark : Int → Int → Bool := fun _ _ => false
  cave_hidden : Int → Int → Bool := fun _ _ => false
  cave_seen : Int → Int → Bool := fun _ _ => false
  cave_view : Int → Int → Bool := fun _ _ => false
  cave_fire : Int → Int → Bool := fun _ _ => false
  cave_wall_bold : Int → Int → Bool := fun _ _ => false
  cave_trap_bold : Int → Int → Bool := fun _ _ => false
  cave_floorlike_bold : Int → Int → Bool := fun _ _ => false
  cave_known_closed_door_bold : Int → Int → Bool := fun _ _ => false
  cave_feat : Int → Int → Int := fun _ _ => 0
  cave_m_idx : Int → Int → Int := fun _ _ => 0
  cave_o_idx : Int → Int → Int := fun _ _ => 0
  mon_max : Nat := 0
  mon_list : Nat → Monster := fun _ => {}
  r_info : Nat → Race := fun _ => {}
  o_max : Nat := 0
  o_list : Nat → Obj := fun _ => {}
  inventory : Nat → Obj := fun _ => {}
  evaluate_object : Obj → Int := fun _ => 0
  wield_slot : Obj → Int := fun _ => -1
  index_to_label : Nat → Int := fun _ => 0
  min_depth : Int := 0
  one_in_5 : Bool := false
  py : Int := 0
  px : Int := 0
  chp : Int := 0
  mhp : Int := 0
  food : Int := 0
  depth : Int := 0
  pspeed : Int := 0
  new_exp : Int := 0
  skill_base : Nat → Int := fun _ => 0
  skill_use_per : Int := 0
  confused : Bool := false
  afraid : Bool := false
  blind : Bool := false
  poisoned : Bool := false
  stun : Bool := false
  image : Bool := false
  slow : Bool := false
  cut : Bool := false

/-- A cost grid `cave_cost[which_flow]`. -/
abbrev Grid := Int → Int → Nat

/-- Store `v` at `[y][x]`. -/
def Grid.set (g : Grid) (y x : Int) (v : Nat) : Grid :=
  fun y1 x1 => if y1 = y ∧ x1 = x then v else g y1 x1

/-- The state owned or written by the automaton: its map of known squares,
the three cost grids with their recorded centres, the health memory, the
keypress queue, the `p_ptr->automaton` flag, whether `inkey_hack` is
installed, and the location last passed to `target_set_location` (cleared
by `target_set_monster(0)`). -/
structure Agent where
  automaton_map : Int → Int → Bool := fun _ _ => false
  cave_cost : Flow → Grid := fun _ _ _ => 0
  flow_center : Flow → Cell := fun _ => (0, 0)
  update_center : Flow → Cell := fun _ => (0, 0)
  automaton_memory_chp : Nat → Int := fun _ => 0
  keys : KeyQueue := ⟨fun _ => 0, 0, 0⟩
  automaton : Bool := true
  inkey_hack : Bool := true
  target : Option Cell := none

/-- Modelled from the spec: the direction tables `ddy_ddd`, `ddx_ddd`, `ddd`,
`ddy`, `ddx` are declared outside `automaton.c`.  The spec describes them as
the eight neighbour offsets in a fixed scan order with the four orthogonal
directions first; the values are the keypad tables of the host game. -/
def ddy_ddd (d : Nat) : Int := [1, -1, 0, 0, 1, 1, -1, -1, 0].getD d 0

/-- Modelled from the spec: column offsets matching `ddy_ddd` (see there). -/
def ddx_ddd (d : Nat) : Int := [0, 0, 1, -1, 1, -1, 1, -1, 0].getD d 0

/-- Modelled from the spec: keypad digit of the `d`-th scanned direction. -/
def ddd (d : Nat) : Nat := [2, 8, 6, 4, 3, 1, 9, 7, 5].getD d 5

/-- Modelled from the spec: row offset of a keypad digit. -/
def ddy (dir : Nat) : Int := [0, 1, 1, 1, 0, 0, 0, -1, -1, -1].getD dir 0

/-- Modelled from the spec: column offset of a keypad digit. -/
def ddx (dir : Nat) : Int := [0, -1, 0, 1, -1, 0, 1, -1, 0, 1].getD dir 0

/-- Storing `a + d` into a `byte` variable. -/
def byte_add (a d : Int) : Int := (a + d) % 256

/-- Modelled from the spec: `flow_dist` is declared outside `automaton.c`; the
spec describes the distance query as a lookup in the cost grid that yields
`FLOW_MAX_DIST` for out-of-bounds squares. -/
def flow_dist (W : World) (A : Agent) (which : Flow) (y x : Int) : Int :=
  if W.in_bounds y x then ((A.cave_cost which y x : Nat) : Int) else (W.FLOW_MAX_DIST : Int)

/-! ## Flow fields (`update_automaton_flow`) -/

/-- The test `(cave_info[y][x] & CAVE_MARK) || automaton_map[y][x]`. -/
def known (W : World) (amap : Int → Int → Bool) (y x : Int) : Bool :=
  W.cave_mark y x || amap y x

/-- Penalty contributed by one grand-child square `(y3, x3)`; `far` is the
source's test `cost > 1`. -/
def grandchild_cost (W : World) (which : Flow) (far : Bool) (y3 x3 : Int) : Nat :=
  if W.cave_m_idx y3 x3 > 0 then
    let n := W.mon_list (W.cave_m_idx y3 x3).toNat
    let q := W.r_info n.r_idx
    (if q.never_move && far then 1 else 0)
      + (if n.ml && decide (q.freq_ranged = 0) then 2 else 0)
      + (if n.ml && decide (n.alertness < W.ALERTNESS_ALERT) then 1 else 0)
      + (if which = Flow.FLOW_AUTOMATON_SECURE then 2 else 0)
  else 0

/-- The flag `next_to_wall` after the scan of the eight grand-children. -/
def next_to_wall (W : World) (y2 x2 : Int) : Bool :=
  (List.range 8).any fun d2 =>
    W.cave_wall_bold (byte_add y2 (ddy_ddd d2)) (byte_add x2 (ddx_ddd d2))

/-- The value of `extra_cost` for the child square `(y2, x2)`; `far` is the
source's test `cost > 1`. -/
def extra_cost (W : World) (which : Flow) (far : Bool) (y2 x2 : Int) : Nat :=
  (if W.cave_trap_bold y2 x2 && !W.cave_hidden y2 x2 then 3 else 0)
    + (if W.cave_m_idx y2 x2 > 0 then
        let n := W.mon_list (W.cave_m_idx y2 x2).toNat
        let q := W.r_info n.r_idx
        (if q.never_move && far then 10 else 0)
          + (if n.alertness < W.ALERTNESS_ALERT then 3 else 0)
          + (if which = Flow.FLOW_AUTOMATON_SECURE then 25 else 0)
      else 0)
    + ((List.range 8).map fun d2 =>
        grandchild_cost W which far (byte_add y2 (ddy_ddd d2)) (byte_add x2 (ddx_ddd d2))).sum
    + (if !next_to_wall W y2 x2 && decide (W.cave_m_idx y2 x2 = 0) && far then 1 else 0)

/-- One pass of the loop over `d`: look at the child of `(y, x)` in direction
`d`; the state is the cost grid and the next-cycle half of `flow_table`,
kept as a list, newest last.  This is the list form of the loop: it is what
the source computes as long as no pass stores more than `8 * FLOW_MAX_DIST`
grids (`flow_table_within_capacity`); `table_visit` is the same step on the
array that the source declares. -/
def flow_visit (W : World) (amap : Int → Int → Bool) (which : Flow) (cost : Nat)
    (y x : Int) (st : Grid × List Cell) (d : Nat) : Grid × List Cell :=
  let y2 := byte_add y (ddy_ddd d)
  let x2 := byte_add x (ddx_ddd d)
  if !W.in_bounds y2 x2 then st
  else if st.1 y2 x2 < W.FLOW_MAX_DIST then st
  else if !known W amap y2 x2 then st
  else if W.cave_wall_bold y2 x2 then st
  else if W.cave_feat y2 x2 = W.FEAT_CHASM then st
  else if W.cave_feat y2 x2 = W.FEAT_RUBBLE then st
  else
    (st.1.set y2 x2 (cost + extra_cost W which (decide (cost > 1)) y2 x2), st.2 ++ [(y2, x2)])

/-- One pass of the loop over `i`: a grid that is not ready is put back on
the queue, a ready one has its eight children visited.  List form; see
`table_cell` for the same step on the array. -/
def flow_cell (W : World) (amap : Int → Int → Bool) (which : Flow) (cost : Nat)
    (st : Grid × List Cell) (c : Cell) : Grid × List Cell :=
  if st.1 c.1 c.2 ≥ cost then (st.1, st.2 ++ [c])
  else (List.range 8).foldl (flow_visit W amap which cost c.1 c.2) st

/-- The body of the loop over `cost` up to the swap of the tables: process
the current table `cur` and, on the secure channel after a loss of health,
add one to the cost stored at the player's square. -/
def flow_layer (W : World) (amap : Int → Int → Bool) (lost_health : Bool) (which : Flow)
    (cost : Nat) (g : Grid) (cur : List Cell) : Grid × List Cell :=
  let r := cur.foldl (flow_cell W amap which cost) (g, [])
  if which = Flow.FLOW_AUTOMATON_SECURE ∧ lost_health = true then
    (r.1.set W.py W.px (r.1 W.py W.px + 1), r.2)
  else r

/-- The loop over `cost`, from `cost` for at most `n` more values; it stops
early when the table is empty.  The two halves of `flow_table` are lists
here, without the capacity `8 * FLOW_MAX_DIST` of the source arrays: the list
form agrees with the source while no pass stores more than that many grids
(`flow_table_within_capacity`), and `table_loop` is the loop on the array
itself.  The stored costs are exact (the element type of `cave_cost` is
declared outside `automaton.c`). -/
def flow_loop (W : World) (amap : Int → Int → Bool) (lost_health : Bool) (which : Flow) :
    Nat → Nat → Grid → List Cell → Grid
  | 0, _, g, _ => g
  | n + 1, cost, g, cur =>
    if cur.isEmpty then g
    else
      let r := flow_layer W amap lost_health which cost g cur
      flow_loop W amap lost_health which n (cost + 1) r.1 r.2

/-- Erasing the flow information of the current map. -/
def erase_flow (W : World) (g : Grid) : Grid :=
  fun y x =>
    if 0 ≤ y ∧ y < W.cur_map_hgt ∧ 0 ≤ x ∧ x < W.cur_map_wid then W.FLOW_MAX_DIST else g y x

/-- The cost grid computed by `update_automaton_flow` for one channel. -/
def flow_field (W : World) (amap : Int → Int → Bool) (lost_health : Bool) (which : Flow)
    (cy cx : Int) (g : Grid) : Grid :=
  flow_loop W amap lost_health which W.FLOW_MAX_DIST 1
    ((erase_flow W g).set cy cx 0) [(cy % 256, cx % 256)]

/-- Source `update_automaton_flow` for a valid channel, in the list form of
the loop; `update_automaton_flow_table` is the run with `flow_table` as the
array that the source declares, and the two agree while the table is not
overrun (`flow_table_within_capacity`). -/
def update_automaton_flow (W : World) (A : Agent) (which : Flow) (cy cx : Int) : Agent :=
  { A with
    flow_center := fun f => if f = which then (cy, cx) else A.flow_center f
    update_center := fun f => if f = which then (cy, cx) else A.update_center f
    cave_cost := fun f =>
      if f = which then
        flow_field W A.automaton_map (decide (W.chp < A.automaton_memory_chp 0)) which cy cx
          (A.cave_cost which)
      else A.cave_cost f }

/-- Coordinates fit the `byte`s the source stores them in, and squares
accepted by `in_bounds` lie on the current map. -/
structure World.WellFormed (W : World) : Prop where
  hgt_le : W.cur_map_hgt ≤ 255
  wid_le : W.cur_map_wid ≤ 255
  in_bounds_map : ∀ y x, W.in_bounds y x = true →
    0 ≤ y ∧ y < W.cur_map_hgt ∧ 0 ≤ x ∧ x < W.cur_map_wid

/-- A square the flow may enter: in bounds, known, not a wall, not a chasm
and not rubble. -/
def passable (W : World) (amap : Int → Int → Bool) (c : Cell) : Bool :=
  W.in_bounds c.1 c.2 && known W amap c.1 c.2 && !W.cave_wall_bold c.1 c.2
    && decide (W.cave_feat c.1 c.2 ≠ W.FEAT_CHASM) && decide (W.cave_feat c.1 c.2 ≠ W.FEAT_RUBBLE)


/-! ## Position searches and target engagement -/

/-- The squares scanned by `for (y = 1; y < cur_map_hgt - 1; y++)
for (x = 1; x < cur_map_wid - 1; x++)`, in scan order. -/
def interior_cells (W : World) : List Cell :=
  (List.range (W.cur_map_hgt - 2).toNat).flatMap fun (i : Nat) =>
    (List.range (W.cur_map_wid - 2).toNat).map fun (j : Nat) => (Int.ofNat i + 1, Int.ofNat j + 1)

/-- The indices `1 .. mon_max - 1` of the monster list. -/
def monster_indices (W : World) : List Nat := List.range' 1 (W.mon_max - 1)

/-- Source `target_set_location` as far as the automaton is concerned. -/
def target_set_location (A : Agent) (y x : Int) : Agent := { A with target := some (y, x) }

/-- Counting the adjacent walls of `(y, x)`; the neighbour coordinates go
through the `byte` variables `y3`, `x3`. -/
def adj_wall_count (W : World) (y x : Int) : Int :=
  (((List.range 8).filter fun d2 =>
    W.cave_wall_bold (byte_add y (ddy_ddd d2)) (byte_add x (ddx_ddd d2))).length : Int)

/-- The sums and the count gathered by the first loop of
`find_secure_position` over the living, visible monsters. -/
def monster_sums (W : World) : Int × Int × Int :=
  (monster_indices W).foldl (fun acc i =>
    let m := W.mon_list i
    if m.r_idx = 0 then acc
    else if !m.ml then acc
    else (acc.1 + m.fx, acc.2.1 + m.fy, acc.2.2 + 1)) (0, 0, 0)

/-- The running best of a position search: `best_wall_count`, `best_dist`
and the target written so far. -/
structure Best where
  best_wall_count : Int
  best_dist : Int
  ty : Int
  tx : Int

/-- The acceptance test shared by both position searches. -/
def better_position (W : World) (b : Best) (adj_walls dist : Int) : Bool :=
  decide ((adj_walls = b.best_wall_count ∧ dist < b.best_dist)
    ∨ (adj_walls > min b.best_wall_count 6
        ∧ dist < min ((b.best_dist + 1) * 10) ((W.FLOW_MAX_DIST : Int) - 1)))

/-- The body of the scan of `find_secure_position` at the square `c`;
`count`, `comy`, `comx` describe the centre of the visible monsters. -/
def secure_step (W : World) (A : Agent) (count comy comx : Int) (b : Best) (c : Cell) : Best :=
  if !W.in_bounds c.1 c.2 then b
  else if !known W A.automaton_map c.1 c.2 then b
  else if W.cave_wall_bold c.1 c.2 then b
  else if W.cave_feat c.1 c.2 = W.FEAT_CHASM then b
  else if W.cave_feat c.1 c.2 = W.FEAT_RUBBLE then b
  else
    let com_dist := if count > 0 then grid_distance comy comx c.1 c.2 else 0
    let extra_cost := if count > 0 ∧ com_dist < 20 then 20 - com_dist else 0
    let dist := flow_dist W A Flow.FLOW_AUTOMATON_SECURE c.1 c.2 + extra_cost
    if better_position W b (adj_wall_count W c.1 c.2) dist then
      ⟨adj_wall_count W c.1 c.2, dist, c.1, c.2⟩
    else b

/-- The scan of `find_secure_position` over a list of squares. -/
def secure_scan (W : World) (A : Agent) (cells : List Cell) (b : Best) : Best :=
  let sums := monster_sums W
  let count := sums.2.2
  let comx := if count > 0 then Int.tdiv sums.1 count else sums.1
  let comy := if count > 0 then Int.tdiv sums.2.1 count else sums.2.1
  cells.foldl (secure_step W A count comy comx) b

/-- Source `find_secure_position`: the new target, also handed to
`target_set_location`. -/
def find_secure_position (W : World) (A : Agent) (t : Cell) : Agent × Cell :=
  let b := secure_scan W A (interior_cells W) ⟨0, (W.FLOW_MAX_DIST : Int) - 1, t.1, t.2⟩
  (target_set_location A b.ty b.tx, (b.ty, b.tx))

/-- The body of the scan of `find_fighting_position` at the square `c`. -/
def fighting_step (W : World) (A : Agent) (b : Best) (c : Cell) : Best :=
  if !W.in_bounds c.1 c.2 then b
  else if !W.cave_mark c.1 c.2 then b
  else if W.cave_wall_bold c.1 c.2 then b
  else if W.cave_feat c.1 c.2 = W.FEAT_CHASM then b
  else if W.cave_feat c.1 c.2 = W.FEAT_RUBBLE then b
  else
    let dist := flow_dist W A Flow.FLOW_AUTOMATON_FIGHT c.1 c.2
    if better_position W b (adj_wall_count W c.1 c.2) dist then
      ⟨adj_wall_count W c.1 c.2, dist, c.1, c.2⟩
    else b

/-- The number of squares around the player that hold a monster. -/
def adj_monster_count (W : World) : Int :=
  (((List.range 8).filter fun d2 =>
    decide (W.cave_m_idx (byte_add W.py (ddy_ddd d2)) (byte_add W.px (ddx_ddd d2)) > 0)).length
    : Int)

/-- Source `find_fighting_position`. -/
def find_fighting_position (W : World) (A : Agent) (t : Cell) : Agent × Cell :=
  let b := (interior_cells W).foldl (fighting_step W A)
    ⟨0, (W.FLOW_MAX_DIST : Int) - 1, t.1, t.2⟩
  let t1 : Cell := if adj_monster_count W ≤ 1 then (W.py, W.px) else (b.ty, b.tx)
  (target_set_location A t1.1 t1.2, t1)

/-- The locals of the monster loop of `find_enemy_to_kill`. -/
structure Hunt where
  best_dist : Int
  can_fire : Bool
  only_smart : Bool
  ty : Int
  tx : Int

/-- The body of the monster loop of `find_enemy_to_kill` for the monster
with index `i`. -/
def hunt_step (W : World) (A : Agent) (h : Hunt) (i : Nat) : Hunt :=
  let m := W.mon_list i
  let r := W.r_info m.r_idx
  if m.r_idx = 0 then h
  else if !m.ml ∧ m.alertness < W.ALERTNESS_ALERT then h
  else if !m.ml ∧ r.freq_ranged = 0 then h
  else if m.alertness < W.ALERTNESS_ALERT then h
  else
    let dist := flow_dist W A Flow.FLOW_AUTOMATON_FIGHT m.fy m.fx
    let only_smart := if !r.smart then false else h.only_smart
    if dist < h.best_dist then
      let best_dist := if !m.ml then dist + 2 else dist
      let grid_dist := grid_distance W.py W.px m.fy m.fx
      let can_fire := decide (grid_dist > 1) && m.ml && !W.blind && W.cave_fire m.fy m.fx
      if grid_dist < 4 ∧ grid_dist > 1 ∧ r.freq_ranged = 0
          ∧ m.alertness ≥ W.ALERTNESS_ALERT ∧ r.never_move = false
          ∧ m.stance ≠ W.STANCE_FLEEING ∧ only_smart = false then
        ⟨best_dist, can_fire, only_smart, W.py, W.px⟩
      else
        ⟨best_dist, can_fire, only_smart, m.fy, m.fx⟩
    else { h with only_smart := only_smart }

/-- Queueing the characters of a string on the agent's keypress queue. -/
def Agent.press (A : Agent) (s : List Int) : Agent :=
  { A with keys := automaton_keypresses A.keys s }

/-- Source `find_enemy_to_kill`: whether commands were queued, the agent and
the target. -/
def find_enemy_to_kill (W : World) (A : Agent) (t : Cell) : Bool × Agent × Cell :=
  if W.afraid then (false, A, t)
  else
    let h := (monster_indices W).foldl (hunt_step W A) ⟨12, false, true, t.1, t.2⟩
    if h.can_fire ∧ (W.inventory W.INVEN_BOW).tval ≠ 0
        ∧ ((W.inventory W.INVEN_QUIVER1).number ≥ 1
          ∨ (W.inventory W.INVEN_QUIVER2).number ≥ 1) then
      let A1 : Agent := { A with target := none }
      if (W.inventory W.INVEN_QUIVER1).number ≥ 1 then
        (true, A1.press [102, 102], (h.ty, h.tx))
      else
        (true, A1.press [70, 102], (h.ty, h.tx))
    else (false, A, (h.ty, h.tx))

/-- The locals of the threat loop of `fighting_strategy`. -/
structure Threat where
  monster_threat : Int
  monster_count : Int
  only_ranged : Bool
  chased : Bool

/-- The body of the threat loop of `fighting_strategy` for the monster with
index `i`. -/
def threat_step (W : World) (A : Agent) (th : Threat) (i : Nat) : Threat :=
  let m := W.mon_list i
  let r := W.r_info m.r_idx
  if m.r_idx = 0 then th
  else if !m.ml then th
  else if m.alertness < W.ALERTNESS_ALERT then th
  else if r.never_move ∧ grid_distance W.py W.px m.fy m.fx > 1 then th
  else
    let dist := flow_dist W A Flow.FLOW_AUTOMATON_FIGHT m.fy m.fx
    let counted := decide (dist < 20)
    { monster_threat := if counted then th.monster_threat + r.level else th.monster_threat
      monster_count := if counted then th.monster_count + 1 else th.monster_count
      only_ranged := if r.freq_ranged = 0 then false else th.only_ranged
      chased :=
        if r.speed > W.pspeed ∧ grid_distance W.py W.px m.fy m.fx = 1 then true
        else th.chased }

/-- The result of the threat loop of `fighting_strategy`. -/
def assess_threat (W : World) (A : Agent) : Threat :=
  (monster_indices W).foldl (threat_step W A) ⟨0, 0, true, false⟩

/-- The test at the head of `fighting_strategy`: the light is a torch or a
lantern without fuel, or the player is starving. -/
def no_light_or_starving (W : World) : Bool :=
  decide ((((W.inventory W.INVEN_LITE).sval = W.SV_LIGHT_TORCH
      ∨ (W.inventory W.INVEN_LITE).sval = W.SV_LIGHT_LANTERN)
    ∧ (W.inventory W.INVEN_LITE).timeout = 0) ∨ W.food < 1)

/-- Source `fighting_strategy`: the returned flag, the agent and the target
`(*ty, *tx)` afterwards.  The health percentages divide by `mhp`, which the
game keeps positive. -/
def fighting_strategy (W : World) (A : Agent) (t : Cell) : Bool × Agent × Cell :=
  if no_light_or_starving W then (false, A, t)
  else if W.confused then
    let A1 := target_set_location A t.1 t.2
    if W.chp < A.automaton_memory_chp 0 then find_enemy_to_kill W A1 t
    else (false, A1, t)
  else if (W.inventory W.INVEN_WIELD).weight = 0 then (false, A, t)
  else
    let th := assess_threat W A
    if W.afraid = true
        ∨ (Int.tdiv (W.chp * 100) W.mhp < 30 ∧ th.chased = false ∧ th.only_ranged = false) then
      let r := find_secure_position W A t
      if r.2.1 = W.py ∧ r.2.2 = W.px ∧ W.afraid = false then find_enemy_to_kill W r.1 r.2
      else (false, r.1, r.2)
    else if (th.monster_count > 1 ∧ th.monster_threat > Int.tdiv (W.depth * 10) 10
          ∧ th.only_ranged = false)
        ∨ Int.tdiv (W.chp * 100) W.mhp < 75 then
      let r := find_fighting_position W A t
      if r.2.1 = W.py ∧ r.2.2 = W.px then find_enemy_to_kill W r.1 r.2
      else (false, r.1, r.2)
    else find_enemy_to_kill W A t


/-! ## The remaining policies -/

/-- Queueing one character (`automaton_keypress`, result ignored). -/
def Agent.press1 (A : Agent) (k : Int) : Agent :=
  { A with keys := (automaton_keypress A.keys k).1 }

/-- The table `skill_vals` (combat values 1). -/
def skill_vals (i : Nat) : Int := [100, 50, 100, 0, 0, 50, 0, 0].getD i 0

/-- The loop of `allocate_experience` that finds the skill to raise:
`(best_val, best_skill)`. -/
def best_skill (W : World) : Int × Nat :=
  (List.range W.S_MAX).foldl (fun acc i =>
    let val := Int.tdiv (skill_vals i * 10) (W.skill_base i + 1)
    if val > acc.1 then (val, i) else acc) (0, W.S_MEL)

/-- Source `allocate_experience`. -/
def allocate_experience (W : World) (A : Agent) : Bool × Agent :=
  if W.new_exp ≥ (W.skill_base (best_skill W).2 + 1) * 100 then
    (true, (((A.press [64, 105]).press (List.replicate (best_skill W).2 50)).press [54, 13, 27]))
  else (false, A)

/-- Source `pickup_object`. -/
def pickup_object (W : World) (A : Agent) : Bool × Agent :=
  let o := W.o_list (W.cave_o_idx W.py W.px).toNat
  let value := W.evaluate_object o
  if value > 0 then
    let slot := W.wield_slot o
    if slot = -1 then (true, A.press [103, 45])
    else if slot = (W.INVEN_QUIVER1 : Int) ∨ slot = (W.INVEN_QUIVER2 : Int) then
      if value = 1 then (true, A.press [103, 45])
      else
        let A1 := A.press [119, 45]
        if (W.inventory W.INVEN_QUIVER1).k_idx ≠ 0 ∧ (W.inventory W.INVEN_QUIVER2).k_idx ≠ 0 then
          if W.evaluate_object (W.inventory W.INVEN_QUIVER1)
              > W.evaluate_object (W.inventory W.INVEN_QUIVER2) then
            (true, A1.press1 (W.index_to_label W.INVEN_QUIVER2))
          else (true, A1.press1 (W.index_to_label W.INVEN_QUIVER1))
        else (true, A1)
    else (true, A.press [119, 45])
  else (false, A)

/-- The pack slot at which the searches of `renew_light` stop, if any. -/
def find_light (W : World) : Option Nat :=
  let o := W.inventory W.INVEN_LITE
  let pack := List.range W.INVEN_PACK
  let f1 : Option Nat :=
    if o.sval = W.SV_LIGHT_LANTERN then
      pack.find? fun i =>
        decide ((W.inventory i).tval = W.TV_FLASK
          ∨ ((W.inventory i).tval = W.TV_LIGHT ∧ (W.inventory i).sval = W.SV_LIGHT_LANTERN
              ∧ (W.inventory i).timeout > 0))
    else none
  let f2 : Option Nat :=
    match f1 with
    | some i => some i
    | none =>
      pack.find? fun i =>
        decide ((W.inventory i).tval = W.TV_LIGHT
          ∧ (((W.inventory i).sval ≠ W.SV_LIGHT_TORCH ∧ (W.inventory i).sval ≠ W.SV_LIGHT_LANTERN)
              ∨ (W.inventory i).timeout > 100))
  match f2 with
  | some i => some i
  | none =>
    if o.timeout = 0 then
      pack.find? fun i =>
        decide ((W.inventory i).tval = W.TV_LIGHT ∧ (W.inventory i).timeout > 0)
    else none

/-- Source `renew_light`. -/
def renew_light (W : World) (A : Agent) : Bool × Agent :=
  let o := W.inventory W.INVEN_LITE
  if (o.sval = W.SV_LIGHT_TORCH ∨ o.sval = W.SV_LIGHT_LANTERN) ∧ o.timeout < 110 then
    match find_light W with
    | some i => (true, A.press [117, 97 + (i : Int)])
    | none => (false, A)
  else (false, A)

/-- Source `rest`. -/
def rest (W : World) (A : Agent) (t : Cell) : Agent × Cell :=
  if W.poisoned = false ∧ A.automaton_memory_chp 0 > W.chp then (A, t)
  else if Int.tdiv (W.chp * 100) W.mhp < 75 ∨ W.stun = true ∨ W.confused = true
      ∨ W.afraid = true ∨ W.blind = true ∨ W.image = true ∨ W.slow = true ∨ W.cut = true
      ∨ W.poisoned = true then (A, (W.py, W.px))
  else (A, t)

/-- Source `eat_food`. -/
def eat_food (W : World) (A : Agent) : Bool × Agent :=
  if W.food < 2000 then
    match (List.range W.INVEN_PACK).find? fun i => decide ((W.inventory i).tval = W.TV_FOOD) with
    | some i => (true, A.press [117, 97 + (i : Int)])
    | none => (false, A)
  else (false, A)

/-- The running best of the nearest-target scans: `best_dist` and the
target written so far. -/
structure Near where
  best_dist : Int
  ty : Int
  tx : Int

/-- The body of the object loop of `find_object` for the object with index
`i`. -/
def object_step (W : World) (A : Agent) (b : Near) (i : Nat) : Near :=
  let o := W.o_list i
  if o.k_idx = 0 then b
  else if o.held_m_idx ≠ 0 then b
  else if !o.marked then b
  else if o.iy = W.py ∧ o.ix = W.px then b
  else
    let dist := flow_dist W A Flow.FLOW_AUTOMATON o.iy o.ix
    if W.evaluate_object o - Int.tdiv dist 20 ≤ 0 then b
    else if dist < b.best_dist then ⟨dist, o.iy, o.ix⟩
    else b

/-- Source `find_object`. -/
def find_object (W : World) (A : Agent) (t : Cell) : Agent × Cell :=
  let b := (List.range' 1 (W.o_max - 1)).foldl (object_step W A)
    ⟨(W.FLOW_MAX_DIST : Int) - 1, t.1, t.2⟩
  (target_set_location A b.ty b.tx, (b.ty, b.tx))

/-- The count of walls other than rubble around `(y, x)` (plain `int`
coordinates). -/
def solid_wall_count (W : World) (y x : Int) : Int :=
  (([7, 6, 5, 4, 3, 2, 1, 0].filter fun i =>
    W.cave_wall_bold (y + ddy_ddd i) (x + ddx_ddd i)
      && decide (W.cave_feat (y + ddy_ddd i) (x + ddx_ddd i) ≠ W.FEAT_RUBBLE)).length : Int)

/-- The value of `best_local_dist` for the unknown square `(y, x)`. -/
def best_local_dist (W : World) (A : Agent) (y x : Int) : Int :=
  [7, 6, 5, 4, 3, 2, 1, 0].foldl (fun best i =>
    let dist := flow_dist W A Flow.FLOW_AUTOMATON (y + ddy_ddd i) (x + ddx_ddd i)
    if dist < best then dist else best) ((W.FLOW_MAX_DIST : Int) - 1)

/-- The body of the scan of `find_unexplored` at the square `c`; `count` is
the number of solid walls around the player. -/
def unexplored_step (W : World) (A : Agent) (count : Int) (b : Near) (c : Cell) : Near :=
  if !known W A.automaton_map c.1 c.2 then
    if c.1 = W.py ∧ c.2 = W.px then b
    else
      let d := best_local_dist W A c.1 c.2
      if d < b.best_dist
          ∨ (d = b.best_dist ∧ d = 1 ∧ count ≠ 7 ∧ (c.1 = W.py ∨ c.2 = W.px)
              ∧ W.cave_view c.1 c.2 = true) then ⟨d, c.1, c.2⟩
      else b
  else b

/-- Source `find_unexplored`. -/
def find_unexplored (W : World) (A : Agent) (t : Cell) : Agent × Cell :=
  let count := solid_wall_count W W.py W.px
  let t1 : Cell :=
    if count = 7 ∧ W.skill_use_per > 5 + Int.tdiv W.depth 2 then (W.py, W.px)
    else
      let b := (interior_cells W).foldl (unexplored_step W A count) ⟨50, t.1, t.2⟩
      (b.ty, b.tx)
  (target_set_location A t1.1 t1.2, t1)

/-- The body of the scan of `find_secret_door` at the square `c`. -/
def secret_door_step (W : World) (A : Agent) (b : Near) (c : Cell) : Near :=
  if W.cave_floorlike_bold c.1 c.2 then
    if solid_wall_count W c.1 c.2 = 7 then
      let dist := flow_dist W A Flow.FLOW_AUTOMATON c.1 c.2
      if dist < b.best_dist then ⟨dist, c.1, c.2⟩ else b
    else b
  else b

/-- Source `find_secret_door`. -/
def find_secret_door (W : World) (A : Agent) (t : Cell) : Agent × Cell :=
  if W.skill_use_per < 5 + Int.tdiv W.depth 2 then (A, t)
  else
    let b := (interior_cells W).foldl (secret_door_step W A)
      ⟨(W.FLOW_MAX_DIST : Int) - 1, t.1, t.2⟩
    (target_set_location A b.ty b.tx, (b.ty, b.tx))

/-- Source `leave_level`. -/
def leave_level (W : World) (A : Agent) : Bool × Agent :=
  if W.cave_feat W.py W.px = W.FEAT_MORE ∨ W.cave_feat W.py W.px = W.FEAT_MORE_SHAFT
      ∨ W.cave_feat W.py W.px = W.FEAT_LESS ∨ W.cave_feat W.py W.px = W.FEAT_LESS_SHAFT then
    (true, A.press [44, 121])
  else (false, A)

/-- The body of the scans of `find_stairs_down` and `find_stairs_up` at the
square `c`, for the two stair features `f1`, `f2`. -/
def stairs_step (W : World) (A : Agent) (f1 f2 : Int) (b : Near) (c : Cell) : Near :=
  if !W.cave_mark c.1 c.2 then b
  else if W.cave_feat c.1 c.2 = f1 ∨ W.cave_feat c.1 c.2 = f2 then
    let dist := flow_dist W A Flow.FLOW_AUTOMATON c.1 c.2
    if dist < b.best_dist then ⟨dist, c.1, c.2⟩ else b
  else b

/-- Source `find_stairs_down`. -/
def find_stairs_down (W : World) (A : Agent) (t : Cell) : Agent × Cell :=
  let b := (interior_cells W).foldl (stairs_step W A W.FEAT_MORE W.FEAT_MORE_SHAFT)
    ⟨(W.FLOW_MAX_DIST : Int) - 1, t.1, t.2⟩
  (target_set_location A b.ty b.tx, (b.ty, b.tx))

/-- Source `find_stairs_up`. -/
def find_stairs_up (W : World) (A : Agent) (t : Cell) : Agent × Cell :=
  let b := (interior_cells W).foldl (stairs_step W A W.FEAT_LESS W.FEAT_LESS_SHAFT)
    ⟨(W.FLOW_MAX_DIST : Int) - 1, t.1, t.2⟩
  (target_set_location A b.ty b.tx, (b.ty, b.tx))

/-! ## The decision cycle (`automaton_turn`) -/

/-- Source `stop_automaton`. -/
def stop_automaton (A : Agent) : Agent :=
  { A with automaton := false, inkey_hack := false, keys := automaton_flush A.keys }

/-- Source `add_seen_squares_to_map`. -/
def add_seen_squares_to_map (W : World) (A : Agent) : Agent :=
  { A with
    automaton_map := fun y x =>
      if y = W.py ∧ x = W.px then true
      else if 1 ≤ y ∧ y < W.cur_map_hgt - 1 ∧ 1 ≤ x ∧ x < W.cur_map_wid - 1
          ∧ W.cave_seen y x = true then true
      else A.automaton_map y x }

/-- The statement `if (ty == 0) if (p()) return;`: an early return is
`Except.error` with the agent at that point. -/
def try_claim (p : Agent → Bool × Agent) (s : Agent × Cell) : Except Agent (Agent × Cell) :=
  if s.2.1 = 0 then
    if (p s.1).1 then Except.error (p s.1).2 else Except.ok ((p s.1).2, s.2)
  else Except.ok s

/-- The statement `if (ty == 0) if (p(&ty, &tx)) return;`. -/
def try_claim_target (p : Agent → Cell → Bool × Agent × Cell) (s : Agent × Cell) :
    Except Agent (Agent × Cell) :=
  if s.2.1 = 0 then
    if (p s.1 s.2).1 then Except.error (p s.1 s.2).2.1 else Except.ok (p s.1 s.2).2
  else Except.ok s

/-- The statement `if (ty == 0) p(&ty, &tx);`. -/
def try_target (p : Agent → Cell → Agent × Cell) (s : Agent × Cell) :
    Except Agent (Agent × Cell) :=
  if s.2.1 = 0 then Except.ok (p s.1 s.2) else Except.ok s

/-- The sequence of policy statements of `automaton_turn` (from
`allocate_experience` to `find_stairs_up`), starting with `ty = tx = 0`. -/
def arbiter (W : World) (A : Agent) : Except Agent (Agent × Cell) := do
  let s ← try_claim (allocate_experience W) (A, ((0 : Int), (0 : Int)))
  let s ← try_claim_target (fighting_strategy W) s
  let s ← try_claim (pickup_object W) s
  let s ← try_claim (renew_light W) s
  let s ← try_target (rest W) s
  let s ← try_claim (eat_food W) s
  let s ← try_target (find_object W) s
  let s ← try_target (find_unexplored W) s
  let s ← try_claim (leave_level W) s
  let s ← (if s.2.1 = 0 ∧ W.depth < 3 + W.min_depth then Except.ok (find_stairs_down W s.1 s.2)
    else Except.ok s)
  let s ← try_target (find_secret_door W) s
  let s ← try_claim (leave_level W) s
  try_target (find_stairs_up W) s

/-- The locals of the direction loop of `automaton_turn`. -/
structure Heading where
  found_direction : Bool
  best_dist : Int
  best_dir : Nat

/-- The body of the direction loop of `automaton_turn` for the index `i`. -/
def direction_step (W : World) (A : Agent) (b : Heading) (i : Nat) : Heading :=
  if !W.in_bounds (W.py + ddy_ddd i) (W.px + ddx_ddd i) then b
  else
    let dist := flow_dist W A Flow.FLOW_AUTOMATON (W.py + ddy_ddd i) (W.px + ddx_ddd i)
    if dist ≤ b.best_dist then ⟨true, dist, ddd i⟩ else b

/-- The direction loop of `automaton_turn` (`for (i = 7; i >= 0; i--)`). -/
def find_direction (W : World) (A : Agent) : Heading :=
  [7, 6, 5, 4, 3, 2, 1, 0].foldl (direction_step W A)
    ⟨false, (W.FLOW_MAX_DIST : Int) - 1, 5⟩

/-- The flow maps towards the target and the direction found in them (the
`else` branch of `automaton_turn` for a target away from the player). -/
def head_for_target (W : World) (A : Agent) (ty tx : Int) : Agent × Heading :=
  let A1 := update_automaton_flow W A Flow.FLOW_AUTOMATON ty tx
  let A2 := update_automaton_flow W A1 Flow.FLOW_AUTOMATON_FIGHT ty tx
  let A3 := update_automaton_flow W A2 Flow.FLOW_AUTOMATON_SECURE ty tx
  (A3, find_direction W A3)

/-- The end of `automaton_turn`: shifting the health memory (the loop runs
for `i = MEMORY = 2` and `i = 1`, so it also stores into the slot with index
2) and recording the current health in the `byte` slot 0. -/
def update_memory (W : World) (A : Agent) : Agent :=
  { A with
    automaton_memory_chp := fun i =>
      if i = 0 then W.chp % 256
      else if i = 1 then A.automaton_memory_chp 0
      else if i = 2 then A.automaton_memory_chp 1
      else A.automaton_memory_chp i }

/-- The part of `automaton_turn` after the policies, for the target
`(ty, tx)` they left. -/
def resolve_target (W : World) (A : Agent) (ty tx : Int) : Agent :=
  if ty = 0 then stop_automaton A
  else
    let r : Agent × Heading :=
      if ty = W.py ∧ tx = W.px then (A, ⟨true, (W.FLOW_MAX_DIST : Int) - 1, 5⟩)
      else head_for_target W A ty tx
    if !r.2.found_direction then stop_automaton r.1
    else
      let y := W.py + ddy r.2.best_dir
      let x := W.px + ddx r.2.best_dir
      let base_command : Int :=
        if W.cave_known_closed_door_bold y x = true ∧ W.one_in_5 = true then 47 else 59
      let A1 := r.1.press [base_command, 48 + (r.2.best_dir : Int)]
      let searching : Bool := decide (base_command = 59 ∧ r.2.best_dir = 5)
      let A2 : Agent :=
        if searching then
          { A1 with
            automaton_map := fun y1 x1 =>
              if [7, 6, 5, 4, 3, 2, 1, 0].any fun i =>
                  decide (y1 = W.py + ddy_ddd i ∧ x1 = W.px + ddx_ddd i)
              then true else A1.automaton_map y1 x1 }
        else A1
      let yx : Cell := if searching then (W.py + ddy_ddd 0, W.px + ddx_ddd 0) else (y, x)
      let A3 :=
        if W.cave_trap_bold yx.1 yx.2 = true ∧ W.cave_hidden yx.1 yx.2 = false then A2.press1 121
        else A2
      update_memory W A3

/-- Source `automaton_turn`. -/
def automaton_turn (W : World) (A : Agent) : Agent :=
  let A0 := add_seen_squares_to_map W A
  let A1 := update_automaton_flow W A0 Flow.FLOW_AUTOMATON W.py W.px
  let A2 := update_automaton_flow W A1 Flow.FLOW_AUTOMATON_FIGHT W.py W.px
  let A3 := update_automaton_flow W A2 Flow.FLOW_AUTOMATON_SECURE W.py W.px
  match arbiter W A3 with
  | Except.error A4 => A4
  | Except.ok (A4, (ty, tx)) => resolve_target W A4 ty tx

/-! ## Statements of the arbiter and combat properties -/

/-- A policy in uniform shape: from the agent and the target so far to
(claimed, agent, target). -/
abbrev Policy := Agent × Cell → Bool × Agent × Cell

/-- A policy that can only claim the turn (it has no access to the target). -/
def claiming (p : Agent → Bool × Agent) : Policy := fun s => ((p s.1).1, (p s.1).2, s.2)

/-- A policy that can only set the target. -/
def targeting (p : Agent → Cell → Agent × Cell) : Policy := fun s => (false, p s.1 s.2)

/-- The policies in the order of the spec: skill allocation, combat
strategy, item pickup, light renewal, rest, eating, object seeking,
exploration, level transition, descend seeking (declining unless the depth is
below three past the minimum depth), secret-door seeking, level transition,
ascend seeking. -/
def policy_order (W : World) : List Policy :=
  [ claiming (allocate_experience W),
    fun s => fighting_strategy W s.1 s.2,
    claiming (pickup_object W),
    claiming (renew_light W),
    targeting (rest W),
    claiming (eat_food W),
    targeting (find_object W),
    targeting (find_unexplored W),
    claiming (leave_level W),
    fun s => if W.depth < 3 + W.min_depth then targeting (find_stairs_down W) s else (false, s),
    targeting (find_secret_door W),
    claiming (leave_level W),
    targeting (find_stairs_up W) ]

/-- Consulting a list of policies in order as the spec describes it: a
policy that claims ends the cycle at once, a policy that leaves a non-zero
target row ends the consultation with that target, and only after a policy
that declines is the next one consulted. -/
def first_acting : List Policy → Agent × Cell → Except Agent (Agent × Cell)
  | [], s => Except.ok s
  | p :: ps, s =>
    if (p s).1 then Except.error (p s).2.1
    else if (p s).2.2.1 ≠ 0 then Except.ok (p s).2
    else first_acting ps (p s).2


/-- The statements of `arbiter` read as a loop over a list of policies:
each policy is run only while the target row is still 0. -/
def run_guarded : List Policy → Agent × Cell → Except Agent (Agent × Cell)
  | [], s => Except.ok s
  | p :: ps, s =>
    if s.2.1 = 0 then
      if (p s).1 then Except.error (p s).2.1 else run_guarded ps (p s).2
    else run_guarded ps s

/-- A 3 by 3 map of known floor with the player in the middle at 5 health. -/
def room3 : World where
  FLOW_MAX_DIST := 3
  FEAT_CHASM := 1
  FEAT_RUBBLE := 2
  cur_map_hgt := 3
  cur_map_wid := 3
  in_bounds := fun y x => decide (0 ≤ y ∧ y < 3 ∧ 0 ≤ x ∧ x < 3)
  cave_mark := fun _ _ => true
  py := 1
  px := 1
  chp := 5
  mhp := 10

/-- The world `room3` with a lit light, food and a wielded weapon. -/
def armed_room : World :=
  { room3 with
    food := 5000
    inventory := fun _ => { weight := 30, timeout := 1000 } }


/-- The world `room3` with a flow limit of 5. -/
def room3_wide : World := { room3 with FLOW_MAX_DIST := 5 }


/-- An agent that remembers 10 health from the previous turn. -/
def hurt_agent : Agent where
  automaton_memory_chp := fun _ => 10


/-- A queue whose three writes wrap around the end of the buffer. -/
def wrap_queue : KeyQueue := ⟨fun _ => 0, 8190, 8190⟩

/-- What the direction loop has established once the indices satisfying
`done` have been scanned. -/
def DirInv (W : World) (A : Agent) (done : Nat → Prop) (b : Heading) : Prop :=
  (∀ j, done j → W.in_bounds (W.py + ddy_ddd j) (W.px + ddx_ddd j) = true →
      b.best_dist ≤ flow_dist W A Flow.FLOW_AUTOMATON (W.py + ddy_ddd j) (W.px + ddx_ddd j))
  ∧ (b.found_direction = true → ∃ i, done i
      ∧ W.in_bounds (W.py + ddy_ddd i) (W.px + ddx_ddd i) = true
      ∧ b.best_dir = ddd i
      ∧ b.best_dist = flow_dist W A Flow.FLOW_AUTOMATON (W.py + ddy_ddd i) (W.px + ddx_ddd i)
      ∧ ∀ j, done j → W.in_bounds (W.py + ddy_ddd j) (W.px + ddx_ddd j) = true →
          flow_dist W A Flow.FLOW_AUTOMATON (W.py + ddy_ddd j) (W.px + ddx_ddd j) = b.best_dist →
          i ≤ j)

/-! ## Statement of the minimum-cost property of the flow -/

/-- The child of `c` in direction `d`, as stored in the `byte` variables
`y2`, `x2`. -/
def nbr (c : Cell) (d : Nat) : Cell := (byte_add c.1 (ddy_ddd d), byte_add c.2 (ddx_ddd d))

/-- The cost stored for the square `c`. -/
def Grid.at (g : Grid) (c : Cell) : Nat := g c.1 c.2

/-- Two squares are 8-connected neighbours (Chebyshev distance 1). -/
def adjacent8 (a b : Cell) : Bool := decide (max |a.1 - b.1| |a.2 - b.2| = 1)

/-- The cost of entering the square `c` on a path from the origin `o`: one
step plus the channel penalty of `c`, where the penalties that the source
gates on being more than one step from the origin apply to the squares not
adjacent to `o`. -/
def entry_cost (W : World) (which : Flow) (o c : Cell) : Nat :=
  1 + extra_cost W which (!adjacent8 o c) c.1 c.2

/-- The squares `p` visited after `prev` form an 8-connected path all of whose
squares other than the origin `o` are passable. -/
def legal_path (W : World) (amap : Int → Int → Bool) (o : Cell) : Cell → List Cell → Prop
  | _, [] => True
  | prev, c :: rest =>
    adjacent8 prev c = true ∧ (c = o ∨ passable W amap c = true) ∧ legal_path W amap o c rest

/-- The sum of the entry costs of the squares of a path other than the
origin `o`. -/
def path_cost (W : World) (which : Flow) (o : Cell) : List Cell → Nat
  | [] => 0
  | c :: rest => (if c = o then 0 else entry_cost W which o c) + path_cost W which o rest

/-- The last square of the path `p` that starts at `start`. -/
def path_end : Cell → List Cell → Cell
  | start, [] => start
  | _, c :: rest => path_end c rest

/-- The child of `q` in direction `d` has been dealt with: if it is passable
and not the origin, either it carries a cost below `FLOW_MAX_DIST` that is at
most the cost of `q` plus its entry cost, or that sum is not below
`FLOW_MAX_DIST`. -/
def DoneAt (W : World) (amap : Int → Int → Bool) (which : Flow) (o : Cell) (g : Grid)
    (q : Cell) (d : Nat) : Prop :=
  passable W amap (nbr q d) = true → nbr q d ≠ o →
    (g.at (nbr q d) < W.FLOW_MAX_DIST
        ∧ g.at (nbr q d) ≤ g.at q + entry_cost W which o (nbr q d))
      ∨ W.FLOW_MAX_DIST ≤ g.at q + entry_cost W which o (nbr q d)

/-- The invariant of the loop over `cost` while the layer `c` is processed:
`cur` is the part of the current table still to be looked at, `next` the
table being filled. -/
structure FlowInv (W : World) (amap : Int → Int → Bool) (which : Flow) (o : Cell) (c : Nat)
    (g : Grid) (cur next : List Cell) : Prop where
  origin0 : g.at o = 0
  reached : ∀ n : Cell, W.in_bounds n.1 n.2 = true → n ≠ o → g.at n < W.FLOW_MAX_DIST →
    passable W amap n = true ∧ ∃ (p : Cell) (d : Nat), W.in_bounds p.1 p.2 = true ∧ d < 8
      ∧ n = nbr p d ∧ g.at p + entry_cost W which o n = g.at n
  cur_ge : ∀ f ∈ cur, c ≤ g.at f + 1
  next_ge : ∀ f ∈ next, c ≤ g.at f
  cur_ok : ∀ f ∈ cur, W.in_bounds f.1 f.2 = true
  next_ok : ∀ f ∈ next, W.in_bounds f.1 f.2 = true
  pending : ∀ q : Cell, W.in_bounds q.1 q.2 = true → g.at q < W.FLOW_MAX_DIST →
    (g.at q + 1 < c → ∀ d, d < 8 → DoneAt W amap which o g q d)
      ∧ (g.at q + 1 = c → (∀ d, d < 8 → DoneAt W amap which o g q d) ∨ q ∈ cur)
      ∧ (c ≤ g.at q → q ∈ cur ∨ q ∈ next)
  bound : ∀ n : Cell, W.in_bounds n.1 n.2 = true → n ≠ o → g.at n < W.FLOW_MAX_DIST →
    g.at n + 1 ≤ c + entry_cost W which o n

/-! ## The input bridge (`automaton_inkey_hack`) -/

/-- The character `ESCAPE`, `\033` (the source notes `\033 is ESCAPE` where
`allocate_experience` queues it). -/
def ESCAPE : Int := 27

/-- Source `automaton_inkey_hack`.  `ch` is the character that `Term_inkey`
delivers (0 when no key is waiting) and `waiting_for_command` the host flag of
that name; the pauses and event processing of `Term_xtra` are not modelled.
The result is the agent afterwards and the returned character. -/
def automaton_inkey_hack (W : World) (A : Agent) (flush_first : Int) (ch : Int)
    (waiting_for_command : Bool) : Agent × Int :=
  if A.automaton = false then (stop_automaton A, ESCAPE)
  else
    let A0 : Agent :=
      if flush_first ≠ 0 then (if (automaton_inkey A.keys false).2 ≠ 0 then A else A) else A
    if ch > 0 then (stop_automaton A0, ESCAPE)
    else if (automaton_inkey A0.keys false).2 = 0 then
      if waiting_for_command then
        let A1 := automaton_turn W A0
        ({ A1 with keys := (automaton_inkey A1.keys true).1 }, (automaton_inkey A1.keys true).2)
      else (stop_automaton A0, ESCAPE)
    else
      ({ A0 with keys := (automaton_inkey A0.keys true).1 }, (automaton_inkey A0.keys true).2)

/-- Calling the bridge once for every `(flush_first, ch)` of a list of host
inputs, recording the returned characters. -/
def bridge_seq (W : World) (waiting_for_command : Bool) : Agent → List (Int × Int) →
    Agent × List Int
  | A, [] => (A, [])
  | A, inp :: rest =>
    let r := automaton_inkey_hack W A inp.1 inp.2 waiting_for_command
    let r2 := bridge_seq W waiting_for_command r.1 rest
    (r2.1, r.2 :: r2.2)

/-- A queue with `KEY_SIZE - 2` pending tokens (oldest first: `1, 2, 3, ...`,
slot `i` holding `i % 100 + 1`): it can take exactly one more token without
overflow. -/
def nearly_full_queue : KeyQueue := ⟨fun i => Int.ofNat (i % 100) + 1, 8190, 0⟩

/-- An active agent with the three pending tokens `a`, `b`, `c`. -/
def busy_agent : Agent where
  keys := ⟨fun i => if i = 0 then 97 else if i = 1 then 98 else if i = 2 then 99 else 0, 3, 0⟩

/-- The agent after the first statements of `automaton_turn`. -/
def begin_turn (W : World) (A : Agent) : Agent :=
  update_automaton_flow W
    (update_automaton_flow W
      (update_automaton_flow W (add_seen_squares_to_map W A) Flow.FLOW_AUTOMATON W.py W.px)
      Flow.FLOW_AUTOMATON_FIGHT W.py W.px)
    Flow.FLOW_AUTOMATON_SECURE W.py W.px

/-- No policy of the list claims and each of them leaves the target row at 0,
when they are consulted one after the other. -/
def all_decline : List Policy → Agent × Cell → Bool
  | [], _ => true
  | p :: ps, s => !(p s).1 && decide ((p s).2.2.1 = 0) && all_decline ps (p s).2

/-- Two agents with the same keypress queue, active flag and hook. -/
def same_io (A B : Agent) : Prop :=
  B.keys = A.keys ∧ B.automaton = A.automaton ∧ B.inkey_hack = A.inkey_hack

/-- A policy that leaves queue, active flag and hook alone unless it claims. -/
def Quiet (p : Policy) : Prop := ∀ s, (p s).1 = false → same_io s.1 (p s).2.1

/-- The world `room3` with stair features that occur nowhere on the map: no
policy finds anything to do for `hurt_agent`. -/
def quiet_room : World :=
  { room3 with
    FEAT_MORE := 3
    FEAT_MORE_SHAFT := 4
    FEAT_LESS := 5
    FEAT_LESS_SHAFT := 6 }

/-- A corridor: the world `room3_wide` with walls on every row but row 1. -/
def corridor : World := { room3_wide with cave_wall_bold := fun y _ => decide (y ≠ 1) }

/-- A one-row map of six known floor squares; the squares `(0, 1)` to `(0, 4)`
each hold a live, unseen, alert, mobile monster. -/
def gauntlet : World where
  FLOW_MAX_DIST := 100
  FEAT_CHASM := 1
  FEAT_RUBBLE := 2
  cur_map_hgt := 1
  cur_map_wid := 6
  in_bounds := fun y x => decide (y = 0 ∧ 0 ≤ x ∧ x < 6)
  cave_mark := fun _ _ => true
  cave_m_idx := fun y x => if y = 0 ∧ 1 ≤ x ∧ x ≤ 4 then x else 0
  mon_max := 5
  mon_list := fun _ => { r_idx := 1 }
  chp := 10
  mhp := 10

/-- A lit, armed room whose only monster stands south of the player, visible
and alert, with the player at full health. -/
def duel_room : World :=
  { armed_room with
    chp := 10
    mon_max := 2
    mon_list := fun i => if i = 1 then { r_idx := 1, fy := 2, fx := 1, ml := true } else {}
    cave_m_idx := fun y x => if y = 2 ∧ x = 1 then 1 else 0 }

/-! ## Statements about the decision cycle -/

/-- The agent `B` has the map, the cost grids with their centres and the
health memory of `A`: at most the keypress queue, the flags and the recorded
target differ. -/
def same_store (A B : Agent) : Prop :=
  B.automaton_map = A.automaton_map ∧ B.cave_cost = A.cave_cost
    ∧ B.flow_center = A.flow_center ∧ B.update_center = A.update_center
    ∧ B.automaton_memory_chp = A.automaton_memory_chp

/-- The target `(ty, tx)` with which `automaton_turn` leaves its sequence of
policy statements, if none of them returned early. -/
def policy_target (W : World) (A : Agent) : Option Cell :=
  match arbiter W (begin_turn W A) with
  | Except.error _ => none
  | Except.ok (_, t) => some t

/-- The agent as the policy statements of `automaton_turn` leave it. -/
def policy_agent (W : World) (A : Agent) : Agent :=
  match arbiter W (begin_turn W A) with
  | Except.error B => B
  | Except.ok (B, _) => B

/-- The cycle reaches `automaton_keypresses(commands)`: no policy returned
early, the target row is not 0, and the target is the player's square or the
direction loop found a direction. -/
def issues_command (W : World) (A : Agent) : Bool :=
  match arbiter W (begin_turn W A) with
  | Except.error _ => false
  | Except.ok (B, (ty, tx)) =>
    decide (ty ≠ 0)
      && (decide (ty = W.py ∧ tx = W.px) || (head_for_target W B ty tx).2.found_direction)

/-- The world `room3` with a visible trap south of the player. -/
def trap_room : World := { room3 with cave_trap_bold := fun y x => decide (y = 2 ∧ x = 1) }

/-- The world `room3` with a visible trap on the player's square. -/
def trap_underfoot : World := { room3 with cave_trap_bold := fun y x => decide (y = 1 ∧ x = 1) }

/-- A map of four by four squares, all of them in sight, with the player at
`(1, 1)`. -/
def lit_room : World :=
  { room3 with
    cur_map_hgt := 4
    cur_map_wid := 4
    in_bounds := fun y x => decide (0 ≤ y ∧ y < 4 ∧ 0 ≤ x ∧ x < 4)
    cave_seen := fun _ _ => true }

/-- The world `room3` with enough experience to raise a skill. -/
def skilled_room : World := { room3 with new_exp := 100 }

/-- The monster with index `i` is a candidate of `find_enemy_to_kill`: alive,
alert, and visible or able to attack from a distance. -/
def qualifies (W : World) (i : Nat) : Bool :=
  decide ((W.mon_list i).r_idx ≠ 0) && decide (W.ALERTNESS_ALERT ≤ (W.mon_list i).alertness)
    && ((W.mon_list i).ml || decide ((W.r_info (W.mon_list i).r_idx).freq_ranged ≠ 0))

/-- The monster loop of `find_enemy_to_kill` in the state `h` enters its
branch `dist < best_dist` for the monster with index `i`. -/
def hunt_accepts (W : World) (A : Agent) (h : Hunt) (i : Nat) : Bool :=
  qualifies W i
    && decide (flow_dist W A Flow.FLOW_AUTOMATON_FIGHT (W.mon_list i).fy (W.mon_list i).fx
        < h.best_dist)

/-- The index of the monster for which the loop of `find_enemy_to_kill` last
entered its branch `dist < best_dist`, if it ever did (`r` is the index so
far). -/
def last_accepted (W : World) (A : Agent) : List Nat → Hunt → Option Nat → Option Nat
  | [], _, r => r
  | i :: l, h, r =>
    last_accepted W A l (hunt_step W A h i) (if hunt_accepts W A h i then some i else r)

/-- The value that the loop gives `can_fire` when it accepts the monster with
index `i`: more than one square away, visible, the player not blind, and the
monster's square flagged `CAVE_FIRE`. -/
def can_fire_at (W : World) (i : Nat) : Bool :=
  decide (grid_distance W.py W.px (W.mon_list i).fy (W.mon_list i).fx > 1) && (W.mon_list i).ml
    && !W.blind && W.cave_fire (W.mon_list i).fy (W.mon_list i).fx

/-- A corridor (row 1 of a map of three by eight squares, walls above and
below) with the player at `(1, 3)`, an unseen alert archer at `(1, 1)` and a
visible alert archer at `(1, 6)`; `unseen_first` tells which of the two has
index 1 in the monster list, the other has index 2. -/
def ambush (unseen_first : Bool) : World where
  FEAT_CHASM := 1
  FEAT_RUBBLE := 2
  cur_map_hgt := 3
  cur_map_wid := 8
  in_bounds := fun y x => decide (0 ≤ y ∧ y < 3 ∧ 0 ≤ x ∧ x < 8)
  cave_mark := fun _ _ => true
  cave_wall_bold := fun y _ => decide (y ≠ 1)
  py := 1
  px := 3
  chp := 10
  mhp := 10
  mon_max := 3
  r_info := fun _ => { freq_ranged := 1 }
  mon_list := fun i =>
    if (i = 1) = (unseen_first = true) then { r_idx := 1, fy := 1, fx := 1, ml := false }
    else { r_idx := 1, fy := 1, fx := 6, ml := true }
  cave_m_idx := fun y x =>
    if y = 1 ∧ x = 1 then (if unseen_first then 1 else 2)
    else if y = 1 ∧ x = 6 then (if unseen_first then 2 else 1)
    else 0

/-- The world `ambush true` with a bow, arrows in the first quiver and every
square in the line of fire. -/
def shooting_range : World :=
  { ambush true with
    cave_fire := fun _ _ => true
    inventory := fun _ => { tval := 1, number := 5 } }

/-- The number of passes that the loop over `cost` makes in `flow_loop`
before it runs out of values or finds the table empty. -/
def flow_rounds (W : World) (amap : Int → Int → Bool) (lost_health : Bool) (which : Flow) :
    Nat → Nat → Grid → List Cell → Nat
  | 0, _, _, _ => 0
  | n + 1, cost, g, cur =>
    if cur.isEmpty then 0
    else
      let r := flow_layer W amap lost_health which cost g cur
      1 + flow_rounds W amap lost_health which n (cost + 1) r.1 r.2

/-- The number of passes of the loop over `cost` in the computation of
`flow_field`. -/
def flow_field_rounds (W : World) (amap : Int → Int → Bool) (lost_health : Bool) (which : Flow)
    (cy cx : Int) (g : Grid) : Nat :=
  flow_rounds W amap lost_health which W.FLOW_MAX_DIST 1
    ((erase_flow W g).set cy cx 0) [(cy % 256, cx % 256)]

/-! ## Statements about reachable queue states -/

/-- The operations on the keypress queue: `automaton_keypress`,
`automaton_keypresses`, `automaton_inkey` without and with `take`, and
`automaton_flush`. -/
inductive QueueOp where
  | enqueue (k : Int)
  | enqueueAll (ks : List Int)
  | peek
  | dequeue
  | flush

/-- The queue after one operation. -/
def QueueOp.run (q : KeyQueue) : QueueOp → KeyQueue
  | QueueOp.enqueue k => (automaton_keypress q k).1
  | QueueOp.enqueueAll ks => automaton_keypresses q ks
  | QueueOp.peek => (automaton_inkey q false).1
  | QueueOp.dequeue => (automaton_inkey q true).1
  | QueueOp.flush => automaton_flush q

/-- The queue as `do_cmd_automaton` leaves it: a zero-filled buffer and the
tail set to the head, which stands at the index `h`. -/
def fresh_queue (h : Nat) : KeyQueue := ⟨fun _ => 0, h, h⟩

/-- Both indices are inside the buffer and every pending slot holds a
non-null token. -/
def QueueOk (q : KeyQueue) : Prop :=
  q.automaton_key_head < KEY_SIZE ∧ q.automaton_key_tail < KEY_SIZE
    ∧ ∀ i, i < q.pending → q.automaton_key_queue ((q.automaton_key_tail + i) % KEY_SIZE) ≠ 0

/-- A queue with `KEY_SIZE - 1` pending tokens. -/
def full_queue : KeyQueue := ⟨fun i => Int.ofNat (i % 100) + 1, 8191, 0⟩

/-- A corridor with two dead ends: row 1 of a map of three by seven squares
is floor from `(1, 1)` to `(1, 5)`, everything else is wall; the player
stands at `(1, 2)` at full health. -/
def two_ends : World where
  FEAT_CHASM := 1
  FEAT_RUBBLE := 2
  cur_map_hgt := 3
  cur_map_wid := 7
  in_bounds := fun y x => decide (0 ≤ y ∧ y < 3 ∧ 0 ≤ x ∧ x < 7)
  cave_mark := fun _ _ => true
  cave_wall_bold := fun y x => decide (y ≠ 1 ∨ x < 1 ∨ 5 < x)
  py := 1
  px := 2
  chp := 10
  mhp := 10

/-- The monster with index `j` is a candidate of `find_enemy_to_kill` whose
race is not flagged smart. -/
def dull (W : World) (j : Nat) : Bool :=
  qualifies W j && !(W.r_info (W.mon_list j).r_idx).smart

/-- The test of `find_enemy_to_kill` for waiting in place, for the accepted
monster `i` when `examined` lists the monsters looked at so far, `i`
included: melee-only, alert, able to move, not fleeing, at grid distance 2 or
3, and not every candidate examined so far is flagged smart. -/
def holds_for (W : World) (examined : List Nat) (i : Nat) : Bool :=
  decide (grid_distance W.py W.px (W.mon_list i).fy (W.mon_list i).fx < 4)
    && decide (grid_distance W.py W.px (W.mon_list i).fy (W.mon_list i).fx > 1)
    && decide ((W.r_info (W.mon_list i).r_idx).freq_ranged = 0)
    && decide (W.ALERTNESS_ALERT ≤ (W.mon_list i).alertness)
    && !(W.r_info (W.mon_list i).r_idx).never_move
    && decide ((W.mon_list i).stance ≠ W.STANCE_FLEEING)
    && examined.any (dull W)

/-- The target that `find_enemy_to_kill` writes when it accepts the monster
`i`: the player's square to wait, the monster's square to charge. -/
def engage_target (W : World) (examined : List Nat) (i : Nat) : Cell :=
  if holds_for W examined i then (W.py, W.px) else ((W.mon_list i).fy, (W.mon_list i).fx)

/-- The corridor of `ambush` with two visible, alert, mobile melee monsters that
are not fleeing:
monster 1, not flagged smart, at `(1, 6)` and monster 2, flagged smart, at
`(1, 1)`; the player stands at `(1, 3)`. -/
def standoff : World :=
  { ambush false with
    r_info := fun r => if r = 2 then { smart := true } else {}
    mon_list := fun i =>
      if i = 1 then { r_idx := 1, fy := 1, fx := 6, ml := true, stance := 1 }
      else { r_idx := 2, fy := 1, fx := 1, ml := true, stance := 1 } }

/-- The world `ambush true` with food, a lit light and a wielded weapon. -/
def hunting_ground : World :=
  { ambush true with
    food := 5000
    inventory := fun _ => { weight := 30, timeout := 1000 } }

/-- A room of five by five known floor squares with the player in the middle
and `FLOW_MAX_DIST = 2`. -/
def open_field : World where
  FLOW_MAX_DIST := 2
  FEAT_CHASM := 1
  FEAT_RUBBLE := 2
  cur_map_hgt := 5
  cur_map_wid := 5
  in_bounds := fun y x => decide (0 ≤ y ∧ y < 5 ∧ 0 ≤ x ∧ x < 5)
  cave_mark := fun _ _ => true
  py := 2
  px := 2
  chp := 10
  mhp := 10

/-! ## The flow with `flow_table` as the array it is -/

/-- The bytes of the local array `flow_table[2][2][8 * FLOW_MAX_DIST]` in
storage order; `none` is a byte that has not been written yet (the source does
not initialise the array). -/
abbrev FlowTable := Nat → Option Int

/-- Position of `flow_table[cycle][plane][k]` in storage order; the source
never checks `k` against the length `8 * FLOW_MAX_DIST` of a plane. -/
def table_offset (W : World) (cycle plane k : Nat) : Nat :=
  (cycle * 2 + plane) * (8 * W.FLOW_MAX_DIST) + k

/-- The store `flow_table[cycle][plane][k] = v`: a `k` beyond the plane lands
in the planes behind it, and the result is `none` when the byte lies outside
the array. -/
def table_store (W : World) (t : FlowTable) (cycle plane k : Nat) (v : Int) : Option FlowTable :=
  if table_offset W cycle plane k < 4 * (8 * W.FLOW_MAX_DIST) then
    some fun j => if j = table_offset W cycle plane k then some v else t j
  else none

/-- The read of `flow_table[cycle][plane][k]`: `none` when the byte lies
outside the array or has never been written. -/
def table_load (W : World) (t : FlowTable) (cycle plane k : Nat) : Option Int :=
  if table_offset W cycle plane k < 4 * (8 * W.FLOW_MAX_DIST) then
    t (table_offset W cycle plane k)
  else none

/-- The variables of `update_automaton_flow` that its loops change: the cost
grid of the channel, `flow_table` and `grid_count`. -/
structure FlowState where
  grid : Grid
  table : FlowTable
  grid_count : Nat

/-- Running `f` over a list from the left, stopping at the first `none`. -/
def fold_opt {σ α : Type} (f : σ → α → Option σ) : σ → List α → Option σ
  | s, [] => some s
  | s, a :: l => (f s a).bind fun s1 => fold_opt f s1 l

/-- Storing a grid in the next-cycle table (lines 332-336 and 452-456):
`flow_table[next_cycle][0][grid_count] = y`,
`flow_table[next_cycle][1][grid_count] = x`, `grid_count++`. -/
def table_push (W : World) (next : Nat) (s : FlowState) (y x : Int) : Option FlowState :=
  (table_store W s.table next 0 s.grid_count y).bind fun t1 =>
    (table_store W t1 next 1 s.grid_count x).bind fun t2 =>
      some { s with table := t2, grid_count := s.grid_count + 1 }

/-- One pass of the loop over `d` with the table as an array: the tests and
the stored cost are those of `flow_visit`. -/
def table_visit (W : World) (amap : Int → Int → Bool) (which : Flow) (cost next : Nat)
    (y x : Int) (s : FlowState) (d : Nat) : Option FlowState :=
  let y2 := byte_add y (ddy_ddd d)
  let x2 := byte_add x (ddx_ddd d)
  if !W.in_bounds y2 x2 then some s
  else if s.grid y2 x2 < W.FLOW_MAX_DIST then some s
  else if !known W amap y2 x2 then some s
  else if W.cave_wall_bold y2 x2 then some s
  else if W.cave_feat y2 x2 = W.FEAT_CHASM then some s
  else if W.cave_feat y2 x2 = W.FEAT_RUBBLE then some s
  else
    table_push W next
      { s with grid := s.grid.set y2 x2 (cost + extra_cost W which (decide (cost > 1)) y2 x2) }
      y2 x2

/-- One pass of the loop over `i` with the table as an array: entry `i` of the
current table is read when its turn comes, after the stores made for the
entries before it. -/
def table_cell (W : World) (amap : Int → Int → Bool) (which : Flow) (cost this next : Nat)
    (s : FlowState) (i : Nat) : Option FlowState :=
  (table_load W s.table this 0 i).bind fun y =>
    (table_load W s.table this 1 i).bind fun x =>
      if s.grid y x ≥ cost then table_push W next s y x
      else fold_opt (table_visit W amap which cost next y x) s (List.range 8)

/-- The body of the loop over `cost` with the table as an array, up to the
swap of the cycles: `last_index` is the `grid_count` of `s`, and `next_cycle`
is `1 - this`. -/
def table_layer (W : World) (amap : Int → Int → Bool) (lost_health : Bool) (which : Flow)
    (cost this : Nat) (s : FlowState) : Option FlowState :=
  (fold_opt (table_cell W amap which cost this (1 - this)) { s with grid_count := 0 }
      (List.range s.grid_count)).bind fun r =>
    if which = Flow.FLOW_AUTOMATON_SECURE ∧ lost_health = true then
      some { r with grid := r.grid.set W.py W.px (r.grid W.py W.px + 1) }
    else some r

/-- The loop over `cost` with the table as an array, from `cost` for at most
`n` more values, reading the half `this` of the table; the result is the state
in which the loop stops. -/
def table_loop (W : World) (amap : Int → Int → Bool) (lost_health : Bool) (which : Flow) :
    Nat → Nat → Nat → FlowState → Option FlowState
  | 0, _, _, s => some s
  | n + 1, cost, this, s =>
    if s.grid_count = 0 then some s
    else
      (table_layer W amap lost_health which cost this s).bind fun r =>
        table_loop W amap lost_health which n (cost + 1) (1 - this) r

/-- The state in which `update_automaton_flow` enters the loop over `cost`
(lines 288-305): the map erased, cost 0 at the centre, and the centre stored
as entry 0 of the half 0 of the table. -/
def table_start (W : World) (cy cx : Int) (g : Grid) : Option FlowState :=
  (table_store W (fun _ => none) 0 0 0 (cy % 256)).bind fun t1 =>
    (table_store W t1 0 1 0 (cx % 256)).bind fun t2 =>
      some ⟨(erase_flow W g).set cy cx 0, t2, 1⟩

/-- The state of `update_automaton_flow` after at most `n` passes of the loop
over `cost`; `none` when the run reads or writes a byte outside `flow_table`
or reads a byte never written. -/
def table_passes (W : World) (amap : Int → Int → Bool) (lost_health : Bool) (which : Flow)
    (cy cx : Int) (g : Grid) (n : Nat) : Option FlowState :=
  (table_start W cy cx g).bind (table_loop W amap lost_health which n 1 0)

/-- Source `update_automaton_flow` for a valid channel with `flow_table` as the
array that the source declares; `none` when the run leaves the array. -/
def update_automaton_flow_table (W : World) (A : Agent) (which : Flow) (cy cx : Int) :
    Option Agent :=
  (table_passes W A.automaton_map (decide (W.chp < A.automaton_memory_chp 0)) which cy cx
      (A.cave_cost which) W.FLOW_MAX_DIST).map fun s =>
    { A with
      flow_center := fun f => if f = which then (cy, cx) else A.flow_center f
      update_center := fun f => if f = which then (cy, cx) else A.update_center f
      cave_cost := fun f => if f = which then s.grid else A.cave_cost f }

/-- The cost that `update_automaton_flow_table` leaves at `(y, x)` on the
channel it computed. -/
def table_cost (W : World) (A : Agent) (which : Flow) (cy cx y x : Int) : Option Nat :=
  (update_automaton_flow_table W A which cy cx).map fun B => B.cave_cost which y x

/-- The value of `grid_count` after at most `n` passes of the loop over
`cost`: the number of grids stored by the last of these passes. -/
def stored_after (W : World) (A : Agent) (which : Flow) (cy cx : Int) (n : Nat) : Option Nat :=
  (table_passes W A.automaton_map (decide (W.chp < A.automaton_memory_chp 0)) which cy cx
      (A.cave_cost which) n).map fun s => s.grid_count

/-- Every pass of the loop, from the state `s` on, stores at most
`8 * FLOW_MAX_DIST` grids, the length of one plane of `flow_table`. -/
def table_fits (W : World) (amap : Int → Int → Bool) (lost_health : Bool) (which : Flow) :
    Nat → Nat → Nat → FlowState → Bool
  | 0, _, _, _ => true
  | n + 1, cost, this, s =>
    if s.grid_count = 0 then true
    else
      match table_layer W amap lost_health which cost this s with
      | none => false
      | some r =>
        decide (r.grid_count ≤ 8 * W.FLOW_MAX_DIST)
          && table_fits W amap lost_health which n (cost + 1) (1 - this) r

/-- The run of `update_automaton_flow` stays within the capacity of the
table: it can store the centre, and no pass stores more than
`8 * FLOW_MAX_DIST` grids. -/
def flow_within_capacity (W : World) (A : Agent) (which : Flow) (cy cx : Int) : Bool :=
  match table_start W cy cx (A.cave_cost which) with
  | none => false
  | some s =>
    table_fits W A.automaton_map (decide (W.chp < A.automaton_memory_chp 0)) which
      W.FLOW_MAX_DIST 1 0 s

/-- The half `cycle` of the table `t` holds the grids of the list `l` as its
first entries. -/
def TableHolds (W : World) (t : FlowTable) (cycle : Nat) (l : List Cell) : Prop :=
  ∀ (i : Nat) (c : Cell), l[i]? = some c →
    t (table_offset W cycle 0 i) = some c.1 ∧ t (table_offset W cycle 1 i) = some c.2

/-- The table state `s` and the list state `st` of a pass agree: the same
cost grid, `grid_count` grids stored, the half `next` of the table holding the
list being filled and the half `this` still holding the list `cur` being
read. -/
structure TableSim (W : World) (this next : Nat) (cur : List Cell) (s : FlowState)
    (st : Grid × List Cell) : Prop where
  grid : s.grid = st.1
  count : s.grid_count = st.2.length
  holds_next : TableHolds W s.table next st.2
  holds_this : TableHolds W s.table this cur

/-- A room of eleven by eleven squares around the player at `(5, 5)`: the
border is wall except for the two floor squares `(10, 5)` and `(10, 6)`, every
floor square other than the player's holds an unseen, alert, mobile monster,
and traps lie on the squares four steps from the player listed in
`cave_trap_bold`.  `FLOW_MAX_DIST` is 7, so a plane of `flow_table` has 56
entries. -/
def snare : World where
  FLOW_MAX_DIST := 7
  FEAT_CHASM := 1
  FEAT_RUBBLE := 2
  cur_map_hgt := 11
  cur_map_wid := 11
  in_bounds := fun y x => decide (0 ≤ y ∧ y < 11 ∧ 0 ≤ x ∧ x < 11)
  cave_mark := fun _ _ => true
  cave_wall_bold := fun y x =>
    decide ((y = 0 ∨ y = 10 ∨ x = 0 ∨ x = 10) ∧ ¬ (y = 10 ∧ (x = 5 ∨ x = 6)))
  cave_trap_bold := fun y x =>
    decide ((y = 1 ∧ 2 ≤ x ∧ x ≤ 8) ∨ (x = 1 ∧ 3 ≤ y ∧ y ≤ 7) ∨ (y = 9 ∧ (x = 4 ∨ x = 6)))
  cave_m_idx := fun y x =>
    if ((1 ≤ y ∧ y ≤ 9 ∧ 1 ≤ x ∧ x ≤ 9) ∨ (y = 10 ∧ (x = 5 ∨ x = 6))) ∧ ¬ (y = 5 ∧ x = 5)
    then 11 * y + x + 1 else 0
  mon_max := 122
  mon_list := fun i => { r_idx := 1, fy := ((i - 1) / 11 : Nat), fx := ((i - 1) % 11 : Nat) }
  py := 5
  px := 5
  chp := 10
  mhp := 10

/-- The wall squares of `maze`, row by row: the columns that are wall. -/
def maze_walls : List (List Nat) :=
  [[0, 1, 2, 3, 4, 5, 6, 7, 8, 9, 10, 11, 12, 13, 14, 15, 16, 17, 18],
   [0, 14, 16, 18],
   [0, 4, 5, 10, 13, 17, 18],
   [0, 2, 8, 9, 11, 18],
   [0, 2, 5, 6, 8, 10, 15, 18],
   [0, 3, 6, 7, 8, 10, 13, 14, 18],
   [0, 2, 4, 5, 7, 8, 10, 11, 12, 13, 16, 18],
   [0, 3, 5, 6, 8, 15, 18],
   [0, 6, 11, 12, 13, 14, 18],
   [0, 6, 8, 10, 11, 12, 15, 18],
   [0, 3, 6, 7, 9, 12, 18],
   [0, 4, 5, 6, 9, 10, 12, 13, 18],
   [0, 5, 7, 8, 9, 10, 11, 13, 14, 15, 18],
   [0, 2, 4, 6, 7, 11, 16, 18],
   [0, 3, 4, 6, 11, 16, 18],
   [0, 7, 10, 12, 13, 14, 18],
   [0, 1, 4, 5, 15, 18],
   [0, 1, 18],
   [0, 1, 2, 3, 4, 5, 6, 7, 8, 9, 10, 11, 12, 13, 14, 15, 16, 17, 18]]

/-- A cave of nineteen by nineteen known squares without monsters or traps,
the walls as listed in `maze_walls`; every floor square touches a wall.  The
player stands at `(9, 9)` and `FLOW_MAX_DIST` is 11, so a plane of
`flow_table` has 88 entries. -/
def maze : World where
  FLOW_MAX_DIST := 11
  FEAT_CHASM := 1
  FEAT_RUBBLE := 2
  cur_map_hgt := 19
  cur_map_wid := 19
  in_bounds := fun y x => decide (0 ≤ y ∧ y < 19 ∧ 0 ≤ x ∧ x < 19)
  cave_mark := fun _ _ => true
  cave_wall_bold := fun y x =>
    decide (0 ≤ y ∧ 0 ≤ x) && (maze_walls.getD y.toNat []).contains x.toNat
  py := 9
  px := 9
  chp := 10
  mhp := 10

/-! ## Theorems -/

theorem c_abs_eq (a : Int) : c_abs a = |a| := by
  unfold c_abs
  rcases abs_cases a with ⟨h1, h2⟩ | ⟨h1, h2⟩ <;> split <;> omega

/-- C5: `grid_distance` is the Chebyshev distance `max(|y1 - y2|, |x1 - x2|)`
for all integer coordinates, and it is `0` on equal points. -/
theorem grid_distance_chebyshev (y1 x1 y2 x2 : Int) :
    grid_distance y1 x1 y2 x2 = max |y1 - y2| |x1 - x2|
      ∧ grid_distance y1 x1 y1 x1 = 0 := by
  constructor
  · unfold grid_distance
    simp only [c_abs_eq]
    rw [Int.tdiv_eq_ediv (by positivity) (by decide)]
    rcases abs_cases (y1 - y2) with ⟨h1, h2⟩ | ⟨h1, h2⟩ <;>
      rcases abs_cases (x1 - x2) with ⟨h3, h4⟩ | ⟨h3, h4⟩ <;>
      rcases abs_cases (|y1 - y2| - |x1 - x2|) with ⟨h5, h6⟩ | ⟨h5, h6⟩ <;>
      rcases max_cases |y1 - y2| |x1 - x2| with ⟨h7, h8⟩ | ⟨h7, h8⟩ <;> omega
  · simp [grid_distance, c_abs]

/-! ### Keypress queue -/

theorem keypress_push (q : KeyQueue) (k : Int) (hk : k ≠ 0)
    (hh : q.automaton_key_head < KEY_SIZE) (ht : q.automaton_key_tail < KEY_SIZE)
    (hp : q.pending + 1 < KEY_SIZE) :
    (automaton_keypress q k).2 = 0 ∧
    (automaton_keypress q k).1.automaton_key_head < KEY_SIZE ∧
    (automaton_keypress q k).1.automaton_key_tail = q.automaton_key_tail ∧
    (automaton_keypress q k).1.pending = q.pending + 1 ∧
    (automaton_keypress q k).1.contents = q.contents ++ [k] := by
  obtain ⟨buf, h, t⟩ := q
  simp only [KeyQueue.pending, KEY_SIZE] at *
  have hne : (if h + 1 = 8192 then 0 else h + 1) ≠ t := by split <;> omega
  have htk : (if t = 8192 then 0 else t) = t := by split <;> omega
  simp only [automaton_keypress, hk, if_false, hne, htk, KEY_SIZE, KeyQueue.contents,
    KeyQueue.pending]
  refine ⟨trivial, by split <;> omega, trivial, by split <;> omega, ?_⟩
  have hpe : ((if h + 1 = 8192 then 0 else h + 1) + 8192 - t) % 8192
      = (h + 8192 - t) % 8192 + 1 := by split <;> omega
  rw [hpe, List.range_succ, List.map_append]
  congr 1
  · apply List.map_congr_left
    intro i hi
    have hi2 := List.mem_range.mp hi
    have : (t + i) % 8192 ≠ h := by omega
    simp [this]
  · have : (t + (h + 8192 - t) % 8192) % 8192 = h := by omega
    simp [this]

theorem inkey_pop (q : KeyQueue) (k : Int) (rest : List Int)
    (hh : q.automaton_key_head < KEY_SIZE) (ht : q.automaton_key_tail < KEY_SIZE)
    (hc : q.contents = k :: rest) :
    (automaton_inkey q true).2 = k ∧
    (automaton_inkey q true).1.automaton_key_head = q.automaton_key_head ∧
    (automaton_inkey q true).1.automaton_key_tail < KEY_SIZE ∧
    (automaton_inkey q true).1.contents = rest := by
  obtain ⟨buf, h, t⟩ := q
  simp only [KeyQueue.contents, KeyQueue.pending, KEY_SIZE] at *
  have hpos : 0 < (h + 8192 - t) % 8192 := by
    by_contra h0
    have : (h + 8192 - t) % 8192 = 0 := by omega
    rw [this] at hc
    simp at hc
  have hne : h ≠ t := by omega
  obtain ⟨p, hp⟩ : ∃ p, (h + 8192 - t) % 8192 = p + 1 := ⟨(h + 8192 - t) % 8192 - 1, by omega⟩
  rw [hp, List.range_succ_eq_map, List.map_cons, List.map_map] at hc
  simp only [List.cons.injEq] at hc
  obtain ⟨hk, hrest⟩ := hc
  have ht0 : (t + 0) % 8192 = t := by omega
  rw [ht0] at hk
  simp only [automaton_inkey, hne, if_false, Bool.not_true, KEY_SIZE, KeyQueue.contents,
    KeyQueue.pending, Bool.false_eq_true]
  refine ⟨hk, trivial, by split <;> omega, ?_⟩
  have hpe : (h + 8192 - (if t + 1 = 8192 then 0 else t + 1)) % 8192 = p := by split <;> omega
  rw [hpe, ← hrest]
  apply List.map_congr_left
  intro i _
  have : ((if t + 1 = 8192 then 0 else t + 1) + i) % 8192 = (t + (i + 1)) % 8192 := by
    split <;> omega
  show buf (((if t + 1 = 8192 then 0 else t + 1) + i) % 8192) = _
  rw [this]
  rfl

theorem enqueue_seq_spec (ks : List Int) : ∀ (q : KeyQueue),
    q.automaton_key_head < KEY_SIZE → q.automaton_key_tail < KEY_SIZE →
    (∀ k ∈ ks, k ≠ 0) → q.pending + ks.length < KEY_SIZE →
    (enqueue_seq q ks).2 = List.replicate ks.length 0 ∧
    (enqueue_seq q ks).1.automaton_key_head < KEY_SIZE ∧
    (enqueue_seq q ks).1.automaton_key_tail = q.automaton_key_tail ∧
    (enqueue_seq q ks).1.contents = q.contents ++ ks := by
  induction ks with
  | nil => intro q hh _ _ _; simp [enqueue_seq, hh]
  | cons k ks ih =>
    intro q hh ht hnz hlen
    simp only [List.length_cons] at hlen
    obtain ⟨h1, h2, h3, h4, h5⟩ :=
      keypress_push q k (hnz k (List.mem_cons_self _ _)) hh ht (by omega)
    obtain ⟨i1, i2, i3, i4⟩ := ih (automaton_keypress q k).1 h2 (by rw [h3]; exact ht)
      (fun x hx => hnz x (List.mem_cons_of_mem _ hx)) (by rw [h4]; omega)
    simp only [enqueue_seq, List.length_cons, List.replicate_succ]
    refine ⟨by rw [h1, i1], i2, by rw [i3, h3], ?_⟩
    rw [i4, h5, List.append_assoc, List.singleton_append]

theorem dequeue_n_spec (ks : List Int) : ∀ (q : KeyQueue) (rest : List Int),
    q.automaton_key_head < KEY_SIZE → q.automaton_key_tail < KEY_SIZE →
    q.contents = ks ++ rest →
    (dequeue_n q ks.length).2 = ks ∧
    (dequeue_n q ks.length).1.automaton_key_head = q.automaton_key_head ∧
    (dequeue_n q ks.length).1.automaton_key_tail < KEY_SIZE ∧
    (dequeue_n q ks.length).1.contents = rest := by
  induction ks with
  | nil => intro q rest _ ht hc; simpa [dequeue_n, ht] using hc
  | cons k ks ih =>
    intro q rest hh ht hc
    obtain ⟨h1, h2, h3, h4⟩ := inkey_pop q k (ks ++ rest) hh ht (by simpa using hc)
    obtain ⟨i1, i2, i3, i4⟩ := ih (automaton_inkey q true).1 rest (by rw [h2]; exact hh) h3 h4
    simp only [dequeue_n, List.length_cons]
    exact ⟨by rw [h1, i1], by rw [i2, h2], i3, i4⟩

theorem contents_nil_iff (q : KeyQueue)
    (hh : q.automaton_key_head < KEY_SIZE) (ht : q.automaton_key_tail < KEY_SIZE) :
    q.contents = [] ↔ q.automaton_key_head = q.automaton_key_tail := by
  obtain ⟨buf, h, t⟩ := q
  simp only [KeyQueue.contents, KeyQueue.pending, KEY_SIZE, List.map_eq_nil_iff,
    List.range_eq_nil] at *
  omega

/-- C1: from any empty queue (head = tail at an index inside the buffer),
enqueueing at most `KEY_SIZE - 1` non-null tokens succeeds every time, the same
number of dequeues returns the tokens in insertion order, and the queue is
empty again afterwards. -/
theorem keyqueue_fifo (q : KeyQueue) (ks : List Int)
    (hempty : q.automaton_key_head = q.automaton_key_tail)
    (hidx : q.automaton_key_head < KEY_SIZE)
    (hnz : ∀ k ∈ ks, k ≠ 0) (hlen : ks.length ≤ KEY_SIZE - 1) :
    (enqueue_seq q ks).2 = List.replicate ks.length 0
      ∧ (dequeue_n (enqueue_seq q ks).1 ks.length).2 = ks
      ∧ (dequeue_n (enqueue_seq q ks).1 ks.length).1.automaton_key_head
          = (dequeue_n (enqueue_seq q ks).1 ks.length).1.automaton_key_tail := by
  have ht : q.automaton_key_tail < KEY_SIZE := hempty ▸ hidx
  have hc0 : q.contents = [] := (contents_nil_iff q hidx ht).mpr hempty
  have hp0 : q.pending = 0 := by
    simp only [KeyQueue.pending, KEY_SIZE] at *; omega
  obtain ⟨e1, e2, e3, e4⟩ := enqueue_seq_spec ks q hidx ht hnz
    (by rw [hp0]; simp only [KEY_SIZE] at *; omega)
  rw [hc0, List.nil_append] at e4
  obtain ⟨d1, d2, d3, d4⟩ := dequeue_n_spec ks (enqueue_seq q ks).1 [] e2
    (by rw [e3]; exact ht) (by simpa using e4)
  refine ⟨e1, d1, ?_⟩
  exact (contents_nil_iff _ (by rw [d2]; exact e2) d3).mp d4

/-- Witness for C1 at `wrap_queue` with the tokens `a`, `b`, `c`. -/
theorem keyqueue_fifo_witness :
    (enqueue_seq wrap_queue [97, 98, 99]).2 = List.replicate 3 0
      ∧ (dequeue_n (enqueue_seq wrap_queue [97, 98, 99]).1 3).2 = [97, 98, 99]
      ∧ (dequeue_n (enqueue_seq wrap_queue [97, 98, 99]).1 3).1.automaton_key_head
          = (dequeue_n (enqueue_seq wrap_queue [97, 98, 99]).1 3).1.automaton_key_tail :=
  keyqueue_fifo wrap_queue [97, 98, 99] rfl (by decide) (by decide) (by decide)

/-! ### Flow fields: simple invariants -/

theorem foldl_invariant {α β : Type} (P : β → Prop) (f : β → α → β) (l : List α) (b : β)
    (h0 : P b) (hstep : ∀ b a, P b → P (f b a)) : P (l.foldl f b) := by
  induction l generalizing b with
  | nil => exact h0
  | cons a l ih => exact ih (f b a) (hstep b a h0)

theorem flow_visit_invariant (W : World) (amap : Int → Int → Bool) (which : Flow) (cost : Nat)
    (y x : Int) (P : Grid → Prop)
    (hset : ∀ (g : Grid) (y2 x2 : Int) (v : Nat), P g → passable W amap (y2, x2) = true →
      W.FLOW_MAX_DIST ≤ g y2 x2 → P (g.set y2 x2 v))
    (st : Grid × List Cell) (d : Nat) (h : P st.1) :
    P (flow_visit W amap which cost y x st d).1 := by
  unfold flow_visit
  simp only []
  split_ifs with h1 h2 h3 h4 h5 h6
  all_goals first
    | exact h
    | (apply hset _ _ _ _ h
       · simp only [passable]
         simp_all
       · omega)

theorem flow_cell_invariant (W : World) (amap : Int → Int → Bool) (which : Flow) (cost : Nat)
    (P : Grid → Prop)
    (hset : ∀ (g : Grid) (y2 x2 : Int) (v : Nat), P g → passable W amap (y2, x2) = true →
      W.FLOW_MAX_DIST ≤ g y2 x2 → P (g.set y2 x2 v))
    (st : Grid × List Cell) (c : Cell) (h : P st.1) :
    P (flow_cell W amap which cost st c).1 := by
  unfold flow_cell
  split
  · exact h
  · exact foldl_invariant (fun s : Grid × List Cell => P s.1) _ _ _ h
      (fun b a hb => flow_visit_invariant W amap which cost c.1 c.2 P hset b a hb)

theorem flow_loop_invariant (W : World) (amap : Int → Int → Bool) (lost : Bool) (which : Flow)
    (P : Grid → Prop)
    (hset : ∀ (g : Grid) (y2 x2 : Int) (v : Nat), P g → passable W amap (y2, x2) = true →
      W.FLOW_MAX_DIST ≤ g y2 x2 → P (g.set y2 x2 v))
    (hbump : which = Flow.FLOW_AUTOMATON_SECURE → lost = true →
      ∀ g : Grid, P g → P (g.set W.py W.px (g W.py W.px + 1))) :
    ∀ (n cost : Nat) (g : Grid) (cur : List Cell), P g →
      P (flow_loop W amap lost which n cost g cur) := by
  intro n
  induction n with
  | zero => intro cost g cur h; exact h
  | succ n ih =>
    intro cost g cur h
    unfold flow_loop
    split
    · exact h
    · apply ih
      unfold flow_layer
      have hr : P (cur.foldl (flow_cell W amap which cost) (g, [])).1 :=
        foldl_invariant (fun s : Grid × List Cell => P s.1) _ _ _ h
          (fun b a hb => flow_cell_invariant W amap which cost P hset b a hb)
      simp only []
      split
      · rename_i hc
        exact hbump hc.1 hc.2 _ hr
      · exact hr

theorem update_flow_cost (W : World) (A : Agent) (which : Flow) (cy cx : Int) :
    (update_automaton_flow W A which cy cx).cave_cost which
      = flow_field W A.automaton_map (decide (W.chp < A.automaton_memory_chp 0)) which cy cx
          (A.cave_cost which) := by
  simp [update_automaton_flow]

theorem flow_field_reached (W : World) (amap : Int → Int → Bool) (lost : Bool) (which : Flow)
    (cy cx : Int) (g : Grid) (y x : Int)
    (hmap : 0 ≤ y ∧ y < W.cur_map_hgt ∧ 0 ≤ x ∧ x < W.cur_map_wid)
    (hne : (y, x) ≠ (cy, cx))
    (hcost : flow_field W amap lost which cy cx g y x < W.FLOW_MAX_DIST) :
    passable W amap (y, x) = true := by
  have key : (fun g : Grid => g y x < W.FLOW_MAX_DIST → passable W amap (y, x) = true)
      (flow_field W amap lost which cy cx g) := by
    unfold flow_field
    apply flow_loop_invariant W amap _ which
      (fun g : Grid => g y x < W.FLOW_MAX_DIST → passable W amap (y, x) = true)
    · intro g y2 x2 v hg hp _ hlt
      simp only [Grid.set] at hlt
      split at hlt
      · rename_i he
        rw [he.1, he.2]; exact hp
      · exact hg hlt
    · intro _ _ g hg hlt
      simp only [Grid.set] at hlt
      split at hlt
      · rename_i he
        apply hg
        rw [he.1, he.2]
        omega
      · exact hg hlt
    · intro hlt
      simp only [Grid.set, erase_flow] at hlt
      have hne2 : ¬ (y = cy ∧ x = cx) := fun he => hne (by rw [he.1, he.2])
      simp only [hne2, if_false, hmap, and_self, if_true] at hlt
      omega
  exact key hcost

/-- C4: after `update_automaton_flow`, every square of the current map other
than the origin whose cost is below `FLOW_MAX_DIST` is in bounds, known
(marked by the game or set in the automaton's map), and is not a wall, not a
chasm and not rubble. -/
theorem flow_reached_is_legal (W : World) (A : Agent) (which : Flow) (cy cx y x : Int)
    (hmap : 0 ≤ y ∧ y < W.cur_map_hgt ∧ 0 ≤ x ∧ x < W.cur_map_wid)
    (hne : (y, x) ≠ (cy, cx))
    (hcost : (update_automaton_flow W A which cy cx).cave_cost which y x < W.FLOW_MAX_DIST) :
    W.in_bounds y x = true
      ∧ (W.cave_mark y x = true ∨ A.automaton_map y x = true)
      ∧ W.cave_wall_bold y x = false
      ∧ W.cave_feat y x ≠ W.FEAT_CHASM
      ∧ W.cave_feat y x ≠ W.FEAT_RUBBLE := by
  rw [update_flow_cost] at hcost
  have hp := flow_field_reached W A.automaton_map _ which cy cx _ y x hmap hne hcost
  simp only [passable, known, Bool.and_eq_true, Bool.or_eq_true, Bool.not_eq_true',
    decide_eq_true_eq] at hp
  obtain ⟨⟨⟨⟨h1, h2⟩, h3⟩, h4⟩, h5⟩ := hp
  exact ⟨h1, h2, h3, h4, h5⟩

/-- C3 (amended): the cost recorded at the origin after `update_automaton_flow`
is 0 on the normal and combat channels, and on the secure channel whenever
the player's health has not dropped below the remembered value or the player
does not stand on the origin. -/
theorem flow_origin_zero (W : World) (A : Agent) (which : Flow) (cy cx : Int)
    (h : ¬ (which = Flow.FLOW_AUTOMATON_SECURE ∧ W.chp < A.automaton_memory_chp 0
      ∧ (W.py, W.px) = (cy, cx))) :
    (update_automaton_flow W A which cy cx).cave_cost which cy cx = 0 := by
  rw [update_flow_cost]
  unfold flow_field
  by_cases hM : W.FLOW_MAX_DIST = 0
  · rw [hM]
    simp [flow_loop, Grid.set]
  · apply flow_loop_invariant W A.automaton_map _ which (fun g : Grid => g cy cx = 0)
    · intro g y2 x2 v hg _ hge
      simp only [Grid.set]
      split
      · rename_i he
        rw [← he.1, ← he.2] at hge
        omega
      · exact hg
    · intro hs hl g hg
      simp only [Grid.set]
      split
      · rename_i he
        exfalso
        apply h
        refine ⟨hs, by simpa using hl, ?_⟩
        rw [he.1, he.2]
      · exact hg
    · simp [Grid.set]

/-- Witness for C4: the square `(0, 1)` of `room3` in the flow from `(1, 1)`. -/
theorem flow_reached_is_legal_witness :
    room3.in_bounds 0 1 = true
      ∧ (room3.cave_mark 0 1 = true ∨ hurt_agent.automaton_map 0 1 = true)
      ∧ room3.cave_wall_bold 0 1 = false
      ∧ room3.cave_feat 0 1 ≠ room3.FEAT_CHASM
      ∧ room3.cave_feat 0 1 ≠ room3.FEAT_RUBBLE :=
  flow_reached_is_legal room3 hurt_agent Flow.FLOW_AUTOMATON 1 1 0 1 (by decide) (by decide)
    (by decide)

/-- C3 (counterexample): on the secure channel, with the player standing on
the in-bounds origin `(1, 1)` of `room3` after a loss of health (5 now, 10
remembered), the cost recorded at the origin is 2, not 0. -/
theorem flow_origin_not_zero :
    room3.in_bounds 1 1 = true
      ∧ (update_automaton_flow room3 hurt_agent Flow.FLOW_AUTOMATON_SECURE 1 1).cave_cost
          Flow.FLOW_AUTOMATON_SECURE 1 1 = 2
      ∧ (update_automaton_flow room3 hurt_agent Flow.FLOW_AUTOMATON_SECURE 1 1).cave_cost
          Flow.FLOW_AUTOMATON_SECURE 1 1 ≠ 0 := by
  decide

/-- Witness for C3 (amended): the normal channel in `room3`. -/
theorem flow_origin_zero_witness :
    (update_automaton_flow room3 hurt_agent Flow.FLOW_AUTOMATON 1 1).cave_cost
      Flow.FLOW_AUTOMATON 1 1 = 0 :=
  flow_origin_zero room3 hurt_agent Flow.FLOW_AUTOMATON 1 1 (by decide)

/-! ### The arbiter -/

theorem run_guarded_of_target (ps : List Policy) (s : Agent × Cell) (h : s.2.1 ≠ 0) :
    run_guarded ps s = Except.ok s := by
  induction ps with
  | nil => rfl
  | cons p ps ih => simp only [run_guarded, h, if_false]; exact ih

theorem run_guarded_eq_first_acting (ps : List Policy) :
    ∀ s : Agent × Cell, s.2.1 = 0 → run_guarded ps s = first_acting ps s := by
  induction ps with
  | nil => intro s _; rfl
  | cons p ps ih =>
    intro s h
    simp only [run_guarded, first_acting, h, if_true]
    by_cases hc : (p s).1 = true
    · simp only [hc, if_true]
    · simp only [hc, if_false]
      by_cases ht : (p s).2.2.1 = 0
      · simp only [ht, ne_eq, not_true_eq_false, if_false]
        exact ih _ ht
      · simp only [ne_eq, ht, not_false_eq_true, if_true]
        exact run_guarded_of_target ps _ ht

theorem arbiter_eq_run_guarded (W : World) (A : Agent) :
    arbiter W A = run_guarded (policy_order W) (A, ((0 : Int), (0 : Int))) := by
  have ok_bind : ∀ (v : Agent × Cell) (f : Agent × Cell → Except Agent (Agent × Cell)),
      ((Except.ok v : Except Agent (Agent × Cell)) >>= f) = f v := fun _ _ => rfl
  have err_bind : ∀ (e : Agent) (f : Agent × Cell → Except Agent (Agent × Cell)),
      ((Except.error e : Except Agent (Agent × Cell)) >>= f) = Except.error e := fun _ _ => rfl
  have h1 : ∀ (p : Agent → Bool × Agent) (ps : List Policy),
      run_guarded (claiming p :: ps) = fun s => try_claim p s >>= run_guarded ps := by
    intro p ps
    funext s
    by_cases h : s.2.1 = 0
    · by_cases c : (p s.1).1 = true
      · simp only [run_guarded, try_claim, claiming, h, c, if_true, err_bind]
      · simp only [run_guarded, try_claim, claiming, h, c, if_true, if_false, ok_bind,
          Bool.false_eq_true]
    · simp only [run_guarded, try_claim, h, if_false, ok_bind]
  have h2 : ∀ (p : Agent → Cell → Agent × Cell) (ps : List Policy),
      run_guarded (targeting p :: ps) = fun s => try_target p s >>= run_guarded ps := by
    intro p ps
    funext s
    by_cases h : s.2.1 = 0
    · simp only [run_guarded, try_target, targeting, h, if_true, ok_bind, Bool.false_eq_true,
        if_false]
    · simp only [run_guarded, try_target, h, if_false, ok_bind]
  have h3 : ∀ (p : Agent → Cell → Bool × Agent × Cell) (ps : List Policy),
      run_guarded ((fun s => p s.1 s.2) :: ps)
        = fun s => try_claim_target p s >>= run_guarded ps := by
    intro p ps
    funext s
    by_cases h : s.2.1 = 0
    · by_cases c : (p s.1 s.2).1 = true
      · simp only [run_guarded, try_claim_target, h, c, if_true, err_bind]
      · simp only [run_guarded, try_claim_target, h, c, if_true, if_false, ok_bind,
          Bool.false_eq_true]
    · simp only [run_guarded, try_claim_target, h, if_false, ok_bind]
  have h4 : ∀ (ps : List Policy),
      run_guarded ((fun s => if W.depth < 3 + W.min_depth then
          targeting (find_stairs_down W) s else (false, s)) :: ps)
        = fun s => ((if s.2.1 = 0 ∧ W.depth < 3 + W.min_depth then
              Except.ok (find_stairs_down W s.1 s.2) else Except.ok s) >>= run_guarded ps) := by
    intro ps
    funext s
    by_cases h : s.2.1 = 0
    · by_cases c : W.depth < 3 + W.min_depth
      · simp only [run_guarded, targeting, h, c, if_true, and_self, ok_bind,
          Bool.false_eq_true, if_false]
      · simp only [run_guarded, h, c, if_true, if_false, and_false, ok_bind,
          Bool.false_eq_true]
    · simp only [run_guarded, h, if_false, false_and, ok_bind]
  have h5 : ∀ (p : Agent → Cell → Agent × Cell),
      (fun s => try_target p s >>= run_guarded []) = try_target p := by
    intro p
    funext s
    by_cases h : s.2.1 = 0
    · simp only [run_guarded, try_target, h, if_true, ok_bind]
    · simp only [run_guarded, try_target, h, if_false, ok_bind]
  unfold arbiter policy_order
  rw [h1 (allocate_experience W), h3 (fighting_strategy W), h1 (pickup_object W),
    h1 (renew_light W), h2 (rest W), h1 (eat_food W), h2 (find_object W),
    h2 (find_unexplored W), h1 (leave_level W), h4, h2 (find_secret_door W),
    h1 (leave_level W), h2 (find_stairs_up W), h5]

/-- C7: the policy statements of `automaton_turn` consult the policies in the
fixed order skill allocation, combat strategy, item pickup, light renewal,
rest, eating, object seeking, exploration, level transition, descend seeking,
secret-door seeking, level transition, ascend seeking; the first policy that
claims or leaves a non-zero target row decides the outcome and no later
policy is run. -/
theorem arbiter_first_acting (W : World) (A : Agent) :
    arbiter W A = first_acting (policy_order W) (A, ((0 : Int), (0 : Int))) := by
  rw [arbiter_eq_run_guarded]
  exact run_guarded_eq_first_acting _ _ rfl

/-! ### Combat strategy -/

/-- C8: with a torch or lantern out of fuel, or with the food counter below
1, `fighting_strategy` returns declined and leaves the agent (its keypress
queue included) and the target unchanged, whatever the monsters. -/
theorem fighting_strategy_refuses (W : World) (A : Agent) (t : Cell)
    (h : (((W.inventory W.INVEN_LITE).sval = W.SV_LIGHT_TORCH
          ∨ (W.inventory W.INVEN_LITE).sval = W.SV_LIGHT_LANTERN)
        ∧ (W.inventory W.INVEN_LITE).timeout = 0) ∨ W.food < 1) :
    fighting_strategy W A t = (false, A, t) := by
  unfold fighting_strategy
  have : no_light_or_starving W = true := by
    simp only [no_light_or_starving, decide_eq_true_eq]; exact h
  simp [this]

/-- Witness for C8: `room3` has a food counter of 0. -/
theorem fighting_strategy_refuses_witness :
    fighting_strategy room3 hurt_agent (0, 0) = (false, hurt_agent, (0, 0)) :=
  fighting_strategy_refuses room3 hurt_agent (0, 0) (Or.inr (by decide))

theorem foldl_invariant_mem {α β : Type} (P : β → Prop) (f : β → α → β) (l : List α) (b : β)
    (h0 : P b) (hstep : ∀ b a, a ∈ l → P b → P (f b a)) : P (l.foldl f b) := by
  induction l generalizing b with
  | nil => exact h0
  | cons a l ih =>
    exact ih (f b a) (hstep b a (List.mem_cons_self _ _) h0)
      (fun b x hx hb => hstep b x (List.mem_cons_of_mem _ hx) hb)

theorem mem_interior_cells (W : World) (c : Cell) :
    c ∈ interior_cells W ↔
      1 ≤ c.1 ∧ c.1 < W.cur_map_hgt - 1 ∧ 1 ≤ c.2 ∧ c.2 < W.cur_map_wid - 1 := by
  obtain ⟨y, x⟩ := c
  unfold interior_cells
  rw [List.mem_flatMap]
  constructor
  · rintro ⟨i, hi, hc⟩
    rw [List.mem_map] at hc
    obtain ⟨j, hj, he⟩ := hc
    rw [List.mem_range] at hi hj
    have h1 := congrArg Prod.fst he
    have h2 := congrArg Prod.snd he
    simp only [Int.ofNat_eq_coe] at h1 h2
    omega
  · intro hb
    simp only at hb
    refine ⟨(y - 1).toNat, List.mem_range.mpr (by omega), ?_⟩
    rw [List.mem_map]
    refine ⟨(x - 1).toNat, List.mem_range.mpr (by omega), ?_⟩
    have h1 : Int.ofNat (y - 1).toNat + 1 = y := by simp only [Int.ofNat_eq_coe]; omega
    have h2 : Int.ofNat (x - 1).toNat + 1 = x := by simp only [Int.ofNat_eq_coe]; omega
    rw [h1, h2]

theorem secure_step_cases (W : World) (A : Agent) (count comy comx : Int) (b : Best) (c : Cell) :
    secure_step W A count comy comx b c = b
      ∨ (passable W A.automaton_map c = true
          ∧ (secure_step W A count comy comx b c).ty = c.1
          ∧ (secure_step W A count comy comx b c).tx = c.2) := by
  unfold secure_step
  simp only []
  split_ifs with h1 h2 h3 h4 h5 h6
  all_goals first
    | exact Or.inl rfl
    | (right
       refine ⟨?_, rfl, rfl⟩
       simp only [passable]
       simp_all)

/-- C10: the target left by `find_secure_position` is either the target it
was given or an interior, in-bounds, known square that is not a wall, not a
chasm and not rubble (however the scanned squares compare on wall count and
distance); and when no interior square qualifies the target is unchanged. -/
theorem secure_position_is_passable (W : World) (A : Agent) (t : Cell) :
    ((find_secure_position W A t).2 = t
      ∨ (1 ≤ (find_secure_position W A t).2.1
          ∧ (find_secure_position W A t).2.1 < W.cur_map_hgt - 1
          ∧ 1 ≤ (find_secure_position W A t).2.2
          ∧ (find_secure_position W A t).2.2 < W.cur_map_wid - 1
          ∧ W.in_bounds (find_secure_position W A t).2.1 (find_secure_position W A t).2.2 = true
          ∧ (W.cave_mark (find_secure_position W A t).2.1 (find_secure_position W A t).2.2 = true
              ∨ A.automaton_map (find_secure_position W A t).2.1
                  (find_secure_position W A t).2.2 = true)
          ∧ W.cave_wall_bold (find_secure_position W A t).2.1
              (find_secure_position W A t).2.2 = false
          ∧ W.cave_feat (find_secure_position W A t).2.1 (find_secure_position W A t).2.2
              ≠ W.FEAT_CHASM
          ∧ W.cave_feat (find_secure_position W A t).2.1 (find_secure_position W A t).2.2
              ≠ W.FEAT_RUBBLE))
      ∧ ((∀ c ∈ interior_cells W, passable W A.automaton_map c = false) →
          (find_secure_position W A t).2 = t) := by
  simp only [find_secure_position, secure_scan]
  constructor
  · have key := foldl_invariant_mem
      (fun b : Best => (b.ty, b.tx) = t
        ∨ ((b.ty, b.tx) ∈ interior_cells W ∧ passable W A.automaton_map (b.ty, b.tx) = true))
      (secure_step W A (monster_sums W).2.2
        (if (monster_sums W).2.2 > 0 then Int.tdiv (monster_sums W).2.1 (monster_sums W).2.2
          else (monster_sums W).2.1)
        (if (monster_sums W).2.2 > 0 then Int.tdiv (monster_sums W).1 (monster_sums W).2.2
          else (monster_sums W).1))
      (interior_cells W) ⟨0, (W.FLOW_MAX_DIST : Int) - 1, t.1, t.2⟩ (Or.inl rfl)
      (by
        intro b c hc hb
        rcases secure_step_cases W A _ _ _ b c with h | ⟨hp, hy, hx⟩
        · rw [h]; exact hb
        · right
          rw [hy, hx]
          exact ⟨hc, hp⟩)
    rcases key with h | ⟨hm, hp⟩
    · exact Or.inl h
    · right
      have hb := (mem_interior_cells W _).mp hm
      simp only [passable, known, Bool.and_eq_true, Bool.or_eq_true, Bool.not_eq_true',
        decide_eq_true_eq] at hp
      obtain ⟨⟨⟨⟨h1, h2⟩, h3⟩, h4⟩, h5⟩ := hp
      exact ⟨hb.1, hb.2.1, hb.2.2.1, hb.2.2.2, h1, h2, h3, h4, h5⟩
  · intro hnone
    exact foldl_invariant_mem (fun b : Best => (b.ty, b.tx) = t) _ _ _ rfl
      (by
        intro b c hc hb
        rcases secure_step_cases W A _ _ _ b c with h | ⟨hp, _, _⟩
        · rw [h]; exact hb
        · rw [hnone c hc] at hp
          exact absurd hp (by decide))

/-! ### Direction resolution -/

theorem direction_step_inv (W : World) (A : Agent) (done : Nat → Prop) (b : Heading) (a : Nat)
    (hlt : ∀ j, done j → a < j) (h : DirInv W A done b) :
    DirInv W A (fun j => done j ∨ j = a) (direction_step W A b a) := by
  obtain ⟨h1, h2⟩ := h
  unfold direction_step
  by_cases hb : W.in_bounds (W.py + ddy_ddd a) (W.px + ddx_ddd a) = true
  · simp only [hb, Bool.not_true, Bool.false_eq_true, if_false]
    by_cases hd : flow_dist W A Flow.FLOW_AUTOMATON (W.py + ddy_ddd a) (W.px + ddx_ddd a)
        ≤ b.best_dist
    · simp only [hd, if_true]
      refine ⟨?_, fun _ => ⟨a, Or.inr rfl, hb, rfl, rfl, ?_⟩⟩
      · rintro j (hj | rfl) hbj
        · exact le_trans hd (h1 j hj hbj)
        · exact le_refl _
      · rintro j (hj | rfl) _ _
        · exact le_of_lt (hlt j hj)
        · exact le_refl _
    · simp only [hd, if_false]
      refine ⟨?_, fun hf => ?_⟩
      · rintro j (hj | rfl) hbj
        · exact h1 j hj hbj
        · omega
      · obtain ⟨i, hi, hbi, hdir, hdist, hmin⟩ := h2 hf
        refine ⟨i, Or.inl hi, hbi, hdir, hdist, ?_⟩
        rintro j (hj | rfl) hbj he
        · exact hmin j hj hbj he
        · omega
  · have hb2 : W.in_bounds (W.py + ddy_ddd a) (W.px + ddx_ddd a) = false := by
      simpa using hb
    simp only [hb2, Bool.not_false, if_true]
    refine ⟨?_, fun hf => ?_⟩
    · rintro j (hj | rfl) hbj
      · exact h1 j hj hbj
      · rw [hb2] at hbj; exact absurd hbj (by decide)
    · obtain ⟨i, hi, hbi, hdir, hdist, hmin⟩ := h2 hf
      refine ⟨i, Or.inl hi, hbi, hdir, hdist, ?_⟩
      rintro j (hj | rfl) hbj he
      · exact hmin j hj hbj he
      · rw [hb2] at hbj; exact absurd hbj (by decide)

theorem direction_fold_inv (W : World) (A : Agent) :
    ∀ (l : List Nat) (done : Nat → Prop) (b : Heading),
      (∀ a ∈ l, ∀ j, done j → a < j) → l.Pairwise (fun a c => c < a) → DirInv W A done b →
      DirInv W A (fun j => done j ∨ j ∈ l) (l.foldl (direction_step W A) b) := by
  intro l
  induction l with
  | nil =>
    intro done b _ _ h
    simpa using h
  | cons a l ih =>
    intro done b hlt hp h
    rw [List.pairwise_cons] at hp
    have hstep := direction_step_inv W A done b a (fun j hj => hlt a (List.mem_cons_self _ _) j hj) h
    have := ih (fun j => done j ∨ j = a) (direction_step W A b a)
      (by
        rintro c hc j (hj | rfl)
        · exact hlt c (List.mem_cons_of_mem _ hc) j hj
        · exact hp.1 c hc)
      hp.2 hstep
    have hiff : (fun j => (done j ∨ j = a) ∨ j ∈ l) = (fun j => done j ∨ j ∈ a :: l) := by
      funext j
      simp only [List.mem_cons, or_assoc]
    rw [hiff] at this
    exact this

theorem update_flow_other (W : World) (A : Agent) (which f : Flow) (cy cx : Int)
    (h : f ≠ which) : (update_automaton_flow W A which cy cx).cave_cost f = A.cave_cost f := by
  simp [update_automaton_flow, h]

theorem neighbour_index (dy dx : Int) (h : max |dy| |dx| = 1) :
    ∃ j, j ∈ [7, 6, 5, 4, 3, 2, 1, 0] ∧ ddy_ddd j = dy ∧ ddx_ddd j = dx
      ∧ ((dy = 0 ∨ dx = 0) → j < 4) := by
  have hy : dy = -1 ∨ dy = 0 ∨ dy = 1 := by
    rcases abs_cases dy with ⟨h1, _⟩ | ⟨h1, _⟩ <;> rcases abs_cases dx with ⟨h3, _⟩ | ⟨h3, _⟩ <;>
      rcases max_cases |dy| |dx| with ⟨h5, _⟩ | ⟨h5, _⟩ <;> omega
  have hx : dx = -1 ∨ dx = 0 ∨ dx = 1 := by
    rcases abs_cases dy with ⟨h1, _⟩ | ⟨h1, _⟩ <;> rcases abs_cases dx with ⟨h3, _⟩ | ⟨h3, _⟩ <;>
      rcases max_cases |dy| |dx| with ⟨h5, _⟩ | ⟨h5, _⟩ <;> omega
  rcases hy with rfl | rfl | rfl <;> rcases hx with rfl | rfl | rfl
  · exact ⟨7, by decide, rfl, rfl, by decide⟩
  · exact ⟨1, by decide, rfl, rfl, by decide⟩
  · exact ⟨6, by decide, rfl, rfl, by decide⟩
  · exact ⟨3, by decide, rfl, rfl, by decide⟩
  · exact absurd h (by decide)
  · exact ⟨2, by decide, rfl, rfl, by decide⟩
  · exact ⟨5, by decide, rfl, rfl, by decide⟩
  · exact ⟨0, by decide, rfl, rfl, by decide⟩
  · exact ⟨4, by decide, rfl, rfl, by decide⟩

theorem direction_tables (i : Nat) (hi : i ∈ [7, 6, 5, 4, 3, 2, 1, 0]) :
    ddy (ddd i) = ddy_ddd i ∧ ddx (ddd i) = ddx_ddd i
      ∧ max |ddy_ddd i| |ddx_ddd i| = 1
      ∧ (i < 4 → (ddy_ddd i = 0 ∨ ddx_ddd i = 0)) := by
  simp only [List.mem_cons, List.mem_singleton, List.not_mem_nil, or_false] at hi
  rcases hi with rfl | rfl | rfl | rfl | rfl | rfl | rfl | rfl <;> decide

/-- C6: when the direction loop of `automaton_turn` finds a direction towards
a target away from the player, the square it steps to is an in-bounds
neighbour of the player whose normal-channel cost in the field recomputed
from the target is minimal among the in-bounds neighbours, and it is an
orthogonal neighbour whenever an orthogonal in-bounds neighbour attains
that minimum. -/
theorem direction_is_minimal (W : World) (A : Agent) (ty tx : Int)
    (hfound : (head_for_target W A ty tx).2.found_direction = true) :
    max |W.py + ddy (head_for_target W A ty tx).2.best_dir - W.py|
        |W.px + ddx (head_for_target W A ty tx).2.best_dir - W.px| = 1
      ∧ W.in_bounds (W.py + ddy (head_for_target W A ty tx).2.best_dir)
          (W.px + ddx (head_for_target W A ty tx).2.best_dir) = true
      ∧ (∀ y x : Int, max |y - W.py| |x - W.px| = 1 → W.in_bounds y x = true →
          (update_automaton_flow W A Flow.FLOW_AUTOMATON ty tx).cave_cost Flow.FLOW_AUTOMATON
              (W.py + ddy (head_for_target W A ty tx).2.best_dir)
              (W.px + ddx (head_for_target W A ty tx).2.best_dir)
            ≤ (update_automaton_flow W A Flow.FLOW_AUTOMATON ty tx).cave_cost
                Flow.FLOW_AUTOMATON y x)
      ∧ (∀ y x : Int, max |y - W.py| |x - W.px| = 1 → W.in_bounds y x = true →
          (y = W.py ∨ x = W.px) →
          (update_automaton_flow W A Flow.FLOW_AUTOMATON ty tx).cave_cost Flow.FLOW_AUTOMATON y x
            = (update_automaton_flow W A Flow.FLOW_AUTOMATON ty tx).cave_cost
                Flow.FLOW_AUTOMATON
                (W.py + ddy (head_for_target W A ty tx).2.best_dir)
                (W.px + ddx (head_for_target W A ty tx).2.best_dir) →
          (W.py + ddy (head_for_target W A ty tx).2.best_dir = W.py
            ∨ W.px + ddx (head_for_target W A ty tx).2.best_dir = W.px)) := by
  have hcost : (head_for_target W A ty tx).1.cave_cost Flow.FLOW_AUTOMATON
      = (update_automaton_flow W A Flow.FLOW_AUTOMATON ty tx).cave_cost Flow.FLOW_AUTOMATON := by
    simp only [head_for_target]
    rw [update_flow_other _ _ _ _ _ _ (by decide), update_flow_other _ _ _ _ _ _ (by decide)]
  have hdist : ∀ y x, W.in_bounds y x = true →
      flow_dist W (head_for_target W A ty tx).1 Flow.FLOW_AUTOMATON y x
        = (((update_automaton_flow W A Flow.FLOW_AUTOMATON ty tx).cave_cost
            Flow.FLOW_AUTOMATON y x : Nat) : Int) := by
    intro y x hb
    simp only [flow_dist, hb, if_true, hcost]
  have hinv := direction_fold_inv W (head_for_target W A ty tx).1 [7, 6, 5, 4, 3, 2, 1, 0]
    (fun _ => False) ⟨false, (W.FLOW_MAX_DIST : Int) - 1, 5⟩
    (fun _ _ _ hj => hj.elim) (by decide)
    ⟨fun _ hj => hj.elim, fun hf => absurd hf Bool.false_ne_true⟩
  have hfd : (head_for_target W A ty tx).2
      = [7, 6, 5, 4, 3, 2, 1, 0].foldl (direction_step W (head_for_target W A ty tx).1)
          ⟨false, (W.FLOW_MAX_DIST : Int) - 1, 5⟩ := rfl
  rw [← hfd] at hinv
  obtain ⟨hle, hsel⟩ := hinv
  obtain ⟨i, hi, hbi, hdir, hbest, hmin⟩ := hsel hfound
  have hi2 : i ∈ [7, 6, 5, 4, 3, 2, 1, 0] := by simpa using hi
  obtain ⟨t1, t2, t3, t4⟩ := direction_tables i hi2
  rw [hdir, t1, t2]
  have hnb : ∀ y x : Int, max |y - W.py| |x - W.px| = 1 →
      ∃ j, j ∈ [7, 6, 5, 4, 3, 2, 1, 0] ∧ y = W.py + ddy_ddd j ∧ x = W.px + ddx_ddd j
        ∧ ((y = W.py ∨ x = W.px) → j < 4) := by
    intro y x hyx
    obtain ⟨j, hj, e1, e2, e3⟩ := neighbour_index (y - W.py) (x - W.px) hyx
    exact ⟨j, hj, by omega, by omega, fun h => e3 (by omega)⟩
  refine ⟨?_, hbi, ?_, ?_⟩
  · simpa using t3
  · intro y x hyx hb
    obtain ⟨j, hj, rfl, rfl, _⟩ := hnb y x hyx
    have := hle j (Or.inr hj) hb
    rw [hbest, hdist _ _ hb, hdist _ _ hbi] at this
    exact_mod_cast this
  · intro y x hyx hb horth he
    obtain ⟨j, hj, rfl, rfl, hj4⟩ := hnb y x hyx
    have hij : i ≤ j := by
      apply hmin j (Or.inr hj) hb
      rw [hbest, hdist _ _ hb, hdist _ _ hbi, he]
    have := t4 (lt_of_le_of_lt hij (hj4 horth))
    omega

/-- Witness for C6: in `room3` the direction loop towards the target `(0, 1)`
finds a direction. -/
theorem direction_is_minimal_witness :
    max |room3.py + ddy (head_for_target room3 hurt_agent 0 1).2.best_dir - room3.py|
        |room3.px + ddx (head_for_target room3 hurt_agent 0 1).2.best_dir - room3.px| = 1
      ∧ room3.in_bounds (room3.py + ddy (head_for_target room3 hurt_agent 0 1).2.best_dir)
          (room3.px + ddx (head_for_target room3 hurt_agent 0 1).2.best_dir) = true
      ∧ (∀ y x : Int, max |y - room3.py| |x - room3.px| = 1 → room3.in_bounds y x = true →
          (update_automaton_flow room3 hurt_agent Flow.FLOW_AUTOMATON 0 1).cave_cost
              Flow.FLOW_AUTOMATON
              (room3.py + ddy (head_for_target room3 hurt_agent 0 1).2.best_dir)
              (room3.px + ddx (head_for_target room3 hurt_agent 0 1).2.best_dir)
            ≤ (update_automaton_flow room3 hurt_agent Flow.FLOW_AUTOMATON 0 1).cave_cost
                Flow.FLOW_AUTOMATON y x)
      ∧ (∀ y x : Int, max |y - room3.py| |x - room3.px| = 1 → room3.in_bounds y x = true →
          (y = room3.py ∨ x = room3.px) →
          (update_automaton_flow room3 hurt_agent Flow.FLOW_AUTOMATON 0 1).cave_cost
              Flow.FLOW_AUTOMATON y x
            = (update_automaton_flow room3 hurt_agent Flow.FLOW_AUTOMATON 0 1).cave_cost
                Flow.FLOW_AUTOMATON
                (room3.py + ddy (head_for_target room3 hurt_agent 0 1).2.best_dir)
                (room3.px + ddx (head_for_target room3 hurt_agent 0 1).2.best_dir) →
          (room3.py + ddy (head_for_target room3 hurt_agent 0 1).2.best_dir = room3.py
            ∨ room3.px + ddx (head_for_target room3 hurt_agent 0 1).2.best_dir = room3.px)) :=
  direction_is_minimal room3 hurt_agent 0 1 (by decide)

/-! ### Flow fields: the cost of a reached square is the minimum path cost -/

theorem flow_visit_eq (W : World) (amap : Int → Int → Bool) (which : Flow) (cost : Nat)
    (c : Cell) (st : Grid × List Cell) (d : Nat) :
    flow_visit W amap which cost c.1 c.2 st d =
      if passable W amap (nbr c d) = true ∧ W.FLOW_MAX_DIST ≤ st.1.at (nbr c d) then
        (st.1.set (nbr c d).1 (nbr c d).2
            (cost + extra_cost W which (decide (cost > 1)) (nbr c d).1 (nbr c d).2),
          st.2 ++ [nbr c d])
      else st := by
  unfold flow_visit
  simp only [nbr, passable, Grid.at]
  split_ifs <;> simp_all
  all_goals omega

theorem grandchild_cost_mono (W : World) (which : Flow) (y3 x3 : Int) :
    grandchild_cost W which false y3 x3 ≤ grandchild_cost W which true y3 x3 := by
  unfold grandchild_cost
  split
  · simp only [Bool.and_false, Bool.and_true, Bool.false_eq_true, if_false]
    split_ifs <;> omega
  · exact le_refl _

theorem list_sum_map_le {α : Type} (l : List α) (f g : α → Nat) (h : ∀ a, f a ≤ g a) :
    (l.map f).sum ≤ (l.map g).sum := by
  induction l with
  | nil => simp
  | cons a l ih =>
    simp only [List.map_cons, List.sum_cons]
    have := h a
    omega

theorem extra_cost_mono (W : World) (which : Flow) (y2 x2 : Int) :
    extra_cost W which false y2 x2 ≤ extra_cost W which true y2 x2 := by
  unfold extra_cost
  have hs := list_sum_map_le (List.range 8)
    (fun d2 => grandchild_cost W which false (byte_add y2 (ddy_ddd d2)) (byte_add x2 (ddx_ddd d2)))
    (fun d2 => grandchild_cost W which true (byte_add y2 (ddy_ddd d2)) (byte_add x2 (ddx_ddd d2)))
    (fun d2 => grandchild_cost_mono W which _ _)
  simp only [Bool.and_false, Bool.and_true, Bool.false_eq_true, if_false]
  split_ifs <;> omega

theorem ddd_offsets (d : Nat) (hd : d < 8) :
    max |ddy_ddd d| |ddx_ddd d| = 1 ∧ -1 ≤ ddy_ddd d ∧ ddy_ddd d ≤ 1
      ∧ -1 ≤ ddx_ddd d ∧ ddx_ddd d ≤ 1 := by
  have : d = 0 ∨ d = 1 ∨ d = 2 ∨ d = 3 ∨ d = 4 ∨ d = 5 ∨ d = 6 ∨ d = 7 := by omega
  rcases this with rfl | rfl | rfl | rfl | rfl | rfl | rfl | rfl <;> decide

/-- Under well-formedness an in-bounds child is reached without wrap-around. -/
theorem nbr_in_bounds (W : World) (hwf : W.WellFormed) (p : Cell) (d : Nat) (hd : d < 8)
    (hp : W.in_bounds p.1 p.2 = true) (hn : W.in_bounds (nbr p d).1 (nbr p d).2 = true) :
    nbr p d = (p.1 + ddy_ddd d, p.2 + ddx_ddd d) ∧ adjacent8 p (nbr p d) = true := by
  obtain ⟨h1, h2, h3, h4, h5⟩ := ddd_offsets d hd
  have bp := hwf.in_bounds_map _ _ hp
  have bn := hwf.in_bounds_map _ _ hn
  have hh := hwf.hgt_le
  have hw := hwf.wid_le
  simp only [nbr, byte_add] at bn
  have e1 : (p.1 + ddy_ddd d) % 256 = p.1 + ddy_ddd d := by omega
  have e2 : (p.2 + ddx_ddd d) % 256 = p.2 + ddx_ddd d := by omega
  have e : nbr p d = (p.1 + ddy_ddd d, p.2 + ddx_ddd d) := by
    simp only [nbr, byte_add, e1, e2]
  refine ⟨e, ?_⟩
  rw [e]
  simp only [adjacent8, decide_eq_true_eq]
  have a1 : p.1 - (p.1 + ddy_ddd d) = -ddy_ddd d := by omega
  have a2 : p.2 - (p.2 + ddx_ddd d) = -ddx_ddd d := by omega
  rw [a1, a2, abs_neg, abs_neg]
  exact h1

theorem adjacent8_nbr (W : World) (hwf : W.WellFormed) (p n : Cell)
    (hp : W.in_bounds p.1 p.2 = true) (hn : W.in_bounds n.1 n.2 = true)
    (ha : adjacent8 p n = true) : ∃ d, d < 8 ∧ n = nbr p d := by
  simp only [adjacent8, decide_eq_true_eq] at ha
  have ha2 : max |n.1 - p.1| |n.2 - p.2| = 1 := by
    rw [abs_sub_comm n.1, abs_sub_comm n.2]; exact ha
  obtain ⟨j, hj, e1, e2, _⟩ := neighbour_index (n.1 - p.1) (n.2 - p.2) ha2
  have hj8 : j < 8 := by
    simp only [List.mem_cons, List.mem_singleton, List.not_mem_nil, or_false] at hj
    omega
  refine ⟨j, hj8, ?_⟩
  have bp := hwf.in_bounds_map _ _ hp
  have bn := hwf.in_bounds_map _ _ hn
  have hh := hwf.hgt_le
  have hw := hwf.wid_le
  have e3 : (p.1 + ddy_ddd j) % 256 = n.1 := by omega
  have e4 : (p.2 + ddx_ddd j) % 256 = n.2 := by omega
  simp only [nbr, byte_add, e3, e4]

theorem grid_set_at (g : Grid) (n : Cell) (v : Nat) (m : Cell) :
    (g.set n.1 n.2 v).at m = if m = n then v else g.at m := by
  simp only [Grid.set, Grid.at]
  by_cases h : m = n
  · subst h; simp
  · have : ¬ (m.1 = n.1 ∧ m.2 = n.2) := fun hh => h (Prod.ext hh.1 hh.2)
    simp [h, this]

theorem doneAt_stable (W : World) (amap : Int → Int → Bool) (which : Flow) (o : Cell) (g : Grid)
    (q : Cell) (d : Nat) (n : Cell) (v : Nat)
    (hq : g.at q < W.FLOW_MAX_DIST) (hn : W.FLOW_MAX_DIST ≤ g.at n)
    (h : DoneAt W amap which o g q d) : DoneAt W amap which o (g.set n.1 n.2 v) q d := by
  intro hp hno
  have hqn : q ≠ n := by rintro rfl; omega
  rw [grid_set_at, grid_set_at, if_neg hqn]
  by_cases hm : nbr q d = n
  · rw [if_pos hm]
    rcases h hp hno with ⟨h1, _⟩ | h2
    · rw [hm] at h1; omega
    · exact Or.inr h2
  · rw [if_neg hm]
    exact h hp hno


theorem passable_in_bounds (W : World) (amap : Int → Int → Bool) (n : Cell)
    (h : passable W amap n = true) : W.in_bounds n.1 n.2 = true := by
  simp only [passable, Bool.and_eq_true] at h
  exact h.1.1.1.1

/-- The value stored for a new child agrees with the entry cost of the spec,
or both overshoot `FLOW_MAX_DIST`. -/
theorem assigned_value (W : World) (amap : Int → Int → Bool) (which : Flow) (o : Cell)
    (hwf : W.WellFormed) (ho : W.in_bounds o.1 o.2 = true)
    (c : Nat) (g : Grid) (f : Cell) (rest next : List Cell)
    (inv : FlowInv W amap which o c g (f :: rest) next)
    (hc1 : 1 ≤ c) (hcM : c ≤ W.FLOW_MAX_DIST) (hf : g.at f + 1 = c)
    (d : Nat) (hd : d < 8) (hp : passable W amap (nbr f d) = true)
    (hM : W.FLOW_MAX_DIST ≤ g.at (nbr f d)) :
    c + extra_cost W which (decide (c > 1)) (nbr f d).1 (nbr f d).2
        = g.at f + entry_cost W which o (nbr f d)
      ∨ (W.FLOW_MAX_DIST ≤ c + extra_cost W which (decide (c > 1)) (nbr f d).1 (nbr f d).2
          ∧ W.FLOW_MAX_DIST ≤ g.at f + entry_cost W which o (nbr f d)) := by
  have hfb : W.in_bounds f.1 f.2 = true := inv.cur_ok f (List.mem_cons_self _ _)
  have hnb := passable_in_bounds W amap _ hp
  have ho0 := inv.origin0
  have hno : nbr f d ≠ o := by
    intro h; rw [h] at hM; omega
  by_cases hc : c = 1
  · subst hc
    have hfo : f = o := by
      by_contra hne
      obtain ⟨_, p, d', _, _, _, he⟩ := inv.reached f hfb hne (by omega)
      simp only [entry_cost] at he
      omega
    subst hfo
    have hadj := (nbr_in_bounds W hwf f d hd hfb hnb).2
    left
    simp only [entry_cost, hadj, Bool.not_true, gt_iff_lt, lt_self_iff_false, decide_False]
    omega
  · have hgt : decide (c > 1) = true := by simp only [decide_eq_true_eq]; omega
    rw [hgt]
    cases hadj : adjacent8 o (nbr f d)
    · left
      simp only [entry_cost, hadj, Bool.not_false]
      omega
    · right
      obtain ⟨d', hd', hn'⟩ := adjacent8_nbr W hwf o (nbr f d) ho hnb hadj
      have hdone := (inv.pending o ho (by omega)).1 (by omega) d' hd'
      have hmono := extra_cost_mono W which (nbr f d).1 (nbr f d).2
      unfold DoneAt at hdone
      rw [← hn'] at hdone
      rcases hdone hp hno with ⟨h1, _⟩ | h2
      · omega
      · simp only [entry_cost, hadj, Bool.not_true] at h2 ⊢
        omega

theorem flow_assign_inv (W : World) (amap : Int → Int → Bool) (which : Flow) (o : Cell)
    (hwf : W.WellFormed) (ho : W.in_bounds o.1 o.2 = true)
    (c : Nat) (g : Grid) (f : Cell) (rest next : List Cell)
    (inv : FlowInv W amap which o c g (f :: rest) next)
    (hc1 : 1 ≤ c) (hcM : c ≤ W.FLOW_MAX_DIST) (hf : g.at f + 1 = c)
    (d : Nat) (hd : d < 8) (hp : passable W amap (nbr f d) = true)
    (hM : W.FLOW_MAX_DIST ≤ g.at (nbr f d)) :
    FlowInv W amap which o c
        (g.set (nbr f d).1 (nbr f d).2
          (c + extra_cost W which (decide (c > 1)) (nbr f d).1 (nbr f d).2))
        (f :: rest) (next ++ [nbr f d])
      ∧ DoneAt W amap which o
        (g.set (nbr f d).1 (nbr f d).2
          (c + extra_cost W which (decide (c > 1)) (nbr f d).1 (nbr f d).2)) f d := by
  have hval := assigned_value W amap which o hwf ho c g f rest next inv hc1 hcM hf d hd hp hM
  have hfb : W.in_bounds f.1 f.2 = true := inv.cur_ok f (List.mem_cons_self _ _)
  have hnb := passable_in_bounds W amap _ hp
  have ho0 := inv.origin0
  have hno : nbr f d ≠ o := by
    intro h; rw [h] at hM; omega
  have hon : o ≠ nbr f d := fun h => hno h.symm
  have hfn : f ≠ nbr f d := by
    intro h; rw [← h] at hM; omega
  generalize hv : c + extra_cost W which (decide (c > 1)) (nbr f d).1 (nbr f d).2 = v at hval ⊢
  generalize hn : nbr f d = n at *
  have hvc : c ≤ v := by omega
  refine ⟨⟨?_, ?_, ?_, ?_, inv.cur_ok, ?_, ?_, ?_⟩, ?_⟩
  · rw [grid_set_at, if_neg hon]; exact ho0
  · intro m hmb hmo hm
    rw [grid_set_at] at hm
    by_cases hmn : m = n
    · subst hmn
      rw [if_pos rfl] at hm
      refine ⟨hp, f, d, hfb, hd, hn.symm, ?_⟩
      rw [grid_set_at, grid_set_at, if_neg hfn, if_pos rfl]
      omega
    · rw [if_neg hmn] at hm
      obtain ⟨h1, p, d', hpb, hd', hmp, he⟩ := inv.reached m hmb hmo hm
      refine ⟨h1, p, d', hpb, hd', hmp, ?_⟩
      have hpn : p ≠ n := by rintro rfl; omega
      rw [grid_set_at, grid_set_at, if_neg hpn, if_neg hmn]
      exact he
  · intro f' hf'
    rw [grid_set_at]
    split
    · omega
    · exact inv.cur_ge f' hf'
  · intro f' hf'
    rw [grid_set_at]
    split
    · omega
    · rcases List.mem_append.mp hf' with h | h
      · exact inv.next_ge f' h
      · simp only [List.mem_singleton] at h; contradiction
  · intro f' hf'
    rcases List.mem_append.mp hf' with h | h
    · exact inv.next_ok f' h
    · simp only [List.mem_singleton] at h; rw [h]; exact hnb
  · intro q hqb hq
    rw [grid_set_at] at hq
    by_cases hqn : q = n
    · subst hqn
      rw [if_pos rfl] at hq
      rw [grid_set_at, if_pos rfl]
      refine ⟨fun h => by omega, fun h => by omega, fun _ => Or.inr ?_⟩
      exact List.mem_append.mpr (Or.inr (List.mem_singleton.mpr rfl))
    · rw [if_neg hqn] at hq
      rw [grid_set_at, if_neg hqn]
      obtain ⟨p1, p2, p3⟩ := inv.pending q hqb hq
      refine ⟨fun h d' hd' => doneAt_stable W amap which o g q d' n v hq hM (p1 h d' hd'),
        fun h => ?_, fun h => ?_⟩
      · rcases p2 h with h' | h'
        · exact Or.inl fun d' hd' => doneAt_stable W amap which o g q d' n v hq hM (h' d' hd')
        · exact Or.inr h'
      · rcases p3 h with h' | h'
        · exact Or.inl h'
        · exact Or.inr (List.mem_append.mpr (Or.inl h'))
  · intro m hmb hmo hm
    rw [grid_set_at] at hm ⊢
    by_cases hmn : m = n
    · subst hmn
      rw [if_pos rfl] at hm ⊢
      omega
    · rw [if_neg hmn] at hm ⊢
      exact inv.bound m hmb hmo hm
  · intro _ _
    rw [hn, grid_set_at, grid_set_at, if_pos rfl, if_neg hfn]
    omega

theorem foldl_invariant_prefix {α β : Type} (P : List α → β → Prop) (f : β → α → β) :
    ∀ (l done : List α) (b : β), P done b →
      (∀ done b a, a ∈ l → P done b → P (done ++ [a]) (f b a)) →
      P (done ++ l) (l.foldl f b) := by
  intro l
  induction l with
  | nil => intro done b h _; simpa using h
  | cons a l ih =>
    intro done b h hstep
    have h1 := hstep done b a (List.mem_cons_self _ _) h
    have h2 := ih (done ++ [a]) (f b a) h1
      (fun done b x hx hP => hstep done b x (List.mem_cons_of_mem _ hx) hP)
    simpa using h2

theorem foldl_invariant_suffix {α β : Type} (P : List α → β → Prop) (f : β → α → β) :
    ∀ (l : List α) (b : β), P l b →
      (∀ a rest b, P (a :: rest) b → P rest (f b a)) → P [] (l.foldl f b) := by
  intro l
  induction l with
  | nil => intro b h _; exact h
  | cons a l ih =>
    intro b h hstep
    exact ih (f b a) (hstep a l b h) hstep

theorem flow_visit_inv (W : World) (amap : Int → Int → Bool) (which : Flow) (o : Cell)
    (hwf : W.WellFormed) (ho : W.in_bounds o.1 o.2 = true)
    (c : Nat) (f : Cell) (rest : List Cell) (st : Grid × List Cell)
    (inv : FlowInv W amap which o c st.1 (f :: rest) st.2)
    (hc1 : 1 ≤ c) (hcM : c ≤ W.FLOW_MAX_DIST) (hf : st.1.at f + 1 = c)
    (d : Nat) (hd : d < 8) :
    FlowInv W amap which o c (flow_visit W amap which c f.1 f.2 st d).1 (f :: rest)
        (flow_visit W amap which c f.1 f.2 st d).2
      ∧ (flow_visit W amap which c f.1 f.2 st d).1.at f + 1 = c
      ∧ DoneAt W amap which o (flow_visit W amap which c f.1 f.2 st d).1 f d
      ∧ ∀ d', DoneAt W amap which o st.1 f d' →
          DoneAt W amap which o (flow_visit W amap which c f.1 f.2 st d).1 f d' := by
  rw [flow_visit_eq]
  by_cases hcond : passable W amap (nbr f d) = true ∧ W.FLOW_MAX_DIST ≤ st.1.at (nbr f d)
  · rw [if_pos hcond]
    obtain ⟨hp, hM⟩ := hcond
    obtain ⟨h1, h2⟩ := flow_assign_inv W amap which o hwf ho c st.1 f rest st.2 inv hc1 hcM hf
      d hd hp hM
    have hfn : f ≠ nbr f d := by
      intro h; rw [← h] at hM; omega
    refine ⟨h1, ?_, h2, ?_⟩
    · show (st.1.set _ _ _).at f + 1 = c
      rw [grid_set_at, if_neg hfn]; exact hf
    · intro d' hd'
      exact doneAt_stable W amap which o st.1 f d' (nbr f d) _ (by omega) hM hd'
  · rw [if_neg hcond]
    refine ⟨inv, hf, ?_, fun _ h => h⟩
    intro hp hno
    have hlt : st.1.at (nbr f d) < W.FLOW_MAX_DIST := by
      by_contra h
      exact hcond ⟨hp, by omega⟩
    have hb := inv.bound (nbr f d) (passable_in_bounds W amap _ hp) hno hlt
    left
    exact ⟨hlt, by omega⟩

theorem flow_cell_inv (W : World) (amap : Int → Int → Bool) (which : Flow) (o : Cell)
    (hwf : W.WellFormed) (ho : W.in_bounds o.1 o.2 = true)
    (c : Nat) (f : Cell) (rest : List Cell) (st : Grid × List Cell)
    (inv : FlowInv W amap which o c st.1 (f :: rest) st.2)
    (hc1 : 1 ≤ c) (hcM : c ≤ W.FLOW_MAX_DIST) :
    FlowInv W amap which o c (flow_cell W amap which c st f).1 rest
      (flow_cell W amap which c st f).2 := by
  unfold flow_cell
  by_cases hge : st.1 f.1 f.2 ≥ c
  · rw [if_pos hge]
    have hge2 : c ≤ st.1.at f := hge
    show FlowInv W amap which o c st.1 rest (st.2 ++ [f])
    refine ⟨inv.origin0, inv.reached, fun f' hf' => inv.cur_ge f' (List.mem_cons_of_mem _ hf'),
      ?_, fun f' hf' => inv.cur_ok f' (List.mem_cons_of_mem _ hf'), ?_, ?_, inv.bound⟩
    · intro f' hf'
      rcases List.mem_append.mp hf' with h | h
      · exact inv.next_ge f' h
      · simp only [List.mem_singleton] at h; rw [h]; exact hge2
    · intro f' hf'
      rcases List.mem_append.mp hf' with h | h
      · exact inv.next_ok f' h
      · simp only [List.mem_singleton] at h; rw [h]
        exact inv.cur_ok f (List.mem_cons_self _ _)
    · intro q hqb hq
      obtain ⟨p1, p2, p3⟩ := inv.pending q hqb hq
      refine ⟨p1, fun h => ?_, fun h => ?_⟩
      · rcases p2 h with h' | h'
        · exact Or.inl h'
        · rcases List.mem_cons.mp h' with h'' | h''
          · subst h''; omega
          · exact Or.inr h''
      · rcases p3 h with h' | h'
        · rcases List.mem_cons.mp h' with h'' | h''
          · subst h''
            exact Or.inr (List.mem_append.mpr (Or.inr (List.mem_singleton.mpr rfl)))
          · exact Or.inl h''
        · exact Or.inr (List.mem_append.mpr (Or.inl h'))
  · rw [if_neg hge]
    have hf : st.1.at f + 1 = c := by
      have h1 := inv.cur_ge f (List.mem_cons_self _ _)
      have h2 : st.1.at f < c := by
        have : ¬ c ≤ st.1.at f := hge
        omega
      omega
    have key := foldl_invariant_prefix
      (fun (done : List Nat) (s : Grid × List Cell) =>
        FlowInv W amap which o c s.1 (f :: rest) s.2 ∧ s.1.at f + 1 = c
          ∧ ∀ d ∈ done, DoneAt W amap which o s.1 f d)
      (flow_visit W amap which c f.1 f.2) (List.range 8) [] st
      ⟨inv, hf, fun _ h => absurd h (List.not_mem_nil _)⟩
      (by
        intro done s d hd hP
        obtain ⟨i1, i2, i3⟩ := hP
        obtain ⟨v1, v2, v3, v4⟩ := flow_visit_inv W amap which o hwf ho c f rest s i1 hc1 hcM i2
          d (List.mem_range.mp hd)
        refine ⟨v1, v2, ?_⟩
        intro d' hd'
        rcases List.mem_append.mp hd' with h | h
        · exact v4 d' (i3 d' h)
        · simp only [List.mem_singleton] at h; rw [h]; exact v3)
    simp only [List.nil_append] at key
    obtain ⟨k1, k2, k3⟩ := key
    generalize (List.range 8).foldl (flow_visit W amap which c f.1 f.2) st = s' at k1 k2 k3 ⊢
    have hdone : ∀ d, d < 8 → DoneAt W amap which o s'.1 f d :=
      fun d hd => k3 d (List.mem_range.mpr hd)
    refine ⟨k1.origin0, k1.reached, fun f' hf' => k1.cur_ge f' (List.mem_cons_of_mem _ hf'),
      k1.next_ge, fun f' hf' => k1.cur_ok f' (List.mem_cons_of_mem _ hf'), k1.next_ok, ?_,
      k1.bound⟩
    intro q hqb hq
    obtain ⟨p1, p2, p3⟩ := k1.pending q hqb hq
    refine ⟨p1, fun h => ?_, fun h => ?_⟩
    · rcases p2 h with h' | h'
      · exact Or.inl h'
      · rcases List.mem_cons.mp h' with h'' | h''
        · subst h''; exact Or.inl hdone
        · exact Or.inr h''
    · rcases p3 h with h' | h'
      · rcases List.mem_cons.mp h' with h'' | h''
        · subst h''; omega
        · exact Or.inl h''
      · exact Or.inr h'

theorem flow_layer_inv (W : World) (amap : Int → Int → Bool) (lost : Bool) (which : Flow)
    (o : Cell) (hwf : W.WellFormed) (ho : W.in_bounds o.1 o.2 = true)
    (hno : ¬ (which = Flow.FLOW_AUTOMATON_SECURE ∧ lost = true))
    (c : Nat) (g : Grid) (cur : List Cell)
    (inv : FlowInv W amap which o c g cur [])
    (hc1 : 1 ≤ c) (hcM : c ≤ W.FLOW_MAX_DIST) :
    FlowInv W amap which o (c + 1) (flow_layer W amap lost which c g cur).1
      (flow_layer W amap lost which c g cur).2 [] := by
  unfold flow_layer
  simp only [hno, if_false]
  have key := foldl_invariant_suffix
    (fun (remaining : List Cell) (s : Grid × List Cell) =>
      FlowInv W amap which o c s.1 remaining s.2)
    (flow_cell W amap which c) cur (g, []) inv
    (fun a rest b h => flow_cell_inv W amap which o hwf ho c a rest b h hc1 hcM)
  simp only at key
  generalize cur.foldl (flow_cell W amap which c) (g, []) = s at key ⊢
  refine ⟨key.origin0, key.reached, ?_, fun _ h => absurd h (List.not_mem_nil _),
    key.next_ok, fun _ h => absurd h (List.not_mem_nil _), ?_, ?_⟩
  · intro f hf
    have := key.next_ge f hf
    omega
  · intro q hqb hq
    obtain ⟨p1, p2, p3⟩ := key.pending q hqb hq
    refine ⟨fun h => ?_, fun h => ?_, fun h => ?_⟩
    · by_cases h' : s.1.at q + 1 < c
      · exact p1 h'
      · rcases p2 (by omega) with h'' | h''
        · exact h''
        · exact absurd h'' (List.not_mem_nil _)
    · rcases p3 (by omega) with h'' | h''
      · exact absurd h'' (List.not_mem_nil _)
      · exact Or.inr h''
    · rcases p3 (by omega) with h'' | h''
      · exact absurd h'' (List.not_mem_nil _)
      · exact Or.inl h''
  · intro n hnb hn hlt
    have := key.bound n hnb hn hlt
    omega

/-- What the loop over `cost` has established when it ends. -/
theorem flow_loop_final (W : World) (amap : Int → Int → Bool) (lost : Bool) (which : Flow)
    (o : Cell) (hwf : W.WellFormed) (ho : W.in_bounds o.1 o.2 = true)
    (hno : ¬ (which = Flow.FLOW_AUTOMATON_SECURE ∧ lost = true)) :
    ∀ (n c : Nat) (g : Grid) (cur : List Cell), FlowInv W amap which o c g cur [] →
      1 ≤ c → c + n = W.FLOW_MAX_DIST + 1 →
      (∃ c' cur', FlowInv W amap which o c' (flow_loop W amap lost which n c g cur) cur' [])
        ∧ ∀ q : Cell, W.in_bounds q.1 q.2 = true →
            (flow_loop W amap lost which n c g cur).at q < W.FLOW_MAX_DIST →
            ∀ d, d < 8 → DoneAt W amap which o (flow_loop W amap lost which n c g cur) q d := by
  intro n
  induction n with
  | zero =>
    intro c g cur inv _ hc
    simp only [flow_loop]
    refine ⟨⟨c, cur, inv⟩, ?_⟩
    intro q hqb hq
    exact (inv.pending q hqb hq).1 (by omega)
  | succ n ih =>
    intro c g cur inv hc1 hc
    unfold flow_loop
    by_cases he : cur.isEmpty = true
    · rw [if_pos he]
      have hnil : cur = [] := List.isEmpty_iff.mp he
      subst hnil
      refine ⟨⟨c, [], inv⟩, ?_⟩
      intro q hqb hq
      obtain ⟨p1, p2, p3⟩ := inv.pending q hqb hq
      by_cases h1 : g.at q + 1 < c
      · exact p1 h1
      · by_cases h2 : g.at q + 1 = c
        · rcases p2 h2 with h' | h'
          · exact h'
          · exact absurd h' (List.not_mem_nil _)
        · rcases p3 (by omega) with h' | h' <;> exact absurd h' (List.not_mem_nil _)
    · rw [if_neg he]
      exact ih (c + 1) _ _
        (flow_layer_inv W amap lost which o hwf ho hno c g cur inv hc1 (by omega))
        (by omega) (by omega)


theorem flow_init_inv (W : World) (amap : Int → Int → Bool) (which : Flow) (o : Cell)
    (hwf : W.WellFormed) (ho : W.in_bounds o.1 o.2 = true) (g : Grid) :
    FlowInv W amap which o 1 ((erase_flow W g).set o.1 o.2 0) [o] [] := by
  have herase : ∀ n : Cell, W.in_bounds n.1 n.2 = true → n ≠ o →
      ((erase_flow W g).set o.1 o.2 0).at n = W.FLOW_MAX_DIST := by
    intro n hn hno
    rw [grid_set_at, if_neg hno]
    have := hwf.in_bounds_map _ _ hn
    simp only [Grid.at, erase_flow, this, and_self, if_true]
  have h0 : ((erase_flow W g).set o.1 o.2 0).at o = 0 := by
    rw [grid_set_at, if_pos rfl]
  refine ⟨h0, ?_, ?_, fun _ h => absurd h (List.not_mem_nil _), ?_,
    fun _ h => absurd h (List.not_mem_nil _), ?_, ?_⟩
  · intro n hn hno hlt
    rw [herase n hn hno] at hlt
    omega
  · intro f hf
    omega
  · intro f hf
    simp only [List.mem_singleton] at hf
    rw [hf]; exact ho
  · intro q hqb hq
    have hqo : q = o := by
      by_contra hne
      rw [herase q hqb hne] at hq
      omega
    subst hqo
    refine ⟨fun h => by omega, fun _ => Or.inr (List.mem_singleton.mpr rfl), fun h => by omega⟩
  · intro n hn hno hlt
    rw [herase n hn hno] at hlt
    omega

theorem legal_path_append (W : World) (amap : Int → Int → Bool) (o : Cell) (p : List Cell) :
    ∀ (s n : Cell), legal_path W amap o s (p ++ [n]) ↔
      (legal_path W amap o s p ∧ adjacent8 (path_end s p) n = true
        ∧ (n = o ∨ passable W amap n = true)) := by
  induction p with
  | nil => intro s n; simp [legal_path, path_end]
  | cons c p ih =>
    intro s n
    show (adjacent8 s c = true ∧ (c = o ∨ passable W amap c = true)
        ∧ legal_path W amap o c (p ++ [n])) ↔
      ((adjacent8 s c = true ∧ (c = o ∨ passable W amap c = true) ∧ legal_path W amap o c p)
        ∧ adjacent8 (path_end c p) n = true ∧ (n = o ∨ passable W amap n = true))
    rw [ih c n]
    tauto

theorem path_cost_append (W : World) (which : Flow) (o : Cell) (p : List Cell) (n : Cell) :
    path_cost W which o (p ++ [n])
      = path_cost W which o p + (if n = o then 0 else entry_cost W which o n) := by
  induction p with
  | nil => simp [path_cost]
  | cons c p ih =>
    show (if c = o then 0 else entry_cost W which o c) + path_cost W which o (p ++ [n]) = _
    rw [ih]
    show _ = (if c = o then 0 else entry_cost W which o c) + path_cost W which o p + _
    omega

theorem path_end_append (p : List Cell) : ∀ (s n : Cell), path_end s (p ++ [n]) = n := by
  induction p with
  | nil => intro s n; rfl
  | cons c p ih => intro s n; exact ih c n

/-- Every reached square has a legal path of exactly its cost. -/
theorem path_exists (W : World) (amap : Int → Int → Bool) (which : Flow) (o : Cell)
    (hwf : W.WellFormed) (ho : W.in_bounds o.1 o.2 = true) (g : Grid) (c : Nat)
    (cur : List Cell) (inv : FlowInv W amap which o c g cur []) :
    ∀ (k : Nat) (n : Cell), W.in_bounds n.1 n.2 = true → g.at n < W.FLOW_MAX_DIST →
      g.at n = k →
      ∃ p, legal_path W amap o o p ∧ path_end o p = n ∧ path_cost W which o p = g.at n := by
  intro k
  induction k using Nat.strong_induction_on with
  | _ k ih =>
    intro n hnb hlt hk
    by_cases hno : n = o
    · subst hno
      exact ⟨[], trivial, rfl, by rw [inv.origin0]; rfl⟩
    · obtain ⟨hp, q, d, hqb, hd, hnq, he⟩ := inv.reached n hnb hno hlt
      have hpos : 1 ≤ entry_cost W which o n := by simp only [entry_cost]; omega
      obtain ⟨p, l1, l2, l3⟩ := ih (g.at q) (by omega) q hqb (by omega) rfl
      refine ⟨p ++ [n], ?_, path_end_append p o n, ?_⟩
      · rw [legal_path_append]
        refine ⟨l1, ?_, Or.inr hp⟩
        rw [l2, hnq]
        exact (nbr_in_bounds W hwf q d hd hqb (by rw [← hnq]; exact hnb)).2
      · rw [path_cost_append, if_neg hno, l3, he]

/-- The cost of the end of a legal path is at most the cost of the path. -/
theorem path_lower_bound (W : World) (amap : Int → Int → Bool) (which : Flow) (o : Cell)
    (hwf : W.WellFormed) (ho : W.in_bounds o.1 o.2 = true) (g : Grid)
    (h0 : g.at o = 0)
    (hdone : ∀ q : Cell, W.in_bounds q.1 q.2 = true → g.at q < W.FLOW_MAX_DIST →
      ∀ d, d < 8 → DoneAt W amap which o g q d) :
    ∀ p : List Cell, legal_path W amap o o p → path_cost W which o p < W.FLOW_MAX_DIST →
      W.in_bounds (path_end o p).1 (path_end o p).2 = true
        ∧ g.at (path_end o p) ≤ path_cost W which o p := by
  intro p
  induction p using List.reverseRecOn with
  | nil =>
    intro _ _
    exact ⟨ho, by rw [show path_end o [] = o from rfl, h0]; exact Nat.zero_le _⟩
  | append_singleton p n ih =>
    intro hl hc
    rw [legal_path_append] at hl
    rw [path_cost_append] at hc ⊢
    rw [path_end_append]
    obtain ⟨hl1, hadj, hn⟩ := hl
    by_cases hno : n = o
    · subst hno
      exact ⟨ho, by rw [h0]; exact Nat.zero_le _⟩
    · rw [if_neg hno] at hc ⊢
      have hp : passable W amap n = true := by
        rcases hn with h | h
        · exact absurd h hno
        · exact h
      have hnb := passable_in_bounds W amap n hp
      obtain ⟨i1, i2⟩ := ih hl1 (by omega)
      obtain ⟨d, hd, hnd⟩ := adjacent8_nbr W hwf (path_end o p) n i1 hnb hadj
      have := hdone (path_end o p) i1 (by omega) d hd
      unfold DoneAt at this
      rw [← hnd] at this
      refine ⟨hnb, ?_⟩
      rcases this hp hno with ⟨_, h2⟩ | h2 <;> omega

/-- List form of the minimum-cost property: when the secure-channel health
adjustment does not apply, every
square of the current map whose final cost is below `FLOW_MAX_DIST` has a cost
equal to the minimum, over the 8-connected paths from the origin whose squares
other than the origin are passable, of the summed entry costs (one step plus
the channel penalty) of the path's squares other than the origin: some such
path has exactly that cost and none has a smaller one. -/
theorem flow_cost_is_min_path_cost (W : World) (A : Agent) (which : Flow) (cy cx : Int)
    (hwf : W.WellFormed) (ho : W.in_bounds cy cx = true)
    (hadj : ¬ (which = Flow.FLOW_AUTOMATON_SECURE ∧ W.chp < A.automaton_memory_chp 0))
    (y x : Int) (hmap : 0 ≤ y ∧ y < W.cur_map_hgt ∧ 0 ≤ x ∧ x < W.cur_map_wid)
    (hcost : (update_automaton_flow W A which cy cx).cave_cost which y x < W.FLOW_MAX_DIST) :
    (∃ p, legal_path W A.automaton_map (cy, cx) (cy, cx) p ∧ path_end (cy, cx) p = (y, x)
        ∧ path_cost W which (cy, cx) p
            = (update_automaton_flow W A which cy cx).cave_cost which y x)
      ∧ ∀ p, legal_path W A.automaton_map (cy, cx) (cy, cx) p → path_end (cy, cx) p = (y, x) →
          (update_automaton_flow W A which cy cx).cave_cost which y x
            ≤ path_cost W which (cy, cx) p := by
  rw [update_flow_cost] at hcost ⊢
  have hyx : W.in_bounds y x = true := by
    by_cases hne : (y, x) = (cy, cx)
    · have h1 := congrArg Prod.fst hne
      have h2 := congrArg Prod.snd hne
      simp only at h1 h2
      rw [h1, h2]; exact ho
    · exact passable_in_bounds W A.automaton_map (y, x)
        (flow_field_reached W A.automaton_map _ which cy cx _ y x hmap hne hcost)
  have hno : ¬ (which = Flow.FLOW_AUTOMATON_SECURE
      ∧ decide (W.chp < A.automaton_memory_chp 0) = true) := by
    simpa using hadj
  have hb := hwf.in_bounds_map _ _ ho
  have hh := hwf.hgt_le
  have hw := hwf.wid_le
  have e1 : cy % 256 = cy := by omega
  have e2 : cx % 256 = cx := by omega
  have hinit := flow_init_inv W A.automaton_map which (cy, cx) hwf ho (A.cave_cost which)
  obtain ⟨⟨c', cur', hinv⟩, hdone⟩ := flow_loop_final W A.automaton_map
    (decide (W.chp < A.automaton_memory_chp 0)) which (cy, cx) hwf ho hno W.FLOW_MAX_DIST 1 _ _
    hinit (le_refl _) (by omega)
  have hfield : flow_field W A.automaton_map (decide (W.chp < A.automaton_memory_chp 0)) which
      cy cx (A.cave_cost which)
      = flow_loop W A.automaton_map (decide (W.chp < A.automaton_memory_chp 0)) which
          W.FLOW_MAX_DIST 1 ((erase_flow W (A.cave_cost which)).set cy cx 0) [(cy, cx)] := by
    simp only [flow_field, e1, e2]
  rw [← hfield] at hinv hdone
  generalize flow_field W A.automaton_map (decide (W.chp < A.automaton_memory_chp 0)) which
      cy cx (A.cave_cost which) = g at hcost hinv hdone ⊢
  constructor
  · exact path_exists W A.automaton_map which (cy, cx) hwf ho g c' cur' hinv (g y x) (y, x) hyx
      hcost rfl
  · intro p hl he
    by_cases hc : path_cost W which (cy, cx) p < W.FLOW_MAX_DIST
    · have := (path_lower_bound W A.automaton_map which (cy, cx) hwf ho g hinv.origin0 hdone p hl
        hc).2
      rw [he] at this
      exact this
    · omega

theorem room3_wide_wellFormed : room3_wide.WellFormed := by
  refine ⟨by decide, by decide, ?_⟩
  intro y x h
  simp only [room3_wide, room3, decide_eq_true_eq] at h
  exact h

/-- Example of the minimum-cost property in the list form: the square `(2, 2)`
in the normal-channel flow from the origin `(0, 0)` of `room3_wide`. -/
theorem flow_cost_is_min_path_cost_witness :
    (∃ p, legal_path room3_wide hurt_agent.automaton_map (0, 0) (0, 0) p
        ∧ path_end (0, 0) p = (2, 2)
        ∧ path_cost room3_wide Flow.FLOW_AUTOMATON (0, 0) p
            = (update_automaton_flow room3_wide hurt_agent Flow.FLOW_AUTOMATON 0 0).cave_cost
                Flow.FLOW_AUTOMATON 2 2)
      ∧ ∀ p, legal_path room3_wide hurt_agent.automaton_map (0, 0) (0, 0) p →
          path_end (0, 0) p = (2, 2) →
          (update_automaton_flow room3_wide hurt_agent Flow.FLOW_AUTOMATON 0 0).cave_cost
              Flow.FLOW_AUTOMATON 2 2
            ≤ path_cost room3_wide Flow.FLOW_AUTOMATON (0, 0) p :=
  flow_cost_is_min_path_cost room3_wide hurt_agent Flow.FLOW_AUTOMATON 0 0
    room3_wide_wellFormed (by decide) (by decide) 2 2 (by decide) (by decide)

/-! ### Keypress queue: rejection and overflow -/

/-- C12: `automaton_keypress(0)` reports failure and leaves the queue (head,
tail and every buffer slot) as it was, in every queue state. -/
theorem keypress_null_rejected (q : KeyQueue) : automaton_keypress q 0 = (q, -1) := by
  simp [automaton_keypress]

theorem pending_full_iff (q : KeyQueue)
    (hh : q.automaton_key_head < KEY_SIZE) (ht : q.automaton_key_tail < KEY_SIZE) :
    q.pending = KEY_SIZE - 1 ↔ (q.automaton_key_head + 1) % KEY_SIZE = q.automaton_key_tail := by
  simp only [KeyQueue.pending, KEY_SIZE] at *
  omega

theorem keypress_full (q : KeyQueue) (k : Int) (hk : k ≠ 0)
    (hh : q.automaton_key_head < KEY_SIZE) (ht : q.automaton_key_tail < KEY_SIZE)
    (hfull : q.pending = KEY_SIZE - 1) :
    (automaton_keypress q k).2 = -1
      ∧ (automaton_keypress q k).1.automaton_key_head
          = (automaton_keypress q k).1.automaton_key_tail := by
  obtain ⟨buf, h, t⟩ := q
  simp only [KeyQueue.pending, KEY_SIZE] at *
  have he : (if h + 1 = 8192 then 0 else h + 1) = t := by split <;> omega
  simp only [automaton_keypress, hk, if_false, he, KEY_SIZE, if_true, and_self]

/-- C13: for a non-null token and indices in range, `automaton_keypress`
reports failure exactly when the queue was full before the call
(`KEY_SIZE - 1` pending tokens, that is head + 1 congruent to tail modulo
`KEY_SIZE`); otherwise it reports success and the number of pending tokens
grows by exactly one. -/
theorem keypress_fails_iff_full (q : KeyQueue) (k : Int) (hk : k ≠ 0)
    (hh : q.automaton_key_head < KEY_SIZE) (ht : q.automaton_key_tail < KEY_SIZE) :
    ((automaton_keypress q k).2 = -1 ↔ q.pending = KEY_SIZE - 1)
      ∧ (q.pending = KEY_SIZE - 1 ↔
          (q.automaton_key_head + 1) % KEY_SIZE = q.automaton_key_tail)
      ∧ (q.pending ≠ KEY_SIZE - 1 →
          (automaton_keypress q k).2 = 0
            ∧ (automaton_keypress q k).1.pending = q.pending + 1) := by
  have hp : q.pending < KEY_SIZE := by
    simp only [KeyQueue.pending, KEY_SIZE]; omega
  have hsucc : q.pending ≠ KEY_SIZE - 1 →
      (automaton_keypress q k).2 = 0 ∧ (automaton_keypress q k).1.pending = q.pending + 1 := by
    intro hne
    obtain ⟨h1, _, _, h4, _⟩ := keypress_push q k hk hh ht (by simp only [KEY_SIZE] at *; omega)
    exact ⟨h1, h4⟩
  refine ⟨⟨fun hf => ?_, fun hfull => (keypress_full q k hk hh ht hfull).1⟩,
    pending_full_iff q hh ht, hsucc⟩
  by_contra hne
  rw [(hsucc hne).1] at hf
  exact absurd hf (by decide)

/-- Witness for C13 at the empty `wrap_queue`. -/
theorem keypress_fails_iff_full_witness :
    ((automaton_keypress wrap_queue 97).2 = -1 ↔ wrap_queue.pending = KEY_SIZE - 1)
      ∧ (wrap_queue.pending = KEY_SIZE - 1 ↔
          (wrap_queue.automaton_key_head + 1) % KEY_SIZE = wrap_queue.automaton_key_tail)
      ∧ (wrap_queue.pending ≠ KEY_SIZE - 1 →
          (automaton_keypress wrap_queue 97).2 = 0
            ∧ (automaton_keypress wrap_queue 97).1.pending = wrap_queue.pending + 1) :=
  keypress_fails_iff_full wrap_queue 97 (by decide) (by decide) (by decide)

/-- C14 (the code at the failing input): on `nearly_full_queue`
(`KEY_SIZE - 2` pending tokens, the oldest `1, 2, 3`) the first of two enqueues
succeeds and the second reports overflow; afterwards head equals tail, so the
next dequeue returns the empty marker 0 instead of the second-oldest token 2,
while that token still sits in its buffer slot. -/
theorem overflow_makes_queue_read_empty :
    (automaton_keypress nearly_full_queue 97).2 = 0
      ∧ (automaton_keypress (automaton_keypress nearly_full_queue 97).1 98).2 = -1
      ∧ (automaton_keypress (automaton_keypress nearly_full_queue 97).1 98).1.automaton_key_head
          = (automaton_keypress (automaton_keypress nearly_full_queue 97).1
              98).1.automaton_key_tail
      ∧ (automaton_inkey (automaton_keypress (automaton_keypress nearly_full_queue 97).1 98).1
          true).2 = 0
      ∧ (automaton_keypress (automaton_keypress nearly_full_queue 97).1
          98).1.automaton_key_queue 1 = 2 := by
  decide

/-! ### The input bridge -/

theorem inkey_peek (q : KeyQueue) :
    (automaton_inkey q false).2
      = if q.automaton_key_head = q.automaton_key_tail then 0
        else q.automaton_key_queue q.automaton_key_tail := by
  unfold automaton_inkey
  split <;> simp

/-- C15: when the bridge is called while the agent is active and a user
keystroke is waiting (`Term_inkey` delivers a character above 0), it returns
`ESCAPE`, the agent afterwards is the stopped agent (no queued token is taken
and no decision cycle is run): the active flag is false, the hook is
uninstalled and the queue is empty, whatever was pending. -/
theorem user_key_stops_automaton (W : World) (A : Agent) (flush_first ch : Int)
    (waiting_for_command : Bool) (hactive : A.automaton = true) (hkey : ch > 0) :
    (automaton_inkey_hack W A flush_first ch waiting_for_command).2 = ESCAPE
      ∧ (automaton_inkey_hack W A flush_first ch waiting_for_command).1 = stop_automaton A
      ∧ (automaton_inkey_hack W A flush_first ch waiting_for_command).1.automaton = false
      ∧ (automaton_inkey_hack W A flush_first ch waiting_for_command).1.inkey_hack = false
      ∧ (automaton_inkey_hack W A flush_first ch waiting_for_command).1.keys.automaton_key_head
          = (automaton_inkey_hack W A flush_first ch
              waiting_for_command).1.keys.automaton_key_tail
      ∧ (automaton_inkey (automaton_inkey_hack W A flush_first ch waiting_for_command).1.keys
          true).2 = 0 := by
  have h : automaton_inkey_hack W A flush_first ch waiting_for_command
      = (stop_automaton A, ESCAPE) := by
    unfold automaton_inkey_hack
    simp only [hactive, Bool.true_eq_false, if_false, ite_self, hkey, if_true]
  rw [h]
  simp [stop_automaton, automaton_flush, automaton_inkey]

/-- Witness for C15: `busy_agent` with three pending tokens and the user key
`q`. -/
theorem user_key_stops_automaton_witness :
    (automaton_inkey_hack room3 busy_agent 0 113 true).2 = ESCAPE
      ∧ (automaton_inkey_hack room3 busy_agent 0 113 true).1 = stop_automaton busy_agent
      ∧ (automaton_inkey_hack room3 busy_agent 0 113 true).1.automaton = false
      ∧ (automaton_inkey_hack room3 busy_agent 0 113 true).1.inkey_hack = false
      ∧ (automaton_inkey_hack room3 busy_agent 0 113 true).1.keys.automaton_key_head
          = (automaton_inkey_hack room3 busy_agent 0 113 true).1.keys.automaton_key_tail
      ∧ (automaton_inkey (automaton_inkey_hack room3 busy_agent 0 113 true).1.keys
          true).2 = 0 :=
  user_key_stops_automaton room3 busy_agent 0 113 true rfl (by decide)

theorem inkey_peek_eq_take (q : KeyQueue) :
    (automaton_inkey q false).2 = (automaton_inkey q true).2 := by
  unfold automaton_inkey
  split <;> simp

theorem bridge_step (W : World) (A : Agent) (flush_first ch : Int) (waiting_for_command : Bool)
    (k : Int) (rest : List Int) (hactive : A.automaton = true) (hkey : ch ≤ 0)
    (hh : A.keys.automaton_key_head < KEY_SIZE) (ht : A.keys.automaton_key_tail < KEY_SIZE)
    (hc : A.keys.contents = k :: rest) (hk : k ≠ 0) :
    automaton_inkey_hack W A flush_first ch waiting_for_command
      = ({ A with keys := (automaton_inkey A.keys true).1 }, k) := by
  obtain ⟨h1, _, _, _⟩ := inkey_pop A.keys k rest hh ht hc
  have hpeek : (automaton_inkey A.keys false).2 = k := by rw [inkey_peek_eq_take, h1]
  have hkey2 : ¬ ch > 0 := by omega
  unfold automaton_inkey_hack
  simp only [hactive, Bool.true_eq_false, if_false, ite_self, hkey2, hpeek, hk, h1]

/-- C16: while the agent is active and no user key is waiting, every call of
the bridge on a queue whose pending tokens start with the non-null tokens `ks`
returns the oldest pending token and removes exactly that one without running
a decision cycle: after as many calls as `ks` has tokens the returned
characters are `ks` in insertion order, the agent differs from the initial one
only by the dequeues, and the tokens behind `ks` are still pending. -/
theorem bridge_delivers_in_order (W : World) (waiting_for_command : Bool) (ks : List Int) :
    ∀ (A : Agent) (inputs : List (Int × Int)) (rest : List Int),
      A.automaton = true →
      A.keys.automaton_key_head < KEY_SIZE → A.keys.automaton_key_tail < KEY_SIZE →
      A.keys.contents = ks ++ rest → (∀ k ∈ ks, k ≠ 0) →
      inputs.length = ks.length → (∀ inp ∈ inputs, inp.2 ≤ 0) →
      (bridge_seq W waiting_for_command A inputs).2 = ks
        ∧ (bridge_seq W waiting_for_command A inputs).1
            = { A with keys := (dequeue_n A.keys ks.length).1 }
        ∧ (bridge_seq W waiting_for_command A inputs).1.keys.contents = rest := by
  induction ks with
  | nil =>
    intro A inputs rest _ _ _ hc _ hlen _
    have : inputs = [] := List.length_eq_zero.mp hlen
    subst this
    simpa [bridge_seq, dequeue_n] using hc
  | cons k ks ih =>
    intro A inputs rest hact hh ht hc hnz hlen hin
    obtain ⟨inp, inputs', rfl⟩ : ∃ inp inputs', inputs = inp :: inputs' := by
      cases inputs with
      | nil => simp at hlen
      | cons a l => exact ⟨a, l, rfl⟩
    have hstep := bridge_step W A inp.1 inp.2 waiting_for_command k (ks ++ rest) hact
      (hin inp (List.mem_cons_self _ _)) hh ht (by simpa using hc)
      (hnz k (List.mem_cons_self _ _))
    obtain ⟨p1, p2, p3, p4⟩ := inkey_pop A.keys k (ks ++ rest) hh ht (by simpa using hc)
    obtain ⟨i1, i2, i3⟩ := ih { A with keys := (automaton_inkey A.keys true).1 } inputs' rest
      hact (by rw [p2]; exact hh) p3 p4
      (fun x hx => hnz x (List.mem_cons_of_mem _ hx))
      (by simpa using hlen)
      (fun x hx => hin x (List.mem_cons_of_mem _ hx))
    simp only [bridge_seq, hstep, List.length_cons, dequeue_n]
    exact ⟨by rw [i1], by rw [i2], i3⟩

/-- Witness for C16: three calls of the bridge on `busy_agent`. -/
theorem bridge_delivers_in_order_witness :
    (bridge_seq room3 true busy_agent [(0, 0), (1, 0), (0, 0)]).2 = [97, 98, 99]
      ∧ (bridge_seq room3 true busy_agent [(0, 0), (1, 0), (0, 0)]).1
          = { busy_agent with keys := (dequeue_n busy_agent.keys [97, 98, 99].length).1 }
      ∧ (bridge_seq room3 true busy_agent [(0, 0), (1, 0), (0, 0)]).1.keys.contents = [] :=
  bridge_delivers_in_order room3 true [97, 98, 99] busy_agent [(0, 0), (1, 0), (0, 0)] [] rfl
    (by decide) (by decide) (by decide) (by decide) rfl (by decide)

/-! ### Aborting the cycle: no direction, nothing to do -/

/-- What the direction loop knows about `found_direction` once the indices in
`done` have been scanned. -/
theorem direction_found_inv (W : World) (A : Agent) :
    ∀ (l done : List Nat) (b : Heading),
      (b.best_dist ≤ (W.FLOW_MAX_DIST : Int) - 1
        ∧ (b.found_direction = false → b.best_dist = (W.FLOW_MAX_DIST : Int) - 1
            ∧ ∀ j ∈ done, W.in_bounds (W.py + ddy_ddd j) (W.px + ddx_ddd j) = true →
                ¬ flow_dist W A Flow.FLOW_AUTOMATON (W.py + ddy_ddd j) (W.px + ddx_ddd j)
                  ≤ (W.FLOW_MAX_DIST : Int) - 1)
        ∧ (b.found_direction = true → ∃ j ∈ done,
            W.in_bounds (W.py + ddy_ddd j) (W.px + ddx_ddd j) = true
              ∧ flow_dist W A Flow.FLOW_AUTOMATON (W.py + ddy_ddd j) (W.px + ddx_ddd j)
                  ≤ (W.FLOW_MAX_DIST : Int) - 1)
        ∧ (b.found_direction = true → ∃ j ∈ done, b.best_dir = ddd j)) →
      ((l.foldl (direction_step W A) b).best_dist ≤ (W.FLOW_MAX_DIST : Int) - 1
        ∧ ((l.foldl (direction_step W A) b).found_direction = false →
            (l.foldl (direction_step W A) b).best_dist = (W.FLOW_MAX_DIST : Int) - 1
            ∧ ∀ j ∈ done ++ l, W.in_bounds (W.py + ddy_ddd j) (W.px + ddx_ddd j) = true →
                ¬ flow_dist W A Flow.FLOW_AUTOMATON (W.py + ddy_ddd j) (W.px + ddx_ddd j)
                  ≤ (W.FLOW_MAX_DIST : Int) - 1)
        ∧ ((l.foldl (direction_step W A) b).found_direction = true → ∃ j ∈ done ++ l,
            W.in_bounds (W.py + ddy_ddd j) (W.px + ddx_ddd j) = true
              ∧ flow_dist W A Flow.FLOW_AUTOMATON (W.py + ddy_ddd j) (W.px + ddx_ddd j)
                  ≤ (W.FLOW_MAX_DIST : Int) - 1)
        ∧ ((l.foldl (direction_step W A) b).found_direction = true →
            ∃ j ∈ done ++ l, (l.foldl (direction_step W A) b).best_dir = ddd j)) := by
  intro l
  induction l with
  | nil => intro done b h; simpa using h
  | cons a l ih =>
    intro done b h
    obtain ⟨h1, h2, h3, h4⟩ := h
    have key := ih (done ++ [a]) (direction_step W A b a) (by
      unfold direction_step
      by_cases hb : W.in_bounds (W.py + ddy_ddd a) (W.px + ddx_ddd a) = true
      · simp only [hb, Bool.not_true, Bool.false_eq_true, if_false]
        by_cases hd : flow_dist W A Flow.FLOW_AUTOMATON (W.py + ddy_ddd a) (W.px + ddx_ddd a)
            ≤ b.best_dist
        · simp only [hd, if_true]
          refine ⟨by omega, fun hf => absurd hf (by simp), fun _ => ?_, fun _ => ?_⟩
          · exact ⟨a, by simp, hb, by omega⟩
          · exact ⟨a, by simp, rfl⟩
        · simp only [hd, if_false]
          refine ⟨h1, fun hf => ?_, fun hf => ?_, fun hf => ?_⟩
          · obtain ⟨e, hall⟩ := h2 hf
            refine ⟨e, ?_⟩
            intro j hj hbj
            rcases List.mem_append.mp hj with hj | hj
            · exact hall j hj hbj
            · simp only [List.mem_singleton] at hj
              subst hj
              omega
          · obtain ⟨j, hj, r⟩ := h3 hf
            exact ⟨j, List.mem_append.mpr (Or.inl hj), r⟩
          · obtain ⟨j, hj, r⟩ := h4 hf
            exact ⟨j, List.mem_append.mpr (Or.inl hj), r⟩
      · have hb2 : W.in_bounds (W.py + ddy_ddd a) (W.px + ddx_ddd a) = false := by
          simpa using hb
        simp only [hb2, Bool.not_false, if_true]
        refine ⟨h1, fun hf => ?_, fun hf => ?_, fun hf => ?_⟩
        · obtain ⟨e, hall⟩ := h2 hf
          refine ⟨e, ?_⟩
          intro j hj hbj
          rcases List.mem_append.mp hj with hj | hj
          · exact hall j hj hbj
          · simp only [List.mem_singleton] at hj
            subst hj
            rw [hb2] at hbj
            exact absurd hbj (by decide)
        · obtain ⟨j, hj, r⟩ := h3 hf
          exact ⟨j, List.mem_append.mpr (Or.inl hj), r⟩
        · obtain ⟨j, hj, r⟩ := h4 hf
          exact ⟨j, List.mem_append.mpr (Or.inl hj), r⟩)
    simpa using key

theorem find_direction_found_iff (W : World) (A : Agent) :
    ((find_direction W A).found_direction = true ↔
      ∃ j ∈ [7, 6, 5, 4, 3, 2, 1, 0],
        W.in_bounds (W.py + ddy_ddd j) (W.px + ddx_ddd j) = true
          ∧ flow_dist W A Flow.FLOW_AUTOMATON (W.py + ddy_ddd j) (W.px + ddx_ddd j)
              ≤ (W.FLOW_MAX_DIST : Int) - 1)
      ∧ ((find_direction W A).found_direction = true →
          ∃ j ∈ [7, 6, 5, 4, 3, 2, 1, 0], (find_direction W A).best_dir = ddd j) := by
  have key := direction_found_inv W A [7, 6, 5, 4, 3, 2, 1, 0] []
    ⟨false, (W.FLOW_MAX_DIST : Int) - 1, 5⟩
    ⟨le_refl _, fun _ => ⟨rfl, fun j hj => absurd hj (List.not_mem_nil _)⟩,
      fun hf => absurd hf Bool.false_ne_true, fun hf => absurd hf Bool.false_ne_true⟩
  simp only [List.nil_append] at key
  obtain ⟨_, k2, k3, k4⟩ := key
  refine ⟨⟨k3, ?_⟩, k4⟩
  rintro ⟨j, hj, hb, hd⟩
  by_contra hf
  have hf2 : (find_direction W A).found_direction = false := by simpa using hf
  exact (k2 hf2).2 j hj hb hd

theorem flow_keeps_io (W : World) (A : Agent) (which : Flow) (cy cx : Int) :
    (update_automaton_flow W A which cy cx).keys = A.keys
      ∧ (update_automaton_flow W A which cy cx).automaton = A.automaton
      ∧ (update_automaton_flow W A which cy cx).inkey_hack = A.inkey_hack
      ∧ (update_automaton_flow W A which cy cx).automaton_map = A.automaton_map
      ∧ (update_automaton_flow W A which cy cx).automaton_memory_chp = A.automaton_memory_chp :=
  ⟨rfl, rfl, rfl, rfl, rfl⟩

theorem head_for_target_io (W : World) (A : Agent) (ty tx : Int) :
    (head_for_target W A ty tx).1.keys = A.keys
      ∧ (head_for_target W A ty tx).1.automaton = A.automaton
      ∧ (head_for_target W A ty tx).1.inkey_hack = A.inkey_hack :=
  ⟨rfl, rfl, rfl⟩

theorem head_for_target_cost (W : World) (A : Agent) (ty tx : Int) :
    (head_for_target W A ty tx).1.cave_cost Flow.FLOW_AUTOMATON
      = (update_automaton_flow W A Flow.FLOW_AUTOMATON ty tx).cave_cost Flow.FLOW_AUTOMATON := by
  simp only [head_for_target]
  rw [update_flow_other _ _ _ _ _ _ (by decide), update_flow_other _ _ _ _ _ _ (by decide)]

/-- The direction loop towards a target finds a direction exactly when some
in-bounds neighbour of the player has a normal-channel cost below
`FLOW_MAX_DIST` in the flow from the target. -/
theorem head_for_target_found_iff (W : World) (A : Agent) (ty tx : Int) :
    (head_for_target W A ty tx).2.found_direction = true ↔
      ∃ y x : Int, max |y - W.py| |x - W.px| = 1 ∧ W.in_bounds y x = true
        ∧ (update_automaton_flow W A Flow.FLOW_AUTOMATON ty tx).cave_cost Flow.FLOW_AUTOMATON
            y x < W.FLOW_MAX_DIST := by
  have hfd : (head_for_target W A ty tx).2 = find_direction W (head_for_target W A ty tx).1 := rfl
  rw [hfd, (find_direction_found_iff W _).1]
  have hcost := head_for_target_cost W A ty tx
  constructor
  · rintro ⟨j, hj, hb, hd⟩
    obtain ⟨_, _, t3, _⟩ := direction_tables j hj
    refine ⟨W.py + ddy_ddd j, W.px + ddx_ddd j, ?_, hb, ?_⟩
    · simpa using t3
    · simp only [flow_dist, hb, if_true, hcost] at hd
      omega
  · rintro ⟨y, x, hyx, hb, hlt⟩
    obtain ⟨j, hj, e1, e2, _⟩ := neighbour_index (y - W.py) (x - W.px) hyx
    have ey : W.py + ddy_ddd j = y := by omega
    have ex : W.px + ddx_ddd j = x := by omega
    refine ⟨j, hj, by rw [ey, ex]; exact hb, ?_⟩
    rw [ey, ex]
    simp only [flow_dist, hb, if_true, hcost]
    omega

theorem ddd_ne_five (j : Nat) (hj : j ∈ [7, 6, 5, 4, 3, 2, 1, 0]) :
    ddd j ≠ 5 ∧ ddd j ∈ [1, 2, 3, 4, 6, 7, 8, 9] := by
  simp only [List.mem_cons, List.mem_singleton, List.not_mem_nil, or_false] at hj
  rcases hj with rfl | rfl | rfl | rfl | rfl | rfl | rfl | rfl <;> decide

/-- The end of `automaton_turn` once a direction other than 5 has been found. -/
theorem resolve_target_moves (W : World) (A : Agent) (ty tx : Int) (hty : ty ≠ 0)
    (hne : ¬ (ty = W.py ∧ tx = W.px))
    (hfound : (head_for_target W A ty tx).2.found_direction = true) :
    resolve_target W A ty tx
      = update_memory W
          (if W.cave_trap_bold (W.py + ddy (head_for_target W A ty tx).2.best_dir)
                (W.px + ddx (head_for_target W A ty tx).2.best_dir) = true
              ∧ W.cave_hidden (W.py + ddy (head_for_target W A ty tx).2.best_dir)
                (W.px + ddx (head_for_target W A ty tx).2.best_dir) = false then
            ((head_for_target W A ty tx).1.press
              [if W.cave_known_closed_door_bold
                    (W.py + ddy (head_for_target W A ty tx).2.best_dir)
                    (W.px + ddx (head_for_target W A ty tx).2.best_dir) = true
                  ∧ W.one_in_5 = true then 47 else 59,
                48 + ((head_for_target W A ty tx).2.best_dir : Int)]).press1 121
          else
            (head_for_target W A ty tx).1.press
              [if W.cave_known_closed_door_bold
                    (W.py + ddy (head_for_target W A ty tx).2.best_dir)
                    (W.px + ddx (head_for_target W A ty tx).2.best_dir) = true
                  ∧ W.one_in_5 = true then 47 else 59,
                48 + ((head_for_target W A ty tx).2.best_dir : Int)]) := by
  have hfd : (head_for_target W A ty tx).2 = find_direction W (head_for_target W A ty tx).1 := rfl
  obtain ⟨j, hj, hdir⟩ := (find_direction_found_iff W (head_for_target W A ty tx).1).2
    (by rw [← hfd]; exact hfound)
  rw [← hfd] at hdir
  have h5 : (head_for_target W A ty tx).2.best_dir ≠ 5 := by
    rw [hdir]; exact (ddd_ne_five j hj).1
  unfold resolve_target
  simp only [hty, if_false, hne, hfound, Bool.not_true, Bool.false_eq_true, h5, and_false,
    decide_False]

/-- C18: for a target (non-zero row) away from the player's square and an
active agent, the end of `automaton_turn` stops the automaton exactly when no
in-bounds neighbour of the player has a normal-channel cost below
`FLOW_MAX_DIST` in the flow recomputed from the target; it then queues nothing
(buffer and head are unchanged, the queue is flushed and the hook removed).
When some neighbour has such a cost, a command is queued: `;` or `/` followed
by the digit of a direction other than 5, possibly followed by `y`. -/
theorem no_direction_aborts (W : World) (A : Agent) (ty tx : Int) (hty : ty ≠ 0)
    (hne : ¬ (ty = W.py ∧ tx = W.px)) (hactive : A.automaton = true) :
    ((resolve_target W A ty tx).automaton = false ↔
        ¬ ∃ y x : Int, max |y - W.py| |x - W.px| = 1 ∧ W.in_bounds y x = true
          ∧ (update_automaton_flow W A Flow.FLOW_AUTOMATON ty tx).cave_cost
              Flow.FLOW_AUTOMATON y x < W.FLOW_MAX_DIST)
      ∧ ((¬ ∃ y x : Int, max |y - W.py| |x - W.px| = 1 ∧ W.in_bounds y x = true
            ∧ (update_automaton_flow W A Flow.FLOW_AUTOMATON ty tx).cave_cost
                Flow.FLOW_AUTOMATON y x < W.FLOW_MAX_DIST) →
          resolve_target W A ty tx = stop_automaton (head_for_target W A ty tx).1
            ∧ (resolve_target W A ty tx).inkey_hack = false
            ∧ (resolve_target W A ty tx).keys.automaton_key_head
                = (resolve_target W A ty tx).keys.automaton_key_tail
            ∧ (resolve_target W A ty tx).keys.automaton_key_queue = A.keys.automaton_key_queue
            ∧ (resolve_target W A ty tx).keys.automaton_key_head = A.keys.automaton_key_head)
      ∧ ((∃ y x : Int, max |y - W.py| |x - W.px| = 1 ∧ W.in_bounds y x = true
            ∧ (update_automaton_flow W A Flow.FLOW_AUTOMATON ty tx).cave_cost
                Flow.FLOW_AUTOMATON y x < W.FLOW_MAX_DIST) →
          ∃ (base : Int) (dir : Nat), (base = 59 ∨ base = 47) ∧ dir ∈ [1, 2, 3, 4, 6, 7, 8, 9]
            ∧ ((resolve_target W A ty tx).keys
                  = automaton_keypresses A.keys [base, 48 + (dir : Int)]
                ∨ (resolve_target W A ty tx).keys
                  = (automaton_keypress (automaton_keypresses A.keys [base, 48 + (dir : Int)])
                      121).1)) := by
  have hiff := head_for_target_found_iff W A ty tx
  have hstop : (head_for_target W A ty tx).2.found_direction = false →
      resolve_target W A ty tx = stop_automaton (head_for_target W A ty tx).1 := by
    intro hf
    unfold resolve_target
    simp only [hty, if_false, hne, hf, Bool.not_false, if_true]
  have hmove := resolve_target_moves W A ty tx hty hne
  refine ⟨⟨fun hoff => ?_, fun hnone => ?_⟩, fun hnone => ?_, fun hsome => ?_⟩
  · intro hsome
    have hf := hiff.mpr hsome
    rw [hmove hf] at hoff
    have : (update_memory W
        (if W.cave_trap_bold (W.py + ddy (head_for_target W A ty tx).2.best_dir)
              (W.px + ddx (head_for_target W A ty tx).2.best_dir) = true
            ∧ W.cave_hidden (W.py + ddy (head_for_target W A ty tx).2.best_dir)
              (W.px + ddx (head_for_target W A ty tx).2.best_dir) = false then
          ((head_for_target W A ty tx).1.press
            [if W.cave_known_closed_door_bold
                  (W.py + ddy (head_for_target W A ty tx).2.best_dir)
                  (W.px + ddx (head_for_target W A ty tx).2.best_dir) = true
                ∧ W.one_in_5 = true then 47 else 59,
              48 + ((head_for_target W A ty tx).2.best_dir : Int)]).press1 121
        else
          (head_for_target W A ty tx).1.press
            [if W.cave_known_closed_door_bold
                  (W.py + ddy (head_for_target W A ty tx).2.best_dir)
                  (W.px + ddx (head_for_target W A ty tx).2.best_dir) = true
                ∧ W.one_in_5 = true then 47 else 59,
              48 + ((head_for_target W A ty tx).2.best_dir : Int)])).automaton = A.automaton := by
      split <;> rfl
    rw [this, hactive] at hoff
    exact absurd hoff (by decide)
  · have hf : (head_for_target W A ty tx).2.found_direction = false := by
      cases h : (head_for_target W A ty tx).2.found_direction
      · rfl
      · exact absurd (hiff.mp h) hnone
    rw [hstop hf]
    rfl
  · have hf : (head_for_target W A ty tx).2.found_direction = false := by
      cases h : (head_for_target W A ty tx).2.found_direction
      · rfl
      · exact absurd (hiff.mp h) hnone
    rw [hstop hf]
    exact ⟨rfl, rfl, rfl, rfl, rfl⟩
  · have hf := hiff.mpr hsome
    have hfd : (head_for_target W A ty tx).2 = find_direction W (head_for_target W A ty tx).1 :=
      rfl
    obtain ⟨j, hj, hdir⟩ := (find_direction_found_iff W (head_for_target W A ty tx).1).2
      (by rw [← hfd]; exact hf)
    rw [← hfd] at hdir
    refine ⟨if W.cave_known_closed_door_bold
          (W.py + ddy (head_for_target W A ty tx).2.best_dir)
          (W.px + ddx (head_for_target W A ty tx).2.best_dir) = true
        ∧ W.one_in_5 = true then 47 else 59, (head_for_target W A ty tx).2.best_dir, ?_, ?_, ?_⟩
    · split
      · exact Or.inr rfl
      · exact Or.inl rfl
    · rw [hdir]; exact (ddd_ne_five j hj).2
    · rw [hmove hf]
      split
      · exact Or.inr rfl
      · exact Or.inl rfl

/-- Witness for C18: the target `(2, 1)` in `room3`. -/
theorem no_direction_aborts_witness :
    ((resolve_target room3 hurt_agent 2 1).automaton = false ↔
        ¬ ∃ y x : Int, max |y - room3.py| |x - room3.px| = 1 ∧ room3.in_bounds y x = true
          ∧ (update_automaton_flow room3 hurt_agent Flow.FLOW_AUTOMATON 2 1).cave_cost
              Flow.FLOW_AUTOMATON y x < room3.FLOW_MAX_DIST)
      ∧ ((¬ ∃ y x : Int, max |y - room3.py| |x - room3.px| = 1 ∧ room3.in_bounds y x = true
            ∧ (update_automaton_flow room3 hurt_agent Flow.FLOW_AUTOMATON 2 1).cave_cost
                Flow.FLOW_AUTOMATON y x < room3.FLOW_MAX_DIST) →
          resolve_target room3 hurt_agent 2 1
              = stop_automaton (head_for_target room3 hurt_agent 2 1).1
            ∧ (resolve_target room3 hurt_agent 2 1).inkey_hack = false
            ∧ (resolve_target room3 hurt_agent 2 1).keys.automaton_key_head
                = (resolve_target room3 hurt_agent 2 1).keys.automaton_key_tail
            ∧ (resolve_target room3 hurt_agent 2 1).keys.automaton_key_queue
                = hurt_agent.keys.automaton_key_queue
            ∧ (resolve_target room3 hurt_agent 2 1).keys.automaton_key_head
                = hurt_agent.keys.automaton_key_head)
      ∧ ((∃ y x : Int, max |y - room3.py| |x - room3.px| = 1 ∧ room3.in_bounds y x = true
            ∧ (update_automaton_flow room3 hurt_agent Flow.FLOW_AUTOMATON 2 1).cave_cost
                Flow.FLOW_AUTOMATON y x < room3.FLOW_MAX_DIST) →
          ∃ (base : Int) (dir : Nat), (base = 59 ∨ base = 47) ∧ dir ∈ [1, 2, 3, 4, 6, 7, 8, 9]
            ∧ ((resolve_target room3 hurt_agent 2 1).keys
                  = automaton_keypresses hurt_agent.keys [base, 48 + (dir : Int)]
                ∨ (resolve_target room3 hurt_agent 2 1).keys
                  = (automaton_keypress
                      (automaton_keypresses hurt_agent.keys [base, 48 + (dir : Int)]) 121).1)) :=
  no_direction_aborts room3 hurt_agent 2 1 (by decide) (by decide) rfl

theorem same_io_refl (A : Agent) : same_io A A := ⟨rfl, rfl, rfl⟩

theorem same_io_trans {A B C : Agent} (h1 : same_io A B) (h2 : same_io B C) : same_io A C :=
  ⟨h2.1.trans h1.1, h2.2.1.trans h1.2.1, h2.2.2.trans h1.2.2⟩

theorem same_io_target (A : Agent) (y x : Int) : same_io A (target_set_location A y x) :=
  ⟨rfl, rfl, rfl⟩

theorem find_enemy_declines (W : World) (A : Agent) (t : Cell)
    (h : (find_enemy_to_kill W A t).1 = false) : (find_enemy_to_kill W A t).2.1 = A := by
  revert h
  unfold find_enemy_to_kill
  cases W.afraid
  · simp only [Bool.false_eq_true, if_false]
    generalize (monster_indices W).foldl (hunt_step W A) ⟨12, false, true, t.1, t.2⟩ = hu
    by_cases hc : hu.can_fire = true ∧ (W.inventory W.INVEN_BOW).tval ≠ 0
        ∧ ((W.inventory W.INVEN_QUIVER1).number ≥ 1 ∨ (W.inventory W.INVEN_QUIVER2).number ≥ 1)
    · rw [if_pos hc]
      split <;> intro hh <;> exact absurd hh (by simp)
    · rw [if_neg hc]
      intro _
      rfl
  · intro _
    rfl

theorem quiet_claiming (p : Agent → Bool × Agent) (h : ∀ A, (p A).1 = false → (p A).2 = A) :
    Quiet (claiming p) := by
  intro s hs
  simp only [claiming] at hs ⊢
  rw [h s.1 hs]
  exact same_io_refl _

theorem quiet_targeting (p : Agent → Cell → Agent × Cell)
    (h : ∀ A t, same_io A (p A t).1) : Quiet (targeting p) := by
  intro s _
  exact h s.1 s.2

theorem allocate_declines (W : World) (A : Agent) (h : (allocate_experience W A).1 = false) :
    (allocate_experience W A).2 = A := by
  revert h
  unfold allocate_experience
  split
  · intro h; exact absurd h (by simp)
  · intro _; rfl

theorem pickup_declines (W : World) (A : Agent) (h : (pickup_object W A).1 = false) :
    (pickup_object W A).2 = A := by
  revert h
  unfold pickup_object
  simp only []
  by_cases hv : W.evaluate_object (W.o_list (W.cave_o_idx W.py W.px).toNat) > 0
  · rw [if_pos hv]
    intro h
    exfalso
    revert h
    split_ifs <;> simp
  · rw [if_neg hv]
    intro _; rfl

theorem renew_light_declines (W : World) (A : Agent) (h : (renew_light W A).1 = false) :
    (renew_light W A).2 = A := by
  revert h
  unfold renew_light
  simp only []
  split
  · cases find_light W with
    | none => intro _; rfl
    | some i => intro h; exact absurd h (by simp)
  · intro _; rfl

theorem eat_food_declines (W : World) (A : Agent) (h : (eat_food W A).1 = false) :
    (eat_food W A).2 = A := by
  revert h
  unfold eat_food
  split
  · cases (List.range W.INVEN_PACK).find? fun i => decide ((W.inventory i).tval = W.TV_FOOD) with
    | none => intro _; rfl
    | some i => intro h; exact absurd h (by simp)
  · intro _; rfl

theorem leave_level_declines (W : World) (A : Agent) (h : (leave_level W A).1 = false) :
    (leave_level W A).2 = A := by
  revert h
  unfold leave_level
  split
  · intro h; exact absurd h (by simp)
  · intro _; rfl

theorem fighting_strategy_quiet (W : World) : Quiet (fun s => fighting_strategy W s.1 s.2) := by
  intro s hs
  simp only at hs ⊢
  unfold fighting_strategy at hs ⊢
  simp only [] at hs ⊢
  split_ifs at hs ⊢
  all_goals first
    | exact same_io_refl _
    | exact same_io_target _ _ _
    | (rw [find_enemy_declines _ _ _ hs]
       exact same_io_refl _)

theorem find_secret_door_io (W : World) (A : Agent) (t : Cell) :
    same_io A (find_secret_door W A t).1 := by
  unfold find_secret_door
  split
  · exact same_io_refl _
  · exact same_io_target _ _ _

theorem policy_order_quiet (W : World) : ∀ p ∈ policy_order W, Quiet p := by
  intro p hp
  simp only [policy_order, List.mem_cons, List.mem_singleton, List.not_mem_nil, or_false] at hp
  rcases hp with rfl | rfl | rfl | rfl | rfl | rfl | rfl | rfl | rfl | rfl | rfl | rfl | rfl
  · exact quiet_claiming _ (allocate_declines W)
  · exact fighting_strategy_quiet W
  · exact quiet_claiming _ (pickup_declines W)
  · exact quiet_claiming _ (renew_light_declines W)
  · apply quiet_targeting
    intro A t
    unfold rest
    split_ifs <;> exact same_io_refl _
  · exact quiet_claiming _ (eat_food_declines W)
  · exact quiet_targeting _ (fun A t => same_io_target _ _ _)
  · exact quiet_targeting _ (fun A t => same_io_target _ _ _)
  · exact quiet_claiming _ (leave_level_declines W)
  · intro s _
    simp only []
    split
    · exact same_io_target _ _ _
    · exact same_io_refl _
  · exact quiet_targeting _ (find_secret_door_io W)
  · exact quiet_claiming _ (leave_level_declines W)
  · exact quiet_targeting _ (fun A t => same_io_target _ _ _)

theorem run_guarded_quiet (ps : List Policy) (hq : ∀ p ∈ ps, Quiet p) :
    ∀ (s s' : Agent × Cell), run_guarded ps s = Except.ok s' → same_io s.1 s'.1 := by
  induction ps with
  | nil =>
    intro s s' h
    simp only [run_guarded, Except.ok.injEq] at h
    rw [← h]; exact same_io_refl _
  | cons p ps ih =>
    intro s s' h
    have ih' := ih (fun q hq' => hq q (List.mem_cons_of_mem _ hq'))
    simp only [run_guarded] at h
    by_cases h0 : s.2.1 = 0
    · rw [if_pos h0] at h
      by_cases hc : (p s).1 = true
      · rw [if_pos hc] at h; exact absurd h (by simp)
      · rw [if_neg hc] at h
        have hq1 := hq p (List.mem_cons_self _ _) s (by simpa using hc)
        exact same_io_trans hq1 (ih' _ _ h)
    · rw [if_neg h0] at h
      exact ih' _ _ h

theorem all_decline_run (ps : List Policy) :
    ∀ s : Agent × Cell, all_decline ps s = true → s.2.1 = 0 →
      ∃ s', run_guarded ps s = Except.ok s' ∧ s'.2.1 = 0 := by
  induction ps with
  | nil => intro s _ h0; exact ⟨s, rfl, h0⟩
  | cons p ps ih =>
    intro s h h0
    simp only [all_decline, Bool.and_eq_true, Bool.not_eq_true', decide_eq_true_eq] at h
    obtain ⟨⟨h1, h2⟩, h3⟩ := h
    obtain ⟨s', r1, r2⟩ := ih (p s).2 h3 h2
    refine ⟨s', ?_, r2⟩
    simp only [run_guarded, h0, if_true, h1, Bool.false_eq_true, if_false]
    exact r1

/-- C17: when no policy claims and every policy leaves the target row at 0,
`automaton_turn` stops the automaton without queueing anything: the active
flag is false, the hook is removed, the queue is empty (head equals tail) and
the buffer and the head are those from before the cycle. -/
theorem nothing_to_do_stops (W : World) (A : Agent)
    (hdecline : all_decline (policy_order W) (begin_turn W A, ((0 : Int), (0 : Int))) = true) :
    (automaton_turn W A).automaton = false
      ∧ (automaton_turn W A).inkey_hack = false
      ∧ (automaton_turn W A).keys.automaton_key_head
          = (automaton_turn W A).keys.automaton_key_tail
      ∧ (automaton_turn W A).keys.automaton_key_queue = A.keys.automaton_key_queue
      ∧ (automaton_turn W A).keys.automaton_key_head = A.keys.automaton_key_head := by
  obtain ⟨s', hrun, hrow⟩ := all_decline_run _ _ hdecline rfl
  have hio := run_guarded_quiet _ (policy_order_quiet W) _ _ hrun
  have harb : arbiter W (begin_turn W A) = Except.ok s' := by
    rw [arbiter_eq_run_guarded]; exact hrun
  have hturn : automaton_turn W A = stop_automaton s'.1 := by
    have : automaton_turn W A
        = (match arbiter W (begin_turn W A) with
          | Except.error A4 => A4
          | Except.ok (A4, (ty, tx)) => resolve_target W A4 ty tx) := rfl
    rw [this, harb]
    obtain ⟨A4, ty, tx⟩ := s'
    simp only at hrow
    simp only [resolve_target, hrow, if_true]
  have hkeys : s'.1.keys = A.keys := hio.1
  rw [hturn]
  simp only [stop_automaton, automaton_flush, hkeys, and_self]

/-- Witness for C17: in `quiet_room` every policy declines for `hurt_agent`. -/
theorem nothing_to_do_stops_witness :
    (automaton_turn quiet_room hurt_agent).automaton = false
      ∧ (automaton_turn quiet_room hurt_agent).inkey_hack = false
      ∧ (automaton_turn quiet_room hurt_agent).keys.automaton_key_head
          = (automaton_turn quiet_room hurt_agent).keys.automaton_key_tail
      ∧ (automaton_turn quiet_room hurt_agent).keys.automaton_key_queue
          = hurt_agent.keys.automaton_key_queue
      ∧ (automaton_turn quiet_room hurt_agent).keys.automaton_key_head
          = hurt_agent.keys.automaton_key_head :=
  nothing_to_do_stops quiet_room hurt_agent (by decide)

/-! ### Flow cost on zero-penalty terrain and across channels -/

/-- The final grid of `flow_field` satisfies the loop invariant, and every
square below `FLOW_MAX_DIST` has had all its children dealt with. -/
theorem flow_field_final (W : World) (amap : Int → Int → Bool) (lost : Bool) (which : Flow)
    (cy cx : Int) (g0 : Grid) (hwf : W.WellFormed) (ho : W.in_bounds cy cx = true)
    (hno : ¬ (which = Flow.FLOW_AUTOMATON_SECURE ∧ lost = true)) :
    (∃ c cur, FlowInv W amap which (cy, cx) c (flow_field W amap lost which cy cx g0) cur [])
      ∧ ∀ q : Cell, W.in_bounds q.1 q.2 = true →
          (flow_field W amap lost which cy cx g0).at q < W.FLOW_MAX_DIST →
          ∀ d, d < 8 → DoneAt W amap which (cy, cx) (flow_field W amap lost which cy cx g0) q d := by
  have hb := hwf.in_bounds_map _ _ ho
  have hh := hwf.hgt_le
  have hw := hwf.wid_le
  have e1 : cy % 256 = cy := by omega
  have e2 : cx % 256 = cx := by omega
  have hinit := flow_init_inv W amap which (cy, cx) hwf ho g0
  have hfin := flow_loop_final W amap lost which (cy, cx) hwf ho hno W.FLOW_MAX_DIST 1 _ _
    hinit (le_refl _) (by omega)
  have hfield : flow_field W amap lost which cy cx g0
      = flow_loop W amap lost which W.FLOW_MAX_DIST 1 ((erase_flow W g0).set cy cx 0)
          [(cy, cx)] := by
    simp only [flow_field, e1, e2]
  rw [hfield]
  exact hfin

/-- In the final grid every in-bounds square other than the origin costs at
least 1 (given a positive `FLOW_MAX_DIST`). -/
theorem flow_inv_pos (W : World) (amap : Int → Int → Bool) (which : Flow) (o : Cell) (c : Nat)
    (g : Grid) (cur : List Cell) (inv : FlowInv W amap which o c g cur [])
    (hM : 1 ≤ W.FLOW_MAX_DIST) (n : Cell) (hn : W.in_bounds n.1 n.2 = true) (hno : n ≠ o) :
    1 ≤ g.at n := by
  by_cases hlt : g.at n < W.FLOW_MAX_DIST
  · obtain ⟨_, p, d, _, _, _, he⟩ := inv.reached n hn hno hlt
    simp only [entry_cost] at he
    omega
  · omega

theorem path_cost_le_length (W : World) (amap : Int → Int → Bool) (which : Flow) (o : Cell)
    (hzero : ∀ (y x : Int) (far : Bool), passable W amap (y, x) = true →
      extra_cost W which far y x = 0) :
    ∀ (p : List Cell) (s : Cell), legal_path W amap o s p → path_cost W which o p ≤ p.length := by
  intro p
  induction p with
  | nil => intro s _; exact Nat.le_refl _
  | cons c p ih =>
    intro s hl
    obtain ⟨_, hc, hrest⟩ := hl
    have := ih c hrest
    simp only [path_cost, List.length_cons]
    by_cases hco : c = o
    · rw [if_pos hco]; omega
    · rw [if_neg hco]
      have hp : passable W amap c = true := by
        rcases hc with h | h
        · exact absurd h hco
        · exact h
      have := hzero c.1 c.2 (!adjacent8 o c) hp
      simp only [entry_cost]
      omega

theorem path_exists_steps (W : World) (amap : Int → Int → Bool) (which : Flow) (o : Cell)
    (hwf : W.WellFormed) (g : Grid) (c : Nat)
    (cur : List Cell) (inv : FlowInv W amap which o c g cur [])
    (hzero : ∀ (y x : Int) (far : Bool), passable W amap (y, x) = true →
      extra_cost W which far y x = 0) :
    ∀ (k : Nat) (n : Cell), W.in_bounds n.1 n.2 = true → g.at n < W.FLOW_MAX_DIST →
      g.at n = k →
      ∃ p, legal_path W amap o o p ∧ path_end o p = n ∧ p.length = g.at n := by
  intro k
  induction k using Nat.strong_induction_on with
  | _ k ih =>
    intro n hnb hlt hk
    by_cases hno : n = o
    · subst hno
      exact ⟨[], trivial, rfl, by rw [inv.origin0]; rfl⟩
    · obtain ⟨hp, q, d, hqb, hd, hnq, he⟩ := inv.reached n hnb hno hlt
      have hz := hzero n.1 n.2 (!adjacent8 o n) hp
      simp only [entry_cost, hz] at he
      obtain ⟨p, l1, l2, l3⟩ := ih (g.at q) (by omega) q hqb (by omega) rfl
      refine ⟨p ++ [n], ?_, path_end_append p o n, ?_⟩
      · rw [legal_path_append]
        refine ⟨l1, ?_, Or.inr hp⟩
        rw [l2, hnq]
        exact (nbr_in_bounds W hwf q d hd hqb (by rw [← hnq]; exact hnb)).2
      · rw [List.length_append, l3, List.length_singleton]
        omega

/-- On zero-penalty terrain the cost of a reached square is its minimum
number of steps. -/
theorem flow_field_steps (W : World) (amap : Int → Int → Bool) (lost : Bool) (which : Flow)
    (cy cx : Int) (g0 : Grid) (hwf : W.WellFormed) (ho : W.in_bounds cy cx = true)
    (hno : ¬ (which = Flow.FLOW_AUTOMATON_SECURE ∧ lost = true))
    (hzero : ∀ (y x : Int) (far : Bool), passable W amap (y, x) = true →
      extra_cost W which far y x = 0)
    (y x : Int) (hmap : 0 ≤ y ∧ y < W.cur_map_hgt ∧ 0 ≤ x ∧ x < W.cur_map_wid)
    (hcost : flow_field W amap lost which cy cx g0 y x < W.FLOW_MAX_DIST) :
    (∃ p, legal_path W amap (cy, cx) (cy, cx) p ∧ path_end (cy, cx) p = (y, x)
        ∧ p.length = flow_field W amap lost which cy cx g0 y x)
      ∧ ∀ p, legal_path W amap (cy, cx) (cy, cx) p → path_end (cy, cx) p = (y, x) →
          flow_field W amap lost which cy cx g0 y x ≤ p.length := by
  have hyx : W.in_bounds y x = true := by
    by_cases hne : (y, x) = (cy, cx)
    · have h1 := congrArg Prod.fst hne
      have h2 := congrArg Prod.snd hne
      simp only at h1 h2
      rw [h1, h2]; exact ho
    · exact passable_in_bounds W amap (y, x)
        (flow_field_reached W amap lost which cy cx g0 y x hmap hne hcost)
  obtain ⟨⟨c, cur, inv⟩, hdone⟩ := flow_field_final W amap lost which cy cx g0 hwf ho hno
  generalize flow_field W amap lost which cy cx g0 = g at hcost inv hdone ⊢
  constructor
  · exact path_exists_steps W amap which (cy, cx) hwf g c cur inv hzero (g y x) (y, x) hyx
      hcost rfl
  · intro p hl he
    have hle := path_cost_le_length W amap which (cy, cx) hzero p (cy, cx) hl
    by_cases hc : path_cost W which (cy, cx) p < W.FLOW_MAX_DIST
    · have := (path_lower_bound W amap which (cy, cx) hwf ho g inv.origin0 hdone p hl hc).2
      rw [he] at this
      exact le_trans this hle
    · omega

/-- List form of the step-count property: on zero-penalty terrain (every
penalty term is zero on every passable
square, and the secure-channel health adjustment does not apply) the cost of
every reached square of the map equals the minimum number of steps of a legal
8-connected path from the origin: some legal path has exactly that many steps
and none has fewer.  Hence a reached square that needs at most as many steps
as another reached square costs at most as much. -/
theorem zero_penalty_cost_is_steps (W : World) (A : Agent) (which : Flow) (cy cx : Int)
    (hwf : W.WellFormed) (ho : W.in_bounds cy cx = true)
    (hadj : ¬ (which = Flow.FLOW_AUTOMATON_SECURE ∧ W.chp < A.automaton_memory_chp 0))
    (hzero : ∀ (y x : Int) (far : Bool), passable W A.automaton_map (y, x) = true →
      extra_cost W which far y x = 0)
    (y x : Int) (hmap : 0 ≤ y ∧ y < W.cur_map_hgt ∧ 0 ≤ x ∧ x < W.cur_map_wid)
    (hcost : (update_automaton_flow W A which cy cx).cave_cost which y x < W.FLOW_MAX_DIST) :
    ((∃ p, legal_path W A.automaton_map (cy, cx) (cy, cx) p ∧ path_end (cy, cx) p = (y, x)
          ∧ p.length = (update_automaton_flow W A which cy cx).cave_cost which y x)
        ∧ ∀ p, legal_path W A.automaton_map (cy, cx) (cy, cx) p → path_end (cy, cx) p = (y, x) →
            (update_automaton_flow W A which cy cx).cave_cost which y x ≤ p.length)
      ∧ ∀ y' x' : Int, (0 ≤ y' ∧ y' < W.cur_map_hgt ∧ 0 ≤ x' ∧ x' < W.cur_map_wid) →
          (update_automaton_flow W A which cy cx).cave_cost which y' x' < W.FLOW_MAX_DIST →
          (∀ p, legal_path W A.automaton_map (cy, cx) (cy, cx) p →
            path_end (cy, cx) p = (y', x') →
            ∃ q, legal_path W A.automaton_map (cy, cx) (cy, cx) q
              ∧ path_end (cy, cx) q = (y, x) ∧ q.length ≤ p.length) →
          (update_automaton_flow W A which cy cx).cave_cost which y x
            ≤ (update_automaton_flow W A which cy cx).cave_cost which y' x' := by
  rw [update_flow_cost] at hcost ⊢
  have hno : ¬ (which = Flow.FLOW_AUTOMATON_SECURE
      ∧ decide (W.chp < A.automaton_memory_chp 0) = true) := by
    simpa using hadj
  have ha := flow_field_steps W A.automaton_map _ which cy cx (A.cave_cost which) hwf ho hno
    hzero y x hmap hcost
  refine ⟨ha, ?_⟩
  intro y' x' hmap' hcost' hsteps
  obtain ⟨⟨p, pl, pe, plen⟩, _⟩ := flow_field_steps W A.automaton_map _ which cy cx
    (A.cave_cost which) hwf ho hno hzero y' x' hmap' hcost'
  obtain ⟨q, ql, qe, qlen⟩ := hsteps p pl pe
  have := ha.2 q ql qe
  omega

theorem grandchild_cost_fight (W : World) (far : Bool) (y3 x3 : Int) :
    grandchild_cost W Flow.FLOW_AUTOMATON_FIGHT far y3 x3
      = grandchild_cost W Flow.FLOW_AUTOMATON far y3 x3 := by
  simp [grandchild_cost]

theorem grandchild_cost_secure (W : World) (far : Bool) (y3 x3 : Int) :
    grandchild_cost W Flow.FLOW_AUTOMATON far y3 x3
      ≤ grandchild_cost W Flow.FLOW_AUTOMATON_SECURE far y3 x3 := by
  unfold grandchild_cost
  split
  · simp only [if_true]
    have : (if Flow.FLOW_AUTOMATON = Flow.FLOW_AUTOMATON_SECURE then 2 else 0) = 0 := by decide
    omega
  · exact le_refl _

theorem extra_cost_fight (W : World) (far : Bool) (y2 x2 : Int) :
    extra_cost W Flow.FLOW_AUTOMATON_FIGHT far y2 x2 = extra_cost W Flow.FLOW_AUTOMATON far y2 x2 := by
  simp [extra_cost, grandchild_cost_fight]

theorem extra_cost_secure (W : World) (far : Bool) (y2 x2 : Int) :
    extra_cost W Flow.FLOW_AUTOMATON far y2 x2
      ≤ extra_cost W Flow.FLOW_AUTOMATON_SECURE far y2 x2 := by
  unfold extra_cost
  have hs := list_sum_map_le (List.range 8)
    (fun d2 => grandchild_cost W Flow.FLOW_AUTOMATON far (byte_add y2 (ddy_ddd d2))
      (byte_add x2 (ddx_ddd d2)))
    (fun d2 => grandchild_cost W Flow.FLOW_AUTOMATON_SECURE far (byte_add y2 (ddy_ddd d2))
      (byte_add x2 (ddx_ddd d2)))
    (fun d2 => grandchild_cost_secure W far _ _)
  have h0 : (if Flow.FLOW_AUTOMATON = Flow.FLOW_AUTOMATON_SECURE then 25 else 0) = 0 := by decide
  simp only [if_true, h0]
  split_ifs <;> omega

theorem path_cost_mono (W : World) (w1 w2 : Flow) (o : Cell)
    (h : ∀ (far : Bool) (y x : Int), extra_cost W w2 far y x ≤ extra_cost W w1 far y x)
    (p : List Cell) : path_cost W w2 o p ≤ path_cost W w1 o p := by
  induction p with
  | nil => exact Nat.le_refl _
  | cons c p ih =>
    simp only [path_cost]
    have := h (!adjacent8 o c) c.1 c.2
    split
    · omega
    · simp only [entry_cost]; omega

/-- A square reached on one channel is reached, at no higher cost, on any
channel whose penalties are nowhere higher (neither run with the health
adjustment). -/
theorem reached_transfer (W : World) (amap : Int → Int → Bool) (l1 l2 : Bool) (w1 w2 : Flow)
    (cy cx : Int) (g1 g2 : Grid) (hwf : W.WellFormed) (ho : W.in_bounds cy cx = true)
    (hno1 : ¬ (w1 = Flow.FLOW_AUTOMATON_SECURE ∧ l1 = true))
    (hno2 : ¬ (w2 = Flow.FLOW_AUTOMATON_SECURE ∧ l2 = true))
    (h : ∀ (far : Bool) (y x : Int), extra_cost W w2 far y x ≤ extra_cost W w1 far y x)
    (y x : Int) (hmap : 0 ≤ y ∧ y < W.cur_map_hgt ∧ 0 ≤ x ∧ x < W.cur_map_wid)
    (hcost : flow_field W amap l1 w1 cy cx g1 y x < W.FLOW_MAX_DIST) :
    flow_field W amap l2 w2 cy cx g2 y x ≤ flow_field W amap l1 w1 cy cx g1 y x := by
  have hyx : W.in_bounds y x = true := by
    by_cases hne : (y, x) = (cy, cx)
    · have h1 := congrArg Prod.fst hne
      have h2 := congrArg Prod.snd hne
      simp only at h1 h2
      rw [h1, h2]; exact ho
    · exact passable_in_bounds W amap (y, x)
        (flow_field_reached W amap l1 w1 cy cx g1 y x hmap hne hcost)
  obtain ⟨⟨c1, cur1, inv1⟩, _⟩ := flow_field_final W amap l1 w1 cy cx g1 hwf ho hno1
  obtain ⟨⟨c2, cur2, inv2⟩, hdone2⟩ := flow_field_final W amap l2 w2 cy cx g2 hwf ho hno2
  obtain ⟨p, pl, pe, pc⟩ := path_exists W amap w1 (cy, cx) hwf ho _ c1 cur1 inv1
    (flow_field W amap l1 w1 cy cx g1 y x) (y, x) hyx hcost rfl
  have hmono := path_cost_mono W w1 w2 (cy, cx) h p
  have hpc : path_cost W w1 (cy, cx) p = flow_field W amap l1 w1 cy cx g1 y x := pc
  have hlb := (path_lower_bound W amap w2 (cy, cx) hwf ho _ inv2.origin0 hdone2 p pl
    (by omega)).2
  rw [pe] at hlb
  have hlb2 : flow_field W amap l2 w2 cy cx g2 y x ≤ path_cost W w2 (cy, cx) p := hlb
  omega

/-- List form of the comparison of the channels: on the map, the normal and
the combat channel give a cost
below `FLOW_MAX_DIST` to the same squares, and, when the player's health has
not dropped below the remembered value, every square that gets such a cost on
the secure channel also gets one on the normal and combat channels. -/
theorem reached_sets_across_channels (W : World) (A : Agent) (cy cx : Int)
    (hwf : W.WellFormed) (ho : W.in_bounds cy cx = true)
    (y x : Int) (hmap : 0 ≤ y ∧ y < W.cur_map_hgt ∧ 0 ≤ x ∧ x < W.cur_map_wid) :
    ((update_automaton_flow W A Flow.FLOW_AUTOMATON cy cx).cave_cost Flow.FLOW_AUTOMATON y x
          < W.FLOW_MAX_DIST ↔
        (update_automaton_flow W A Flow.FLOW_AUTOMATON_FIGHT cy cx).cave_cost
          Flow.FLOW_AUTOMATON_FIGHT y x < W.FLOW_MAX_DIST)
      ∧ (¬ W.chp < A.automaton_memory_chp 0 →
          (update_automaton_flow W A Flow.FLOW_AUTOMATON_SECURE cy cx).cave_cost
            Flow.FLOW_AUTOMATON_SECURE y x < W.FLOW_MAX_DIST →
          (update_automaton_flow W A Flow.FLOW_AUTOMATON cy cx).cave_cost Flow.FLOW_AUTOMATON y x
              < W.FLOW_MAX_DIST
            ∧ (update_automaton_flow W A Flow.FLOW_AUTOMATON_FIGHT cy cx).cave_cost
              Flow.FLOW_AUTOMATON_FIGHT y x < W.FLOW_MAX_DIST) := by
  simp only [update_flow_cost]
  have hnN : ∀ l : Bool, ¬ (Flow.FLOW_AUTOMATON = Flow.FLOW_AUTOMATON_SECURE ∧ l = true) :=
    fun l h => absurd h.1 (by decide)
  have hnF : ∀ l : Bool, ¬ (Flow.FLOW_AUTOMATON_FIGHT = Flow.FLOW_AUTOMATON_SECURE ∧ l = true) :=
    fun l h => absurd h.1 (by decide)
  have hNF : (flow_field W A.automaton_map (decide (W.chp < A.automaton_memory_chp 0))
        Flow.FLOW_AUTOMATON cy cx (A.cave_cost Flow.FLOW_AUTOMATON) y x < W.FLOW_MAX_DIST ↔
      flow_field W A.automaton_map (decide (W.chp < A.automaton_memory_chp 0))
        Flow.FLOW_AUTOMATON_FIGHT cy cx (A.cave_cost Flow.FLOW_AUTOMATON_FIGHT) y x
          < W.FLOW_MAX_DIST) := by
    constructor
    · intro h
      have := reached_transfer W A.automaton_map _ _ Flow.FLOW_AUTOMATON Flow.FLOW_AUTOMATON_FIGHT
        cy cx _ (A.cave_cost Flow.FLOW_AUTOMATON_FIGHT) hwf ho (hnN _)
        (hnF (decide (W.chp < A.automaton_memory_chp 0)))
        (fun far y x => le_of_eq (extra_cost_fight W far y x)) y x hmap h
      omega
    · intro h
      have := reached_transfer W A.automaton_map _ _ Flow.FLOW_AUTOMATON_FIGHT Flow.FLOW_AUTOMATON
        cy cx _ (A.cave_cost Flow.FLOW_AUTOMATON) hwf ho (hnF _)
        (hnN (decide (W.chp < A.automaton_memory_chp 0)))
        (fun far y x => le_of_eq (extra_cost_fight W far y x).symm) y x hmap h
      omega
  refine ⟨hNF, ?_⟩
  intro hdrop hS
  have hl : decide (W.chp < A.automaton_memory_chp 0) = false := by simpa using hdrop
  have hN : flow_field W A.automaton_map (decide (W.chp < A.automaton_memory_chp 0))
      Flow.FLOW_AUTOMATON cy cx (A.cave_cost Flow.FLOW_AUTOMATON) y x < W.FLOW_MAX_DIST := by
    have := reached_transfer W A.automaton_map _ _ Flow.FLOW_AUTOMATON_SECURE Flow.FLOW_AUTOMATON
      cy cx _ (A.cave_cost Flow.FLOW_AUTOMATON) hwf ho
      (fun h => by rw [hl] at h; exact absurd h.2 (by decide))
      (hnN (decide (W.chp < A.automaton_memory_chp 0)))
      (fun far y x => extra_cost_secure W far y x) y x hmap hS
    omega
  exact ⟨hN, hNF.mp hN⟩

theorem corridor_wellFormed : corridor.WellFormed := by
  refine ⟨by decide, by decide, ?_⟩
  intro y x h
  simp only [corridor, room3_wide, room3, decide_eq_true_eq] at h
  exact h

theorem corridor_zero_penalty (which : Flow) (amap : Int → Int → Bool) (y x : Int) (far : Bool)
    (h : passable corridor amap (y, x) = true) : extra_cost corridor which far y x = 0 := by
  have hy : y = 1 := by
    simp only [passable, corridor, room3_wide, room3, Bool.and_eq_true, Bool.not_eq_true',
      decide_eq_false_iff_not, not_not] at h
    exact h.1.1.2
  subst hy
  have hw : next_to_wall corridor 1 x = true := by
    simp only [next_to_wall, List.any_eq_true]
    refine ⟨0, by decide, ?_⟩
    show decide (byte_add 1 (ddy_ddd 0) ≠ 1) = true
    decide
  unfold extra_cost
  rw [hw]
  simp [grandchild_cost, corridor, room3_wide, room3]

theorem gauntlet_wellFormed : gauntlet.WellFormed := by
  refine ⟨by decide, by decide, ?_⟩
  intro y x h
  simp only [gauntlet, decide_eq_true_eq] at h
  simp only [gauntlet]
  omega

/-- Example of the step-count property in the list form: the far end `(1, 2)`
of the corridor, from the origin `(1, 0)`. -/
theorem zero_penalty_cost_is_steps_witness :
    ((∃ p, legal_path corridor hurt_agent.automaton_map (1, 0) (1, 0) p
          ∧ path_end (1, 0) p = (1, 2)
          ∧ p.length = (update_automaton_flow corridor hurt_agent Flow.FLOW_AUTOMATON 1 0).cave_cost
              Flow.FLOW_AUTOMATON 1 2)
        ∧ ∀ p, legal_path corridor hurt_agent.automaton_map (1, 0) (1, 0) p →
            path_end (1, 0) p = (1, 2) →
            (update_automaton_flow corridor hurt_agent Flow.FLOW_AUTOMATON 1 0).cave_cost
              Flow.FLOW_AUTOMATON 1 2 ≤ p.length)
      ∧ ∀ y' x' : Int, (0 ≤ y' ∧ y' < corridor.cur_map_hgt ∧ 0 ≤ x' ∧ x' < corridor.cur_map_wid) →
          (update_automaton_flow corridor hurt_agent Flow.FLOW_AUTOMATON 1 0).cave_cost
            Flow.FLOW_AUTOMATON y' x' < corridor.FLOW_MAX_DIST →
          (∀ p, legal_path corridor hurt_agent.automaton_map (1, 0) (1, 0) p →
            path_end (1, 0) p = (y', x') →
            ∃ q, legal_path corridor hurt_agent.automaton_map (1, 0) (1, 0) q
              ∧ path_end (1, 0) q = (1, 2) ∧ q.length ≤ p.length) →
          (update_automaton_flow corridor hurt_agent Flow.FLOW_AUTOMATON 1 0).cave_cost
              Flow.FLOW_AUTOMATON 1 2
            ≤ (update_automaton_flow corridor hurt_agent Flow.FLOW_AUTOMATON 1 0).cave_cost
              Flow.FLOW_AUTOMATON y' x' :=
  zero_penalty_cost_is_steps corridor hurt_agent Flow.FLOW_AUTOMATON 1 0 corridor_wellFormed
    (by decide) (by decide)
    (fun y x far h => corridor_zero_penalty Flow.FLOW_AUTOMATON hurt_agent.automaton_map y x far h)
    1 2 (by decide) (by decide)

/-- The list form at `gauntlet`: from the origin `(0, 0)`, the square
`(0, 4)` gets the cost 4 on the normal channel and 116, which is not below
`FLOW_MAX_DIST = 100`, on the secure channel. -/
theorem secure_channel_reaches_less :
    (update_automaton_flow gauntlet hurt_agent Flow.FLOW_AUTOMATON 0 0).cave_cost
        Flow.FLOW_AUTOMATON 0 4 = 4
      ∧ (update_automaton_flow gauntlet hurt_agent Flow.FLOW_AUTOMATON_SECURE 0 0).cave_cost
        Flow.FLOW_AUTOMATON_SECURE 0 4 = 116
      ∧ gauntlet.FLOW_MAX_DIST = 100 := by
  decide

/-- Example of the comparison of the channels in the list form: the square
`(0, 1)` of `gauntlet`. -/
theorem reached_sets_across_channels_witness :
    ((update_automaton_flow gauntlet hurt_agent Flow.FLOW_AUTOMATON 0 0).cave_cost
          Flow.FLOW_AUTOMATON 0 1 < gauntlet.FLOW_MAX_DIST ↔
        (update_automaton_flow gauntlet hurt_agent Flow.FLOW_AUTOMATON_FIGHT 0 0).cave_cost
          Flow.FLOW_AUTOMATON_FIGHT 0 1 < gauntlet.FLOW_MAX_DIST)
      ∧ (¬ gauntlet.chp < hurt_agent.automaton_memory_chp 0 →
          (update_automaton_flow gauntlet hurt_agent Flow.FLOW_AUTOMATON_SECURE 0 0).cave_cost
            Flow.FLOW_AUTOMATON_SECURE 0 1 < gauntlet.FLOW_MAX_DIST →
          (update_automaton_flow gauntlet hurt_agent Flow.FLOW_AUTOMATON 0 0).cave_cost
              Flow.FLOW_AUTOMATON 0 1 < gauntlet.FLOW_MAX_DIST
            ∧ (update_automaton_flow gauntlet hurt_agent Flow.FLOW_AUTOMATON_FIGHT 0 0).cave_cost
              Flow.FLOW_AUTOMATON_FIGHT 0 1 < gauntlet.FLOW_MAX_DIST) :=
  reached_sets_across_channels gauntlet hurt_agent 0 0 gauntlet_wellFormed (by decide) 0 1
    (by decide)

/-! ### The end-to-end melee scenario -/

theorem foldl_skip {α β : Type} (f : β → α → β) (l : List α) (b : β)
    (h : ∀ a ∈ l, ∀ b, f b a = b) : l.foldl f b = b := by
  induction l generalizing b with
  | nil => rfl
  | cons a l ih =>
    rw [List.foldl_cons, h a (List.mem_cons_self a l) b]
    exact ih b (fun a2 ha2 => h a2 (List.mem_cons_of_mem a ha2))

/-- A fold whose step changes the state for one element only. -/
theorem foldl_single {α β : Type} (f : β → α → β) (l : List α) (a0 : α) (hnd : l.Nodup)
    (hm : a0 ∈ l) (h : ∀ a ∈ l, a ≠ a0 → ∀ b, f b a = b) (b : β) :
    l.foldl f b = f b a0 := by
  induction l generalizing b with
  | nil => exact absurd hm (List.not_mem_nil a0)
  | cons a l ih =>
    rw [List.nodup_cons] at hnd
    rw [List.foldl_cons]
    by_cases ha : a = a0
    · subst ha
      exact foldl_skip f l _ (fun a2 ha2 => h a2 (List.mem_cons_of_mem a ha2)
        (fun e => hnd.1 (e ▸ ha2)))
    · have hm2 : a0 ∈ l := by
        rcases List.mem_cons.mp hm with e | e
        · exact absurd e.symm ha
        · exact e
      rw [h a (List.mem_cons_self a l) ha b]
      exact ih hnd.2 hm2 (fun a2 ha2 => h a2 (List.mem_cons_of_mem a ha2)) b

theorem monster_fold_single {β : Type} (W : World) (f : β → Nat → β) (i0 : Nat)
    (hi0 : 1 ≤ i0 ∧ i0 < W.mon_max)
    (h : ∀ i, 1 ≤ i → i < W.mon_max → i ≠ i0 → ∀ b, f b i = b) (b : β) :
    (monster_indices W).foldl f b = f b i0 := by
  apply foldl_single f (monster_indices W) i0 (List.nodup_range' 1 (W.mon_max - 1))
  · simp only [monster_indices, List.mem_range'_1]; omega
  · intro a ha hne
    simp only [monster_indices, List.mem_range'_1] at ha
    exact h a (by omega) (by omega) hne

theorem grid_distance_adjacent (y1 x1 y2 x2 : Int) (h : max |y2 - y1| |x2 - x1| = 1) :
    grid_distance y1 x1 y2 x2 = 1 := by
  unfold grid_distance
  simp only [c_abs_eq]
  rw [Int.tdiv_eq_ediv (by positivity) (by decide)]
  rcases abs_cases (y1 - y2) with ⟨h1, h2⟩ | ⟨h1, h2⟩ <;>
    rcases abs_cases (x1 - x2) with ⟨h3, h4⟩ | ⟨h3, h4⟩ <;>
    rcases abs_cases (|y1 - y2| - |x1 - x2|) with ⟨h5, h6⟩ | ⟨h5, h6⟩ <;>
    rcases abs_cases (y2 - y1) with ⟨k1, k2⟩ | ⟨k1, k2⟩ <;>
    rcases abs_cases (x2 - x1) with ⟨k3, k4⟩ | ⟨k3, k4⟩ <;>
    rcases max_cases |y2 - y1| |x2 - x1| with ⟨h7, h8⟩ | ⟨h7, h8⟩ <;> omega

/-- The penalty of a square that holds an alert monster and has no visible
trap, when no other square holds a monster, entered as the first step. -/
theorem extra_cost_lone_monster (W : World) (which : Flow) (fy fx : Int)
    (hch : which ≠ Flow.FLOW_AUTOMATON_SECURE)
    (hgrid : ∀ y x, W.cave_m_idx y x > 0 → y = fy ∧ x = fx)
    (halert : W.cave_m_idx fy fx > 0 →
      W.ALERTNESS_ALERT ≤ (W.mon_list (W.cave_m_idx fy fx).toNat).alertness)
    (htrap : ¬ (W.cave_trap_bold fy fx = true ∧ W.cave_hidden fy fx = false)) :
    extra_cost W which false fy fx = 0 := by
  have hg : ∀ d2 ∈ List.range 8,
      grandchild_cost W which false (byte_add fy (ddy_ddd d2)) (byte_add fx (ddx_ddd d2)) = 0 := by
    intro d2 hd2
    have hd : d2 < 8 := List.mem_range.mp hd2
    unfold grandchild_cost
    rw [if_neg]
    intro hpos
    obtain ⟨e1, e2⟩ := hgrid _ _ hpos
    obtain ⟨o1, o2, o3, o4, o5⟩ := ddd_offsets d2 hd
    simp only [byte_add] at e1 e2
    have hnz : ddy_ddd d2 ≠ 0 ∨ ddx_ddd d2 ≠ 0 := by
      by_contra hc
      push_neg at hc
      rw [hc.1, hc.2] at o1
      simp at o1
    rcases hnz with hnz | hnz
    · omega
    · omega
  have hs : ((List.range 8).map fun d2 =>
      grandchild_cost W which false (byte_add fy (ddy_ddd d2)) (byte_add fx (ddx_ddd d2))).sum
        = 0 := by
    apply List.sum_eq_zero
    intro n hn
    obtain ⟨d2, hd2, rfl⟩ := List.mem_map.mp hn
    exact hg d2 hd2
  unfold extra_cost
  rw [hs]
  have ht : (W.cave_trap_bold fy fx && !W.cave_hidden fy fx) = false := by
    rw [Bool.eq_false_iff]
    intro hc
    rw [Bool.and_eq_true, Bool.not_eq_true'] at hc
    exact htrap hc
  rw [ht]
  by_cases hm : W.cave_m_idx fy fx > 0
  · have := halert hm
    simp [hm, hch, not_lt.mpr this]
  · simp [hm]

/-- A passable square next to the origin whose first-step penalty is zero
gets the cost 1. -/
theorem flow_adjacent_cost (W : World) (amap : Int → Int → Bool) (lost : Bool) (which : Flow)
    (cy cx : Int) (g0 : Grid) (hwf : W.WellFormed) (ho : W.in_bounds cy cx = true)
    (hno : ¬ (which = Flow.FLOW_AUTOMATON_SECURE ∧ lost = true))
    (hM : 2 ≤ W.FLOW_MAX_DIST) (y x : Int) (hadj : max |y - cy| |x - cx| = 1)
    (hpass : passable W amap (y, x) = true) (hzero : extra_cost W which false y x = 0) :
    flow_field W amap lost which cy cx g0 y x = 1 := by
  obtain ⟨⟨c, cur, inv⟩, hdone⟩ := flow_field_final W amap lost which cy cx g0 hwf ho hno
  have hne : ((y, x) : Cell) ≠ (cy, cx) := by
    intro e
    have h1 := congrArg Prod.fst e
    have h2 := congrArg Prod.snd e
    simp only at h1 h2
    subst h1 h2
    simp at hadj
  have hadj8 : adjacent8 (cy, cx) (y, x) = true := by
    simp only [adjacent8, decide_eq_true_eq]
    rw [abs_sub_comm cy y, abs_sub_comm cx x]
    exact hadj
  have hge := flow_inv_pos W amap which (cy, cx) c _ cur inv (by omega) (y, x)
    (passable_in_bounds W amap (y, x) hpass) hne
  have hle := (path_lower_bound W amap which (cy, cx) hwf ho _ inv.origin0 hdone [(y, x)]
    ⟨hadj8, Or.inr hpass, trivial⟩
    (by simp only [path_cost, if_neg hne, entry_cost, hadj8, Bool.not_true, hzero]; omega)).2
  simp only [path_end, path_cost, if_neg hne, entry_cost, hadj8, Bool.not_true, hzero] at hle
  have hle2 : flow_field W amap lost which cy cx g0 y x ≤ 1 := hle
  have hge2 : 1 ≤ flow_field W amap lost which cy cx g0 y x := hge
  omega

theorem begin_turn_io (W : World) (A : Agent) :
    (begin_turn W A).keys = A.keys ∧ (begin_turn W A).automaton = A.automaton
      ∧ (begin_turn W A).inkey_hack = A.inkey_hack
      ∧ (begin_turn W A).automaton_map = (add_seen_squares_to_map W A).automaton_map := by
  unfold begin_turn
  obtain ⟨a1, a2, a3, a4, _⟩ := flow_keeps_io W (add_seen_squares_to_map W A)
    Flow.FLOW_AUTOMATON W.py W.px
  obtain ⟨b1, b2, b3, b4, _⟩ := flow_keeps_io W
    (update_automaton_flow W (add_seen_squares_to_map W A) Flow.FLOW_AUTOMATON W.py W.px)
    Flow.FLOW_AUTOMATON_FIGHT W.py W.px
  obtain ⟨c1, c2, c3, c4, _⟩ := flow_keeps_io W
    (update_automaton_flow W
      (update_automaton_flow W (add_seen_squares_to_map W A) Flow.FLOW_AUTOMATON W.py W.px)
      Flow.FLOW_AUTOMATON_FIGHT W.py W.px)
    Flow.FLOW_AUTOMATON_SECURE W.py W.px
  refine ⟨?_, ?_, ?_, ?_⟩
  · rw [c1, b1, a1]; rfl
  · rw [c2, b2, a2]; rfl
  · rw [c3, b3, a3]; rfl
  · rw [c4, b4, a4]

/-- After the flow maps of the start of the turn, a passable square next to
the player with zero first-step penalty has combat cost 1. -/
theorem begin_turn_fight_cost (W : World) (A : Agent) (hwf : W.WellFormed)
    (hplayer : W.in_bounds W.py W.px = true) (hM : 2 ≤ W.FLOW_MAX_DIST) (y x : Int)
    (hadj : max |y - W.py| |x - W.px| = 1)
    (hpass : passable W (add_seen_squares_to_map W A).automaton_map (y, x) = true)
    (hzero : extra_cost W Flow.FLOW_AUTOMATON_FIGHT false y x = 0) :
    (begin_turn W A).cave_cost Flow.FLOW_AUTOMATON_FIGHT y x = 1 := by
  unfold begin_turn
  rw [update_flow_other _ _ _ _ _ _ (by decide), update_flow_cost,
    (flow_keeps_io W (add_seen_squares_to_map W A) Flow.FLOW_AUTOMATON W.py W.px).2.2.2.1]
  exact flow_adjacent_cost W _ _ Flow.FLOW_AUTOMATON_FIGHT W.py W.px _ hwf hplayer
    (fun h => absurd h.1 (by decide)) hM y x hadj hpass hzero

/-- With a single live monster, which is visible, alert and melee-only and
stands next to the player at combat cost 1, `find_enemy_to_kill` queues
nothing and sets the target to the monster's square. -/
theorem find_enemy_adjacent (W : World) (B : Agent) (t : Cell) (i0 : Nat) (fy fx : Int)
    (hafraid : W.afraid = false)
    (hi0 : 1 ≤ i0 ∧ i0 < W.mon_max)
    (honly : ∀ i, 1 ≤ i → i < W.mon_max → i ≠ i0 → (W.mon_list i).r_idx = 0)
    (halive : (W.mon_list i0).r_idx ≠ 0)
    (hpos : (W.mon_list i0).fy = fy ∧ (W.mon_list i0).fx = fx)
    (hvis : (W.mon_list i0).ml = true)
    (halert : W.ALERTNESS_ALERT ≤ (W.mon_list i0).alertness)
    (hadj : max |fy - W.py| |fx - W.px| = 1)
    (hb : W.in_bounds fy fx = true)
    (hcost : B.cave_cost Flow.FLOW_AUTOMATON_FIGHT fy fx = 1) :
    find_enemy_to_kill W B t = (false, B, (fy, fx)) := by
  have hfold : (monster_indices W).foldl (hunt_step W B) ⟨12, false, true, t.1, t.2⟩
      = hunt_step W B ⟨12, false, true, t.1, t.2⟩ i0 :=
    monster_fold_single W (hunt_step W B) i0 hi0
      (fun i h1 h2 h3 b => by simp [hunt_step, honly i h1 h2 h3]) _
  have hgd : grid_distance W.py W.px fy fx = 1 := grid_distance_adjacent _ _ _ _ hadj
  have hdist : flow_dist W B Flow.FLOW_AUTOMATON_FIGHT fy fx = 1 := by
    simp [flow_dist, hb, hcost]
  have hstep : (hunt_step W B ⟨12, false, true, t.1, t.2⟩ i0).can_fire = false
      ∧ (hunt_step W B ⟨12, false, true, t.1, t.2⟩ i0).ty = fy
      ∧ (hunt_step W B ⟨12, false, true, t.1, t.2⟩ i0).tx = fx := by
    unfold hunt_step
    simp only [hpos.1, hpos.2, hgd, hdist, hvis]
    simp [halive, not_lt.mpr halert]
  unfold find_enemy_to_kill
  rw [hfold]
  simp [hafraid, hstep.1, hstep.2.1, hstep.2.2]

theorem assess_threat_single (W : World) (B : Agent) (i0 : Nat)
    (hi0 : 1 ≤ i0 ∧ i0 < W.mon_max)
    (honly : ∀ i, 1 ≤ i → i < W.mon_max → i ≠ i0 → (W.mon_list i).r_idx = 0) :
    (assess_threat W B).monster_count ≤ 1 := by
  unfold assess_threat
  rw [monster_fold_single W (threat_step W B) i0 hi0
    (fun i h1 h2 h3 b => by simp [threat_step, honly i h1 h2 h3])]
  unfold threat_step
  simp only
  split_ifs <;> simp

theorem full_health_percent (W : World) (hfull : W.chp = W.mhp) (hmhp : 0 < W.mhp) :
    Int.tdiv (W.chp * 100) W.mhp = 100 := by
  rw [hfull, Int.tdiv_eq_ediv (by positivity) (by omega)]
  exact Int.mul_ediv_cancel_left 100 (by omega)

/-- At full health, with light, food and a weapon, neither confused nor
afraid, and at most one counted monster, `fighting_strategy` is
`find_enemy_to_kill`. -/
theorem fighting_strategy_engages (W : World) (B : Agent) (t : Cell)
    (hlight : no_light_or_starving W = false) (hconf : W.confused = false)
    (hafraid : W.afraid = false) (hweapon : (W.inventory W.INVEN_WIELD).weight ≠ 0)
    (hfull : W.chp = W.mhp) (hmhp : 0 < W.mhp)
    (hcount : (assess_threat W B).monster_count ≤ 1) :
    fighting_strategy W B t = find_enemy_to_kill W B t := by
  unfold fighting_strategy
  rw [full_health_percent W hfull hmhp]
  simp [hlight, hconf, hafraid, hweapon, not_lt.mpr hcount]

theorem arbiter_engages (W : World) (B : Agent) (fy fx : Int)
    (hskill : W.new_exp < (W.skill_base (best_skill W).2 + 1) * 100)
    (hfs : fighting_strategy W B ((0 : Int), (0 : Int)) = (false, B, (fy, fx)))
    (hrow : fy ≠ 0) : arbiter W B = Except.ok (B, (fy, fx)) := by
  have ha : allocate_experience W B = (false, B) := by
    unfold allocate_experience
    rw [if_neg (not_le.mpr hskill)]
  rw [arbiter_eq_run_guarded]
  simp only [policy_order]
  rw [run_guarded]
  simp only [claiming, ha, if_true, Bool.false_eq_true, if_false]
  rw [run_guarded]
  simp only [hfs, if_true, Bool.false_eq_true, if_false]
  exact run_guarded_of_target _ _ hrow

/-- Towards a target next to the player, the direction loop finds the
direction of the target's square. -/
theorem head_for_adjacent_target (W : World) (A : Agent) (fy fx : Int) (hwf : W.WellFormed)
    (hM : 1 ≤ W.FLOW_MAX_DIST) (hb : W.in_bounds fy fx = true)
    (hadj : max |fy - W.py| |fx - W.px| = 1) :
    (head_for_target W A fy fx).2.found_direction = true
      ∧ ∃ i ∈ [7, 6, 5, 4, 3, 2, 1, 0], (head_for_target W A fy fx).2.best_dir = ddd i
          ∧ W.py + ddy_ddd i = fy ∧ W.px + ddx_ddd i = fx := by
  have hcost := head_for_target_cost W A fy fx
  rw [update_flow_cost] at hcost
  obtain ⟨⟨c, cur, inv⟩, _⟩ := flow_field_final W A.automaton_map
    (decide (W.chp < A.automaton_memory_chp 0)) Flow.FLOW_AUTOMATON fy fx
    (A.cave_cost Flow.FLOW_AUTOMATON) hwf hb (fun h => absurd h.1 (by decide))
  have h0 : flow_field W A.automaton_map (decide (W.chp < A.automaton_memory_chp 0))
      Flow.FLOW_AUTOMATON fy fx (A.cave_cost Flow.FLOW_AUTOMATON) fy fx = 0 := inv.origin0
  have hpos : ∀ y x : Int, W.in_bounds y x = true → ¬ (y = fy ∧ x = fx) →
      1 ≤ flow_field W A.automaton_map (decide (W.chp < A.automaton_memory_chp 0))
        Flow.FLOW_AUTOMATON fy fx (A.cave_cost Flow.FLOW_AUTOMATON) y x := by
    intro y x hyx hne
    exact flow_inv_pos W _ _ (fy, fx) c _ cur inv hM (y, x) hyx
      (fun e => hne ⟨congrArg Prod.fst e, congrArg Prod.snd e⟩)
  have hdist : ∀ y x, W.in_bounds y x = true →
      flow_dist W (head_for_target W A fy fx).1 Flow.FLOW_AUTOMATON y x
        = ((flow_field W A.automaton_map (decide (W.chp < A.automaton_memory_chp 0))
            Flow.FLOW_AUTOMATON fy fx (A.cave_cost Flow.FLOW_AUTOMATON) y x : Nat) : Int) := by
    intro y x hyx
    simp only [flow_dist, hyx, if_true, hcost]
  have hfound : (head_for_target W A fy fx).2.found_direction = true := by
    rw [head_for_target_found_iff, update_flow_cost]
    exact ⟨fy, fx, hadj, hb, by rw [h0]; omega⟩
  refine ⟨hfound, ?_⟩
  have hinv := direction_fold_inv W (head_for_target W A fy fx).1 [7, 6, 5, 4, 3, 2, 1, 0]
    (fun _ => False) ⟨false, (W.FLOW_MAX_DIST : Int) - 1, 5⟩
    (fun _ _ _ hj => hj.elim) (by decide)
    ⟨fun _ hj => hj.elim, fun hf => absurd hf Bool.false_ne_true⟩
  have hfd : (head_for_target W A fy fx).2
      = [7, 6, 5, 4, 3, 2, 1, 0].foldl (direction_step W (head_for_target W A fy fx).1)
          ⟨false, (W.FLOW_MAX_DIST : Int) - 1, 5⟩ := rfl
  rw [← hfd] at hinv
  obtain ⟨hle, hsel⟩ := hinv
  obtain ⟨i, hi, hbi, hdir, hbest, _⟩ := hsel hfound
  have hi2 : i ∈ [7, 6, 5, 4, 3, 2, 1, 0] := by simpa using hi
  obtain ⟨j, hj, e1, e2, _⟩ := neighbour_index (fy - W.py) (fx - W.px) hadj
  have hjy : W.py + ddy_ddd j = fy := by omega
  have hjx : W.px + ddx_ddd j = fx := by omega
  have hbj : W.in_bounds (W.py + ddy_ddd j) (W.px + ddx_ddd j) = true := by
    rw [hjy, hjx]; exact hb
  have hlej := hle j (Or.inr hj) hbj
  rw [hbest, hdist _ _ hbi, hdist _ _ hbj, hjy, hjx, h0] at hlej
  refine ⟨i, hi2, hdir, ?_⟩
  by_contra hne
  have := hpos _ _ hbi (fun e => hne e)
  omega

/-- C11: when skill allocation declines, the light works, the player is not
starving, confused or afraid, wields a weapon and is at full health, and the
only monster (melee-only or not) is alive, visible and alert and stands on a
known, passable square without a visible trap or known closed door next to
the player (off row 0, which the code reads as "no target"), one decision
cycle queues exactly `;` followed by the digit of the direction from the
player to the monster's square; the agent stays active. -/
theorem adjacent_hostile_is_attacked (W : World) (A : Agent) (i0 : Nat) (fy fx : Int)
    (hwf : W.WellFormed) (hM : 2 ≤ W.FLOW_MAX_DIST)
    (hplayer : W.in_bounds W.py W.px = true)
    (hskill : W.new_exp < (W.skill_base (best_skill W).2 + 1) * 100)
    (hlight : no_light_or_starving W = false) (hconf : W.confused = false)
    (hafraid : W.afraid = false) (hweapon : (W.inventory W.INVEN_WIELD).weight ≠ 0)
    (hfull : W.chp = W.mhp) (hmhp : 0 < W.mhp)
    (hi0 : 1 ≤ i0 ∧ i0 < W.mon_max)
    (honly : ∀ i, 1 ≤ i → i < W.mon_max → i ≠ i0 → (W.mon_list i).r_idx = 0)
    (halive : (W.mon_list i0).r_idx ≠ 0)
    (hpos : (W.mon_list i0).fy = fy ∧ (W.mon_list i0).fx = fx)
    (hvis : (W.mon_list i0).ml = true)
    (halert : W.ALERTNESS_ALERT ≤ (W.mon_list i0).alertness)
    (hidx : W.cave_m_idx fy fx = (i0 : Int))
    (hgrid : ∀ y x, W.cave_m_idx y x > 0 → y = fy ∧ x = fx)
    (hadj : max |fy - W.py| |fx - W.px| = 1) (hrow : fy ≠ 0)
    (hpass : passable W (add_seen_squares_to_map W A).automaton_map (fy, fx) = true)
    (htrap : ¬ (W.cave_trap_bold fy fx = true ∧ W.cave_hidden fy fx = false))
    (hdoor : W.cave_known_closed_door_bold fy fx = false) :
    ∃ dir : Nat, dir ∈ [1, 2, 3, 4, 6, 7, 8, 9] ∧ ddy dir = fy - W.py ∧ ddx dir = fx - W.px
      ∧ (automaton_turn W A).keys = automaton_keypresses A.keys [59, 48 + (dir : Int)]
      ∧ (automaton_turn W A).automaton = A.automaton := by
  have hb : W.in_bounds fy fx = true := passable_in_bounds W _ (fy, fx) hpass
  have hzero : extra_cost W Flow.FLOW_AUTOMATON_FIGHT false fy fx = 0 :=
    extra_cost_lone_monster W _ fy fx (by decide) hgrid
      (fun _ => by rw [hidx, Int.toNat_ofNat]; exact halert) htrap
  have hcost := begin_turn_fight_cost W A hwf hplayer hM fy fx hadj hpass hzero
  have hfs : fighting_strategy W (begin_turn W A) ((0 : Int), (0 : Int))
      = (false, begin_turn W A, (fy, fx)) := by
    rw [fighting_strategy_engages W _ _ hlight hconf hafraid hweapon hfull hmhp
      (assess_threat_single W _ i0 hi0 honly)]
    exact find_enemy_adjacent W _ _ i0 fy fx hafraid hi0 honly halive hpos hvis halert hadj hb
      hcost
  have harb := arbiter_engages W (begin_turn W A) fy fx hskill hfs hrow
  have hturn : automaton_turn W A = resolve_target W (begin_turn W A) fy fx := by
    have ht : automaton_turn W A = (match arbiter W (begin_turn W A) with
        | Except.error A4 => A4
        | Except.ok (A4, (ty, tx)) => resolve_target W A4 ty tx) := rfl
    rw [ht, harb]
  obtain ⟨hfound, i, hi, hdir, hiy, hix⟩ :=
    head_for_adjacent_target W (begin_turn W A) fy fx hwf (by omega) hb hadj
  have hne : ¬ (fy = W.py ∧ fx = W.px) := by
    rintro ⟨e1, e2⟩
    rw [e1, e2] at hadj
    simp at hadj
  obtain ⟨t1, t2, _, _⟩ := direction_tables i hi
  obtain ⟨k1, k2, _⟩ := head_for_target_io W (begin_turn W A) fy fx
  obtain ⟨b1, b2, _⟩ := begin_turn_io W A
  refine ⟨ddd i, (ddd_ne_five i hi).2, by rw [t1]; omega, by rw [t2]; omega, ?_, ?_⟩
  · rw [hturn, resolve_target_moves W _ fy fx hrow hne hfound, hdir, t1, t2, hiy, hix,
      if_neg htrap]
    simp only [update_memory, Agent.press, hdoor, Bool.false_eq_true, false_and, if_false, k1, b1]
  · rw [hturn, resolve_target_moves W _ fy fx hrow hne hfound, hdir, t1, t2, hiy, hix,
      if_neg htrap]
    simp only [update_memory, Agent.press, k2, b2]

theorem duel_room_wellFormed : duel_room.WellFormed := by
  refine ⟨by decide, by decide, ?_⟩
  intro y x h
  simp only [duel_room, armed_room, room3, decide_eq_true_eq] at h
  exact h

/-- Witness for C11: in `duel_room` the player at `(1, 1)` attacks the
monster at `(2, 1)`. -/
theorem adjacent_hostile_is_attacked_witness :
    ∃ dir : Nat, dir ∈ [1, 2, 3, 4, 6, 7, 8, 9] ∧ ddy dir = 2 - duel_room.py
      ∧ ddx dir = 1 - duel_room.px
      ∧ (automaton_turn duel_room hurt_agent).keys
          = automaton_keypresses hurt_agent.keys [59, 48 + (dir : Int)]
      ∧ (automaton_turn duel_room hurt_agent).automaton = hurt_agent.automaton :=
  adjacent_hostile_is_attacked duel_room hurt_agent 1 2 1 duel_room_wellFormed (by decide)
    (by decide) (by decide) (by decide) (by decide) (by decide) (by decide) (by decide)
    (by decide) (by decide)
    (fun i h1 h2 h3 => by
      have : duel_room.mon_max = 2 := rfl
      omega)
    (by decide) (by decide) (by decide) (by decide) (by decide)
    (fun y x h => by
      simp only [duel_room] at h
      split at h
      · assumption
      · exact absurd h (by decide))
    (by decide) (by decide) (by decide) (by decide) (by decide)

/-! ### The rest policy and the fighting-position override -/

/-- C23: `rest` never touches the agent (so it queues nothing), and it sets
the target to the player's own square exactly when (the player is poisoned or
the remembered health is not greater than the current health) and (health is
below 75% or the player is stunned, confused, afraid, blind, hallucinating,
slowed, bleeding or poisoned); otherwise the target stays as it was. -/
theorem rest_holds_position_iff (W : World) (A : Agent) (t : Cell) :
    rest W A t
      = (A, if (W.poisoned = true ∨ A.automaton_memory_chp 0 ≤ W.chp)
              ∧ (Int.tdiv (W.chp * 100) W.mhp < 75 ∨ W.stun = true ∨ W.confused = true
                ∨ W.afraid = true ∨ W.blind = true ∨ W.image = true ∨ W.slow = true
                ∨ W.cut = true ∨ W.poisoned = true)
            then (W.py, W.px) else t) := by
  unfold rest
  by_cases h1 : W.poisoned = false ∧ A.automaton_memory_chp 0 > W.chp
  · rw [if_pos h1, if_neg]
    rintro ⟨hp | hp, _⟩
    · rw [h1.1] at hp; exact absurd hp (by decide)
    · omega
  · rw [if_neg h1]
    have h2 : W.poisoned = true ∨ A.automaton_memory_chp 0 ≤ W.chp := by
      by_cases hp : W.poisoned = true
      · exact Or.inl hp
      · right
        by_contra hc
        exact h1 ⟨by simpa using hp, by omega⟩
    by_cases h3 : Int.tdiv (W.chp * 100) W.mhp < 75 ∨ W.stun = true ∨ W.confused = true
        ∨ W.afraid = true ∨ W.blind = true ∨ W.image = true ∨ W.slow = true
        ∨ W.cut = true ∨ W.poisoned = true
    · rw [if_pos h3, if_pos ⟨h2, h3⟩]
    · rw [if_neg h3, if_neg (fun h => h3 h.2)]

theorem filter_length_le_one {α : Type} (p : α → Bool) (l : List α) (hnd : l.Nodup)
    (h : ∀ a ∈ l, ∀ b ∈ l, p a = true → p b = true → a = b) : (l.filter p).length ≤ 1 := by
  induction l with
  | nil => simp
  | cons a l ih =>
    rw [List.nodup_cons] at hnd
    have ih' := ih hnd.2 (fun x hx y hy => h x (List.mem_cons_of_mem a hx) y
      (List.mem_cons_of_mem a hy))
    by_cases hpa : p a = true
    · have hnone : l.filter p = [] := by
        rw [List.filter_eq_nil_iff]
        intro b hb hpb
        have := h a (List.mem_cons_self a l) b (List.mem_cons_of_mem a hb) hpa hpb
        exact hnd.1 (this ▸ hb)
      rw [List.filter_cons_of_pos hpa, hnone]
      simp
    · rw [List.filter_cons_of_neg hpa]
      exact ih'

theorem ddd_injective (d e : Nat) (hd : d < 8) (he : e < 8)
    (hy : ddy_ddd d = ddy_ddd e) (hx : ddx_ddd d = ddx_ddd e) : d = e := by
  revert hy hx
  interval_cases d <;> interval_cases e <;> decide

/-- C24: if at most one of the eight squares around the player holds a
monster (the player's coordinates and those of the neighbours fit a `byte`),
`find_fighting_position` returns the player's own square as the target and
hands it to `target_set_location`, whatever the scan for walls found. -/
theorem fighting_position_stays_put (W : World) (A : Agent) (t : Cell)
    (hbyte : 1 ≤ W.py ∧ W.py ≤ 254 ∧ 1 ≤ W.px ∧ W.px ≤ 254)
    (hone : ∀ c1 c2 : Cell, adjacent8 (W.py, W.px) c1 = true → adjacent8 (W.py, W.px) c2 = true →
      W.cave_m_idx c1.1 c1.2 > 0 → W.cave_m_idx c2.1 c2.2 > 0 → c1 = c2) :
    (find_fighting_position W A t).2 = (W.py, W.px)
      ∧ (find_fighting_position W A t).1 = target_set_location A W.py W.px := by
  have hnb : ∀ d, d < 8 → byte_add W.py (ddy_ddd d) = W.py + ddy_ddd d
      ∧ byte_add W.px (ddx_ddd d) = W.px + ddx_ddd d
      ∧ adjacent8 (W.py, W.px) (W.py + ddy_ddd d, W.px + ddx_ddd d) = true := by
    intro d hd
    obtain ⟨o1, o2, o3, o4, o5⟩ := ddd_offsets d hd
    refine ⟨?_, ?_, ?_⟩
    · simp only [byte_add]; omega
    · simp only [byte_add]; omega
    · simp only [adjacent8, decide_eq_true_eq]
      rw [show W.py - (W.py + ddy_ddd d) = -ddy_ddd d by ring,
        show W.px - (W.px + ddx_ddd d) = -ddx_ddd d by ring, abs_neg, abs_neg]
      exact o1
  have hcount : adj_monster_count W ≤ 1 := by
    unfold adj_monster_count
    have := filter_length_le_one
      (fun d2 => decide (W.cave_m_idx (byte_add W.py (ddy_ddd d2))
        (byte_add W.px (ddx_ddd d2)) > 0)) (List.range 8) (List.nodup_range 8)
      (by
        intro d hd e he hpd hpe
        have hd8 := List.mem_range.mp hd
        have he8 := List.mem_range.mp he
        obtain ⟨d1, d2, d3⟩ := hnb d hd8
        obtain ⟨e1, e2, e3⟩ := hnb e he8
        simp only [decide_eq_true_eq, d1, d2, e1, e2] at hpd hpe
        have hc := hone _ _ d3 e3 hpd hpe
        have h1 := congrArg Prod.fst hc
        have h2 := congrArg Prod.snd hc
        simp only at h1 h2
        exact ddd_injective d e hd8 he8 (by omega) (by omega))
    exact_mod_cast this
  unfold find_fighting_position
  simp only [hcount, if_true, and_self]

/-- Witness for C24: in `duel_room` one monster stands next to the player. -/
theorem fighting_position_stays_put_witness :
    (find_fighting_position duel_room hurt_agent (0, 0)).2 = (duel_room.py, duel_room.px)
      ∧ (find_fighting_position duel_room hurt_agent (0, 0)).1
          = target_set_location hurt_agent duel_room.py duel_room.px :=
  fighting_position_stays_put duel_room hurt_agent (0, 0) (by decide)
    (fun c1 c2 _ _ h1 h2 => by
      obtain ⟨y1, x1⟩ := c1
      obtain ⟨y2, x2⟩ := c2
      simp only [duel_room] at h1 h2
      split at h1
      · split at h2
        · rename_i a b
          rw [a.1, a.2, b.1, b.2]
        · exact absurd h2 (by decide)
      · exact absurd h1 (by decide))

/-! ### What the policies leave untouched -/

theorem same_store_refl (A : Agent) : same_store A A := ⟨rfl, rfl, rfl, rfl, rfl⟩

theorem same_store_trans {A B C : Agent} (h1 : same_store A B) (h2 : same_store B C) :
    same_store A C :=
  ⟨h2.1.trans h1.1, h2.2.1.trans h1.2.1, h2.2.2.1.trans h1.2.2.1,
    h2.2.2.2.1.trans h1.2.2.2.1, h2.2.2.2.2.trans h1.2.2.2.2⟩

theorem same_store_press (A : Agent) (s : List Int) : same_store A (A.press s) :=
  ⟨rfl, rfl, rfl, rfl, rfl⟩

theorem same_store_press1 (A : Agent) (k : Int) : same_store A (A.press1 k) :=
  ⟨rfl, rfl, rfl, rfl, rfl⟩

theorem same_store_target (A : Agent) (y x : Int) : same_store A (target_set_location A y x) :=
  ⟨rfl, rfl, rfl, rfl, rfl⟩

theorem find_enemy_store (W : World) (A : Agent) (t : Cell) :
    same_store A (find_enemy_to_kill W A t).2.1 := by
  unfold find_enemy_to_kill
  simp only []
  split_ifs <;> exact ⟨rfl, rfl, rfl, rfl, rfl⟩

theorem fighting_strategy_store (W : World) (A : Agent) (t : Cell) :
    same_store A (fighting_strategy W A t).2.1 := by
  unfold fighting_strategy
  simp only []
  split_ifs
  all_goals first
    | exact same_store_refl _
    | exact same_store_target _ _ _
    | exact find_enemy_store W A t
    | exact same_store_trans (same_store_target _ _ _) (find_enemy_store W _ _)

theorem allocate_store (W : World) (A : Agent) : same_store A (allocate_experience W A).2 := by
  unfold allocate_experience
  split
  · exact same_store_trans (same_store_trans (same_store_press _ _) (same_store_press _ _))
      (same_store_press _ _)
  · exact same_store_refl _

theorem pickup_store (W : World) (A : Agent) : same_store A (pickup_object W A).2 := by
  unfold pickup_object
  simp only []
  split_ifs <;> exact ⟨rfl, rfl, rfl, rfl, rfl⟩

theorem renew_light_store (W : World) (A : Agent) : same_store A (renew_light W A).2 := by
  unfold renew_light
  simp only []
  split
  · cases find_light W with
    | none => exact same_store_refl _
    | some i => exact ⟨rfl, rfl, rfl, rfl, rfl⟩
  · exact same_store_refl _

theorem eat_food_store (W : World) (A : Agent) : same_store A (eat_food W A).2 := by
  unfold eat_food
  split
  · cases (List.range W.INVEN_PACK).find? fun i => decide ((W.inventory i).tval = W.TV_FOOD) with
    | none => exact same_store_refl _
    | some i => exact ⟨rfl, rfl, rfl, rfl, rfl⟩
  · exact same_store_refl _

theorem leave_level_store (W : World) (A : Agent) : same_store A (leave_level W A).2 := by
  unfold leave_level
  split <;> exact ⟨rfl, rfl, rfl, rfl, rfl⟩

/-- No policy writes the map, a cost grid or the health memory. -/
theorem policy_order_store (W : World) :
    ∀ p ∈ policy_order W, ∀ s : Agent × Cell, same_store s.1 (p s).2.1 := by
  intro p hp s
  simp only [policy_order, List.mem_cons, List.mem_singleton, List.not_mem_nil, or_false] at hp
  rcases hp with rfl | rfl | rfl | rfl | rfl | rfl | rfl | rfl | rfl | rfl | rfl | rfl | rfl
  · exact allocate_store W s.1
  · exact fighting_strategy_store W s.1 s.2
  · exact pickup_store W s.1
  · exact renew_light_store W s.1
  · simp only [targeting, rest]
    split_ifs <;> exact same_store_refl _
  · exact eat_food_store W s.1
  · exact same_store_target _ _ _
  · exact same_store_target _ _ _
  · exact leave_level_store W s.1
  · simp only []
    split
    · exact same_store_target _ _ _
    · exact same_store_refl _
  · simp only [targeting, find_secret_door]
    split
    · exact same_store_refl _
    · exact same_store_target _ _ _
  · exact leave_level_store W s.1
  · exact same_store_target _ _ _

theorem run_guarded_store (ps : List Policy)
    (hq : ∀ p ∈ ps, ∀ s : Agent × Cell, same_store s.1 (p s).2.1) :
    ∀ s : Agent × Cell,
      (∀ s', run_guarded ps s = Except.ok s' → same_store s.1 s'.1)
        ∧ (∀ B, run_guarded ps s = Except.error B → same_store s.1 B) := by
  induction ps with
  | nil =>
    intro s
    refine ⟨fun s' h => ?_, fun B h => ?_⟩
    · simp only [run_guarded, Except.ok.injEq] at h
      rw [← h]; exact same_store_refl _
    · simp [run_guarded] at h
  | cons p ps ih =>
    intro s
    have ih' := ih (fun q hq' => hq q (List.mem_cons_of_mem _ hq'))
    have hp := hq p (List.mem_cons_self _ _) s
    by_cases h0 : s.2.1 = 0
    · by_cases hc : (p s).1 = true
      · refine ⟨fun s' h => ?_, fun B h => ?_⟩
        · simp [run_guarded, h0, hc] at h
        · simp only [run_guarded, h0, hc, if_true, Except.error.injEq] at h
          rw [← h]; exact hp
      · refine ⟨fun s' h => ?_, fun B h => ?_⟩
        · simp only [run_guarded, h0, hc, if_true, if_false] at h
          exact same_store_trans hp ((ih' _).1 s' h)
        · simp only [run_guarded, h0, hc, if_true, if_false] at h
          exact same_store_trans hp ((ih' _).2 B h)
    · refine ⟨fun s' h => ?_, fun B h => ?_⟩
      · simp only [run_guarded, h0, if_false] at h
        exact (ih' _).1 s' h
      · simp only [run_guarded, h0, if_false] at h
        exact (ih' _).2 B h

theorem begin_turn_memory (W : World) (A : Agent) :
    (begin_turn W A).automaton_memory_chp = A.automaton_memory_chp := by
  unfold begin_turn
  rw [(flow_keeps_io _ _ _ _ _).2.2.2.2, (flow_keeps_io _ _ _ _ _).2.2.2.2,
    (flow_keeps_io _ _ _ _ _).2.2.2.2]
  rfl

/-- The policies leave the map, the cost grids and the health memory as the
start of the turn made them. -/
theorem policy_agent_store (W : World) (A : Agent) :
    same_store (begin_turn W A) (policy_agent W A) := by
  have h := run_guarded_store (policy_order W) (policy_order_store W)
    (begin_turn W A, ((0 : Int), (0 : Int)))
  rw [← arbiter_eq_run_guarded] at h
  unfold policy_agent
  cases hr : arbiter W (begin_turn W A) with
  | error B => exact h.2 B hr
  | ok s' => exact h.1 s' hr

theorem policy_agent_io (W : World) (A : Agent) (t : Cell) (h : policy_target W A = some t) :
    (policy_agent W A).keys = A.keys ∧ (policy_agent W A).automaton = A.automaton
      ∧ (policy_agent W A).inkey_hack = A.inkey_hack := by
  unfold policy_target at h
  unfold policy_agent
  cases hr : arbiter W (begin_turn W A) with
  | error B => rw [hr] at h; exact absurd h (by simp)
  | ok s' =>
    rw [arbiter_eq_run_guarded] at hr
    have hio := run_guarded_quiet _ (policy_order_quiet W) _ _ hr
    obtain ⟨b1, b2, b3, _⟩ := begin_turn_io W A
    exact ⟨hio.1.trans b1, hio.2.1.trans b2, hio.2.2.trans b3⟩

theorem turn_of_target (W : World) (A : Agent) (ty tx : Int)
    (h : policy_target W A = some (ty, tx)) :
    automaton_turn W A = resolve_target W (policy_agent W A) ty tx := by
  have ht : automaton_turn W A = (match arbiter W (begin_turn W A) with
      | Except.error A4 => A4
      | Except.ok (A4, (ty, tx)) => resolve_target W A4 ty tx) := rfl
  unfold policy_target at h
  unfold policy_agent
  rw [ht]
  cases hr : arbiter W (begin_turn W A) with
  | error B => rw [hr] at h; exact absurd h (by simp)
  | ok s' =>
    rw [hr] at h
    obtain ⟨B, ty', tx'⟩ := s'
    simp only [Option.some.injEq, Prod.mk.injEq] at h
    simp only [h.1, h.2]

theorem turn_of_claim (W : World) (A : Agent) (h : policy_target W A = none) :
    automaton_turn W A = policy_agent W A := by
  have ht : automaton_turn W A = (match arbiter W (begin_turn W A) with
      | Except.error A4 => A4
      | Except.ok (A4, (ty, tx)) => resolve_target W A4 ty tx) := rfl
  unfold policy_target at h
  unfold policy_agent
  rw [ht]
  cases hr : arbiter W (begin_turn W A) with
  | error B => rfl
  | ok s' => rw [hr] at h; exact absurd h (by simp)

/-! ### Waiting in place, health memory and the map of known squares -/

theorem resolve_target_waits (W : World) (B : Agent) (hrow : W.py ≠ 0)
    (hdoor : W.cave_known_closed_door_bold W.py W.px = false) :
    resolve_target W B W.py W.px
      = update_memory W
          (if W.cave_trap_bold (W.py + ddy_ddd 0) (W.px + ddx_ddd 0) = true
              ∧ W.cave_hidden (W.py + ddy_ddd 0) (W.px + ddx_ddd 0) = false then
            Agent.press1
              { B.press [59, 53] with
                automaton_map := fun y1 x1 =>
                  if [7, 6, 5, 4, 3, 2, 1, 0].any fun i =>
                      decide (y1 = W.py + ddy_ddd i ∧ x1 = W.px + ddx_ddd i)
                  then true else B.automaton_map y1 x1 } 121
          else
            { B.press [59, 53] with
              automaton_map := fun y1 x1 =>
                if [7, 6, 5, 4, 3, 2, 1, 0].any fun i =>
                    decide (y1 = W.py + ddy_ddd i ∧ x1 = W.px + ddx_ddd i)
                then true else B.automaton_map y1 x1 }) := by
  have e1 : ddy 5 = 0 := rfl
  have e2 : ddx 5 = 0 := rfl
  unfold resolve_target
  simp only [hrow, if_false, and_self, if_true, Bool.not_true, Bool.false_eq_true, e1, e2,
    add_zero, hdoor, false_and, decide_True, Nat.cast_ofNat]
  norm_num
  rfl

theorem neighbour_listed (W : World) (y x : Int) (h : max |y - W.py| |x - W.px| = 1) :
    ([7, 6, 5, 4, 3, 2, 1, 0].any fun i =>
      decide (y = W.py + ddy_ddd i ∧ x = W.px + ddx_ddd i)) = true := by
  obtain ⟨j, hj, e1, e2, _⟩ := neighbour_index (y - W.py) (x - W.px) h
  rw [List.any_eq_true]
  exact ⟨j, hj, by simp only [decide_eq_true_eq]; omega⟩

/-- C25: when the policies leave the player's own square as target (its row
is not 0, the code's "no target", and the square is not a known closed
door), the cycle queues `;` and `5` (followed by `y` exactly when the square
at offset `ddy_ddd[0]`, `ddx_ddd[0]` has a visible trap), the cost grids and
their centres are still those computed from the player at the start of the
turn, and all eight squares around the player are in the map of known
squares. -/
theorem wait_in_place (W : World) (A : Agent)
    (htarget : policy_target W A = some (W.py, W.px)) (hrow : W.py ≠ 0)
    (hdoor : W.cave_known_closed_door_bold W.py W.px = false) :
    (automaton_turn W A).keys
        = (if W.cave_trap_bold (W.py + ddy_ddd 0) (W.px + ddx_ddd 0) = true
              ∧ W.cave_hidden (W.py + ddy_ddd 0) (W.px + ddx_ddd 0) = false then
            (automaton_keypress (automaton_keypresses A.keys [59, 53]) 121).1
          else automaton_keypresses A.keys [59, 53])
      ∧ (automaton_turn W A).cave_cost = (begin_turn W A).cave_cost
      ∧ (automaton_turn W A).flow_center = (begin_turn W A).flow_center
      ∧ (automaton_turn W A).update_center = (begin_turn W A).update_center
      ∧ ∀ y x : Int, max |y - W.py| |x - W.px| = 1 →
          (automaton_turn W A).automaton_map y x = true := by
  obtain ⟨_, s2, s3, s4, _⟩ := policy_agent_store W A
  obtain ⟨k1, _, _⟩ := policy_agent_io W A _ htarget
  rw [turn_of_target W A _ _ htarget, resolve_target_waits W _ hrow hdoor]
  refine ⟨?_, ?_, ?_, ?_, ?_⟩
  · split <;> simp only [update_memory, Agent.press1, Agent.press, k1]
  · split <;> simp only [update_memory, Agent.press1, Agent.press, s2]
  · split <;> simp only [update_memory, Agent.press1, Agent.press, s3]
  · split <;> simp only [update_memory, Agent.press1, Agent.press, s4]
  · intro y x h
    have hn := neighbour_listed W y x h
    split <;> simp only [update_memory, Agent.press1, Agent.press, hn, if_true]

/-- Witness for C25: in `room3` a fresh agent at half health rests. -/
theorem wait_in_place_witness :
    (automaton_turn room3 {}).keys
        = (if room3.cave_trap_bold (room3.py + ddy_ddd 0) (room3.px + ddx_ddd 0) = true
              ∧ room3.cave_hidden (room3.py + ddy_ddd 0) (room3.px + ddx_ddd 0) = false then
            (automaton_keypress (automaton_keypresses ({} : Agent).keys [59, 53]) 121).1
          else automaton_keypresses ({} : Agent).keys [59, 53])
      ∧ (automaton_turn room3 {}).cave_cost = (begin_turn room3 {}).cave_cost
      ∧ (automaton_turn room3 {}).flow_center = (begin_turn room3 {}).flow_center
      ∧ (automaton_turn room3 {}).update_center = (begin_turn room3 {}).update_center
      ∧ ∀ y x : Int, max |y - room3.py| |x - room3.px| = 1 →
          (automaton_turn room3 {}).automaton_map y x = true :=
  wait_in_place room3 {} (by decide) (by decide) (by decide)

/-- C26 (the code at the failing inputs): a resting player in `trap_room`,
where the only trap lies south of the player, gets `;5y` queued, and in
`trap_underfoot`, where the player stands on a visible trap, only `;5`. -/
theorem wait_confirms_neighbour_trap :
    policy_target trap_room {} = some (trap_room.py, trap_room.px)
      ∧ trap_room.cave_trap_bold trap_room.py trap_room.px = false
      ∧ (automaton_turn trap_room {}).keys.contents = [59, 53, 121]
      ∧ policy_target trap_underfoot {} = some (trap_underfoot.py, trap_underfoot.px)
      ∧ trap_underfoot.cave_trap_bold trap_underfoot.py trap_underfoot.px = true
      ∧ trap_underfoot.cave_hidden trap_underfoot.py trap_underfoot.px = false
      ∧ (automaton_turn trap_underfoot {}).keys.contents = [59, 53] := by
  decide

theorem resolve_target_memory (W : World) (B : Agent) (ty tx : Int) (hty : ty ≠ 0)
    (hfound : ¬ (ty = W.py ∧ tx = W.px) → (head_for_target W B ty tx).2.found_direction = true) :
    (resolve_target W B ty tx).automaton_memory_chp 0 = W.chp % 256
      ∧ (resolve_target W B ty tx).automaton_memory_chp 1 = B.automaton_memory_chp 0 := by
  have hmem : (head_for_target W B ty tx).1.automaton_memory_chp = B.automaton_memory_chp := by
    simp only [head_for_target]
    rw [(flow_keeps_io _ _ _ _ _).2.2.2.2, (flow_keeps_io _ _ _ _ _).2.2.2.2,
      (flow_keeps_io _ _ _ _ _).2.2.2.2]
  unfold resolve_target
  rw [if_neg hty]
  by_cases hp : ty = W.py ∧ tx = W.px
  · simp only [hp, and_self, if_true, Bool.not_true, Bool.false_eq_true, if_false]
    constructor
    · split_ifs <;> rfl
    · split_ifs <;> rfl
  · simp only [hp, if_false, hfound hp, Bool.not_true, Bool.false_eq_true]
    constructor
    · split_ifs <;> rfl
    · split_ifs <;> simp only [update_memory, Agent.press1, Agent.press, hmem] <;> rfl

/-- C27: in a cycle that reaches the queueing of the movement or wait
command, slot 0 of the health memory ends as the current health (modulo 256,
the slots being bytes) and slot 1 as the former slot 0, for every health
value; in a cycle that a policy ends by returning early, the health memory
stays as it was. -/
theorem health_memory_shift (W : World) (A : Agent) :
    (issues_command W A = true →
        (automaton_turn W A).automaton_memory_chp 0 = W.chp % 256
          ∧ (automaton_turn W A).automaton_memory_chp 1 = A.automaton_memory_chp 0)
      ∧ (policy_target W A = none →
          (automaton_turn W A).automaton_memory_chp = A.automaton_memory_chp) := by
  have hs := (policy_agent_store W A).2.2.2.2
  rw [begin_turn_memory] at hs
  constructor
  · intro hc
    unfold issues_command at hc
    cases hr : arbiter W (begin_turn W A) with
    | error B => rw [hr] at hc; exact absurd hc (by simp)
    | ok s' =>
      obtain ⟨B, ty, tx⟩ := s'
      rw [hr] at hc
      simp only [Bool.and_eq_true, decide_eq_true_eq, Bool.or_eq_true] at hc
      have htarget : policy_target W A = some (ty, tx) := by
        simp only [policy_target, hr]
      have hB : policy_agent W A = B := by
        simp only [policy_agent, hr]
      rw [turn_of_target W A ty tx htarget, hB, ← hs, hB]
      apply resolve_target_memory W B ty tx hc.1
      intro hne
      rcases hc.2 with h | h
      · exact absurd h hne
      · exact h
  · intro hn
    rw [turn_of_claim W A hn, hs]

/-- Witness for C27: a resting cycle in `room3` and a cycle in
`skilled_room` that skill allocation claims. -/
theorem health_memory_shift_witness :
    ((automaton_turn room3 {}).automaton_memory_chp 0 = room3.chp % 256
        ∧ (automaton_turn room3 {}).automaton_memory_chp 1 = ({} : Agent).automaton_memory_chp 0)
      ∧ (automaton_turn skilled_room hurt_agent).automaton_memory_chp
          = hurt_agent.automaton_memory_chp :=
  ⟨(health_memory_shift room3 {}).1 (by decide),
    (health_memory_shift skilled_room hurt_agent).2 (by decide)⟩

theorem resolve_target_map (W : World) (B : Agent) (ty tx : Int) (y x : Int)
    (h : B.automaton_map y x = true) : (resolve_target W B ty tx).automaton_map y x = true := by
  have hmap : (head_for_target W B ty tx).1.automaton_map = B.automaton_map := by
    simp only [head_for_target]
    rw [(flow_keeps_io _ _ _ _ _).2.2.2.1, (flow_keeps_io _ _ _ _ _).2.2.2.1,
      (flow_keeps_io _ _ _ _ _).2.2.2.1]
  unfold resolve_target
  by_cases hp : ty = W.py ∧ tx = W.px
  · simp only [hp, and_self, if_true]
    split_ifs <;>
      simp only [stop_automaton, update_memory, Agent.press1, Agent.press, h, ite_self]
  · simp only [hp, if_false]
    split_ifs <;>
      simp only [stop_automaton, update_memory, Agent.press1, Agent.press, hmap, h, ite_self]

/-- C28 (amended): `add_seen_squares_to_map` keeps every known square known,
makes the player's square known and makes every square in sight in the
interior of the map (rows `1 .. cur_map_hgt - 2`, columns
`1 .. cur_map_wid - 2`) known; and a whole decision cycle keeps every known
square known. -/
theorem knowledge_mask_merge (W : World) (A : Agent) :
    (∀ y x : Int, A.automaton_map y x = true →
        (add_seen_squares_to_map W A).automaton_map y x = true)
      ∧ (add_seen_squares_to_map W A).automaton_map W.py W.px = true
      ∧ (∀ y x : Int, 1 ≤ y → y < W.cur_map_hgt - 1 → 1 ≤ x → x < W.cur_map_wid - 1 →
          W.cave_seen y x = true → (add_seen_squares_to_map W A).automaton_map y x = true)
      ∧ ∀ y x : Int, A.automaton_map y x = true → (automaton_turn W A).automaton_map y x = true := by
  have h1 : ∀ y x : Int, A.automaton_map y x = true →
      (add_seen_squares_to_map W A).automaton_map y x = true := by
    intro y x h
    simp only [add_seen_squares_to_map, h, ite_self]
  refine ⟨h1, ?_, ?_, ?_⟩
  · simp only [add_seen_squares_to_map, and_self, if_true]
  · intro y x a b c d e
    simp only [add_seen_squares_to_map]
    split
    · rfl
    · rw [if_pos ⟨a, b, c, d, e⟩]
  · intro y x h
    have hb : (policy_agent W A).automaton_map y x = true := by
      rw [(policy_agent_store W A).1, (begin_turn_io W A).2.2.2]
      exact h1 y x h
    cases ht : policy_target W A with
    | none => rw [turn_of_claim W A ht]; exact hb
    | some t =>
      obtain ⟨ty, tx⟩ := t
      rw [turn_of_target W A ty tx ht]
      exact resolve_target_map W _ ty tx y x hb

/-- C28 (counterexample): in `lit_room` the corner `(0, 0)` of the map is in
sight, yet it is not in the map of known squares after
`add_seen_squares_to_map`. -/
theorem border_square_stays_unknown :
    lit_room.cave_seen 0 0 = true
      ∧ (0 ≤ (0 : Int) ∧ (0 : Int) < lit_room.cur_map_hgt ∧ (0 : Int) < lit_room.cur_map_wid)
      ∧ (add_seen_squares_to_map lit_room {}).automaton_map 0 0 = false := by
  decide

/-- Witness for C28 (amended): the squares `(1, 1)` and `(0, 0)` of
`lit_room` for an agent that knows `(0, 0)` only. -/
theorem knowledge_mask_merge_witness :
    (add_seen_squares_to_map lit_room
        { automaton_map := fun y x => decide (y = 0 ∧ x = 0) }).automaton_map 0 0 = true
      ∧ (add_seen_squares_to_map lit_room
        { automaton_map := fun y x => decide (y = 0 ∧ x = 0) }).automaton_map 1 2 = true
      ∧ (automaton_turn lit_room
        { automaton_map := fun y x => decide (y = 0 ∧ x = 0) }).automaton_map 0 0 = true :=
  ⟨(knowledge_mask_merge lit_room { automaton_map := fun y x => decide (y = 0 ∧ x = 0) }).1 0 0
      (by decide),
    (knowledge_mask_merge lit_room { automaton_map := fun y x => decide (y = 0 ∧ x = 0) }).2.2.1
      1 2 (by decide) (by decide) (by decide) (by decide) (by decide),
    (knowledge_mask_merge lit_room { automaton_map := fun y x => decide (y = 0 ∧ x = 0) }).2.2.2
      0 0 (by decide)⟩

/-! ### Target engagement: the ranged attack rule and the order of the monster list -/

theorem hunt_step_can_fire (W : World) (A : Agent) (h : Hunt) (i : Nat) :
    (hunt_step W A h i).can_fire = if hunt_accepts W A h i then can_fire_at W i else h.can_fire := by
  unfold hunt_step hunt_accepts qualifies can_fire_at
  simp only []
  by_cases h1 : (W.mon_list i).r_idx = 0
  · simp [h1]
  · by_cases h2 : (W.mon_list i).alertness < W.ALERTNESS_ALERT
    · have h2' : ¬ W.ALERTNESS_ALERT ≤ (W.mon_list i).alertness := by omega
      simp [h1, h2, h2']
    · have h2' : W.ALERTNESS_ALERT ≤ (W.mon_list i).alertness := by omega
      cases hml : (W.mon_list i).ml
      · by_cases h3 : (W.r_info (W.mon_list i).r_idx).freq_ranged = 0
        · simp [h1, h2, h2', hml, h3]
        · by_cases h4 : flow_dist W A Flow.FLOW_AUTOMATON_FIGHT (W.mon_list i).fy
              (W.mon_list i).fx < h.best_dist
          · simp only [h1, h2, h2', hml, h3, h4]
            simp
            intro hor
            rcases hor with e | e
            · exact absurd e h1
            · exact absurd e h3
          · simp [h1, h2, h2', hml, h3, h4]
      · by_cases h4 : flow_dist W A Flow.FLOW_AUTOMATON_FIGHT (W.mon_list i).fy
            (W.mon_list i).fx < h.best_dist
        · simp only [h1, h2, h2', hml, h4]
          simp
          split_ifs <;> simp
        · simp [h1, h2, h2', hml, h4]

theorem hunt_fold_can_fire (W : World) (A : Agent) :
    ∀ (l : List Nat) (h : Hunt) (r : Option Nat),
      h.can_fire = (match r with | none => false | some i => can_fire_at W i) →
      (l.foldl (hunt_step W A) h).can_fire
        = (match last_accepted W A l h r with | none => false | some i => can_fire_at W i) := by
  intro l
  induction l with
  | nil => intro h r hr; exact hr
  | cons i l ih =>
    intro h r hr
    rw [List.foldl_cons, last_accepted]
    apply ih
    rw [hunt_step_can_fire]
    by_cases ha : hunt_accepts W A h i = true
    · simp only [ha, if_true]
    · simp only [ha, if_false]
      exact hr

/-- C30: `find_enemy_to_kill` claims exactly when the player is not afraid,
the monster accepted last by its loop is more than one square away by grid
distance, visible and on a square flagged as in the line of fire, the player
is not blind, a bow is equipped and one of the two quivers holds ammunition;
it then queues exactly `f`, `f` if the first quiver is not empty and `F`, `f`
otherwise; whenever it does not claim, the agent and its queue are as
before. -/
theorem ranged_attack_rule (W : World) (A : Agent) (t : Cell) :
    ((find_enemy_to_kill W A t).1 = true ↔
        W.afraid = false
          ∧ (∃ i, last_accepted W A (monster_indices W) ⟨12, false, true, t.1, t.2⟩ none = some i
              ∧ grid_distance W.py W.px (W.mon_list i).fy (W.mon_list i).fx > 1
              ∧ (W.mon_list i).ml = true ∧ W.blind = false
              ∧ W.cave_fire (W.mon_list i).fy (W.mon_list i).fx = true)
          ∧ (W.inventory W.INVEN_BOW).tval ≠ 0
          ∧ ((W.inventory W.INVEN_QUIVER1).number ≥ 1 ∨ (W.inventory W.INVEN_QUIVER2).number ≥ 1))
      ∧ ((find_enemy_to_kill W A t).1 = true →
          (find_enemy_to_kill W A t).2.1.keys
            = automaton_keypresses A.keys
                (if (W.inventory W.INVEN_QUIVER1).number ≥ 1 then [102, 102] else [70, 102]))
      ∧ ((find_enemy_to_kill W A t).1 = false → (find_enemy_to_kill W A t).2.1 = A) := by
  have hfire := hunt_fold_can_fire W A (monster_indices W) ⟨12, false, true, t.1, t.2⟩ none rfl
  have hsel : ((monster_indices W).foldl (hunt_step W A) ⟨12, false, true, t.1, t.2⟩).can_fire
      = true ↔
      ∃ i, last_accepted W A (monster_indices W) ⟨12, false, true, t.1, t.2⟩ none = some i
        ∧ grid_distance W.py W.px (W.mon_list i).fy (W.mon_list i).fx > 1
        ∧ (W.mon_list i).ml = true ∧ W.blind = false
        ∧ W.cave_fire (W.mon_list i).fy (W.mon_list i).fx = true := by
    rw [hfire]
    cases hl : last_accepted W A (monster_indices W) ⟨12, false, true, t.1, t.2⟩ none with
    | none => simp
    | some i =>
      simp only [can_fire_at, Bool.and_eq_true, decide_eq_true_eq, Bool.not_eq_true',
        Option.some.injEq, exists_eq_left', and_assoc]
  refine ⟨?_, ?_, find_enemy_declines W A t⟩
  · rw [← hsel]
    unfold find_enemy_to_kill
    cases haf : W.afraid
    · simp only [Bool.false_eq_true, if_false, true_and]
      split_ifs with hc hq
      · simp only [true_iff]; exact hc
      · simp only [true_iff]; exact hc
      · simp only [Bool.false_eq_true, false_iff]; exact hc
    · simp
  · unfold find_enemy_to_kill
    cases haf : W.afraid
    · simp only [Bool.false_eq_true, if_false]
      split_ifs <;> first | (intro _; rfl) | (intro hh; exact absurd hh (by simp))
    · simp

/-- C29 (the code at the failing input): in both worlds `ambush` the unseen
archer stands at combat distance 2 (penalised: 4) and the visible one at
combat distance 3, and both are candidates.  With the visible archer stored
first the target is the unseen archer's square `(1, 1)`, whose penalised
distance is not the minimum; with the unseen archer stored first the target
is the visible archer's square `(1, 6)`. -/
theorem engagement_depends_on_order :
    (∀ b : Bool, qualifies (ambush b) 1 = true ∧ qualifies (ambush b) 2 = true
        ∧ flow_dist (ambush b) (begin_turn (ambush b) {}) Flow.FLOW_AUTOMATON_FIGHT 1 1 = 2
        ∧ flow_dist (ambush b) (begin_turn (ambush b) {}) Flow.FLOW_AUTOMATON_FIGHT 1 6 = 3)
      ∧ ((ambush false).mon_list 1).ml = true ∧ ((ambush false).mon_list 2).ml = false
      ∧ (find_enemy_to_kill (ambush false) (begin_turn (ambush false) {}) (0, 0)).2.2 = (1, 1)
      ∧ ((ambush true).mon_list 1).ml = false ∧ ((ambush true).mon_list 2).ml = true
      ∧ (find_enemy_to_kill (ambush true) (begin_turn (ambush true) {}) (0, 0)).2.2 = (1, 6) := by
  decide

/-- Witness for C30: in `shooting_range` the visible archer three squares
away is accepted last, and `f`, `f` is queued. -/
theorem ranged_attack_rule_witness :
    (find_enemy_to_kill shooting_range (begin_turn shooting_range {}) (0, 0)).2.1.keys
      = automaton_keypresses (begin_turn shooting_range {}).keys
          (if (shooting_range.inventory shooting_range.INVEN_QUIVER1).number ≥ 1 then [102, 102]
            else [70, 102]) :=
  (ranged_attack_rule shooting_range (begin_turn shooting_range {}) (0, 0)).2.1 (by decide)

/-! ### The range of stored costs -/

theorem grandchild_cost_le (W : World) (which : Flow) (far : Bool) (y3 x3 : Int) :
    grandchild_cost W which far y3 x3 ≤ 6 := by
  unfold grandchild_cost
  simp only []
  split_ifs <;> omega

theorem extra_cost_le (W : World) (which : Flow) (far : Bool) (y2 x2 : Int) :
    extra_cost W which far y2 x2 ≤ 89 := by
  have hs := list_sum_map_le (List.range 8)
    (fun d2 => grandchild_cost W which far (byte_add y2 (ddy_ddd d2)) (byte_add x2 (ddx_ddd d2)))
    (fun _ => 6) (fun d2 => grandchild_cost_le W which far _ _)
  have h48 : ((List.range 8).map fun _ : Nat => 6).sum = 48 := by decide
  rw [h48] at hs
  unfold extra_cost
  generalize ((List.range 8).map fun d2 =>
    grandchild_cost W which far (byte_add y2 (ddy_ddd d2)) (byte_add x2 (ddx_ddd d2))).sum = S
    at hs ⊢
  simp only []
  by_cases hpos : W.cave_m_idx y2 x2 > 0
  · have hz : decide (W.cave_m_idx y2 x2 = 0) = false := by
      rw [decide_eq_false_iff_not]; omega
    simp only [hpos, if_true, hz, Bool.and_false, Bool.false_and, Bool.false_eq_true, if_false]
    split_ifs <;> omega
  · simp only [hpos, if_false]
    split_ifs <;> omega

/-- Visiting a child never stores more than the layer's cost plus the largest
penalty. -/
theorem flow_visit_le (W : World) (amap : Int → Int → Bool) (which : Flow) (cost : Nat)
    (y0 x0 : Int) (y x : Int) (K : Nat) (hK : cost + 89 ≤ K) (st : Grid × List Cell) (d : Nat)
    (h : st.1 y x ≤ K) : (flow_visit W amap which cost y0 x0 st d).1 y x ≤ K := by
  unfold flow_visit
  simp only []
  split_ifs
  all_goals first
    | exact h
    | (simp only [Grid.set]
       have := extra_cost_le W which (decide (cost > 1)) (byte_add y0 (ddy_ddd d))
         (byte_add x0 (ddx_ddd d))
       split_ifs <;> omega)

theorem flow_cell_le (W : World) (amap : Int → Int → Bool) (which : Flow) (cost : Nat)
    (y x : Int) (K : Nat) (hK : cost + 89 ≤ K) (st : Grid × List Cell) (c : Cell)
    (h : st.1 y x ≤ K) : (flow_cell W amap which cost st c).1 y x ≤ K := by
  unfold flow_cell
  split
  · exact h
  · exact foldl_invariant (fun s : Grid × List Cell => s.1 y x ≤ K) _ _ _ h
      (fun b a hb => flow_visit_le W amap which cost c.1 c.2 y x K hK b a hb)

theorem flow_layer_le (W : World) (amap : Int → Int → Bool) (lost : Bool) (which : Flow)
    (cost : Nat) (y x : Int) (K : Nat) (hK : cost + 89 ≤ K) (g : Grid) (cur : List Cell)
    (h : g y x ≤ K) :
    (flow_layer W amap lost which cost g cur).1 y x
      ≤ K + (if which = Flow.FLOW_AUTOMATON_SECURE ∧ lost = true then 1 else 0) := by
  have hr : (cur.foldl (flow_cell W amap which cost) (g, [])).1 y x ≤ K :=
    foldl_invariant (fun s : Grid × List Cell => s.1 y x ≤ K) _ _ _ h
      (fun b a hb => flow_cell_le W amap which cost y x K hK b a hb)
  unfold flow_layer
  simp only []
  split_ifs
  · simp only [Grid.set]
    split_ifs with he
    · rw [← he.1, ← he.2]; omega
    · omega
  · omega

theorem flow_loop_le (W : World) (amap : Int → Int → Bool) (lost : Bool) (which : Flow)
    (y x : Int) :
    ∀ (n cost : Nat) (g : Grid) (cur : List Cell) (K : Nat),
      cost + n ≤ W.FLOW_MAX_DIST + 1 → W.FLOW_MAX_DIST + 89 ≤ K → g y x ≤ K →
      flow_loop W amap lost which n cost g cur y x
        ≤ K + (if which = Flow.FLOW_AUTOMATON_SECURE ∧ lost = true then n else 0) := by
  intro n
  induction n with
  | zero =>
    intro cost g cur K _ _ h
    unfold flow_loop
    omega
  | succ n ih =>
    intro cost g cur K hc hK h
    unfold flow_loop
    split
    · omega
    · have hl := flow_layer_le W amap lost which cost y x K (by omega) g cur h
      have := ih (cost + 1) (flow_layer W amap lost which cost g cur).1
        (flow_layer W amap lost which cost g cur).2
        (K + (if which = Flow.FLOW_AUTOMATON_SECURE ∧ lost = true then 1 else 0))
        (by omega) (by omega) hl
      simp only []
      split_ifs at this ⊢ <;> omega

/-- C21 (amended): after `update_automaton_flow` every square of the current
map holds a cost of at most `FLOW_MAX_DIST + 89`, where 89 is the largest
penalty of a square; on the secure channel after a loss of health the bound
is larger by the `FLOW_MAX_DIST` additions that the player's square may
get. -/
theorem flow_cost_range (W : World) (A : Agent) (which : Flow) (cy cx : Int) (y x : Int)
    (hmap : 0 ≤ y ∧ y < W.cur_map_hgt ∧ 0 ≤ x ∧ x < W.cur_map_wid) :
    (update_automaton_flow W A which cy cx).cave_cost which y x
      ≤ W.FLOW_MAX_DIST + 89
        + (if which = Flow.FLOW_AUTOMATON_SECURE ∧ W.chp < A.automaton_memory_chp 0
            then W.FLOW_MAX_DIST else 0) := by
  rw [update_flow_cost]
  unfold flow_field
  have h0 : ((erase_flow W (A.cave_cost which)).set cy cx 0) y x ≤ W.FLOW_MAX_DIST + 89 := by
    simp only [Grid.set, erase_flow, hmap, and_self, if_true]
    split_ifs <;> omega
  have := flow_loop_le W A.automaton_map (decide (W.chp < A.automaton_memory_chp 0)) which y x
    W.FLOW_MAX_DIST 1 _ [(cy % 256, cx % 256)] (W.FLOW_MAX_DIST + 89) (by omega) (le_refl _) h0
  simp only [decide_eq_true_eq] at this
  exact this

/-- C21 (counterexample): the secure-channel cost of the square `(0, 4)` of
`gauntlet` is 116 with `FLOW_MAX_DIST = 100`, and the normal-channel cost of
the trapped square `(2, 1)` of `trap_room` is 6 with `FLOW_MAX_DIST = 3`. -/
theorem stored_cost_exceeds_limit :
    ¬ ((update_automaton_flow gauntlet hurt_agent Flow.FLOW_AUTOMATON_SECURE 0 0).cave_cost
        Flow.FLOW_AUTOMATON_SECURE 0 4 ≤ gauntlet.FLOW_MAX_DIST)
      ∧ ¬ ((update_automaton_flow trap_room {} Flow.FLOW_AUTOMATON 0 0).cave_cost
        Flow.FLOW_AUTOMATON 2 1 ≤ trap_room.FLOW_MAX_DIST) := by
  decide

/-- Witness for C21 (amended): the square `(0, 4)` of `gauntlet`. -/
theorem flow_cost_range_witness :
    (update_automaton_flow gauntlet hurt_agent Flow.FLOW_AUTOMATON_SECURE 0 0).cave_cost
        Flow.FLOW_AUTOMATON_SECURE 0 4
      ≤ gauntlet.FLOW_MAX_DIST + 89
        + (if Flow.FLOW_AUTOMATON_SECURE = Flow.FLOW_AUTOMATON_SECURE
              ∧ gauntlet.chp < hurt_agent.automaton_memory_chp 0
            then gauntlet.FLOW_MAX_DIST else 0) :=
  flow_cost_range gauntlet hurt_agent Flow.FLOW_AUTOMATON_SECURE 0 0 0 4 (by decide)

/-! ### The secure-channel adjustment after a loss of health -/

theorem flow_layer_plain (W : World) (amap : Int → Int → Bool) (lost : Bool) (which : Flow)
    (h : ¬ (which = Flow.FLOW_AUTOMATON_SECURE ∧ lost = true)) (cost : Nat) (g : Grid)
    (cur : List Cell) :
    flow_layer W amap lost which cost g cur = flow_layer W amap false which cost g cur := by
  unfold flow_layer
  simp only []
  rw [if_neg h, if_neg (fun hc => absurd hc.2 (by decide))]

theorem flow_loop_plain (W : World) (amap : Int → Int → Bool) (lost : Bool) (which : Flow)
    (h : ¬ (which = Flow.FLOW_AUTOMATON_SECURE ∧ lost = true)) :
    ∀ (n cost : Nat) (g : Grid) (cur : List Cell),
      flow_loop W amap lost which n cost g cur = flow_loop W amap false which n cost g cur := by
  intro n
  induction n with
  | zero => intro cost g cur; rfl
  | succ n ih =>
    intro cost g cur
    unfold flow_loop
    split
    · rfl
    · simp only []
      rw [flow_layer_plain W amap lost which h, ih]

/-- On the secure channel after a loss of health, while the cost stored at
the player's square is one less than the running `cost`, every pass of the
loop adds exactly 1 to it. -/
theorem flow_loop_player (W : World) (amap : Int → Int → Bool) :
    ∀ (n cost : Nat) (g : Grid) (cur : List Cell),
      cost + n ≤ W.FLOW_MAX_DIST + 1 → g W.py W.px + 1 = cost →
      flow_loop W amap true Flow.FLOW_AUTOMATON_SECURE n cost g cur W.py W.px
        = g W.py W.px + flow_rounds W amap true Flow.FLOW_AUTOMATON_SECURE n cost g cur := by
  intro n
  induction n with
  | zero => intro cost g cur _ _; rfl
  | succ n ih =>
    intro cost g cur hc hg
    unfold flow_loop flow_rounds
    split
    · rfl
    · have hkeep : (cur.foldl (flow_cell W amap Flow.FLOW_AUTOMATON_SECURE cost) (g, [])).1
          W.py W.px = g W.py W.px :=
        foldl_invariant (fun s : Grid × List Cell => s.1 W.py W.px = g W.py W.px) _ _ _ rfl
          (fun b a hb => flow_cell_invariant W amap Flow.FLOW_AUTOMATON_SECURE cost
            (fun g' : Grid => g' W.py W.px = g W.py W.px)
            (fun g' y2 x2 v hg' _ hle => by
              simp only [Grid.set]
              split_ifs with he
              · rw [← he.1, ← he.2] at hle
                have hg2 : g' W.py W.px = g W.py W.px := hg'
                omega
              · exact hg') b a hb)
      have hl : (flow_layer W amap true Flow.FLOW_AUTOMATON_SECURE cost g cur).1 W.py W.px
          = g W.py W.px + 1 := by
        unfold flow_layer
        simp only [and_self, if_true, Grid.set, hkeep]
      simp only []
      rw [ih (cost + 1) _ _ (by omega) (by rw [hl]; omega), hl]
      omega

/-- C22 (amended): on the normal and combat channels, or when health has not
dropped below the remembered value, the cost grid is the one computed
without any addition; on the secure channel after a loss of health every
pass of the loop over `cost` ends by adding 1 to the cost stored at the
player's square, so that in a recomputation from the player's own square the
origin's cost ends as the number of passes made. -/
theorem safety_adjustment_per_layer (W : World) (A : Agent) (cy cx : Int) :
    (∀ which : Flow,
        ¬ (which = Flow.FLOW_AUTOMATON_SECURE ∧ W.chp < A.automaton_memory_chp 0) →
        (update_automaton_flow W A which cy cx).cave_cost which
          = flow_field W A.automaton_map false which cy cx (A.cave_cost which))
      ∧ (∀ (cost : Nat) (g : Grid) (cur : List Cell),
          flow_layer W A.automaton_map true Flow.FLOW_AUTOMATON_SECURE cost g cur
            = ((flow_layer W A.automaton_map false Flow.FLOW_AUTOMATON_SECURE cost g cur).1.set
                W.py W.px
                ((flow_layer W A.automaton_map false Flow.FLOW_AUTOMATON_SECURE cost g cur).1
                  W.py W.px + 1),
              (flow_layer W A.automaton_map false Flow.FLOW_AUTOMATON_SECURE cost g cur).2))
      ∧ (W.chp < A.automaton_memory_chp 0 →
          (update_automaton_flow W A Flow.FLOW_AUTOMATON_SECURE W.py W.px).cave_cost
              Flow.FLOW_AUTOMATON_SECURE W.py W.px
            = flow_field_rounds W A.automaton_map true Flow.FLOW_AUTOMATON_SECURE W.py W.px
                (A.cave_cost Flow.FLOW_AUTOMATON_SECURE)) := by
  refine ⟨?_, ?_, ?_⟩
  · intro which h
    rw [update_flow_cost]
    unfold flow_field
    exact flow_loop_plain W _ _ which (by simpa using h) _ _ _ _
  · intro cost g cur
    unfold flow_layer
    simp only [and_self, if_true, Bool.false_eq_true, and_false, if_false]
  · intro hlost
    rw [update_flow_cost]
    have hd : decide (W.chp < A.automaton_memory_chp 0) = true := by simpa using hlost
    rw [hd]
    unfold flow_field flow_field_rounds
    rw [flow_loop_player W A.automaton_map W.FLOW_MAX_DIST 1 _ _ (by omega)
      (by simp only [Grid.set, and_self, if_true])]
    simp only [Grid.set, and_self, if_true, Nat.zero_add]

/-- C22 (counterexample): in `room3`, after a loss of health, the secure
flow from the player's square `(1, 1)` leaves 2 at the origin, where the
computation without addition leaves 0; the secure flow from `(0, 0)` leaves
0 at the origin and 4 at the player's square, where the computation without
addition leaves 1. -/
theorem safety_adjustment_not_once :
    room3.chp < hurt_agent.automaton_memory_chp 0
      ∧ (update_automaton_flow room3 hurt_agent Flow.FLOW_AUTOMATON_SECURE 1 1).cave_cost
          Flow.FLOW_AUTOMATON_SECURE 1 1 = 2
      ∧ flow_field room3 hurt_agent.automaton_map false Flow.FLOW_AUTOMATON_SECURE 1 1
          (hurt_agent.cave_cost Flow.FLOW_AUTOMATON_SECURE) 1 1 = 0
      ∧ (update_automaton_flow room3 hurt_agent Flow.FLOW_AUTOMATON_SECURE 0 0).cave_cost
          Flow.FLOW_AUTOMATON_SECURE 0 0 = 0
      ∧ (update_automaton_flow room3 hurt_agent Flow.FLOW_AUTOMATON_SECURE 0 0).cave_cost
          Flow.FLOW_AUTOMATON_SECURE 1 1 = 4
      ∧ flow_field room3 hurt_agent.automaton_map false Flow.FLOW_AUTOMATON_SECURE 0 0
          (hurt_agent.cave_cost Flow.FLOW_AUTOMATON_SECURE) 1 1 = 1 := by
  decide

/-- Witness for C22 (amended): `room3` after a loss of health; the loop makes
two passes. -/
theorem safety_adjustment_per_layer_witness :
    (update_automaton_flow room3 hurt_agent Flow.FLOW_AUTOMATON_SECURE room3.py room3.px).cave_cost
        Flow.FLOW_AUTOMATON_SECURE room3.py room3.px
      = flow_field_rounds room3 hurt_agent.automaton_map true Flow.FLOW_AUTOMATON_SECURE
          room3.py room3.px (hurt_agent.cave_cost Flow.FLOW_AUTOMATON_SECURE)
      ∧ flow_field_rounds room3 hurt_agent.automaton_map true Flow.FLOW_AUTOMATON_SECURE
          room3.py room3.px (hurt_agent.cave_cost Flow.FLOW_AUTOMATON_SECURE) = 2 :=
  ⟨(safety_adjustment_per_layer room3 hurt_agent 1 1).2.2 (by decide), by decide⟩

/-! ### Reachable queue states, overflow, fear and the health memory -/

theorem queueOk_keypress (q : KeyQueue) (k : Int) (h : QueueOk q) :
    QueueOk (automaton_keypress q k).1 := by
  obtain ⟨buf, hd, tl⟩ := q
  obtain ⟨h1, h2, h3⟩ := h
  simp only [KeyQueue.pending, KEY_SIZE] at h1 h2 h3
  unfold automaton_keypress
  by_cases hk : k = 0
  · simp only [hk, if_true]
    exact ⟨h1, h2, h3⟩
  · simp only [hk, if_false]
    by_cases hov : (if hd + 1 = KEY_SIZE then 0 else hd + 1) = tl
    · simp only [hov, if_true]
      refine ⟨h2, h2, ?_⟩
      intro i hi
      simp only [KeyQueue.pending, KEY_SIZE] at hi
      omega
    · simp only [hov, if_false]
      have htl : (if tl = KEY_SIZE then 0 else tl) = tl := by
        simp only [KEY_SIZE]; split <;> omega
      simp only [htl]
      simp only [KEY_SIZE] at hov
      refine ⟨by simp only [KEY_SIZE]; split <;> omega, h2, ?_⟩
      intro i hi
      simp only [KeyQueue.pending, KEY_SIZE] at hi ⊢
      by_cases hs : (tl + i) % 8192 = hd
      · simp only [hs, if_true]; exact hk
      · simp only [hs, if_false]
        apply h3
        split at hi <;> split at hov <;> omega

theorem queueOk_keypresses (ks : List Int) :
    ∀ q : KeyQueue, QueueOk q → QueueOk (automaton_keypresses q ks) := by
  induction ks with
  | nil => intro q h; exact h
  | cons k ks ih =>
    intro q h
    simp only [automaton_keypresses]
    split
    · exact h
    · exact ih _ (queueOk_keypress q k h)

theorem queueOk_inkey (q : KeyQueue) (take : Bool) (h : QueueOk q) :
    QueueOk (automaton_inkey q take).1 := by
  obtain ⟨buf, hd, tl⟩ := q
  obtain ⟨h1, h2, h3⟩ := h
  simp only [KeyQueue.pending, KEY_SIZE] at h1 h2 h3
  unfold automaton_inkey
  by_cases he : hd = tl
  · simp only [he, if_true]
    exact ⟨h2, h2, fun i hi => by simp only [KeyQueue.pending, KEY_SIZE] at hi; omega⟩
  · simp only [he, if_false]
    cases take
    · simp only [Bool.not_false, if_true]
      exact ⟨h1, h2, h3⟩
    · simp only [Bool.not_true, Bool.false_eq_true, if_false]
      refine ⟨h1, by simp only [KEY_SIZE]; split <;> omega, ?_⟩
      intro i hi
      simp only [KeyQueue.pending, KEY_SIZE] at hi ⊢
      have hidx : ((if tl + 1 = 8192 then 0 else tl + 1) + i) % 8192 = (tl + (i + 1)) % 8192 := by
        split <;> omega
      rw [hidx]
      apply h3
      split at hi <;> omega

theorem queueOk_run (q : KeyQueue) (op : QueueOp) (h : QueueOk q) : QueueOk (op.run q) := by
  cases op with
  | enqueue k => exact queueOk_keypress q k h
  | enqueueAll ks => exact queueOk_keypresses ks q h
  | peek => exact queueOk_inkey q false h
  | dequeue => exact queueOk_inkey q true h
  | flush =>
    exact ⟨h.1, h.1, fun i hi => by
      simp only [QueueOp.run, automaton_flush, KeyQueue.pending, KEY_SIZE] at hi; omega⟩

theorem queueOk_reachable (h : Nat) (hh : h < KEY_SIZE) (ops : List QueueOp) :
    QueueOk (ops.foldl QueueOp.run (fresh_queue h)) := by
  apply foldl_invariant QueueOk
  · exact ⟨hh, hh, fun i hi => by
      simp only [fresh_queue, KeyQueue.pending, KEY_SIZE] at hi; omega⟩
  · intro b a hb
    exact queueOk_run b a hb

theorem queueOk_front (q : KeyQueue) (h : QueueOk q)
    (hne : q.automaton_key_head ≠ q.automaton_key_tail) :
    q.automaton_key_queue q.automaton_key_tail ≠ 0 := by
  obtain ⟨h1, h2, h3⟩ := h
  have := h3 0 (by simp only [KeyQueue.pending, KEY_SIZE] at *; omega)
  rw [Nat.add_zero, Nat.mod_eq_of_lt h2] at this
  exact this

/-- C34: in every queue state reached from activation (zero-filled buffer,
head = tail inside the buffer) by enqueue, enqueue-all, peek, dequeue and
flush operations, peek and dequeue return 0 exactly when head = tail, every
pending slot holds a non-null token, and peek leaves the queue as it is and
returns what the next dequeue returns. -/
theorem empty_is_unambiguous (h : Nat) (hh : h < KEY_SIZE) (ops : List QueueOp) :
    ((automaton_inkey (ops.foldl QueueOp.run (fresh_queue h)) false).2 = 0 ↔
        (ops.foldl QueueOp.run (fresh_queue h)).automaton_key_head
          = (ops.foldl QueueOp.run (fresh_queue h)).automaton_key_tail)
      ∧ ((automaton_inkey (ops.foldl QueueOp.run (fresh_queue h)) true).2 = 0 ↔
        (ops.foldl QueueOp.run (fresh_queue h)).automaton_key_head
          = (ops.foldl QueueOp.run (fresh_queue h)).automaton_key_tail)
      ∧ (∀ i, i < (ops.foldl QueueOp.run (fresh_queue h)).pending →
          (ops.foldl QueueOp.run (fresh_queue h)).automaton_key_queue
            (((ops.foldl QueueOp.run (fresh_queue h)).automaton_key_tail + i) % KEY_SIZE) ≠ 0)
      ∧ (automaton_inkey (ops.foldl QueueOp.run (fresh_queue h)) false).1
          = ops.foldl QueueOp.run (fresh_queue h)
      ∧ (automaton_inkey (ops.foldl QueueOp.run (fresh_queue h)) false).2
          = (automaton_inkey (ops.foldl QueueOp.run (fresh_queue h)) true).2 := by
  have hok := queueOk_reachable h hh ops
  generalize ops.foldl QueueOp.run (fresh_queue h) = q at hok ⊢
  have hfront := queueOk_front q hok
  refine ⟨?_, ?_, hok.2.2, ?_, ?_⟩
  · unfold automaton_inkey
    by_cases he : q.automaton_key_head = q.automaton_key_tail
    · simp [he]
    · simp [he, hfront he]
  · unfold automaton_inkey
    by_cases he : q.automaton_key_head = q.automaton_key_tail
    · simp [he]
    · simp [he, hfront he]
  · unfold automaton_inkey
    split <;> rfl
  · unfold automaton_inkey
    split <;> rfl

/-- Witness for C34: the queue after enqueueing `a`, peeking, enqueueing
`bc` and dequeueing once, from a fresh queue whose indices stand at the last
slot of the buffer. -/
theorem empty_is_unambiguous_witness :
    ((automaton_inkey ([QueueOp.enqueue 97, QueueOp.peek, QueueOp.enqueueAll [98, 99],
          QueueOp.dequeue].foldl QueueOp.run (fresh_queue 8191)) false).2 = 0 ↔
        ([QueueOp.enqueue 97, QueueOp.peek, QueueOp.enqueueAll [98, 99],
          QueueOp.dequeue].foldl QueueOp.run (fresh_queue 8191)).automaton_key_head
          = ([QueueOp.enqueue 97, QueueOp.peek, QueueOp.enqueueAll [98, 99],
            QueueOp.dequeue].foldl QueueOp.run (fresh_queue 8191)).automaton_key_tail)
      ∧ (automaton_inkey ([QueueOp.enqueue 97, QueueOp.peek, QueueOp.enqueueAll [98, 99],
          QueueOp.dequeue].foldl QueueOp.run (fresh_queue 8191)) false).2 = 98 :=
  ⟨(empty_is_unambiguous 8191 (by decide) [QueueOp.enqueue 97, QueueOp.peek,
      QueueOp.enqueueAll [98, 99], QueueOp.dequeue]).1, by decide⟩

theorem dequeue_empty (q : KeyQueue) (he : q.automaton_key_head = q.automaton_key_tail) :
    ∀ n, (dequeue_n q n).2 = List.replicate n 0 ∧ (dequeue_n q n).1 = q := by
  intro n
  induction n with
  | zero => exact ⟨rfl, rfl⟩
  | succ n ih =>
    have h1 : automaton_inkey q true = (q, 0) := by
      unfold automaton_inkey
      rw [if_pos he]
    simp only [dequeue_n, h1, List.replicate_succ, ih.1, ih.2, and_self]

/-- C35: whenever `automaton_keypress` reports failure for a non-null token,
head equals tail afterwards, so peek and dequeue return the empty marker 0
(the dequeue leaving the queue as it is), and so does every later dequeue:
neither the tokens pending before the call nor the new one can be read. -/
theorem keypress_failure_empties (q : KeyQueue) (k : Int) (hk : k ≠ 0)
    (hfail : (automaton_keypress q k).2 ≠ 0) :
    (automaton_keypress q k).1.automaton_key_head = (automaton_keypress q k).1.automaton_key_tail
      ∧ (automaton_inkey (automaton_keypress q k).1 false).2 = 0
      ∧ automaton_inkey (automaton_keypress q k).1 true = ((automaton_keypress q k).1, 0)
      ∧ ∀ n, (dequeue_n (automaton_keypress q k).1 n).2 = List.replicate n 0 := by
  have he : (automaton_keypress q k).1.automaton_key_head
      = (automaton_keypress q k).1.automaton_key_tail := by
    revert hfail
    unfold automaton_keypress
    simp only [hk, if_false]
    by_cases hc : (if q.automaton_key_head + 1 = KEY_SIZE then 0 else q.automaton_key_head + 1)
        = q.automaton_key_tail
    · rw [if_pos hc]
      intro _
      exact hc
    · rw [if_neg hc]
      intro hf
      exact absurd rfl hf
  refine ⟨he, ?_, ?_, fun n => (dequeue_empty _ he n).1⟩
  · unfold automaton_inkey
    rw [if_pos he]
  · unfold automaton_inkey
    rw [if_pos he]

/-- Witness for C35: the token `a` on `full_queue`. -/
theorem keypress_failure_empties_witness :
    (automaton_keypress full_queue 97).1.automaton_key_head
        = (automaton_keypress full_queue 97).1.automaton_key_tail
      ∧ (automaton_inkey (automaton_keypress full_queue 97).1 false).2 = 0
      ∧ automaton_inkey (automaton_keypress full_queue 97).1 true
          = ((automaton_keypress full_queue 97).1, 0)
      ∧ ∀ n, (dequeue_n (automaton_keypress full_queue 97).1 n).2 = List.replicate n 0 :=
  keypress_failure_empties full_queue 97 (by decide) (by decide)

/-- C37: whenever the player is afraid, `fighting_strategy` returns FALSE and
leaves the keypress queue as it was, whatever the rest of the state. -/
theorem afraid_never_attacks (W : World) (A : Agent) (t : Cell) (h : W.afraid = true) :
    (fighting_strategy W A t).1 = false ∧ (fighting_strategy W A t).2.1.keys = A.keys := by
  have hfe : ∀ (B : Agent) (s : Cell), find_enemy_to_kill W B s = (false, B, s) := by
    intro B s
    unfold find_enemy_to_kill
    rw [if_pos h]
  unfold fighting_strategy
  simp only [h, hfe, true_or, if_true, Bool.true_eq_false, and_false, if_false]
  split_ifs <;> exact ⟨rfl, rfl⟩

/-- Witness for C37: `shooting_range` with an afraid player. -/
theorem afraid_never_attacks_witness :
    (fighting_strategy { shooting_range with afraid := true }
        (begin_turn { shooting_range with afraid := true } {}) (0, 0)).1 = false
      ∧ (fighting_strategy { shooting_range with afraid := true }
        (begin_turn { shooting_range with afraid := true } {}) (0, 0)).2.1.keys
          = (begin_turn { shooting_range with afraid := true } {}).keys :=
  afraid_never_attacks { shooting_range with afraid := true } _ (0, 0) rfl

/-- C39 (the code at the failing input): a resting cycle in `room3` for an
agent whose health memory holds 7 in slot 1 and 0 elsewhere leaves 7 in the
slot with index 2, which lies outside the two-element array of the source. -/
theorem memory_shift_writes_slot_two :
    issues_command room3 { automaton_memory_chp := fun i => if i = 1 then 7 else 0 } = true
      ∧ ({ automaton_memory_chp := fun i => if i = 1 then 7 else 0 } : Agent).automaton_memory_chp 2
          = 0
      ∧ (automaton_turn room3
          { automaton_memory_chp := fun i => if i = 1 then 7 else 0 }).automaton_memory_chp 2 = 7 := by
  decide

/-! ### Hold or close, and the acceptance rule of the position scans -/

theorem hunt_step_only_smart (W : World) (A : Agent) (h : Hunt) (i : Nat) :
    (hunt_step W A h i).only_smart = (h.only_smart && !dull W i) := by
  unfold hunt_step dull qualifies
  simp only []
  by_cases h1 : (W.mon_list i).r_idx = 0
  · simp [h1]
  · by_cases h2 : (W.mon_list i).alertness < W.ALERTNESS_ALERT
    · have h2' : ¬ W.ALERTNESS_ALERT ≤ (W.mon_list i).alertness := by omega
      simp [h1, h2, h2']
    · have h2' : W.ALERTNESS_ALERT ≤ (W.mon_list i).alertness := by omega
      cases hml : (W.mon_list i).ml
      · by_cases h3 : (W.r_info (W.mon_list i).r_idx).freq_ranged = 0
        · simp [h1, h2, h2', hml, h3]
        · cases hs : (W.r_info (W.mon_list i).r_idx).smart <;>
            simp only [h1, h2, h2', hml, h3, hs] <;> simp <;> split_ifs <;> simp [h1, h3]
      · cases hs : (W.r_info (W.mon_list i).r_idx).smart <;>
          simp only [h1, h2, h2', hml, hs] <;> simp <;> split_ifs <;> simp [h1]

theorem hunt_step_rejects (W : World) (A : Agent) (h : Hunt) (i : Nat)
    (ha : hunt_accepts W A h i = false) :
    (hunt_step W A h i).ty = h.ty ∧ (hunt_step W A h i).tx = h.tx := by
  revert ha
  unfold hunt_step hunt_accepts qualifies
  simp only []
  by_cases h1 : (W.mon_list i).r_idx = 0
  · simp [h1]
  · by_cases h2 : (W.mon_list i).alertness < W.ALERTNESS_ALERT
    · simp [h1, h2]
    · have h2' : W.ALERTNESS_ALERT ≤ (W.mon_list i).alertness := by omega
      cases hml : (W.mon_list i).ml
      · by_cases h3 : (W.r_info (W.mon_list i).r_idx).freq_ranged = 0
        · simp [h1, h2, hml, h3]
        · simp only [h1, h2, h2', hml, h3]
          simp
          intro hd
          rw [if_neg (by omega)]
          exact ⟨rfl, rfl⟩
      · simp only [h1, h2, h2', hml]
        simp
        intro hd
        rw [if_neg (by omega)]
        exact ⟨rfl, rfl⟩

theorem hunt_step_accepts (W : World) (A : Agent) (h : Hunt) (i : Nat) (examined : List Nat)
    (ha : hunt_accepts W A h i = true)
    (hs : (h.only_smart && !dull W i) = !(examined.any (dull W))) :
    ((hunt_step W A h i).ty, (hunt_step W A h i).tx) = engage_target W examined i := by
  have hq : qualifies W i = true := by
    simp only [hunt_accepts, Bool.and_eq_true] at ha
    exact ha.1
  have hd : flow_dist W A Flow.FLOW_AUTOMATON_FIGHT (W.mon_list i).fy (W.mon_list i).fx
      < h.best_dist := by
    simp only [hunt_accepts, Bool.and_eq_true, decide_eq_true_eq] at ha
    exact ha.2
  have hq2 := hq
  simp only [qualifies, Bool.and_eq_true, decide_eq_true_eq, Bool.or_eq_true] at hq2
  obtain ⟨⟨h1, h2⟩, h3⟩ := hq2
  have hany : examined.any (dull W) = !(h.only_smart && (W.r_info (W.mon_list i).r_idx).smart) := by
    have : dull W i = !(W.r_info (W.mon_list i).r_idx).smart := by
      simp only [dull, hq, Bool.true_and]
    rw [this, Bool.not_not] at hs
    rw [hs, Bool.not_not]
  have hskip1 : ¬ ((!(W.mon_list i).ml) = true ∧ (W.mon_list i).alertness < W.ALERTNESS_ALERT) :=
    fun hc => by omega
  have hskip2 : ¬ ((!(W.mon_list i).ml) = true
      ∧ (W.r_info (W.mon_list i).r_idx).freq_ranged = 0) := by
    rintro ⟨a, b⟩
    rcases h3 with h3 | h3
    · rw [h3] at a; exact absurd a (by decide)
    · exact h3 b
  have hskip3 : ¬ (W.mon_list i).alertness < W.ALERTNESS_ALERT := by omega
  unfold hunt_step engage_target holds_for
  simp only [h1, if_false, hskip1, hskip2, hskip3, hd, if_true, hany]
  cases hsm : (W.r_info (W.mon_list i).r_idx).smart <;> cases hos : h.only_smart <;>
    simp [h2] <;> split_ifs <;> simp_all

theorem any_snoc {α : Type} (l : List α) (a : α) (p : α → Bool) :
    (l ++ [a]).any p = (l.any p || p a) := by
  simp [List.any_append]

/-- The fold of `hunt_step` over the monster list: `only_smart` tells whether
every candidate examined so far is flagged smart, and the target is the one
written for the monster accepted last, or the initial one. -/
theorem hunt_fold_target (W : World) (A : Agent) (t : Cell) :
    ∀ (l d : List Nat) (h : Hunt) (r : Option Nat),
      h.only_smart = !(d.any (dull W)) →
      (∀ i, r = some i → ∃ d1 d2, d = d1 ++ i :: d2
        ∧ (h.ty, h.tx) = engage_target W (d1 ++ [i]) i) →
      (r = none → (h.ty, h.tx) = t) →
      (∀ i, last_accepted W A l h r = some i → ∃ d1 d2, d ++ l = d1 ++ i :: d2
          ∧ ((l.foldl (hunt_step W A) h).ty, (l.foldl (hunt_step W A) h).tx)
              = engage_target W (d1 ++ [i]) i)
        ∧ (last_accepted W A l h r = none →
            ((l.foldl (hunt_step W A) h).ty, (l.foldl (hunt_step W A) h).tx) = t) := by
  intro l
  induction l with
  | nil =>
    intro d h r _ h2 h3
    simp only [last_accepted, List.foldl_nil, List.append_nil]
    exact ⟨h2, h3⟩
  | cons a l ih =>
    intro d h r h1 h2 h3
    have hos : (hunt_step W A h a).only_smart = !((d ++ [a]).any (dull W)) := by
      rw [hunt_step_only_smart, any_snoc, h1, Bool.not_or]
    have hdl : d ++ a :: l = (d ++ [a]) ++ l := by simp
    rw [List.foldl_cons, last_accepted, hdl]
    cases ha : hunt_accepts W A h a
    · obtain ⟨e1, e2⟩ := hunt_step_rejects W A h a ha
      apply ih (d ++ [a]) _ _ hos
      · intro i hi
        simp only [Bool.false_eq_true, if_false] at hi
        obtain ⟨d1, d2, hd, ht⟩ := h2 i hi
        exact ⟨d1, d2 ++ [a], by rw [hd]; simp, by rw [e1, e2]; exact ht⟩
      · intro hn
        simp only [Bool.false_eq_true, if_false] at hn
        rw [e1, e2]
        exact h3 hn
    · apply ih (d ++ [a]) _ _ hos
      · intro i hi
        simp only [if_true, Option.some.injEq] at hi
        subst hi
        refine ⟨d, [], rfl, ?_⟩
        apply hunt_step_accepts W A h a (d ++ [a]) ha
        rw [hunt_step_only_smart] at hos
        exact hos
      · intro hn
        simp at hn

/-- C31 (amended): when `find_enemy_to_kill` accepts a monster last, the
target is the player's own square exactly when that monster is melee-only,
alert, able to move, not fleeing and at grid distance 2 or 3, and some
candidate examined up to and including it is not flagged smart; otherwise the
target is that monster's square.  When no monster is accepted the target
stays as it was. -/
theorem hold_or_close (W : World) (A : Agent) (t : Cell) (hafraid : W.afraid = false) :
    (∀ i, last_accepted W A (monster_indices W) ⟨12, false, true, t.1, t.2⟩ none = some i →
        ∃ d1 d2, monster_indices W = d1 ++ i :: d2
          ∧ (find_enemy_to_kill W A t).2.2 = engage_target W (d1 ++ [i]) i)
      ∧ (last_accepted W A (monster_indices W) ⟨12, false, true, t.1, t.2⟩ none = none →
          (find_enemy_to_kill W A t).2.2 = t) := by
  have hf := hunt_fold_target W A t (monster_indices W) [] ⟨12, false, true, t.1, t.2⟩ none
    rfl (fun i hi => absurd hi (by simp)) (fun _ => rfl)
  simp only [List.nil_append] at hf
  have ht : (find_enemy_to_kill W A t).2.2
      = (((monster_indices W).foldl (hunt_step W A) ⟨12, false, true, t.1, t.2⟩).ty,
        ((monster_indices W).foldl (hunt_step W A) ⟨12, false, true, t.1, t.2⟩).tx) := by
    unfold find_enemy_to_kill
    rw [hafraid]
    simp only [Bool.false_eq_true, if_false]
    split_ifs <;> rfl
  rw [ht]
  exact hf

/-- C31 (counterexample): in `standoff` the monster accepted last is
monster 2, which is flagged smart and stands two squares from the player,
and the target is the player's own square, not the monster's. -/
theorem hold_despite_smart_candidate :
    last_accepted standoff (begin_turn standoff {}) (monster_indices standoff)
        ⟨12, false, true, 0, 0⟩ none = some 2
      ∧ (standoff.r_info (standoff.mon_list 2).r_idx).smart = true
      ∧ (find_enemy_to_kill standoff (begin_turn standoff {}) (0, 0)).2.2
          = (standoff.py, standoff.px)
      ∧ ((standoff.mon_list 2).fy, (standoff.mon_list 2).fx) ≠ (standoff.py, standoff.px) := by
  decide

/-- Witness for C31 (amended): monster 2 of `standoff`. -/
theorem hold_or_close_witness :
    ∃ d1 d2, monster_indices standoff = d1 ++ 2 :: d2
      ∧ (find_enemy_to_kill standoff (begin_turn standoff {}) (0, 0)).2.2
          = engage_target standoff (d1 ++ [2]) 2 :=
  (hold_or_close standoff (begin_turn standoff {}) (0, 0) rfl).1 2 (by decide)

theorem better_position_iff (W : World) (b : Best) (adj dist : Int) :
    better_position W b adj dist = true ↔
      (adj = b.best_wall_count ∧ dist < b.best_dist)
        ∨ (adj > min b.best_wall_count 6
            ∧ dist < min ((b.best_dist + 1) * 10) ((W.FLOW_MAX_DIST : Int) - 1)) := by
  simp only [better_position, decide_eq_true_eq]

/-- One step of a position scan either keeps the best or replaces it by the
candidate square, and only when `better_position` accepts the candidate. -/
theorem position_step_rule (W : World) (b b' : Best) (c : Cell) (adj dist : Int)
    (h : b' = b ∨ (better_position W b adj dist = true ∧ b' = ⟨adj, dist, c.1, c.2⟩)) :
    (b' = b
        ∨ (b'.best_wall_count = b.best_wall_count ∧ b'.best_dist < b.best_dist)
        ∨ (b'.best_wall_count > min b.best_wall_count 6
            ∧ b'.best_dist < min ((b.best_dist + 1) * 10) ((W.FLOW_MAX_DIST : Int) - 1)))
      ∧ (b.best_wall_count ≤ 6 →
          b.best_wall_count ≤ b'.best_wall_count
            ∧ (b'.best_wall_count = b.best_wall_count → b' = b ∨ b'.best_dist < b.best_dist)) := by
  rcases h with h | ⟨h1, h2⟩
  · subst h
    exact ⟨Or.inl rfl, fun _ => ⟨le_refl _, fun _ => Or.inl rfl⟩⟩
  · rw [better_position_iff] at h1
    subst h2
    refine ⟨Or.inr h1, fun h6 => ?_⟩
    simp only
    rcases h1 with ⟨e1, e2⟩ | ⟨e1, e2⟩
    · exact ⟨by omega, fun _ => Or.inr e2⟩
    · rw [min_eq_left h6] at e1
      exact ⟨by omega, fun he => by omega⟩

theorem secure_step_accepts (W : World) (A : Agent) (count comy comx : Int) (b : Best) (c : Cell) :
    secure_step W A count comy comx b c = b
      ∨ (better_position W b (adj_wall_count W c.1 c.2)
            (secure_step W A count comy comx b c).best_dist = true
          ∧ secure_step W A count comy comx b c
              = ⟨adj_wall_count W c.1 c.2, (secure_step W A count comy comx b c).best_dist,
                  c.1, c.2⟩) := by
  unfold secure_step
  simp only []
  by_cases h1 : (!W.in_bounds c.1 c.2) = true
  · rw [if_pos h1]; exact Or.inl rfl
  rw [if_neg h1]
  by_cases h2 : (!known W A.automaton_map c.1 c.2) = true
  · rw [if_pos h2]; exact Or.inl rfl
  rw [if_neg h2]
  by_cases h3 : W.cave_wall_bold c.1 c.2 = true
  · rw [if_pos h3]; exact Or.inl rfl
  rw [if_neg h3]
  by_cases h4 : W.cave_feat c.1 c.2 = W.FEAT_CHASM
  · rw [if_pos h4]; exact Or.inl rfl
  rw [if_neg h4]
  by_cases h5 : W.cave_feat c.1 c.2 = W.FEAT_RUBBLE
  · rw [if_pos h5]; exact Or.inl rfl
  rw [if_neg h5]
  generalize flow_dist W A Flow.FLOW_AUTOMATON_SECURE c.1 c.2
    + (if count > 0 ∧ (if count > 0 then grid_distance comy comx c.1 c.2 else 0) < 20 then
        20 - (if count > 0 then grid_distance comy comx c.1 c.2 else 0) else 0) = dist
  by_cases h6 : better_position W b (adj_wall_count W c.1 c.2) dist = true
  · rw [if_pos h6]; exact Or.inr ⟨h6, rfl⟩
  · rw [if_neg h6]; exact Or.inl rfl

theorem fighting_step_accepts (W : World) (A : Agent) (b : Best) (c : Cell) :
    fighting_step W A b c = b
      ∨ (better_position W b (adj_wall_count W c.1 c.2) (fighting_step W A b c).best_dist = true
          ∧ fighting_step W A b c
              = ⟨adj_wall_count W c.1 c.2, (fighting_step W A b c).best_dist, c.1, c.2⟩) := by
  unfold fighting_step
  simp only []
  by_cases h1 : (!W.in_bounds c.1 c.2) = true
  · rw [if_pos h1]; exact Or.inl rfl
  rw [if_neg h1]
  by_cases h2 : (!W.cave_mark c.1 c.2) = true
  · rw [if_pos h2]; exact Or.inl rfl
  rw [if_neg h2]
  by_cases h3 : W.cave_wall_bold c.1 c.2 = true
  · rw [if_pos h3]; exact Or.inl rfl
  rw [if_neg h3]
  by_cases h4 : W.cave_feat c.1 c.2 = W.FEAT_CHASM
  · rw [if_pos h4]; exact Or.inl rfl
  rw [if_neg h4]
  by_cases h5 : W.cave_feat c.1 c.2 = W.FEAT_RUBBLE
  · rw [if_pos h5]; exact Or.inl rfl
  rw [if_neg h5]
  by_cases h6 : better_position W b (adj_wall_count W c.1 c.2)
      (flow_dist W A Flow.FLOW_AUTOMATON_FIGHT c.1 c.2) = true
  · rw [if_pos h6]; exact Or.inr ⟨h6, rfl⟩
  · rw [if_neg h6]; exact Or.inl rfl

/-- C33 (amended): in the scans of `find_secure_position` and
`find_fighting_position` a candidate replaces the current best only if it has
the same wall count and a strictly smaller distance, or more walls than the
smaller of the current count and 6 and a distance within the relaxed bound;
so a best with at most 6 walls is never replaced by a candidate with fewer
walls, nor by one with the same count and a larger or equal distance. -/
theorem position_acceptance_rule (W : World) (A : Agent) (count comy comx : Int) (b : Best)
    (c : Cell) :
    ((secure_step W A count comy comx b c = b
          ∨ ((secure_step W A count comy comx b c).best_wall_count = b.best_wall_count
              ∧ (secure_step W A count comy comx b c).best_dist < b.best_dist)
          ∨ ((secure_step W A count comy comx b c).best_wall_count > min b.best_wall_count 6
              ∧ (secure_step W A count comy comx b c).best_dist
                  < min ((b.best_dist + 1) * 10) ((W.FLOW_MAX_DIST : Int) - 1)))
        ∧ (b.best_wall_count ≤ 6 →
            b.best_wall_count ≤ (secure_step W A count comy comx b c).best_wall_count
              ∧ ((secure_step W A count comy comx b c).best_wall_count = b.best_wall_count →
                  secure_step W A count comy comx b c = b
                    ∨ (secure_step W A count comy comx b c).best_dist < b.best_dist)))
      ∧ ((fighting_step W A b c = b
          ∨ ((fighting_step W A b c).best_wall_count = b.best_wall_count
              ∧ (fighting_step W A b c).best_dist < b.best_dist)
          ∨ ((fighting_step W A b c).best_wall_count > min b.best_wall_count 6
              ∧ (fighting_step W A b c).best_dist
                  < min ((b.best_dist + 1) * 10) ((W.FLOW_MAX_DIST : Int) - 1)))
        ∧ (b.best_wall_count ≤ 6 →
            b.best_wall_count ≤ (fighting_step W A b c).best_wall_count
              ∧ ((fighting_step W A b c).best_wall_count = b.best_wall_count →
                  fighting_step W A b c = b ∨ (fighting_step W A b c).best_dist < b.best_dist))) := by
  constructor
  · apply position_step_rule W b _ c (adj_wall_count W c.1 c.2)
      (secure_step W A count comy comx b c).best_dist
    rcases secure_step_accepts W A count comy comx b c with h | ⟨h1, h2⟩
    · exact Or.inl h
    · exact Or.inr ⟨h1, h2⟩
  · apply position_step_rule W b _ c (adj_wall_count W c.1 c.2) (fighting_step W A b c).best_dist
    rcases fighting_step_accepts W A b c with h | ⟨h1, h2⟩
    · exact Or.inl h
    · exact Or.inr ⟨h1, h2⟩

/-- C33 (counterexample): in `two_ends` the scan of `find_fighting_position`
first accepts the dead end `(1, 1)` with 7 walls at distance 1 and then
replaces it by the dead end `(1, 5)`, which has the same 7 walls and the
larger distance 3; `find_secure_position` ends with `(1, 5)` likewise. -/
theorem same_walls_farther_accepted :
    (fighting_step two_ends (begin_turn two_ends {}) ⟨0, 99, 0, 0⟩ (1, 1)).best_wall_count = 7
      ∧ (fighting_step two_ends (begin_turn two_ends {}) ⟨0, 99, 0, 0⟩ (1, 1)).best_dist = 1
      ∧ (fighting_step two_ends (begin_turn two_ends {}) ⟨7, 1, 1, 1⟩ (1, 5)).best_wall_count = 7
      ∧ (fighting_step two_ends (begin_turn two_ends {}) ⟨7, 1, 1, 1⟩ (1, 5)).best_dist = 3
      ∧ (fighting_step two_ends (begin_turn two_ends {}) ⟨7, 1, 1, 1⟩ (1, 5)).tx = 5
      ∧ (find_secure_position two_ends (begin_turn two_ends {}) (0, 0)).2 = (1, 5) := by
  decide

/-- Witness for C33 (amended): the first accepted square `(1, 1)` of
`two_ends`. -/
theorem position_acceptance_rule_witness :
    (0 : Int) ≤ (fighting_step two_ends (begin_turn two_ends {}) ⟨0, 99, 0, 0⟩
        (1, 1)).best_wall_count
      ∧ ((fighting_step two_ends (begin_turn two_ends {}) ⟨0, 99, 0, 0⟩ (1, 1)).best_wall_count
            = 0 →
          fighting_step two_ends (begin_turn two_ends {}) ⟨0, 99, 0, 0⟩ (1, 1) = ⟨0, 99, 0, 0⟩
            ∨ (fighting_step two_ends (begin_turn two_ends {}) ⟨0, 99, 0, 0⟩ (1, 1)).best_dist
                < 99) :=
  (position_acceptance_rule two_ends (begin_turn two_ends {}) 0 0 0 ⟨0, 99, 0, 0⟩ (1, 1)).2.2
    (by decide)

/-! ### The square a movement command steps onto -/

/-- The square chosen by the direction loop is the origin of the flow or a
passable square. -/
theorem chosen_square_passable (W : World) (B : Agent) (ty tx : Int) (hwf : W.WellFormed)
    (hfound : (head_for_target W B ty tx).2.found_direction = true) :
    ∃ i ∈ [7, 6, 5, 4, 3, 2, 1, 0], (head_for_target W B ty tx).2.best_dir = ddd i
      ∧ ((W.py + ddy_ddd i, W.px + ddx_ddd i) = (ty, tx)
          ∨ passable W B.automaton_map (W.py + ddy_ddd i, W.px + ddx_ddd i) = true) := by
  have hcost := head_for_target_cost W B ty tx
  rw [update_flow_cost] at hcost
  have hinv := direction_fold_inv W (head_for_target W B ty tx).1 [7, 6, 5, 4, 3, 2, 1, 0]
    (fun _ => False) ⟨false, (W.FLOW_MAX_DIST : Int) - 1, 5⟩
    (fun _ _ _ hj => hj.elim) (by decide)
    ⟨fun _ hj => hj.elim, fun hf => absurd hf Bool.false_ne_true⟩
  have hle := (direction_found_inv W (head_for_target W B ty tx).1 [7, 6, 5, 4, 3, 2, 1, 0] []
    ⟨false, (W.FLOW_MAX_DIST : Int) - 1, 5⟩
    ⟨le_refl _, fun _ => ⟨rfl, fun j hj => absurd hj (List.not_mem_nil j)⟩,
      fun hf => absurd hf Bool.false_ne_true, fun hf => absurd hf Bool.false_ne_true⟩).1
  have hfd : (head_for_target W B ty tx).2
      = [7, 6, 5, 4, 3, 2, 1, 0].foldl (direction_step W (head_for_target W B ty tx).1)
          ⟨false, (W.FLOW_MAX_DIST : Int) - 1, 5⟩ := rfl
  rw [← hfd] at hinv hle
  obtain ⟨i, hi, hbi, hdir, hbest, _⟩ := hinv.2 hfound
  have hi2 : i ∈ [7, 6, 5, 4, 3, 2, 1, 0] := by simpa using hi
  refine ⟨i, hi2, hdir, ?_⟩
  by_cases he : (W.py + ddy_ddd i, W.px + ddx_ddd i) = (ty, tx)
  · exact Or.inl he
  · right
    have hmap := hwf.in_bounds_map _ _ hbi
    apply flow_field_reached W B.automaton_map (decide (W.chp < B.automaton_memory_chp 0))
      Flow.FLOW_AUTOMATON ty tx (B.cave_cost Flow.FLOW_AUTOMATON) _ _ hmap he
    rw [hbest] at hle
    simp only [flow_dist, hbi, if_true, hcost] at hle
    omega

theorem issues_command_target (W : World) (A : Agent) (ty tx : Int)
    (htarget : policy_target W A = some (ty, tx)) (hcmd : issues_command W A = true) :
    ty ≠ 0 ∧ (¬ (ty = W.py ∧ tx = W.px) →
      (head_for_target W (policy_agent W A) ty tx).2.found_direction = true) := by
  unfold policy_target at htarget
  unfold issues_command at hcmd
  unfold policy_agent
  cases hr : arbiter W (begin_turn W A) with
  | error B => rw [hr] at htarget; exact absurd htarget (by simp)
  | ok s' =>
    obtain ⟨B, ty', tx'⟩ := s'
    rw [hr] at htarget hcmd
    simp only [Option.some.injEq, Prod.mk.injEq] at htarget
    simp only [Bool.and_eq_true, decide_eq_true_eq, Bool.or_eq_true] at hcmd
    rw [htarget.1, htarget.2] at hcmd
    refine ⟨hcmd.1, fun hne => ?_⟩
    rcases hcmd.2 with h | h
    · exact absurd h hne
    · exact h

/-- C38: whenever a decision cycle queues a command for a target away from
the player's square, the command is `;` or `/` with the digit of a direction
other than 5 (possibly followed by `y`), and the neighbouring square in that
direction is the target itself or a known square that is in bounds and neither
wall nor chasm nor rubble. -/
theorem never_steps_into_wall (W : World) (A : Agent) (ty tx : Int) (hwf : W.WellFormed)
    (htarget : policy_target W A = some (ty, tx)) (hne : ¬ (ty = W.py ∧ tx = W.px))
    (hcmd : issues_command W A = true) :
    ∃ (base : Int) (dir : Nat), (base = 59 ∨ base = 47) ∧ dir ∈ [1, 2, 3, 4, 6, 7, 8, 9]
      ∧ ((automaton_turn W A).keys = automaton_keypresses A.keys [base, 48 + (dir : Int)]
          ∨ (automaton_turn W A).keys
              = (automaton_keypress (automaton_keypresses A.keys [base, 48 + (dir : Int)]) 121).1)
      ∧ ((W.py + ddy dir, W.px + ddx dir) = (ty, tx)
          ∨ passable W (automaton_turn W A).automaton_map (W.py + ddy dir, W.px + ddx dir)
              = true) := by
  obtain ⟨hty, hf⟩ := issues_command_target W A ty tx htarget hcmd
  have hfound := hf hne
  obtain ⟨i, hi, hdir, hcell⟩ := chosen_square_passable W (policy_agent W A) ty tx hwf hfound
  obtain ⟨t1, t2, _, _⟩ := direction_tables i hi
  obtain ⟨k1, _, _⟩ := policy_agent_io W A _ htarget
  obtain ⟨f1, _, _⟩ := head_for_target_io W (policy_agent W A) ty tx
  have hmap : (head_for_target W (policy_agent W A) ty tx).1.automaton_map
      = (policy_agent W A).automaton_map := by
    simp only [head_for_target]
    rw [(flow_keeps_io _ _ _ _ _).2.2.2.1, (flow_keeps_io _ _ _ _ _).2.2.2.1,
      (flow_keeps_io _ _ _ _ _).2.2.2.1]
  have hturn := turn_of_target W A ty tx htarget
  rw [resolve_target_moves W _ ty tx hty hne hfound, hdir, t1, t2] at hturn
  refine ⟨if W.cave_known_closed_door_bold (W.py + ddy_ddd i) (W.px + ddx_ddd i) = true
      ∧ W.one_in_5 = true then 47 else 59, ddd i, ?_, (ddd_ne_five i hi).2, ?_, ?_⟩
  · split
    · exact Or.inr rfl
    · exact Or.inl rfl
  · rw [hturn]
    split
    · right
      simp only [update_memory, Agent.press1, Agent.press, f1, k1]
    · left
      simp only [update_memory, Agent.press, f1, k1]
  · rw [t1, t2, hturn]
    rcases hcell with hc | hc
    · exact Or.inl hc
    · right
      have : (update_memory W
          (if W.cave_trap_bold (W.py + ddy_ddd i) (W.px + ddx_ddd i) = true
              ∧ W.cave_hidden (W.py + ddy_ddd i) (W.px + ddx_ddd i) = false then
            ((head_for_target W (policy_agent W A) ty tx).1.press
              [if W.cave_known_closed_door_bold (W.py + ddy_ddd i) (W.px + ddx_ddd i) = true
                  ∧ W.one_in_5 = true then 47 else 59, 48 + ((ddd i : Nat) : Int)]).press1 121
          else
            (head_for_target W (policy_agent W A) ty tx).1.press
              [if W.cave_known_closed_door_bold (W.py + ddy_ddd i) (W.px + ddx_ddd i) = true
                  ∧ W.one_in_5 = true then 47 else 59,
                48 + ((ddd i : Nat) : Int)])).automaton_map
          = (policy_agent W A).automaton_map := by
        split <;> simp only [update_memory, Agent.press1, Agent.press, hmap]
      rw [this]
      exact hc

theorem hunting_ground_wellFormed : hunting_ground.WellFormed := by
  refine ⟨by decide, by decide, ?_⟩
  intro y x h
  simp only [hunting_ground, ambush, decide_eq_true_eq] at h
  exact h

/-- Witness for C38: in `hunting_ground` the player heads for the archer at
`(1, 6)` by stepping east onto the floor square `(1, 4)`. -/
theorem never_steps_into_wall_witness :
    ∃ (base : Int) (dir : Nat), (base = 59 ∨ base = 47) ∧ dir ∈ [1, 2, 3, 4, 6, 7, 8, 9]
      ∧ ((automaton_turn hunting_ground {}).keys
            = automaton_keypresses ({} : Agent).keys [base, 48 + (dir : Int)]
          ∨ (automaton_turn hunting_ground {}).keys
              = (automaton_keypress
                  (automaton_keypresses ({} : Agent).keys [base, 48 + (dir : Int)]) 121).1)
      ∧ ((hunting_ground.py + ddy dir, hunting_ground.px + ddx dir) = (1, 6)
          ∨ passable hunting_ground (automaton_turn hunting_ground {}).automaton_map
              (hunting_ground.py + ddy dir, hunting_ground.px + ddx dir) = true) :=
  never_steps_into_wall hunting_ground {} 1 6 hunting_ground_wellFormed (by decide) (by decide)
    (by decide)

/-! ### The normal and the combat channel -/

theorem flow_visit_fight (W : World) (amap : Int → Int → Bool) (cost : Nat) (y x : Int)
    (st : Grid × List Cell) (d : Nat) :
    flow_visit W amap Flow.FLOW_AUTOMATON_FIGHT cost y x st d
      = flow_visit W amap Flow.FLOW_AUTOMATON cost y x st d := by
  unfold flow_visit
  simp only [extra_cost_fight]

theorem flow_cell_fight (W : World) (amap : Int → Int → Bool) (cost : Nat)
    (st : Grid × List Cell) (c : Cell) :
    flow_cell W amap Flow.FLOW_AUTOMATON_FIGHT cost st c
      = flow_cell W amap Flow.FLOW_AUTOMATON cost st c := by
  unfold flow_cell
  have : flow_visit W amap Flow.FLOW_AUTOMATON_FIGHT cost c.1 c.2
      = flow_visit W amap Flow.FLOW_AUTOMATON cost c.1 c.2 := by
    funext st d
    exact flow_visit_fight W amap cost c.1 c.2 st d
  rw [this]

theorem flow_layer_fight (W : World) (amap : Int → Int → Bool) (lost : Bool) (cost : Nat)
    (g : Grid) (cur : List Cell) :
    flow_layer W amap lost Flow.FLOW_AUTOMATON_FIGHT cost g cur
      = flow_layer W amap lost Flow.FLOW_AUTOMATON cost g cur := by
  unfold flow_layer
  have : flow_cell W amap Flow.FLOW_AUTOMATON_FIGHT cost
      = flow_cell W amap Flow.FLOW_AUTOMATON cost := by
    funext st c
    exact flow_cell_fight W amap cost st c
  rw [this]
  simp only []
  rw [if_neg (fun h => absurd h.1 (by decide)), if_neg (fun h => absurd h.1 (by decide))]

theorem flow_loop_fight (W : World) (amap : Int → Int → Bool) (lost : Bool) :
    ∀ (n cost : Nat) (g : Grid) (cur : List Cell),
      flow_loop W amap lost Flow.FLOW_AUTOMATON_FIGHT n cost g cur
        = flow_loop W amap lost Flow.FLOW_AUTOMATON n cost g cur := by
  intro n
  induction n with
  | zero => intro cost g cur; rfl
  | succ n ih =>
    intro cost g cur
    unfold flow_loop
    split
    · rfl
    · simp only []
      rw [flow_layer_fight, ih]

/-- Two states of the loop over `d` with the same table, all of whose squares
are in bounds, and with grids that agree on the current map stay so when a
child is visited. -/
theorem flow_visit_congr (W : World) (hwf : W.WellFormed) (amap : Int → Int → Bool)
    (which : Flow) (cost : Nat) (y x : Int) (s1 s2 : Grid × List Cell) (d : Nat)
    (hl : s1.2 = s2.2) (hb : ∀ f ∈ s1.2, W.in_bounds f.1 f.2 = true)
    (hg : ∀ y' x' : Int, 0 ≤ y' ∧ y' < W.cur_map_hgt ∧ 0 ≤ x' ∧ x' < W.cur_map_wid →
      s1.1 y' x' = s2.1 y' x') :
    (flow_visit W amap which cost y x s1 d).2 = (flow_visit W amap which cost y x s2 d).2
      ∧ (∀ f ∈ (flow_visit W amap which cost y x s1 d).2, W.in_bounds f.1 f.2 = true)
      ∧ ∀ y' x' : Int, 0 ≤ y' ∧ y' < W.cur_map_hgt ∧ 0 ≤ x' ∧ x' < W.cur_map_wid →
          (flow_visit W amap which cost y x s1 d).1 y' x'
            = (flow_visit W amap which cost y x s2 d).1 y' x' := by
  unfold flow_visit
  simp only []
  by_cases h1 : (!W.in_bounds (byte_add y (ddy_ddd d)) (byte_add x (ddx_ddd d))) = true
  · rw [if_pos h1, if_pos h1]
    exact ⟨hl, hb, hg⟩
  rw [if_neg h1, if_neg h1]
  have hin : W.in_bounds (byte_add y (ddy_ddd d)) (byte_add x (ddx_ddd d)) = true := by
    simpa using h1
  have he := hg _ _ (hwf.in_bounds_map _ _ hin)
  rw [← he]
  by_cases h2 : s1.1 (byte_add y (ddy_ddd d)) (byte_add x (ddx_ddd d)) < W.FLOW_MAX_DIST
  · rw [if_pos h2, if_pos h2]
    exact ⟨hl, hb, hg⟩
  rw [if_neg h2, if_neg h2]
  by_cases h3 : (!known W amap (byte_add y (ddy_ddd d)) (byte_add x (ddx_ddd d))) = true
  · rw [if_pos h3, if_pos h3]
    exact ⟨hl, hb, hg⟩
  rw [if_neg h3, if_neg h3]
  by_cases h4 : W.cave_wall_bold (byte_add y (ddy_ddd d)) (byte_add x (ddx_ddd d)) = true
  · rw [if_pos h4, if_pos h4]
    exact ⟨hl, hb, hg⟩
  rw [if_neg h4, if_neg h4]
  by_cases h5 : W.cave_feat (byte_add y (ddy_ddd d)) (byte_add x (ddx_ddd d)) = W.FEAT_CHASM
  · rw [if_pos h5, if_pos h5]
    exact ⟨hl, hb, hg⟩
  rw [if_neg h5, if_neg h5]
  by_cases h6 : W.cave_feat (byte_add y (ddy_ddd d)) (byte_add x (ddx_ddd d)) = W.FEAT_RUBBLE
  · rw [if_pos h6, if_pos h6]
    exact ⟨hl, hb, hg⟩
  rw [if_neg h6, if_neg h6]
  refine ⟨by simp only [hl], ?_, ?_⟩
  · intro f hf
    simp only [List.mem_append, List.mem_singleton] at hf
    rcases hf with hf | hf
    · exact hb f hf
    · rw [hf]; exact hin
  · intro y' x' hm
    simp only [Grid.set]
    split
    · rfl
    · exact hg y' x' hm

theorem flow_visits_congr (W : World) (hwf : W.WellFormed) (amap : Int → Int → Bool)
    (which : Flow) (cost : Nat) (y x : Int) :
    ∀ (ds : List Nat) (s1 s2 : Grid × List Cell),
      s1.2 = s2.2 → (∀ f ∈ s1.2, W.in_bounds f.1 f.2 = true) →
      (∀ y' x' : Int, 0 ≤ y' ∧ y' < W.cur_map_hgt ∧ 0 ≤ x' ∧ x' < W.cur_map_wid →
        s1.1 y' x' = s2.1 y' x') →
      (ds.foldl (flow_visit W amap which cost y x) s1).2
          = (ds.foldl (flow_visit W amap which cost y x) s2).2
        ∧ (∀ f ∈ (ds.foldl (flow_visit W amap which cost y x) s1).2, W.in_bounds f.1 f.2 = true)
        ∧ ∀ y' x' : Int, 0 ≤ y' ∧ y' < W.cur_map_hgt ∧ 0 ≤ x' ∧ x' < W.cur_map_wid →
            (ds.foldl (flow_visit W amap which cost y x) s1).1 y' x'
              = (ds.foldl (flow_visit W amap which cost y x) s2).1 y' x' := by
  intro ds
  induction ds with
  | nil => intro s1 s2 hl hb hg; exact ⟨hl, hb, hg⟩
  | cons d ds ih =>
    intro s1 s2 hl hb hg
    obtain ⟨a, b, c⟩ := flow_visit_congr W hwf amap which cost y x s1 s2 d hl hb hg
    exact ih _ _ a b c

theorem flow_cells_congr (W : World) (hwf : W.WellFormed) (amap : Int → Int → Bool)
    (which : Flow) (cost : Nat) :
    ∀ (cur : List Cell) (s1 s2 : Grid × List Cell),
      (∀ f ∈ cur, W.in_bounds f.1 f.2 = true) →
      s1.2 = s2.2 → (∀ f ∈ s1.2, W.in_bounds f.1 f.2 = true) →
      (∀ y' x' : Int, 0 ≤ y' ∧ y' < W.cur_map_hgt ∧ 0 ≤ x' ∧ x' < W.cur_map_wid →
        s1.1 y' x' = s2.1 y' x') →
      (cur.foldl (flow_cell W amap which cost) s1).2
          = (cur.foldl (flow_cell W amap which cost) s2).2
        ∧ (∀ f ∈ (cur.foldl (flow_cell W amap which cost) s1).2, W.in_bounds f.1 f.2 = true)
        ∧ ∀ y' x' : Int, 0 ≤ y' ∧ y' < W.cur_map_hgt ∧ 0 ≤ x' ∧ x' < W.cur_map_wid →
            (cur.foldl (flow_cell W amap which cost) s1).1 y' x'
              = (cur.foldl (flow_cell W amap which cost) s2).1 y' x' := by
  intro cur
  induction cur with
  | nil => intro s1 s2 _ hl hb hg; exact ⟨hl, hb, hg⟩
  | cons c cur ih =>
    intro s1 s2 hc hl hb hg
    have hcin := hc c (List.mem_cons_self c cur)
    have hstep : (flow_cell W amap which cost s1 c).2 = (flow_cell W amap which cost s2 c).2
        ∧ (∀ f ∈ (flow_cell W amap which cost s1 c).2, W.in_bounds f.1 f.2 = true)
        ∧ ∀ y' x' : Int, 0 ≤ y' ∧ y' < W.cur_map_hgt ∧ 0 ≤ x' ∧ x' < W.cur_map_wid →
            (flow_cell W amap which cost s1 c).1 y' x'
              = (flow_cell W amap which cost s2 c).1 y' x' := by
      unfold flow_cell
      rw [← hg _ _ (hwf.in_bounds_map _ _ hcin)]
      split
      · refine ⟨by simp only [hl], ?_, hg⟩
        intro f hf
        simp only [List.mem_append, List.mem_singleton] at hf
        rcases hf with hf | hf
        · exact hb f hf
        · rw [hf]; exact hcin
      · exact flow_visits_congr W hwf amap which cost c.1 c.2 _ s1 s2 hl hb hg
    rw [List.foldl_cons, List.foldl_cons]
    exact ih _ _ (fun f hf => hc f (List.mem_cons_of_mem c hf)) hstep.1 hstep.2.1 hstep.2.2

/-- The result of the loop over `cost` on the squares of the map does not
depend on what the grid held outside the map. -/
theorem flow_loop_congr (W : World) (hwf : W.WellFormed) (amap : Int → Int → Bool)
    (lost : Bool) (which : Flow) :
    ∀ (n cost : Nat) (g1 g2 : Grid) (cur : List Cell),
      (∀ f ∈ cur, W.in_bounds f.1 f.2 = true) →
      (∀ y' x' : Int, 0 ≤ y' ∧ y' < W.cur_map_hgt ∧ 0 ≤ x' ∧ x' < W.cur_map_wid →
        g1 y' x' = g2 y' x') →
      ∀ y' x' : Int, 0 ≤ y' ∧ y' < W.cur_map_hgt ∧ 0 ≤ x' ∧ x' < W.cur_map_wid →
        flow_loop W amap lost which n cost g1 cur y' x'
          = flow_loop W amap lost which n cost g2 cur y' x' := by
  intro n
  induction n with
  | zero => intro cost g1 g2 cur _ hg; exact hg
  | succ n ih =>
    intro cost g1 g2 cur hc hg
    unfold flow_loop
    split
    · exact hg
    · obtain ⟨a, b, c⟩ := flow_cells_congr W hwf amap which cost cur (g1, []) (g2, []) hc rfl
        (fun f hf => absurd hf (List.not_mem_nil f)) hg
      simp only []
      unfold flow_layer
      simp only []
      split
      · simp only []
        rw [← a]
        apply ih _ _ _ _ b
        intro y' x' hm
        simp only [Grid.set]
        split
        · rename_i he
          rw [← he.1, ← he.2, c y' x' hm]
        · exact c y' x' hm
      · rw [← a]
        exact ih _ _ _ _ b c

/-- List form of the agreement of the channels: for a well-formed world and an
origin in bounds, the normal and the
combat channel get the same cost on every square of the current map. -/
theorem normal_and_combat_agree (W : World) (A : Agent) (cy cx : Int) (hwf : W.WellFormed)
    (ho : W.in_bounds cy cx = true) (y x : Int)
    (hmap : 0 ≤ y ∧ y < W.cur_map_hgt ∧ 0 ≤ x ∧ x < W.cur_map_wid) :
    (update_automaton_flow W A Flow.FLOW_AUTOMATON cy cx).cave_cost Flow.FLOW_AUTOMATON y x
      = (update_automaton_flow W A Flow.FLOW_AUTOMATON_FIGHT cy cx).cave_cost
          Flow.FLOW_AUTOMATON_FIGHT y x := by
  rw [update_flow_cost, update_flow_cost]
  unfold flow_field
  rw [flow_loop_fight]
  have hom := hwf.in_bounds_map cy cx ho
  have hcy : cy % 256 = cy := by have := hwf.hgt_le; omega
  have hcx : cx % 256 = cx := by have := hwf.wid_le; omega
  apply flow_loop_congr W hwf _ _ _ _ _ _ _ _ _ _ y x hmap
  · intro f hf
    simp only [List.mem_singleton] at hf
    rw [hf, hcy, hcx]
    exact ho
  · intro y' x' hm
    simp only [Grid.set, erase_flow, hm, and_self, if_true]

/-- Example of the agreement of the channels in the list form: the square
`(1, 5)` of `hunting_ground`, at cost 2 from the player's square on both
channels. -/
theorem normal_and_combat_agree_witness :
    (update_automaton_flow hunting_ground {} Flow.FLOW_AUTOMATON 1 3).cave_cost
        Flow.FLOW_AUTOMATON 1 5
      = (update_automaton_flow hunting_ground {} Flow.FLOW_AUTOMATON_FIGHT 1 3).cave_cost
          Flow.FLOW_AUTOMATON_FIGHT 1 5 :=
  normal_and_combat_agree hunting_ground {} 1 3 hunting_ground_wellFormed (by decide) 1 5
    (by decide)

/-! ### Exploration and the size of the flow table -/

theorem table_offset_lt (W : World) (cycle plane k : Nat) (hc : cycle < 2) (hp : plane < 2)
    (hk : k < 8 * W.FLOW_MAX_DIST) :
    table_offset W cycle plane k < 4 * (8 * W.FLOW_MAX_DIST) := by
  unfold table_offset
  interval_cases cycle <;> interval_cases plane <;> simp <;> omega

theorem table_offset_inj (W : World) (c1 p1 k1 c2 p2 k2 : Nat) (hc1 : c1 < 2) (hp1 : p1 < 2)
    (hc2 : c2 < 2) (hp2 : p2 < 2) (hk1 : k1 < 8 * W.FLOW_MAX_DIST)
    (hk2 : k2 < 8 * W.FLOW_MAX_DIST)
    (h : table_offset W c1 p1 k1 = table_offset W c2 p2 k2) : c1 = c2 ∧ p1 = p2 ∧ k1 = k2 := by
  unfold table_offset at h
  interval_cases c1 <;> interval_cases p1 <;> interval_cases c2 <;> interval_cases p2 <;>
    simp at h <;> omega

theorem table_store_some (W : World) (t : FlowTable) (cycle plane k : Nat) (v : Int)
    (hc : cycle < 2) (hp : plane < 2) (hk : k < 8 * W.FLOW_MAX_DIST) :
    table_store W t cycle plane k v
      = some fun j => if j = table_offset W cycle plane k then some v else t j := by
  unfold table_store
  rw [if_pos (table_offset_lt W cycle plane k hc hp hk)]

theorem table_holds_load (W : World) (t : FlowTable) (cycle : Nat) (l : List Cell) (i : Nat)
    (c : Cell) (hc : cycle < 2) (hl : l.length ≤ 8 * W.FLOW_MAX_DIST)
    (h : TableHolds W t cycle l) (hi : l[i]? = some c) :
    table_load W t cycle 0 i = some c.1 ∧ table_load W t cycle 1 i = some c.2 := by
  have hlt : i < l.length := by
    rcases Nat.lt_or_ge i l.length with h1 | h1
    · exact h1
    · rw [List.getElem?_eq_none h1] at hi
      exact absurd hi (by simp)
  have hk : i < 8 * W.FLOW_MAX_DIST := by omega
  unfold table_load
  rw [if_pos (table_offset_lt W cycle 0 i hc (by omega) hk),
    if_pos (table_offset_lt W cycle 1 i hc (by omega) hk)]
  exact h i c hi

theorem table_push_some (W : World) (next : Nat) (s : FlowState) (y x : Int) (hn : next < 2)
    (hk : s.grid_count < 8 * W.FLOW_MAX_DIST) :
    table_push W next s y x
      = some { s with
          table := fun j =>
            if j = table_offset W next 1 s.grid_count then some x
            else if j = table_offset W next 0 s.grid_count then some y else s.table j
          grid_count := s.grid_count + 1 } := by
  unfold table_push
  rw [table_store_some W _ next 0 _ y hn (by omega) hk]
  simp only [Option.some_bind]
  rw [table_store_some W _ next 1 _ x hn (by omega) hk]
  simp only [Option.some_bind]

theorem table_push_count (W : World) (next : Nat) (s r : FlowState) (y x : Int)
    (h : table_push W next s y x = some r) :
    r.grid_count = s.grid_count + 1 ∧ r.grid = s.grid := by
  unfold table_push at h
  cases h1 : table_store W s.table next 0 s.grid_count y with
  | none => rw [h1] at h; simp at h
  | some t1 =>
    rw [h1] at h
    simp only [Option.some_bind] at h
    cases h2 : table_store W t1 next 1 s.grid_count x with
    | none => rw [h2] at h; simp at h
    | some t2 =>
      rw [h2] at h
      simp only [Option.some_bind, Option.some.injEq] at h
      rw [← h]
      exact ⟨rfl, rfl⟩

theorem fold_opt_cons {σ α : Type} (f : σ → α → Option σ) (s r : σ) (a : α) (l : List α)
    (h : fold_opt f s (a :: l) = some r) : ∃ s1, f s a = some s1 ∧ fold_opt f s1 l = some r := by
  simp only [fold_opt] at h
  cases h1 : f s a with
  | none => rw [h1] at h; simp at h
  | some s1 =>
    rw [h1] at h
    exact ⟨s1, rfl, by simpa using h⟩

theorem fold_opt_mono {σ α : Type} (f : σ → α → Option σ) (m : σ → Nat)
    (hf : ∀ s a r, f s a = some r → m s ≤ m r) (l : List α) :
    ∀ s r, fold_opt f s l = some r → m s ≤ m r := by
  induction l with
  | nil =>
    intro s r h
    simp only [fold_opt, Option.some.injEq] at h
    rw [h]
  | cons a l ih =>
    intro s r h
    obtain ⟨s1, h1, h2⟩ := fold_opt_cons f s r a l h
    exact le_trans (hf s a s1 h1) (ih s1 r h2)

theorem table_visit_mono (W : World) (amap : Int → Int → Bool) (which : Flow) (cost next : Nat)
    (y x : Int) (s : FlowState) (d : Nat) (r : FlowState)
    (h : table_visit W amap which cost next y x s d = some r) : s.grid_count ≤ r.grid_count := by
  unfold table_visit at h
  simp only at h
  split_ifs at h
  all_goals first
    | (simp only [Option.some.injEq] at h; rw [h])
    | (have hc := (table_push_count W next _ r _ _ h).1; simp only at hc; omega)

theorem table_cell_mono (W : World) (amap : Int → Int → Bool) (which : Flow)
    (cost this next : Nat) (s : FlowState) (i : Nat) (r : FlowState)
    (h : table_cell W amap which cost this next s i = some r) : s.grid_count ≤ r.grid_count := by
  unfold table_cell at h
  cases h1 : table_load W s.table this 0 i with
  | none => rw [h1] at h; simp at h
  | some y =>
    rw [h1] at h
    simp only [Option.some_bind] at h
    cases h2 : table_load W s.table this 1 i with
    | none => rw [h2] at h; simp at h
    | some x =>
      rw [h2] at h
      simp only [Option.some_bind] at h
      split_ifs at h
      · have := (table_push_count W next _ r _ _ h).1
        omega
      · exact fold_opt_mono _ (fun s => s.grid_count)
          (fun s a r h => table_visit_mono W amap which cost next y x s a r h) _ s r h

theorem table_sim_push (W : World) (this next : Nat) (cur : List Cell) (s : FlowState)
    (st : Grid × List Cell) (y x : Int) (r : FlowState) (ht : this < 2) (hn : next < 2)
    (hne : this ≠ next) (hcur : cur.length ≤ 8 * W.FLOW_MAX_DIST)
    (hsim : TableSim W this next cur s st) (h : table_push W next s y x = some r)
    (hr : r.grid_count ≤ 8 * W.FLOW_MAX_DIST) :
    TableSim W this next cur r (st.1, st.2 ++ [(y, x)]) := by
  have hc := (table_push_count W next s r y x h).1
  have hk : s.grid_count < 8 * W.FLOW_MAX_DIST := by omega
  rw [table_push_some W next s y x hn hk, Option.some.injEq] at h
  rw [← h]
  refine ⟨hsim.grid, ?_, ?_, ?_⟩
  · simp only [List.length_append, List.length_singleton]
    rw [hsim.count]
  · intro i c hi
    simp only
    by_cases hlt : i < st.2.length
    · rw [List.getElem?_append_left hlt] at hi
      have hik : i < 8 * W.FLOW_MAX_DIST := by rw [← hsim.count] at hlt; omega
      have hi2 : i ≠ s.grid_count := by rw [hsim.count]; omega
      have n1 : table_offset W next 0 i ≠ table_offset W next 1 s.grid_count := fun e =>
        absurd (table_offset_inj W _ _ _ _ _ _ hn (by omega) hn (by omega) hik hk e).2.1
          (by omega)
      have n2 : table_offset W next 0 i ≠ table_offset W next 0 s.grid_count := fun e =>
        hi2 (table_offset_inj W _ _ _ _ _ _ hn (by omega) hn (by omega) hik hk e).2.2
      have n3 : table_offset W next 1 i ≠ table_offset W next 1 s.grid_count := fun e =>
        hi2 (table_offset_inj W _ _ _ _ _ _ hn (by omega) hn (by omega) hik hk e).2.2
      have n4 : table_offset W next 1 i ≠ table_offset W next 0 s.grid_count := fun e =>
        absurd (table_offset_inj W _ _ _ _ _ _ hn (by omega) hn (by omega) hik hk e).2.1
          (by omega)
      rw [if_neg n1, if_neg n2, if_neg n3, if_neg n4]
      exact hsim.holds_next i c hi
    · have hge : st.2.length ≤ i := by omega
      rw [List.getElem?_append_right hge] at hi
      have hi0 : i - st.2.length = 0 := by
        rcases Nat.eq_zero_or_pos (i - st.2.length) with h0 | h0
        · exact h0
        · rw [List.getElem?_eq_none (by simp; omega)] at hi
          exact absurd hi (by simp)
      rw [hi0] at hi
      simp only [List.getElem?_cons_zero, Option.some.injEq] at hi
      have hie : i = s.grid_count := by rw [hsim.count]; omega
      rw [hie, ← hi]
      have n1 : table_offset W next 0 s.grid_count ≠ table_offset W next 1 s.grid_count :=
        fun e => absurd (table_offset_inj W _ _ _ _ _ _ hn (by omega) hn (by omega) hk hk e).2.1
          (by omega)
      rw [if_neg n1]
      simp
  · intro i c hi
    simp only
    have hlt : i < cur.length := by
      rcases Nat.lt_or_ge i cur.length with h1 | h1
      · exact h1
      · rw [List.getElem?_eq_none h1] at hi
        exact absurd hi (by simp)
    have hik : i < 8 * W.FLOW_MAX_DIST := by omega
    have n1 : table_offset W this 0 i ≠ table_offset W next 1 s.grid_count := fun e =>
      hne (table_offset_inj W _ _ _ _ _ _ ht (by omega) hn (by omega) hik hk e).1
    have n2 : table_offset W this 0 i ≠ table_offset W next 0 s.grid_count := fun e =>
      hne (table_offset_inj W _ _ _ _ _ _ ht (by omega) hn (by omega) hik hk e).1
    have n3 : table_offset W this 1 i ≠ table_offset W next 1 s.grid_count := fun e =>
      hne (table_offset_inj W _ _ _ _ _ _ ht (by omega) hn (by omega) hik hk e).1
    have n4 : table_offset W this 1 i ≠ table_offset W next 0 s.grid_count := fun e =>
      hne (table_offset_inj W _ _ _ _ _ _ ht (by omega) hn (by omega) hik hk e).1
    rw [if_neg n1, if_neg n2, if_neg n3, if_neg n4]
    exact hsim.holds_this i c hi

theorem table_sim_visit (W : World) (amap : Int → Int → Bool) (which : Flow)
    (cost this next : Nat) (cur : List Cell) (y x : Int) (s : FlowState)
    (st : Grid × List Cell) (d : Nat) (r : FlowState) (ht : this < 2) (hn : next < 2)
    (hne : this ≠ next) (hcur : cur.length ≤ 8 * W.FLOW_MAX_DIST)
    (hsim : TableSim W this next cur s st)
    (h : table_visit W amap which cost next y x s d = some r)
    (hr : r.grid_count ≤ 8 * W.FLOW_MAX_DIST) :
    TableSim W this next cur r (flow_visit W amap which cost y x st d) := by
  unfold table_visit at h
  unfold flow_visit
  simp only at h ⊢
  rw [hsim.grid] at h
  split_ifs at h ⊢
  all_goals first
    | (simp only [Option.some.injEq] at h; rw [← h]; exact hsim)
    | (exact table_sim_push W this next cur { s with grid := st.1.set _ _ _ }
        (st.1.set _ _ _, st.2) _ _ r ht hn hne hcur
        ⟨rfl, hsim.count, hsim.holds_next, hsim.holds_this⟩ h hr)

theorem table_sim_visits (W : World) (amap : Int → Int → Bool) (which : Flow)
    (cost this next : Nat) (cur : List Cell) (y x : Int) (ht : this < 2) (hn : next < 2)
    (hne : this ≠ next) (hcur : cur.length ≤ 8 * W.FLOW_MAX_DIST) (ds : List Nat) :
    ∀ (s : FlowState) (st : Grid × List Cell) (r : FlowState),
      TableSim W this next cur s st →
      fold_opt (table_visit W amap which cost next y x) s ds = some r →
      r.grid_count ≤ 8 * W.FLOW_MAX_DIST →
      TableSim W this next cur r (ds.foldl (flow_visit W amap which cost y x) st) := by
  induction ds with
  | nil =>
    intro s st r hsim h _
    simp only [fold_opt, Option.some.injEq] at h
    rw [← h]
    exact hsim
  | cons d ds ih =>
    intro s st r hsim h hr
    obtain ⟨s1, h1, h2⟩ := fold_opt_cons _ s r d ds h
    have hm := fold_opt_mono _ (fun s => s.grid_count)
      (fun s a r h => table_visit_mono W amap which cost next y x s a r h) ds s1 r h2
    simp only at hm
    exact ih s1 _ r
      (table_sim_visit W amap which cost this next cur y x s st d s1 ht hn hne hcur hsim h1
        (by omega)) h2 hr

theorem table_sim_cell (W : World) (amap : Int → Int → Bool) (which : Flow)
    (cost this next : Nat) (cur : List Cell) (s : FlowState) (st : Grid × List Cell) (i : Nat)
    (c : Cell) (r : FlowState) (ht : this < 2) (hn : next < 2) (hne : this ≠ next)
    (hcur : cur.length ≤ 8 * W.FLOW_MAX_DIST) (hsim : TableSim W this next cur s st)
    (hi : cur[i]? = some c) (h : table_cell W amap which cost this next s i = some r)
    (hr : r.grid_count ≤ 8 * W.FLOW_MAX_DIST) :
    TableSim W this next cur r (flow_cell W amap which cost st c) := by
  obtain ⟨l0, l1⟩ := table_holds_load W s.table this cur i c ht hcur hsim.holds_this hi
  unfold table_cell at h
  rw [l0, l1] at h
  simp only [Option.some_bind] at h
  unfold flow_cell
  rw [hsim.grid] at h
  split_ifs at h ⊢
  · exact table_sim_push W this next cur s st c.1 c.2 r ht hn hne hcur hsim h hr
  · exact table_sim_visits W amap which cost this next cur c.1 c.2 ht hn hne hcur _ s st r
      hsim h hr

theorem table_sim_cells (W : World) (amap : Int → Int → Bool) (which : Flow)
    (cost this next : Nat) (cur : List Cell) (ht : this < 2) (hn : next < 2) (hne : this ≠ next)
    (hcur : cur.length ≤ 8 * W.FLOW_MAX_DIST) (rest : List Cell) :
    ∀ (pre : List Cell) (s : FlowState) (st : Grid × List Cell) (r : FlowState),
      cur = pre ++ rest → TableSim W this next cur s st →
      fold_opt (table_cell W amap which cost this next) s
        (List.range' pre.length rest.length) = some r →
      r.grid_count ≤ 8 * W.FLOW_MAX_DIST →
      TableSim W this next cur r (rest.foldl (flow_cell W amap which cost) st) := by
  induction rest with
  | nil =>
    intro pre s st r _ hsim h _
    simp only [List.length_nil, List.range'_zero, fold_opt, Option.some.injEq] at h
    rw [← h]
    exact hsim
  | cons c rest ih =>
    intro pre s st r hpre hsim h hr
    simp only [List.length_cons, List.range'_succ] at h
    obtain ⟨s1, h1, h2⟩ := fold_opt_cons _ s r _ _ h
    have hm := fold_opt_mono _ (fun s => s.grid_count)
      (fun s a r h => table_cell_mono W amap which cost this next s a r h) _ s1 r h2
    simp only at hm
    have hi : cur[pre.length]? = some c := by
      rw [hpre, List.getElem?_append_right (le_refl _)]
      simp
    have hs1 := table_sim_cell W amap which cost this next cur s st pre.length c s1 ht hn hne
      hcur hsim hi h1 (by omega)
    have := ih (pre ++ [c]) s1 _ r (by rw [hpre]; simp) hs1
      (by simpa using h2) hr
    simpa using this

theorem table_sim_layer (W : World) (amap : Int → Int → Bool) (lost : Bool) (which : Flow)
    (cost this : Nat) (cur : List Cell) (s r : FlowState) (ht : this < 2)
    (hc : s.grid_count = cur.length) (hcur : cur.length ≤ 8 * W.FLOW_MAX_DIST)
    (hh : TableHolds W s.table this cur)
    (h : table_layer W amap lost which cost this s = some r)
    (hr : r.grid_count ≤ 8 * W.FLOW_MAX_DIST) :
    r.grid = (flow_layer W amap lost which cost s.grid cur).1
      ∧ r.grid_count = (flow_layer W amap lost which cost s.grid cur).2.length
      ∧ TableHolds W r.table (1 - this) (flow_layer W amap lost which cost s.grid cur).2 := by
  unfold table_layer at h
  cases h0 : fold_opt (table_cell W amap which cost this (1 - this)) { s with grid_count := 0 }
      (List.range s.grid_count) with
  | none => rw [h0] at h; simp at h
  | some r0 =>
    rw [h0] at h
    simp only [Option.some_bind] at h
    have hr0 : r0.grid_count ≤ 8 * W.FLOW_MAX_DIST := by
      split_ifs at h <;> simp only [Option.some.injEq] at h <;> rw [← h] at hr <;> exact hr
    rw [List.range_eq_range', hc] at h0
    have hsim := table_sim_cells W amap which cost this (1 - this) cur ht (by omega) (by omega)
      hcur cur [] { s with grid_count := 0 } (s.grid, []) r0 rfl
      ⟨rfl, rfl, fun i c hi => absurd hi (by simp), hh⟩ h0 hr0
    unfold flow_layer
    simp only
    split_ifs at h ⊢ <;> simp only [Option.some.injEq] at h <;> rw [← h]
    · exact ⟨by simp only [hsim.grid], hsim.count, hsim.holds_next⟩
    · exact ⟨hsim.grid, hsim.count, hsim.holds_next⟩

theorem table_sim_loop (W : World) (amap : Int → Int → Bool) (lost : Bool) (which : Flow)
    (n : Nat) :
    ∀ (cost this : Nat) (cur : List Cell) (s : FlowState), this < 2 →
      s.grid_count = cur.length → cur.length ≤ 8 * W.FLOW_MAX_DIST →
      TableHolds W s.table this cur →
      table_fits W amap lost which n cost this s = true →
      ∃ r, table_loop W amap lost which n cost this s = some r
        ∧ r.grid = flow_loop W amap lost which n cost s.grid cur := by
  induction n with
  | zero =>
    intro cost this cur s _ _ _ _ _
    exact ⟨s, rfl, rfl⟩
  | succ n ih =>
    intro cost this cur s ht hc hcur hh hf
    unfold table_fits at hf
    unfold table_loop flow_loop
    by_cases h0 : s.grid_count = 0
    · have : cur = [] := List.eq_nil_of_length_eq_zero (by omega)
      rw [if_pos h0, this]
      exact ⟨s, rfl, rfl⟩
    · have hne : cur.isEmpty = false := by
        cases cur with
        | nil => exact absurd hc h0
        | cons a l => rfl
      rw [if_neg h0] at hf ⊢
      rw [hne]
      simp only [Bool.false_eq_true, if_false]
      cases h1 : table_layer W amap lost which cost this s with
      | none => rw [h1] at hf; simp at hf
      | some r1 =>
        rw [h1] at hf
        simp only [Bool.and_eq_true, decide_eq_true_eq] at hf
        obtain ⟨e1, e2, e3⟩ := table_sim_layer W amap lost which cost this cur s r1 ht hc hcur hh
          h1 hf.1
        simp only [Option.some_bind]
        obtain ⟨r, hr1, hr2⟩ := ih (cost + 1) (1 - this) _ r1 (by omega) e2 (by omega) e3 hf.2
        exact ⟨r, hr1, by rw [hr2, e1]⟩

theorem table_start_some (W : World) (cy cx : Int) (g : Grid) (s : FlowState)
    (h : table_start W cy cx g = some s) :
    s.grid = (erase_flow W g).set cy cx 0 ∧ s.grid_count = 1
      ∧ TableHolds W s.table 0 [(cy % 256, cx % 256)] ∧ 1 ≤ 8 * W.FLOW_MAX_DIST := by
  have hF : 0 < 8 * W.FLOW_MAX_DIST := by
    rcases Nat.eq_zero_or_pos (8 * W.FLOW_MAX_DIST) with h0 | h0
    · unfold table_start table_store table_offset at h
      rw [h0] at h
      simp at h
    · exact h0
  unfold table_start at h
  rw [table_store_some W _ 0 0 0 _ (by omega) (by omega) hF] at h
  simp only [Option.some_bind] at h
  rw [table_store_some W _ 0 1 0 _ (by omega) (by omega) hF] at h
  simp only [Option.some_bind, Option.some.injEq] at h
  rw [← h]
  refine ⟨rfl, rfl, ?_, hF⟩
  intro i c hi
  have hi0 : i = 0 := by
    rcases Nat.eq_zero_or_pos i with h0 | h0
    · exact h0
    · rw [List.getElem?_eq_none (by simp; omega)] at hi
      exact absurd hi (by simp)
  rw [hi0] at hi ⊢
  simp only [List.getElem?_cons_zero, Option.some.injEq] at hi
  rw [← hi]
  have n1 : table_offset W 0 0 0 ≠ table_offset W 0 1 0 := fun e =>
    absurd (table_offset_inj W _ _ _ _ _ _ (by omega) (by omega) (by omega) (by omega) hF hF e).2.1
      (by omega)
  simp only [if_neg n1, if_true, and_self]

/-- List form and table form of the flow agree while the table is not
overrun: when no pass stores more than `8 * FLOW_MAX_DIST` grids,
`update_automaton_flow_table` returns the agent of `update_automaton_flow`. -/
theorem flow_table_within_capacity (W : World) (A : Agent) (which : Flow) (cy cx : Int)
    (h : flow_within_capacity W A which cy cx = true) :
    update_automaton_flow_table W A which cy cx = some (update_automaton_flow W A which cy cx) := by
  unfold flow_within_capacity at h
  cases h0 : table_start W cy cx (A.cave_cost which) with
  | none => rw [h0] at h; simp at h
  | some s =>
    rw [h0] at h
    simp only at h
    obtain ⟨e1, e2, e3, e4⟩ := table_start_some W cy cx _ s h0
    obtain ⟨r, hr1, hr2⟩ := table_sim_loop W A.automaton_map _ which W.FLOW_MAX_DIST 1 0
      [(cy % 256, cx % 256)] s (by omega) e2 e4 e3 h
    unfold update_automaton_flow_table table_passes
    rw [h0]
    simp only [Option.some_bind]
    rw [hr1]
    simp only [Option.map_some', Option.some.injEq]
    unfold update_automaton_flow flow_field
    rw [hr2, e1]

/-! ### The normal and the combat channel on the array -/

theorem table_visit_fight (W : World) (amap : Int → Int → Bool) (cost next : Nat) (y x : Int)
    (s : FlowState) (d : Nat) :
    table_visit W amap Flow.FLOW_AUTOMATON_FIGHT cost next y x s d
      = table_visit W amap Flow.FLOW_AUTOMATON cost next y x s d := by
  unfold table_visit
  simp only [extra_cost_fight]

theorem table_cell_fight (W : World) (amap : Int → Int → Bool) (cost this next : Nat)
    (s : FlowState) (i : Nat) :
    table_cell W amap Flow.FLOW_AUTOMATON_FIGHT cost this next s i
      = table_cell W amap Flow.FLOW_AUTOMATON cost this next s i := by
  unfold table_cell
  have : ∀ y x, table_visit W amap Flow.FLOW_AUTOMATON_FIGHT cost next y x
      = table_visit W amap Flow.FLOW_AUTOMATON cost next y x := by
    intro y x
    funext s d
    exact table_visit_fight W amap cost next y x s d
  simp only [this]

theorem table_layer_fight (W : World) (amap : Int → Int → Bool) (lost : Bool) (cost this : Nat)
    (s : FlowState) :
    table_layer W amap lost Flow.FLOW_AUTOMATON_FIGHT cost this s
      = table_layer W amap lost Flow.FLOW_AUTOMATON cost this s := by
  unfold table_layer
  have : table_cell W amap Flow.FLOW_AUTOMATON_FIGHT cost this (1 - this)
      = table_cell W amap Flow.FLOW_AUTOMATON cost this (1 - this) := by
    funext s i
    exact table_cell_fight W amap cost this (1 - this) s i
  rw [this]
  simp

theorem table_loop_fight (W : World) (amap : Int → Int → Bool) (lost : Bool) (n : Nat) :
    ∀ (cost this : Nat) (s : FlowState),
      table_loop W amap lost Flow.FLOW_AUTOMATON_FIGHT n cost this s
        = table_loop W amap lost Flow.FLOW_AUTOMATON n cost this s := by
  induction n with
  | zero => intro cost this s; rfl
  | succ n ih =>
    intro cost this s
    unfold table_loop
    rw [table_layer_fight]
    simp only [ih]

theorem table_start_congr (W : World) (cy cx : Int) (g1 g2 : Grid)
    (h : ∀ y x, ¬ (0 ≤ y ∧ y < W.cur_map_hgt ∧ 0 ≤ x ∧ x < W.cur_map_wid) → g1 y x = g2 y x) :
    table_start W cy cx g1 = table_start W cy cx g2 := by
  have : erase_flow W g1 = erase_flow W g2 := by
    funext y x
    unfold erase_flow
    split_ifs with hm
    · rfl
    · exact h y x hm
  unfold table_start
  rw [this]

theorem table_passes_fight (W : World) (amap : Int → Int → Bool) (lost : Bool) (cy cx : Int)
    (g1 g2 : Grid) (n : Nat)
    (h : ∀ y x, ¬ (0 ≤ y ∧ y < W.cur_map_hgt ∧ 0 ≤ x ∧ x < W.cur_map_wid) → g1 y x = g2 y x) :
    table_passes W amap lost Flow.FLOW_AUTOMATON cy cx g1 n
      = table_passes W amap lost Flow.FLOW_AUTOMATON_FIGHT cy cx g2 n := by
  unfold table_passes
  rw [table_start_congr W cy cx _ _ h]
  have : table_loop W amap lost Flow.FLOW_AUTOMATON_FIGHT n 1 0
      = table_loop W amap lost Flow.FLOW_AUTOMATON n 1 0 := by
    funext s
    exact table_loop_fight W _ _ _ 1 0 s
  rw [this]

/-- The agreement of the normal and the combat grid is kept by the two updates
that the source always makes one after the other (lines 1980-1981 and
2049-2050): when the grids agree outside the map before and both runs
return, the grids agree on every square afterwards. -/
theorem channels_agree_after_updates (W : World) (A B C : Agent) (cy cx : Int)
    (hout : ∀ y x, ¬ (0 ≤ y ∧ y < W.cur_map_hgt ∧ 0 ≤ x ∧ x < W.cur_map_wid) →
      A.cave_cost Flow.FLOW_AUTOMATON y x = A.cave_cost Flow.FLOW_AUTOMATON_FIGHT y x)
    (hB : update_automaton_flow_table W A Flow.FLOW_AUTOMATON cy cx = some B)
    (hC : update_automaton_flow_table W B Flow.FLOW_AUTOMATON_FIGHT cy cx = some C) :
    C.cave_cost Flow.FLOW_AUTOMATON = C.cave_cost Flow.FLOW_AUTOMATON_FIGHT := by
  unfold update_automaton_flow_table at hB hC
  cases h1 : table_passes W A.automaton_map (decide (W.chp < A.automaton_memory_chp 0))
      Flow.FLOW_AUTOMATON cy cx (A.cave_cost Flow.FLOW_AUTOMATON) W.FLOW_MAX_DIST with
  | none => rw [h1] at hB; simp at hB
  | some s =>
    rw [h1] at hB
    simp only [Option.map_some', Option.some.injEq] at hB
    rw [← hB] at hC
    simp only [show (Flow.FLOW_AUTOMATON_FIGHT = Flow.FLOW_AUTOMATON) = False by simp,
      if_false] at hC
    rw [← table_passes_fight W _ _ cy cx _ _ _ hout, h1] at hC
    simp only [Option.map_some', Option.some.injEq] at hC
    rw [← hC]
    simp

/-! ### Properties of the flow on the array that hold whatever the table contains -/

theorem fold_opt_invariant {σ α : Type} (P : σ → Prop) (f : σ → α → Option σ)
    (hstep : ∀ s a r, P s → f s a = some r → P r) (l : List α) :
    ∀ s r, P s → fold_opt f s l = some r → P r := by
  induction l with
  | nil =>
    intro s r h0 h
    simp only [fold_opt, Option.some.injEq] at h
    rw [← h]
    exact h0
  | cons a l ih =>
    intro s r h0 h
    obtain ⟨s1, h1, h2⟩ := fold_opt_cons f s r a l h
    exact ih s1 r (hstep s a s1 h0 h1) h2

theorem table_visit_invariant (W : World) (amap : Int → Int → Bool) (which : Flow)
    (cost next : Nat) (y x : Int) (P : Grid → Prop)
    (hset : ∀ (g : Grid) (y2 x2 : Int) (v : Nat), P g → passable W amap (y2, x2) = true →
      W.FLOW_MAX_DIST ≤ g y2 x2 → P (g.set y2 x2 v))
    (s : FlowState) (d : Nat) (r : FlowState) (h : P s.grid)
    (hr : table_visit W amap which cost next y x s d = some r) : P r.grid := by
  unfold table_visit at hr
  simp only [] at hr
  split_ifs at hr with h1 h2 h3 h4 h5 h6
  all_goals first
    | (simp only [Option.some.injEq] at hr; rw [← hr]; exact h)
    | (rw [(table_push_count W next _ r _ _ hr).2]
       apply hset _ _ _ _ h
       · simp only [passable]
         simp_all
       · omega)

theorem table_cell_invariant (W : World) (amap : Int → Int → Bool) (which : Flow)
    (cost this next : Nat) (P : Grid → Prop)
    (hset : ∀ (g : Grid) (y2 x2 : Int) (v : Nat), P g → passable W amap (y2, x2) = true →
      W.FLOW_MAX_DIST ≤ g y2 x2 → P (g.set y2 x2 v))
    (s : FlowState) (i : Nat) (r : FlowState) (h : P s.grid)
    (hr : table_cell W amap which cost this next s i = some r) : P r.grid := by
  unfold table_cell at hr
  cases h1 : table_load W s.table this 0 i with
  | none => rw [h1] at hr; simp at hr
  | some y =>
    rw [h1] at hr
    simp only [Option.some_bind] at hr
    cases h2 : table_load W s.table this 1 i with
    | none => rw [h2] at hr; simp at hr
    | some x =>
      rw [h2] at hr
      simp only [Option.some_bind] at hr
      split_ifs at hr
      · rw [(table_push_count W next _ r _ _ hr).2]
        exact h
      · exact fold_opt_invariant (fun s : FlowState => P s.grid) _
          (fun s a r hs hsr => table_visit_invariant W amap which cost next y x P hset s a r
            hs hsr) _ s r h hr

/-- An invariant of the cost grid that every store of a cost and the health
adjustment keep holds in the state in which the loop on the array stops,
whatever the table contains. -/
theorem table_loop_invariant (W : World) (amap : Int → Int → Bool) (lost : Bool) (which : Flow)
    (P : Grid → Prop)
    (hset : ∀ (g : Grid) (y2 x2 : Int) (v : Nat), P g → passable W amap (y2, x2) = true →
      W.FLOW_MAX_DIST ≤ g y2 x2 → P (g.set y2 x2 v))
    (hbump : which = Flow.FLOW_AUTOMATON_SECURE → lost = true →
      ∀ g : Grid, P g → P (g.set W.py W.px (g W.py W.px + 1))) :
    ∀ (n cost this : Nat) (s r : FlowState), P s.grid →
      table_loop W amap lost which n cost this s = some r → P r.grid := by
  intro n
  induction n with
  | zero =>
    intro cost this s r h hr
    simp only [table_loop, Option.some.injEq] at hr
    rw [← hr]
    exact h
  | succ n ih =>
    intro cost this s r h hr
    unfold table_loop at hr
    split_ifs at hr
    · simp only [Option.some.injEq] at hr
      rw [← hr]
      exact h
    · cases h1 : table_layer W amap lost which cost this s with
      | none => rw [h1] at hr; simp at hr
      | some r1 =>
        rw [h1] at hr
        simp only [Option.some_bind] at hr
        refine ih (cost + 1) (1 - this) r1 r ?_ hr
        unfold table_layer at h1
        cases h2 : fold_opt (table_cell W amap which cost this (1 - this))
            { s with grid_count := 0 } (List.range s.grid_count) with
        | none => rw [h2] at h1; simp at h1
        | some r0 =>
          rw [h2] at h1
          simp only [Option.some_bind] at h1
          have hr0 : P r0.grid :=
            fold_opt_invariant (fun s : FlowState => P s.grid) _
              (fun s a r hs hsr => table_cell_invariant W amap which cost this (1 - this) P hset
                s a r hs hsr) _ { s with grid_count := 0 } r0 h h2
          split_ifs at h1 with hc <;> simp only [Option.some.injEq] at h1 <;> rw [← h1]
          · exact hbump hc.1 hc.2 _ hr0
          · exact hr0

theorem table_flow_grid (W : World) (A B : Agent) (which : Flow) (cy cx : Int)
    (h : update_automaton_flow_table W A which cy cx = some B) :
    ∃ s0 r, table_start W cy cx (A.cave_cost which) = some s0
      ∧ s0.grid = (erase_flow W (A.cave_cost which)).set cy cx 0
      ∧ table_loop W A.automaton_map (decide (W.chp < A.automaton_memory_chp 0)) which
          W.FLOW_MAX_DIST 1 0 s0 = some r
      ∧ B.cave_cost which = r.grid := by
  unfold update_automaton_flow_table table_passes at h
  cases h0 : table_start W cy cx (A.cave_cost which) with
  | none => rw [h0] at h; simp at h
  | some s0 =>
    rw [h0] at h
    simp only [Option.some_bind] at h
    cases h1 : table_loop W A.automaton_map (decide (W.chp < A.automaton_memory_chp 0)) which
        W.FLOW_MAX_DIST 1 0 s0 with
    | none => rw [h1] at h; simp at h
    | some r =>
      rw [h1] at h
      simp only [Option.map_some', Option.some.injEq] at h
      refine ⟨s0, r, rfl, (table_start_some W cy cx _ s0 h0).1, h1, ?_⟩
      rw [← h]
      simp

/-- Legality of the reached squares on the array: when the run with
`flow_table` as an array returns, table overrun or not, every square of the
current map other than the origin whose cost is below `FLOW_MAX_DIST` is in
bounds, known, and is not a wall, not a chasm and not rubble. -/
theorem table_reached_is_legal (W : World) (A B : Agent) (which : Flow) (cy cx y x : Int)
    (hB : update_automaton_flow_table W A which cy cx = some B)
    (hmap : 0 ≤ y ∧ y < W.cur_map_hgt ∧ 0 ≤ x ∧ x < W.cur_map_wid)
    (hne : (y, x) ≠ (cy, cx))
    (hcost : B.cave_cost which y x < W.FLOW_MAX_DIST) :
    passable W A.automaton_map (y, x) = true := by
  obtain ⟨s0, r, _, e0, hl, eB⟩ := table_flow_grid W A B which cy cx hB
  rw [eB] at hcost
  refine table_loop_invariant W A.automaton_map _ which
    (fun g : Grid => g y x < W.FLOW_MAX_DIST → passable W A.automaton_map (y, x) = true)
    ?_ ?_ _ 1 0 s0 r ?_ hl hcost
  · intro g y2 x2 v hg hp _ hlt
    simp only [Grid.set] at hlt
    split at hlt
    · rename_i he
      rw [he.1, he.2]; exact hp
    · exact hg hlt
  · intro _ _ g hg hlt
    simp only [Grid.set] at hlt
    split at hlt
    · rename_i he
      apply hg
      rw [he.1, he.2]
      omega
    · exact hg hlt
  · intro hlt
    rw [e0] at hlt
    simp only [Grid.set, erase_flow] at hlt
    have hne2 : ¬ (y = cy ∧ x = cx) := fun he => hne (by rw [he.1, he.2])
    simp only [hne2, if_false, hmap, and_self, if_true] at hlt
    omega

/-- The cost at the origin on the array: when the run with `flow_table` as an
array returns, table overrun or not, the origin holds the cost 0 unless the
secure-channel health adjustment applies to it. -/
theorem table_origin_zero (W : World) (A B : Agent) (which : Flow) (cy cx : Int)
    (hB : update_automaton_flow_table W A which cy cx = some B)
    (h : ¬ (which = Flow.FLOW_AUTOMATON_SECURE ∧ W.chp < A.automaton_memory_chp 0
      ∧ (W.py, W.px) = (cy, cx))) :
    B.cave_cost which cy cx = 0 := by
  obtain ⟨s0, r, h0, e0, hl, eB⟩ := table_flow_grid W A B which cy cx hB
  rw [eB]
  have hF := (table_start_some W cy cx _ s0 h0).2.2.2
  refine table_loop_invariant W A.automaton_map _ which (fun g : Grid => g cy cx = 0)
    ?_ ?_ _ 1 0 s0 r ?_ hl
  · intro g y2 x2 v hg _ hge
    simp only [Grid.set]
    split
    · rename_i he
      rw [← he.1, ← he.2] at hge
      omega
    · exact hg
  · intro hs hlost g hg
    simp only [Grid.set]
    split
    · rename_i he
      exfalso
      apply h
      refine ⟨hs, by simpa using hlost, ?_⟩
      rw [he.1, he.2]
    · exact hg
  · rw [e0]
    simp [Grid.set]

/-- Agreement of the normal and the combat channel from any state, within the
capacity of the table: for a well-formed world and an origin in bounds, when
neither run overruns the table both return, with the same cost on every square
of the current map. -/
theorem normal_and_combat_within_capacity (W : World) (A : Agent) (cy cx : Int)
    (hwf : W.WellFormed) (ho : W.in_bounds cy cx = true)
    (hN : flow_within_capacity W A Flow.FLOW_AUTOMATON cy cx = true)
    (hC : flow_within_capacity W A Flow.FLOW_AUTOMATON_FIGHT cy cx = true)
    (y x : Int) (hmap : 0 ≤ y ∧ y < W.cur_map_hgt ∧ 0 ≤ x ∧ x < W.cur_map_wid) :
    ∃ c, table_cost W A Flow.FLOW_AUTOMATON cy cx y x = some c
      ∧ table_cost W A Flow.FLOW_AUTOMATON_FIGHT cy cx y x = some c := by
  refine ⟨(update_automaton_flow W A Flow.FLOW_AUTOMATON cy cx).cave_cost Flow.FLOW_AUTOMATON y x,
    ?_, ?_⟩
  · unfold table_cost
    rw [flow_table_within_capacity W A _ cy cx hN]
    rfl
  · unfold table_cost
    rw [flow_table_within_capacity W A _ cy cx hC, normal_and_combat_agree W A cy cx hwf ho y x hmap]
    rfl

theorem table_visit_le (W : World) (amap : Int → Int → Bool) (which : Flow) (cost next : Nat)
    (y0 x0 : Int) (y x : Int) (K : Nat) (hK : cost + 89 ≤ K) (s : FlowState) (d : Nat)
    (r : FlowState) (h : s.grid y x ≤ K)
    (hr : table_visit W amap which cost next y0 x0 s d = some r) : r.grid y x ≤ K := by
  unfold table_visit at hr
  simp only [] at hr
  split_ifs at hr
  all_goals first
    | (simp only [Option.some.injEq] at hr; rw [← hr]; exact h)
    | (rw [(table_push_count W next _ r _ _ hr).2]
       simp only [Grid.set]
       have hle := extra_cost_le W which (decide (cost > 1)) (byte_add y0 (ddy_ddd d))
         (byte_add x0 (ddx_ddd d))
       split_ifs <;> omega)

theorem table_cell_le (W : World) (amap : Int → Int → Bool) (which : Flow)
    (cost this next : Nat) (y x : Int) (K : Nat) (hK : cost + 89 ≤ K) (s : FlowState) (i : Nat)
    (r : FlowState) (h : s.grid y x ≤ K)
    (hr : table_cell W amap which cost this next s i = some r) : r.grid y x ≤ K := by
  unfold table_cell at hr
  cases h1 : table_load W s.table this 0 i with
  | none => rw [h1] at hr; simp at hr
  | some y1 =>
    rw [h1] at hr
    simp only [Option.some_bind] at hr
    cases h2 : table_load W s.table this 1 i with
    | none => rw [h2] at hr; simp at hr
    | some x1 =>
      rw [h2] at hr
      simp only [Option.some_bind] at hr
      split_ifs at hr
      · rw [(table_push_count W next _ r _ _ hr).2]
        exact h
      · exact fold_opt_invariant (fun s : FlowState => s.grid y x ≤ K) _
          (fun s a r hs hsr => table_visit_le W amap which cost next y1 x1 y x K hK s a r hs hsr)
          _ s r h hr

theorem table_layer_le (W : World) (amap : Int → Int → Bool) (lost : Bool) (which : Flow)
    (cost this : Nat) (y x : Int) (K : Nat) (hK : cost + 89 ≤ K) (s r : FlowState)
    (h : s.grid y x ≤ K) (hr : table_layer W amap lost which cost this s = some r) :
    r.grid y x ≤ K + (if which = Flow.FLOW_AUTOMATON_SECURE ∧ lost = true then 1 else 0) := by
  unfold table_layer at hr
  cases h2 : fold_opt (table_cell W amap which cost this (1 - this))
      { s with grid_count := 0 } (List.range s.grid_count) with
  | none => rw [h2] at hr; simp at hr
  | some r0 =>
    rw [h2] at hr
    simp only [Option.some_bind] at hr
    have hr0 : r0.grid y x ≤ K :=
      fold_opt_invariant (fun s : FlowState => s.grid y x ≤ K) _
        (fun s a r hs hsr => table_cell_le W amap which cost this (1 - this) y x K hK s a r
          hs hsr) _ { s with grid_count := 0 } r0 h h2
    split_ifs at hr ⊢ <;> simp only [Option.some.injEq] at hr <;> rw [← hr]
    · simp only [Grid.set]
      split_ifs with he
      · rw [← he.1, ← he.2]; omega
      · omega
    · omega

theorem table_loop_le (W : World) (amap : Int → Int → Bool) (lost : Bool) (which : Flow)
    (y x : Int) :
    ∀ (n cost this : Nat) (s r : FlowState) (K : Nat),
      cost + n ≤ W.FLOW_MAX_DIST + 1 → W.FLOW_MAX_DIST + 89 ≤ K → s.grid y x ≤ K →
      table_loop W amap lost which n cost this s = some r →
      r.grid y x ≤ K + (if which = Flow.FLOW_AUTOMATON_SECURE ∧ lost = true then n else 0) := by
  intro n
  induction n with
  | zero =>
    intro cost this s r K _ _ h hr
    simp only [table_loop, Option.some.injEq] at hr
    rw [← hr]
    omega
  | succ n ih =>
    intro cost this s r K hc hK h hr
    unfold table_loop at hr
    split_ifs at hr
    · simp only [Option.some.injEq] at hr
      rw [← hr]
      omega
    · cases h1 : table_layer W amap lost which cost this s with
      | none => rw [h1] at hr; simp at hr
      | some r1 =>
        rw [h1] at hr
        simp only [Option.some_bind] at hr
        have hl := table_layer_le W amap lost which cost this y x K (by omega) s r1 h h1
        have hi := ih (cost + 1) (1 - this) r1 r
          (K + (if which = Flow.FLOW_AUTOMATON_SECURE ∧ lost = true then 1 else 0))
          (by omega) (by omega) hl hr
        split_ifs at hi ⊢ <;> omega

/-- The range of the stored costs on the array: when the run with `flow_table`
as an array returns, table overrun or not, every square of the current map
holds a cost of at most `FLOW_MAX_DIST + 89`, plus on the secure channel after
a loss of health the `FLOW_MAX_DIST` additions that the player's square may
get. -/
theorem table_cost_range (W : World) (A B : Agent) (which : Flow) (cy cx : Int) (y x : Int)
    (hB : update_automaton_flow_table W A which cy cx = some B)
    (hmap : 0 ≤ y ∧ y < W.cur_map_hgt ∧ 0 ≤ x ∧ x < W.cur_map_wid) :
    B.cave_cost which y x
      ≤ W.FLOW_MAX_DIST + 89
        + (if which = Flow.FLOW_AUTOMATON_SECURE ∧ W.chp < A.automaton_memory_chp 0
            then W.FLOW_MAX_DIST else 0) := by
  obtain ⟨s0, r, _, e0, hl, eB⟩ := table_flow_grid W A B which cy cx hB
  rw [eB]
  have h0 : s0.grid y x ≤ W.FLOW_MAX_DIST + 89 := by
    rw [e0]
    simp only [Grid.set, erase_flow, hmap, and_self, if_true]
    split_ifs <;> omega
  have hle := table_loop_le W A.automaton_map (decide (W.chp < A.automaton_memory_chp 0)) which
    y x W.FLOW_MAX_DIST 1 0 s0 r (W.FLOW_MAX_DIST + 89) (by omega) (le_refl _) h0 hl
  simp only [decide_eq_true_eq] at hle
  exact hle

/-! ### Runs within the capacity of the table, and a run that exceeds it -/

set_option maxRecDepth 100000

/-- While the table is not overrun, the claim of the minimum path cost holds
for the flow with `flow_table` as an array: the run returns, and every square
of the map whose cost is below `FLOW_MAX_DIST` has the cost of a cheapest
legal path from the origin. -/
theorem min_path_cost_within_capacity (W : World) (A : Agent) (which : Flow) (cy cx : Int)
    (hwf : W.WellFormed) (ho : W.in_bounds cy cx = true)
    (hadj : ¬ (which = Flow.FLOW_AUTOMATON_SECURE ∧ W.chp < A.automaton_memory_chp 0))
    (hcap : flow_within_capacity W A which cy cx = true)
    (y x : Int) (hmap : 0 ≤ y ∧ y < W.cur_map_hgt ∧ 0 ≤ x ∧ x < W.cur_map_wid) :
    ∃ c, table_cost W A which cy cx y x = some c
      ∧ (c < W.FLOW_MAX_DIST →
        (∃ p, legal_path W A.automaton_map (cy, cx) (cy, cx) p ∧ path_end (cy, cx) p = (y, x)
            ∧ path_cost W which (cy, cx) p = c)
          ∧ ∀ p, legal_path W A.automaton_map (cy, cx) (cy, cx) p →
              path_end (cy, cx) p = (y, x) → c ≤ path_cost W which (cy, cx) p) := by
  refine ⟨(update_automaton_flow W A which cy cx).cave_cost which y x, ?_, ?_⟩
  · unfold table_cost
    rw [flow_table_within_capacity W A which cy cx hcap]
    rfl
  · intro hc
    exact flow_cost_is_min_path_cost W A which cy cx hwf ho hadj y x hmap hc

/-- While the table is not overrun, on zero-penalty terrain the flow with
`flow_table` as an array gives every reached square of the map its minimum
number of steps from the origin. -/
theorem steps_within_capacity (W : World) (A : Agent) (which : Flow) (cy cx : Int)
    (hwf : W.WellFormed) (ho : W.in_bounds cy cx = true)
    (hadj : ¬ (which = Flow.FLOW_AUTOMATON_SECURE ∧ W.chp < A.automaton_memory_chp 0))
    (hzero : ∀ (y x : Int) (far : Bool), passable W A.automaton_map (y, x) = true →
      extra_cost W which far y x = 0)
    (hcap : flow_within_capacity W A which cy cx = true)
    (y x : Int) (hmap : 0 ≤ y ∧ y < W.cur_map_hgt ∧ 0 ≤ x ∧ x < W.cur_map_wid) :
    ∃ c, table_cost W A which cy cx y x = some c
      ∧ (c < W.FLOW_MAX_DIST →
        (∃ p, legal_path W A.automaton_map (cy, cx) (cy, cx) p ∧ path_end (cy, cx) p = (y, x)
            ∧ p.length = c)
          ∧ ∀ p, legal_path W A.automaton_map (cy, cx) (cy, cx) p →
              path_end (cy, cx) p = (y, x) → c ≤ p.length) := by
  refine ⟨(update_automaton_flow W A which cy cx).cave_cost which y x, ?_, ?_⟩
  · unfold table_cost
    rw [flow_table_within_capacity W A which cy cx hcap]
    rfl
  · intro hc
    exact (zero_penalty_cost_is_steps W A which cy cx hwf ho hadj hzero y x hmap hc).1

/-- C40 (the code at the failing input): in `open_field`, with
`FLOW_MAX_DIST = 2` and so 16 entries in a plane of `flow_table`, the first
pass of the loop over `cost` from the origin `(2, 2)` stores 8 grids and the
second pass stores 28: the squares two steps away get a cost of at least
`FLOW_MAX_DIST`, count as unmarked and are stored again by the neighbours
processed after them, so the stores from the seventeenth on use an index
beyond the plane. -/
theorem frontier_exceeds_capacity :
    8 * open_field.FLOW_MAX_DIST = 16
      ∧ stored_after open_field {} Flow.FLOW_AUTOMATON 2 2 1 = some 8
      ∧ stored_after open_field {} Flow.FLOW_AUTOMATON 2 2 2 = some 28
      ∧ flow_within_capacity open_field {} Flow.FLOW_AUTOMATON 2 2 = false := by
  decide!

/-! ### Costs after the table has been overrun -/

theorem maze_walls_near :
    (List.range 19).all (fun i => (List.range 19).all fun j =>
      maze.cave_wall_bold (Int.ofNat i) (Int.ofNat j)
        || next_to_wall maze (Int.ofNat i) (Int.ofNat j)) = true := by
  decide!

theorem maze_zero_penalty (which : Flow) (amap : Int → Int → Bool) (y x : Int) (far : Bool)
    (h : passable maze amap (y, x) = true) : extra_cost maze which far y x = 0 := by
  simp only [passable, Bool.and_eq_true, Bool.not_eq_true', decide_eq_true_eq] at h
  obtain ⟨⟨⟨⟨hb, _⟩, hwall⟩, _⟩, _⟩ := h
  have hb2 : 0 ≤ y ∧ y < 19 ∧ 0 ≤ x ∧ x < 19 := by
    simpa [maze] using hb
  have hall := maze_walls_near
  rw [List.all_eq_true] at hall
  have h1 := hall y.toNat (List.mem_range.mpr (by omega))
  rw [List.all_eq_true] at h1
  have h2 := h1 x.toNat (List.mem_range.mpr (by omega))
  have ey : Int.ofNat y.toNat = y := by
    simp only [Int.ofNat_eq_coe]; omega
  have ex : Int.ofNat x.toNat = x := by
    simp only [Int.ofNat_eq_coe]; omega
  rw [ey, ex, hwall, Bool.false_or] at h2
  unfold extra_cost
  rw [h2]
  simp [grandchild_cost, maze]

/-- C2 (the code at the failing input): in `snare`, from the origin `(5, 5)`
on the normal channel, the fourth pass of the loop over `cost` stores 58 grids
in a plane of 56 entries; the run returns and leaves the cost 6, which is
below `FLOW_MAX_DIST = 7`, at the square `(10, 5)`, although the legal path
straight down from the origin reaches that square at the cost 5. -/
theorem overflow_breaks_min_cost :
    8 * snare.FLOW_MAX_DIST = 56
      ∧ stored_after snare {} Flow.FLOW_AUTOMATON 5 5 4 = some 58
      ∧ table_cost snare {} Flow.FLOW_AUTOMATON 5 5 10 5 = some 6
      ∧ snare.FLOW_MAX_DIST = 7
      ∧ legal_path snare ({} : Agent).automaton_map (5, 5) (5, 5)
          [(6, 5), (7, 5), (8, 5), (9, 5), (10, 5)]
      ∧ path_end (5, 5) [(6, 5), (7, 5), (8, 5), (9, 5), (10, 5)] = (10, 5)
      ∧ path_cost snare Flow.FLOW_AUTOMATON (5, 5) [(6, 5), (7, 5), (8, 5), (9, 5), (10, 5)]
          = 5 := by
  simp only [legal_path]
  decide!

/-- C19 (the code at the failing input): `maze` is zero-penalty terrain; from
the origin `(9, 9)` on the normal channel, the eighth pass of the loop over
`cost` stores 98 grids in a plane of 88 entries; the run returns and leaves
the cost 10, which is below `FLOW_MAX_DIST = 11`, at the square `(1, 13)`,
although a legal path of 9 steps leads there from the origin. -/
theorem overflow_breaks_step_count :
    (∀ (y x : Int) (far : Bool), passable maze ({} : Agent).automaton_map (y, x) = true →
        extra_cost maze Flow.FLOW_AUTOMATON far y x = 0)
      ∧ 8 * maze.FLOW_MAX_DIST = 88
      ∧ stored_after maze {} Flow.FLOW_AUTOMATON 9 9 8 = some 98
      ∧ table_cost maze {} Flow.FLOW_AUTOMATON 9 9 1 13 = some 10
      ∧ maze.FLOW_MAX_DIST = 11
      ∧ legal_path maze ({} : Agent).automaton_map (9, 9) (9, 9)
          [(8, 10), (7, 10), (6, 9), (5, 9), (4, 9), (3, 10), (2, 11), (2, 12), (1, 13)]
      ∧ path_end (9, 9)
          [(8, 10), (7, 10), (6, 9), (5, 9), (4, 9), (3, 10), (2, 11), (2, 12), (1, 13)] = (1, 13)
      ∧ [(8, 10), (7, 10), (6, 9), (5, 9), (4, 9), (3, 10), (2, 11), (2, 12),
          ((1, 13) : Cell)].length = 9 := by
  refine ⟨fun y x far h => maze_zero_penalty _ _ y x far h, ?_⟩
  simp only [legal_path]
  decide!

end Automaton
